import Mathlib

/-! Velox date/time format-pattern engine.

A shallow embedding of `velox/functions/lib/DateTimeFormatter.cpp`: the three
pattern compilers, the token-by-token parser with its intermediate `Date`
record, the time zone sub-parsers and the renderer, followed by theorems about
them.

Conventions of the embedding.
* A C++ byte string (`std::string_view`, or a `cur`/`end` pointer pair) is a
  `List Char`; a cursor is the list of bytes from `cur` to `end`, so `end - cur`
  is its length and `*(cur + k)` its `k`-th element.
* `int64_t` and `int32_t` values are `Int`; stores that can leave the range of
  the C++ type are wrapped explicitly (`wrapInt64`, `wrapInt32`).
* Functions of other Velox libraries that the file only calls (the zone table,
  the civil calendar, the error-detail flag) are fields of `Env`.
-/

namespace Velox

/-! ## Data model -/

/-- The fields a pattern may reference (`DateTimeFormatSpecifier`, as listed by
`getSpecifierName`). -/
inductive DateTimeFormatSpecifier where
  | ERA
  | CENTURY_OF_ERA
  | YEAR_OF_ERA
  | WEEK_YEAR
  | WEEK_OF_WEEK_YEAR
  | DAY_OF_WEEK_0_BASED
  | DAY_OF_WEEK_1_BASED
  | DAY_OF_WEEK_TEXT
  | YEAR
  | DAY_OF_YEAR
  | MONTH_OF_YEAR
  | MONTH_OF_YEAR_TEXT
  | DAY_OF_MONTH
  | HALFDAY_OF_DAY
  | HOUR_OF_HALFDAY
  | CLOCK_HOUR_OF_HALFDAY
  | HOUR_OF_DAY
  | CLOCK_HOUR_OF_DAY
  | MINUTE_OF_HOUR
  | SECOND_OF_MINUTE
  | FRACTION_OF_SECOND
  | TIMEZONE
  | TIMEZONE_OFFSET_ID
  | LITERAL_PERCENT
  | WEEK_OF_MONTH
  deriving DecidableEq, Repr

/-- The dialect tag of a compiled program (`DateTimeFormatterType`). -/
inductive DateTimeFormatterType where
  | JODA
  | MYSQL
  | STRICT_SIMPLE
  | LENIENT_SIMPLE
  deriving DecidableEq, Repr

/-- A compiled reference to one field with the width the pattern asked for. -/
structure FormatPattern where
  specifier : DateTimeFormatSpecifier
  minRepresentDigits : Nat
  deriving DecidableEq, Repr

/-- One token of a compiled program (`DateTimeToken`). -/
inductive DateTimeToken where
  | kLiteral (literal : List Char)
  | kPattern (pattern : FormatPattern)
  deriving DecidableEq, Repr

/-- The content of a user error message; `Status::UserError()` carries none. -/
inductive ErrorMessage where
  | malformedAt (input : List Char) (rest : List Char)
  | dayOfMonthRange (value maxDay year month : Int)
  | dayOfYearRange (value maxDay year month : Int)
  | notSupportedBoth
  | invalidPatternSpecification
  | emptyFormatPattern
  | noClosingQuote
  | mysqlSpecifierNotSupported (c : Char)
  | specifierNotSupported (c : Char)
  | calendar (code : Nat)
  deriving DecidableEq, Repr

/-- A `Status` returned through `folly::makeUnexpected`. -/
structure Status where
  message : Option ErrorMessage
  deriving DecidableEq, Repr

/-- The checks that raise a C++ exception instead of returning a `Status`. -/
inductive VeloxException where
  | timeZoneLongNames
  | notImplemented (specifier : DateTimeFormatSpecifier)
  | timezoneUnknown
  | timezoneNotPresent
  | formatUnsupported (specifier : DateTimeFormatSpecifier)
  | badAllocationSize
  deriving DecidableEq, Repr

/-- The outcome of a call returning `Expected<T>`: a value, an unexpected
`Status`, or an exception that left the call. -/
inductive Expected (α : Type) where
  | value (v : α)
  | unexpected (s : Status)
  | thrown (e : VeloxException)
  deriving DecidableEq, Repr

/-- The intermediate record of the parser (`struct Date`), with the zone handle
type `Z` of the zone table. -/
structure Date (Z : Type) where
  year : Int := 1970
  month : Int := 1
  day : Int := 1
  isAd : Bool := true
  week : Int := 1
  dayOfWeek : Int := 1
  weekDateFormat : Bool := false
  dayOfYear : Int := 1
  dayOfYearFormat : Bool := false
  weekOfMonth : Int := 1
  weekOfMonthDateFormat : Bool := false
  centuryFormat : Bool := false
  isYearOfEra : Bool := false
  hasYear : Bool := false
  hasDayOfWeek : Bool := false
  hasWeek : Bool := false
  hour : Int := 0
  minute : Int := 0
  second : Int := 0
  microsecond : Int := 0
  isAm : Bool := true
  timezone : Option Z := none
  isClockHour : Bool := false
  isHourOfHalfDay : Bool := true
  dayOfMonthValues : List Int := []
  dayOfYearValues : List Int := []
  deriving DecidableEq, Repr

/-- An absolute instant as the calendar library hands it back. -/
structure Timestamp where
  seconds : Int
  nanos : Int
  deriving DecidableEq, Repr

/-- The value `parse` returns on success (`DateTimeResult`). -/
structure DateTimeResult (Z : Type) where
  timestamp : Timestamp
  timezone : Option Z
  deriving DecidableEq, Repr

/-- The collaborators the file calls but does not define: the zone table
(`tz::locateZone`, the names of the tz database), the civil calendar of
`velox/type/TimestampConversion.h`, the thread's error-detail flag, and the
floating-point scaling `number *= std::pow(10, 3 - count)`. -/
structure Env (Z : Type) where
  locateZone : List Char → Option Z
  timeZoneNames : List (List Char)
  isValidDate : Int → Int → Int → Bool
  isValidDayOfYear : Int → Int → Bool
  isLeapYear : Int → Bool
  getMaxDayOfMonth : Int → Int → Int
  daysSinceEpochFromDate : Int → Int → Int → Except Status Int
  daysSinceEpochFromWeekDate : Int → Int → Int → Except Status Int
  daysSinceEpochFromDayOfYear : Int → Int → Except Status Int
  daysSinceEpochFromWeekOfMonthDate : Int → Int → Int → Int → Bool → Except Status Int
  fromTime : Int → Int → Int → Int → Int
  fromDatetime : Int → Int → Timestamp
  threadSkipErrorDetails : Bool
  scaleFraction : Int → Nat → Int

/-! ## Machine integers and bytes -/

/-- The value an `int64_t` holds after a computation whose exact result is `x`. -/
def wrapInt64 (x : Int) : Int :=
  (x + 9223372036854775808) % 18446744073709551616 - 9223372036854775808

/-- The value an `int32_t` holds after storing `x`. -/
def wrapInt32 (x : Int) : Int :=
  (x + 2147483648) % 4294967296 - 2147483648

/-- The single quote character. -/
def singleQuote : Char := Char.ofNat 39

/-- Whether `cur` starts with the bytes of `s` (`strncmp(cur, s, |s|) == 0` for a
constant `s`, or a `string_view` comparison of that length). -/
def startsWith (cur s : List Char) : Bool :=
  decide (cur.take s.length = s)

/-- The buffer after `std::memcpy(&dst[off], src, n)`. -/
def memcpy (dst : List Char) (off : Nat) (src : List Char) : Nat → List Char
  | 0 => dst
  | n + 1 =>
    match src with
    | [] => dst
    | c :: cs => memcpy (dst.set off c) (off + 1) cs n

/-- The initial content of the thread-local `timezoneBuffer`. -/
def timezoneBufferInit : List Char := "+00:00".toList

/-- The constant `defaultTrailingOffset`. -/
def defaultTrailingOffset : List Char := "00".toList

/-! ## Name tables -/

/-- The table `dayOfWeekMap`: three-letter key, rest of the full name, number. -/
def dayOfWeekMap : List (List Char × (List Char × Int)) :=
  [ ("Mon".toList, ("day".toList, 1)), ("Tue".toList, ("sday".toList, 2)),
    ("Wed".toList, ("nesday".toList, 3)), ("Thu".toList, ("rsday".toList, 4)),
    ("Fri".toList, ("day".toList, 5)), ("Sat".toList, ("urday".toList, 6)),
    ("Sun".toList, ("day".toList, 7)),
    ("mon".toList, ("day".toList, 1)), ("tue".toList, ("sday".toList, 2)),
    ("wed".toList, ("nesday".toList, 3)), ("thu".toList, ("rsday".toList, 4)),
    ("fri".toList, ("day".toList, 5)), ("sat".toList, ("urday".toList, 6)),
    ("sun".toList, ("day".toList, 7)),
    ("MON".toList, ("DAY".toList, 1)), ("TUE".toList, ("SDAY".toList, 2)),
    ("WED".toList, ("NESDAY".toList, 3)), ("THU".toList, ("RSDAY".toList, 4)),
    ("FRI".toList, ("DAY".toList, 5)), ("SAT".toList, ("URDAY".toList, 6)),
    ("SUN".toList, ("DAY".toList, 7)) ]

/-- The table `monthMap`: three-letter key, rest of the full name, number. -/
def monthMap : List (List Char × (List Char × Int)) :=
  [ ("Jan".toList, ("uary".toList, 1)), ("Feb".toList, ("ruary".toList, 2)),
    ("Mar".toList, ("ch".toList, 3)), ("Apr".toList, ("il".toList, 4)),
    ("May".toList, ([], 5)), ("Jun".toList, ("e".toList, 6)),
    ("Jul".toList, ("y".toList, 7)), ("Aug".toList, ("ust".toList, 8)),
    ("Sep".toList, ("tember".toList, 9)), ("Oct".toList, ("ober".toList, 10)),
    ("Nov".toList, ("ember".toList, 11)), ("Dec".toList, ("ember".toList, 12)),
    ("jan".toList, ("uary".toList, 1)), ("feb".toList, ("ruary".toList, 2)),
    ("mar".toList, ("ch".toList, 3)), ("apr".toList, ("il".toList, 4)),
    ("may".toList, ([], 5)), ("jun".toList, ("e".toList, 6)),
    ("jul".toList, ("y".toList, 7)), ("aug".toList, ("ust".toList, 8)),
    ("sep".toList, ("tember".toList, 9)), ("oct".toList, ("ober".toList, 10)),
    ("nov".toList, ("ember".toList, 11)), ("dec".toList, ("ember".toList, 12)),
    ("JAN".toList, ("UARY".toList, 1)), ("FEB".toList, ("RUARY".toList, 2)),
    ("MAR".toList, ("CH".toList, 3)), ("APR".toList, ("IL".toList, 4)),
    ("MAY".toList, ([], 5)), ("JUN".toList, ("E".toList, 6)),
    ("JUL".toList, ("Y".toList, 7)), ("AUG".toList, ("UST".toList, 8)),
    ("SEP".toList, ("TEMBER".toList, 9)), ("OCT".toList, ("OBER".toList, 10)),
    ("NOV".toList, ("EMBER".toList, 11)), ("DEC".toList, ("EMBER".toList, 12)) ]

/-- The table `defaultTzNames` of `parseTimezone`: abbreviation and the zone
name handed to `tz::locateZone`. -/
def defaultTzNames : List (List Char × List Char) :=
  [ ("UTC".toList, "UTC".toList), ("GMT".toList, "GMT".toList),
    ("EST".toList, "America/New_York".toList), ("EDT".toList, "America/New_York".toList),
    ("CST".toList, "America/Chicago".toList), ("CDT".toList, "America/Chicago".toList),
    ("MST".toList, "America/Denver".toList), ("MDT".toList, "America/Denver".toList),
    ("PST".toList, "America/Los_Angeles".toList), ("PDT".toList, "America/Los_Angeles".toList) ]

/-! ## Small helpers of the source -/

/-- The function `numLiteralChars(cur, end)`, with the running `count`. -/
def numLiteralCharsFrom : List Char → Int → Int
  | [], count => count
  | c :: rest, count =>
    if c = singleQuote then
      match rest with
      | c2 :: rest2 =>
        if c2 = singleQuote then numLiteralCharsFrom rest2 (count + 2) else count
      | [] => count
    else
      match rest with
      | [] => -1
      | _ :: _ => numLiteralCharsFrom rest (count + 1)

/-- The function `numLiteralChars`: the number of literal characters until the
next closing single quote, or `-1`. -/
def numLiteralChars (cur : List Char) : Int :=
  numLiteralCharsFrom cur 0

def characterIsDigit (c : Char) : Bool :=
  decide ('0' ≤ c) && decide (c ≤ '9')

def specAllowsNegative (s : DateTimeFormatSpecifier) : Bool :=
  match s with
  | .YEAR => true
  | .WEEK_YEAR => true
  | _ => false

def specAllowsPlusSign (s : DateTimeFormatSpecifier) (specifierNext : Bool) : Bool :=
  if specifierNext then false
  else
    match s with
    | .YEAR => true
    | .WEEK_YEAR => true
    | _ => false

/-- The function `parseFail`: the error of a mismatch at the cursor `cur`. -/
def parseFail {Z : Type} (env : Env Z) (input cur : List Char) : Status :=
  if env.threadSkipErrorDetails then ⟨none⟩
  else ⟨some (ErrorMessage.malformedAt input cur)⟩

/-! ## Sub-parsers

Each returns the number of bytes matched, or `-1`, with the record as the C++
function leaves it. -/

def parseTimezone {Z : Type} (env : Env Z) (cur : List Char) (date : Date Z) :
    Int × Date Z :=
  if 0 < cur.length then
    if 3 ≤ cur.length then
      match defaultTzNames.lookup (cur.take 3) with
      | some zone => (3, { date with timezone := env.locateZone zone })
      | none => (-1, date)
    else if cur.length = 2 ∧ cur.getD 0 ' ' = 'U' ∧ cur.getD 1 ' ' = 'T' then
      (2, { date with timezone := env.locateZone "UTC".toList })
    else (-1, date)
  else (-1, date)

def parseEra {Z : Type} (cur : List Char) (date : Date Z) : Int × Date Z :=
  if 2 ≤ cur.length then
    if startsWith cur "AD".toList || startsWith cur "ad".toList then
      (2, { date with isAd := true })
    else if startsWith cur "BC".toList || startsWith cur "bc".toList then
      (2, { date with isAd := false })
    else (-1, date)
  else (-1, date)

def parseMonthText {Z : Type} (cur : List Char) (date : Date Z) : Int × Date Z :=
  if 3 ≤ cur.length then
    match monthMap.lookup (cur.take 3) with
    | some (rest, value) =>
      let date1 := { date with month := value }
      if rest.length + 3 ≤ cur.length ∧ startsWith (cur.drop 3) rest then
        ((rest.length : Int) + 3, date1)
      else (3, date1)
    | none => (-1, date)
  else (-1, date)

def parseDayOfWeekText {Z : Type} (cur : List Char) (date : Date Z) : Int × Date Z :=
  if 3 ≤ cur.length then
    match dayOfWeekMap.lookup (cur.take 3) with
    | some (rest, value) =>
      let date1 := { date with dayOfWeek := value, hasDayOfWeek := true }
      if rest.length + 3 ≤ cur.length ∧ startsWith (cur.drop 3) rest then
        ((rest.length : Int) + 3, date1)
      else (3, date1)
    | none => (-1, date)
  else (-1, date)

def parseHalfDayOfDay {Z : Type} (cur : List Char) (date : Date Z) : Int × Date Z :=
  if 2 ≤ cur.length then
    if startsWith cur "AM".toList || startsWith cur "am".toList then
      (2, { date with isAm := true })
    else if startsWith cur "PM".toList || startsWith cur "pm".toList then
      (2, { date with isAm := false })
    else (-1, date)
  else (-1, date)

/-! ## Time zone names -/

/-- The index over all zone names (`struct TimeZoneNameMappings`); the prefix
map is kept as an association list with one entry per prefix. -/
structure TimeZoneNameMappings where
  timeZoneNamesWithoutPrefix : List (List Char)
  timeZoneNamePrefixMap : List (List Char × List (List Char))
  deriving DecidableEq, Repr

/-- The statement `result.timeZoneNamePrefixMap[pfx].push_back(sfx)`. -/
def pushSuffix (m : List (List Char × List (List Char))) (pfx sfx : List Char) :
    List (List Char × List (List Char)) :=
  match m with
  | [] => [(pfx, [sfx])]
  | (k, v) :: rest =>
    if k = pfx then (k, v ++ [sfx]) :: rest else (k, v) :: pushSuffix rest pfx sfx

/-- The first loop of `getTimeZoneNameMappings`: split each name at its first
`/`. -/
def splitTimeZoneNames (names : List (List Char)) (result : TimeZoneNameMappings) :
    TimeZoneNameMappings :=
  match names with
  | [] => result
  | timeZoneName :: rest =>
    match timeZoneName.span (fun c => c != '/') with
    | (_, []) =>
      splitTimeZoneNames rest
        { result with
          timeZoneNamesWithoutPrefix := result.timeZoneNamesWithoutPrefix ++ [timeZoneName] }
    | (pfx, _ :: sfx) =>
      splitTimeZoneNames rest
        { result with
          timeZoneNamePrefixMap := pushSuffix result.timeZoneNamePrefixMap pfx sfx }

/-- The order of the comparator `b.size() < a.size()`, read as "`a` may stand
before `b`". -/
def longerFirst (a b : List Char) : Prop := b.length ≤ a.length

instance longerFirstDecidable : DecidableRel longerFirst :=
  fun a b => inferInstanceAs (Decidable (b.length ≤ a.length))

/-- The function `getTimeZoneNameMappings` over the names of the tz database.
`std::sort` is rendered by an insertion sort; the order it leaves among names
of equal length is one of those `std::sort` may produce. -/
def getTimeZoneNameMappings (timeZoneNames : List (List Char)) : TimeZoneNameMappings :=
  let result := splitTimeZoneNames timeZoneNames ⟨[], []⟩
  { timeZoneNamesWithoutPrefix := result.timeZoneNamesWithoutPrefix.insertionSort longerFirst
    timeZoneNamePrefixMap :=
      result.timeZoneNamePrefixMap.map (fun kv => (kv.1, kv.2.insertionSort longerFirst)) }

def parseTimezoneName {Z : Type} (env : Env Z) (cur : List Char) (date : Date Z) :
    Int × Date Z :=
  let timeZoneNameMappings := getTimeZoneNameMappings env.timeZoneNames
  if 0 < cur.length then
    -- `pfx` is the text before the first '/', `tail` starts at `separatorPoint`.
    let (pfx, tail) := cur.span (fun c => c != '/')
    let withPrefix : Option (List Char) :=
      match tail with
      | [] => none
      | _ :: afterSeparator =>
        match timeZoneNameMappings.timeZoneNamePrefixMap.lookup pfx with
        | none => none
        | some suffixes =>
          suffixes.find? (fun suffixName =>
            decide (suffixName.length ≤ afterSeparator.length) &&
              startsWith afterSeparator suffixName)
    match withPrefix with
    | some suffixName =>
      let timeZoneNameSize := pfx.length + 1 + suffixName.length
      let date1 := { date with timezone := env.locateZone (cur.take timeZoneNameSize) }
      if date1.timezone.isNone then (-1, date1) else ((timeZoneNameSize : Int), date1)
    | none =>
      -- `end = separatorPoint`: only `pfx` is searched.
      match timeZoneNameMappings.timeZoneNamesWithoutPrefix.find? (fun timeZoneName =>
          decide (timeZoneName.length ≤ pfx.length) && startsWith pfx timeZoneName) with
      | some timeZoneName =>
        let date1 := { date with timezone := env.locateZone timeZoneName }
        if date1.timezone.isNone then (-1, date1) else ((timeZoneName.length : Int), date1)
      | none => (-1, date)
  else (-1, date)

/-- The function `parseTimezoneOffset`; the third component is the thread-local
`timezoneBuffer` after the call. -/
def parseTimezoneOffset {Z : Type} (env : Env Z) (cur : List Char) (date : Date Z)
    (timezoneBuffer : List Char) : Int × Date Z × List Char :=
  if 0 < cur.length then
    if cur.getD 0 ' ' = '-' ∨ cur.getD 0 ' ' = '+' then
      if 6 ≤ cur.length ∧ cur.getD 3 ' ' = ':' then
        let date1 := { date with timezone := env.locateZone (cur.take 6) }
        if date1.timezone.isNone then (-1, date1, timezoneBuffer)
        else (6, date1, timezoneBuffer)
      else if 5 ≤ cur.length ∧ cur.getD 3 ' ' ≠ ':' then
        let buffer1 := memcpy timezoneBuffer 0 cur 3
        let buffer2 := memcpy buffer1 4 (cur.drop 3) 2
        let date1 := { date with timezone := env.locateZone buffer2 }
        if date1.timezone.isNone then (-1, date1, buffer2) else (5, date1, buffer2)
      else if 3 ≤ cur.length then
        let buffer1 := memcpy timezoneBuffer 0 cur 3
        let buffer2 := memcpy buffer1 4 defaultTrailingOffset 2
        let date1 := { date with timezone := env.locateZone buffer2 }
        if date1.timezone.isNone then (-1, date1, buffer2) else (3, date1, buffer2)
      else (-1, date, timezoneBuffer)
    else if cur.getD 0 ' ' = 'Z' then
      (1, { date with timezone := env.locateZone "GMT".toList }, timezoneBuffer)
    else if 3 ≤ cur.length then
      if startsWith cur "UTC".toList || startsWith cur "UCT".toList then
        (3, { date with timezone := env.locateZone "UTC".toList }, timezoneBuffer)
      else if startsWith cur "GMT".toList then
        let date1 := { date with timezone := env.locateZone "GMT".toList }
        if 4 ≤ cur.length ∧ cur.getD 3 ' ' = '0' then (4, date1, timezoneBuffer)
        else (3, date1, timezoneBuffer)
      else (-1, date, timezoneBuffer)
    else (-1, date, timezoneBuffer)
  else (-1, date, timezoneBuffer)

/-! ## The parser -/

def getMaxDigitConsume (curPattern : FormatPattern) (specifierNext : Bool)
    (type : DateTimeFormatterType) : Nat :=
  match curPattern.specifier with
  | .CENTURY_OF_ERA => curPattern.minRepresentDigits
  | .DAY_OF_WEEK_1_BASED => curPattern.minRepresentDigits
  | .FRACTION_OF_SECOND => curPattern.minRepresentDigits
  | .WEEK_OF_MONTH => curPattern.minRepresentDigits
  | .YEAR_OF_ERA | .YEAR | .WEEK_YEAR =>
    if specifierNext then curPattern.minRepresentDigits
    else if type = .MYSQL then 4
    else if curPattern.minRepresentDigits > 9 then curPattern.minRepresentDigits else 9
  | .MONTH_OF_YEAR => 2
  | .DAY_OF_YEAR =>
    if curPattern.minRepresentDigits > 3 then curPattern.minRepresentDigits else 3
  | .DAY_OF_MONTH | .WEEK_OF_WEEK_YEAR | .HOUR_OF_HALFDAY | .CLOCK_HOUR_OF_HALFDAY
  | .HOUR_OF_DAY | .CLOCK_HOUR_OF_DAY | .MINUTE_OF_HOUR | .SECOND_OF_MINUTE =>
    if curPattern.minRepresentDigits > 2 then curPattern.minRepresentDigits else 2
  | _ => 1

/-- The digit loop `while (cur < end && cur < startPos + maxDigitConsume &&
characterIsDigit(*cur))`; the first argument is the number of digits that may
still be read. Returns `number`, `count` and the cursor. An `int64_t` overflow of
`number * 10 + digit` is rendered as wrap-around. -/
def readDigits : Nat → List Char → Int → Nat → Int × Nat × List Char
  | 0, cur, number, count => (number, count, cur)
  | _ + 1, [], number, count => (number, count, [])
  | n + 1, c :: cs, number, count =>
    if characterIsDigit c then
      readDigits n cs (wrapInt64 (number * 10 + ((c.toNat : Int) - ('0'.toNat : Int))))
        (count + 1)
    else (number, count, c :: cs)

/-- The result code of `parseFromPattern`: `0`, `-1`, or an exception. -/
inductive ParseCode where
  | ok
  | fail
  | thrown (e : VeloxException)
  deriving DecidableEq, Repr

/-- What `parseFromPattern` reads and writes besides its result code: the cursor,
the record, and the thread-local offset buffer. -/
structure ParseState (Z : Type) where
  cur : List Char
  date : Date Z
  timezoneBuffer : List Char
  deriving DecidableEq, Repr

/-- The `switch (curPattern.specifier)` that ends the numeric case of
`parseFromPattern`. Stores of `number` that no range check precedes are wrapped
to `int32_t`. -/
def applyNumber {Z : Type} (curPattern : FormatPattern) (type : DateTimeFormatterType)
    (number : Int) (date : Date Z) : ParseCode × Date Z :=
  match curPattern.specifier with
  | .CENTURY_OF_ERA =>
    if number < 0 ∨ number > 2922789 then (.fail, date)
    else (.ok, { date with centuryFormat := true, year := number * 100, hasYear := true })
  | .YEAR | .YEAR_OF_ERA =>
    let date1 := { date with
      centuryFormat := false
      isYearOfEra := decide (curPattern.specifier = .YEAR_OF_ERA) }
    if date1.isYearOfEra = true ∧ (number > 292278993 ∨ number < 1) then (.fail, date1)
    else if date1.isYearOfEra = false ∧ (number > 292278994 ∨ number < -292275055) then
      (.fail, date1)
    else (.ok, { date1 with hasYear := true, year := number })
  | .MONTH_OF_YEAR =>
    if type ≠ .LENIENT_SIMPLE ∧ (number < 1 ∨ number > 12) then (.fail, date)
    else
      let date1 := { date with
        month := wrapInt32 number, weekDateFormat := false, dayOfYearFormat := false }
      (.ok, if date1.hasYear then date1 else { date1 with hasYear := true, year := 2000 })
  | .DAY_OF_MONTH =>
    let date1 := { date with
      dayOfMonthValues := date.dayOfMonthValues ++ [wrapInt32 number]
      day := wrapInt32 number
      weekDateFormat := false, dayOfYearFormat := false, weekOfMonthDateFormat := false }
    (.ok, if date1.hasYear then date1 else { date1 with hasYear := true, year := 2000 })
  | .DAY_OF_YEAR =>
    let date1 := { date with
      dayOfYearValues := date.dayOfYearValues ++ [wrapInt32 number]
      dayOfYear := wrapInt32 number
      dayOfYearFormat := true, weekDateFormat := false, weekOfMonthDateFormat := false }
    (.ok, if date1.hasYear then date1 else { date1 with hasYear := true, year := 2000 })
  | .CLOCK_HOUR_OF_DAY =>
    if number > 24 ∨ number < 1 then (.fail, date)
    else (.ok, { date with isClockHour := true, isHourOfHalfDay := false, hour := number % 24 })
  | .HOUR_OF_DAY =>
    if number > 23 ∨ number < 0 then (.fail, date)
    else (.ok, { date with isClockHour := false, isHourOfHalfDay := false, hour := number })
  | .CLOCK_HOUR_OF_HALFDAY =>
    if number > 12 ∨ number < 1 then (.fail, date)
    else (.ok, { date with isClockHour := true, isHourOfHalfDay := true, hour := number % 12 })
  | .HOUR_OF_HALFDAY =>
    if number > 11 ∨ number < 0 then (.fail, date)
    else (.ok, { date with isClockHour := false, isHourOfHalfDay := true, hour := number })
  | .MINUTE_OF_HOUR =>
    if number > 59 ∨ number < 0 then (.fail, date)
    else (.ok, { date with minute := number })
  | .SECOND_OF_MINUTE =>
    if number > 59 ∨ number < 0 then (.fail, date)
    else (.ok, { date with second := number })
  | .FRACTION_OF_SECOND =>
    (.ok, { date with microsecond := wrapInt32 (number * 1000) })
  | .WEEK_YEAR =>
    if number < -292275054 ∨ number > 292278993 then (.fail, date)
    else
      (.ok, { date with
        year := number, hasWeek := true, weekDateFormat := true, dayOfYearFormat := false
        centuryFormat := false, weekOfMonthDateFormat := false, hasYear := true })
  | .WEEK_OF_WEEK_YEAR =>
    if number < 1 ∨ number > 52 then (.fail, date)
    else
      let date1 := { date with
        week := number, hasWeek := true, weekDateFormat := true, dayOfYearFormat := false
        weekOfMonthDateFormat := false }
      (.ok, if date1.hasYear then date1 else { date1 with hasYear := true, year := 2000 })
  | .DAY_OF_WEEK_1_BASED =>
    if type ≠ .LENIENT_SIMPLE ∧ (number < 1 ∨ number > 7) then (.fail, date)
    else
      let date1 := { date with dayOfWeek := wrapInt32 number, hasDayOfWeek := true }
      let date2 :=
        if date1.weekOfMonthDateFormat then date1 else { date1 with weekDateFormat := true }
      let date3 := { date2 with dayOfYearFormat := false }
      (.ok, if date3.hasYear then date3 else { date3 with hasYear := true, year := 2000 })
  | .WEEK_OF_MONTH =>
    let date1 := { date with
      weekOfMonthDateFormat := true, weekOfMonth := wrapInt32 number
      weekDateFormat := false, hasYear := true }
    (.ok, if date1.hasDayOfWeek then date1 else { date1 with dayOfWeek := 7 })
  | s => (.thrown (.notImplemented s), date)

/-- The year-like specifiers that get the two-digit treatment. -/
def isYearSpecifier (s : DateTimeFormatSpecifier) : Bool :=
  decide (s = .YEAR) || decide (s = .YEAR_OF_ERA) || decide (s = .WEEK_YEAR)

/-- The end of the numeric case of `parseFromPattern`, reached with the value
`number` read between `startPos` and `cur`: the check that a digit was read,
the sign, and the switch. -/
def finishNumeric {Z : Type} (curPattern : FormatPattern) (type : DateTimeFormatterType)
    (st : ParseState Z) (negative : Bool) (startPos cur : List Char) (number : Int) :
    ParseCode × ParseState Z :=
  -- Need to have read at least one digit.
  if startPos.length ≤ cur.length then (.fail, { st with cur := cur })
  else
    let number1 := if negative then wrapInt64 (number * (-1)) else number
    let (code, date1) := applyNumber curPattern type number1 st.date
    (code, { st with cur := cur, date := date1 })

/-- The numeric case of `parseFromPattern` from `startPos` on, that is after the
optional sign: the digit loop, the fraction scaling and the two-digit year rule,
then `finishNumeric`. -/
def parseDigitsFrom {Z : Type} (env : Env Z) (curPattern : FormatPattern)
    (st : ParseState Z) (specifierNext : Bool) (type : DateTimeFormatterType)
    (negative : Bool) (startPos : List Char) : ParseCode × ParseState Z :=
  let maxDigitConsume := getMaxDigitConsume curPattern specifierNext type
  let (number0, count, cur) := readDigits maxDigitConsume startPos 0 0
  let finish := finishNumeric curPattern type st negative startPos cur
  if curPattern.specifier = .FRACTION_OF_SECOND then
    if type ≠ .STRICT_SIMPLE ∧ type ≠ .LENIENT_SIMPLE then
      finish (if count ≤ 3 then number0 * 10 ^ (3 - count) else env.scaleFraction number0 count)
    else finish number0
  else if isYearSpecifier curPattern.specifier ∧ curPattern.minRepresentDigits = 2 then
    if count = 2 then
      if number0 ≥ 70 then finish (number0 + 1900)
      else if number0 ≥ 0 ∧ number0 < 70 then finish (number0 + 2000)
      else finish number0
    else if type = .MYSQL then
      if count > 2 then (.fail, { st with cur := startPos.drop 2 })
      else (.fail, { st with cur := startPos })
    else finish number0
  else finish number0

/-- The numeric case of `parseFromPattern` (the final `else` branch): the
optional sign, then `parseDigitsFrom`. -/
def parseNumeric {Z : Type} (env : Env Z) (curPattern : FormatPattern)
    (st : ParseState Z) (specifierNext : Bool) (type : DateTimeFormatterType) :
    ParseCode × ParseState Z :=
  match st.cur with
  | c :: cs =>
    if specAllowsNegative curPattern.specifier ∧ c = '-' then
      parseDigitsFrom env curPattern st specifierNext type true cs
    else if specAllowsPlusSign curPattern.specifier specifierNext ∧ c = '+' then
      parseDigitsFrom env curPattern st specifierNext type false cs
    else parseDigitsFrom env curPattern st specifierNext type false (c :: cs)
  | [] => parseDigitsFrom env curPattern st specifierNext type false []

def parseFromPattern {Z : Type} (env : Env Z) (curPattern : FormatPattern)
    (st : ParseState Z) (specifierNext : Bool) (type : DateTimeFormatterType) :
    ParseCode × ParseState Z :=
  if curPattern.specifier = .TIMEZONE_OFFSET_ID then
    if curPattern.minRepresentDigits < 3 then
      let (size, date1, buffer1) := parseTimezoneOffset env st.cur st.date st.timezoneBuffer
      if size = -1 then (.fail, { st with date := date1, timezoneBuffer := buffer1 })
      else (.ok, { cur := st.cur.drop size.toNat, date := date1, timezoneBuffer := buffer1 })
    else
      let (size, date1) := parseTimezoneName env st.cur st.date
      if size = -1 then (.fail, { st with date := date1 })
      else (.ok, { st with cur := st.cur.drop size.toNat, date := date1 })
  else if curPattern.specifier = .TIMEZONE then
    if ¬ curPattern.minRepresentDigits < 4 then (.thrown .timeZoneLongNames, st)
    else
      let (size, date1) := parseTimezone env st.cur st.date
      if size = -1 then (.fail, { st with date := date1 })
      else (.ok, { st with cur := st.cur.drop size.toNat, date := date1 })
  else if curPattern.specifier = .ERA then
    let (size, date1) := parseEra st.cur st.date
    if size = -1 then (.fail, { st with date := date1 })
    else (.ok, { st with cur := st.cur.drop size.toNat, date := date1 })
  else if curPattern.specifier = .MONTH_OF_YEAR_TEXT then
    let (size, date1) := parseMonthText st.cur st.date
    if size = -1 then (.fail, { st with date := date1 })
    else
      (.ok, { st with
        cur := st.cur.drop size.toNat
        date := if date1.hasYear then date1 else { date1 with hasYear := true, year := 2000 } })
  else if curPattern.specifier = .HALFDAY_OF_DAY then
    let (size, date1) := parseHalfDayOfDay st.cur st.date
    if size = -1 then (.fail, { st with date := date1 })
    else (.ok, { st with cur := st.cur.drop size.toNat, date := date1 })
  else if curPattern.specifier = .DAY_OF_WEEK_TEXT then
    let (size, date1) := parseDayOfWeekText st.cur st.date
    if size = -1 then (.fail, { st with date := date1 })
    else
      let date2 := { date1 with hasDayOfWeek := true, dayOfYearFormat := false }
      (.ok, { st with
        cur := st.cur.drop size.toNat
        date := if date2.hasYear then date2 else { date2 with hasYear := true, year := 2000 } })
  else parseNumeric env curPattern st specifierNext type

/-- A compiled program: the token sequence and the dialect tag
(`tokens_` and `type_` of `DateTimeFormatter`). -/
structure DateTimeFormatter where
  tokens : List DateTimeToken
  type : DateTimeFormatterType
  deriving DecidableEq, Repr

/-- The token loop of `DateTimeFormatter::parse`. The code is `fail` when a token
did not match, with the cursor where `parseFail` reports it. -/
def parseTokens {Z : Type} (env : Env Z) (type : DateTimeFormatterType) :
    List DateTimeToken → ParseState Z → ParseCode × ParseState Z
  | [], st => (.ok, st)
  | .kLiteral literal :: rest, st =>
    if literal.length > st.cur.length ∨ st.cur.take literal.length ≠ literal then (.fail, st)
    else parseTokens env type rest { st with cur := st.cur.drop literal.length }
  | .kPattern pattern :: rest, st =>
    let specifierNext :=
      match rest with
      | .kPattern _ :: _ => true
      | _ => false
    match parseFromPattern env pattern st specifierNext type with
    | (.ok, st1) => parseTokens env type rest st1
    | failed => failed

/-- The era and half-day adjustments that follow the token loop. -/
def adjustDate {Z : Type} (date : Date Z) : Date Z :=
  let date1 :=
    if date.isYearOfEra ∧ ¬ date.isAd then { date with year := -1 * (date.year - 1) }
    else date
  if date1.isHourOfHalfDay ∧ ¬ date1.isAm then { date1 with hour := date1.hour + 12 }
  else date1

/-- The two validation loops over `dayOfMonthValues` and `dayOfYearValues`: the
error of the first value that is not valid, if any. -/
def validateDays {Z : Type} (env : Env Z) (date : Date Z) : Option Status :=
  match date.dayOfMonthValues.find? (fun v => !env.isValidDate date.year date.month v) with
  | some v =>
    if env.threadSkipErrorDetails then some ⟨none⟩
    else
      some ⟨some (.dayOfMonthRange v (env.getMaxDayOfMonth date.year date.month)
        date.year date.month)⟩
  | none =>
    match date.dayOfYearValues.find? (fun v => !env.isValidDayOfYear date.year v) with
    | some v =>
      if env.threadSkipErrorDetails then some ⟨none⟩
      else
        some ⟨some (.dayOfYearRange v (if env.isLeapYear date.year then 366 else 365)
          date.year date.month)⟩
    | none => none

/-- The choice of the resolution mode and the call of the calendar library. -/
def daysSinceEpochOf {Z : Type} (env : Env Z) (type : DateTimeFormatterType)
    (date : Date Z) : Except Status Int :=
  let date1 := { date with weekDateFormat := date.hasYear && date.hasWeek }
  if date1.weekDateFormat then
    env.daysSinceEpochFromWeekDate date1.year date1.week date1.dayOfWeek
  else if date1.dayOfYearFormat then
    env.daysSinceEpochFromDayOfYear date1.year date1.dayOfYear
  else if date1.weekOfMonthDateFormat then
    env.daysSinceEpochFromWeekOfMonthDate date1.year date1.month date1.weekOfMonth
      date1.dayOfWeek (decide (type = .LENIENT_SIMPLE))
  else env.daysSinceEpochFromDate date1.year date1.month date1.day

/-- The part of `DateTimeFormatter::parse` after the token loop, from the cursor
and the record the loop left. -/
def finishParse {Z : Type} (env : Env Z) (type : DateTimeFormatterType)
    (input cur : List Char) (date : Date Z) : Expected (DateTimeResult Z) :=
  if type ≠ .LENIENT_SIMPLE ∧ type ≠ .STRICT_SIMPLE ∧ 0 < cur.length then
    .unexpected (parseFail env input cur)
  else
    let date1 := adjustDate date
    match validateDays env date1 with
    | some status => .unexpected status
    | none =>
      match daysSinceEpochOf env type date1 with
      | .error status => .unexpected status
      | .ok daysSinceEpoch =>
        let microsSinceMidnight :=
          env.fromTime date1.hour date1.minute date1.second date1.microsecond
        .value
          { timestamp := env.fromDatetime daysSinceEpoch microsSinceMidnight
            timezone := date1.timezone }

/-- The function `DateTimeFormatter::parse` together with the content the
thread-local `timezoneBuffer` has after the call. -/
def parseWithBuffer {Z : Type} (env : Env Z) (formatter : DateTimeFormatter)
    (input : List Char) (timezoneBuffer : List Char) :
    Expected (DateTimeResult Z) × List Char :=
  match parseTokens env formatter.type formatter.tokens
      { cur := input, date := {}, timezoneBuffer := timezoneBuffer } with
  | (.thrown e, st) => (.thrown e, st.timezoneBuffer)
  | (.fail, st) => (.unexpected (parseFail env input st.cur), st.timezoneBuffer)
  | (.ok, st) => (finishParse env formatter.type input st.cur st.date, st.timezoneBuffer)

/-- The function `DateTimeFormatter::parse`, called while the thread-local
`timezoneBuffer` holds the given content. -/
def parse {Z : Type} (env : Env Z) (formatter : DateTimeFormatter)
    (input : List Char) (timezoneBuffer : List Char) : Expected (DateTimeResult Z) :=
  (parseWithBuffer env formatter input timezoneBuffer).1

/-! ## The program builder -/

/-- Modelled from the spec: `DateTimeFormatterBuilder`, whose declaration
(`DateTimeFormatterBuilder.h`) and methods are not among the sources. A builder
holds the tokens appended so far; every `append` call adds one token at the
end, a pattern token carrying the specifier and the width passed (spec, data
model: a FormatPattern is a specifier with its minRepresentDigits, a program an
ordered sequence of tokens). -/
abbrev DateTimeFormatterBuilder := List DateTimeToken

/-- Modelled from the spec: the `append...` methods of
`DateTimeFormatterBuilder` that add a pattern token. -/
def appendPattern (builder : DateTimeFormatterBuilder) (specifier : DateTimeFormatSpecifier)
    (minRepresentDigits : Nat) : DateTimeFormatterBuilder :=
  builder ++ [.kPattern ⟨specifier, minRepresentDigits⟩]

/-- Modelled from the spec: `DateTimeFormatterBuilder::appendLiteral`, which
adds a literal token with the given text. -/
def appendLiteral (builder : DateTimeFormatterBuilder) (literal : List Char) :
    DateTimeFormatterBuilder :=
  builder ++ [.kLiteral literal]

/-- Modelled from the spec: `appendEra()` takes no width; the token records the
fixed size 2 of the era text. -/
def appendEra (builder : DateTimeFormatterBuilder) : DateTimeFormatterBuilder :=
  appendPattern builder .ERA 2

/-- Modelled from the spec: `appendHalfDayOfDay()` takes no width; the token
records the fixed size 2 of the half-day text. -/
def appendHalfDayOfDay (builder : DateTimeFormatterBuilder) : DateTimeFormatterBuilder :=
  appendPattern builder .HALFDAY_OF_DAY 2

def appendCenturyOfEra (builder : DateTimeFormatterBuilder) (n : Nat) :=
  appendPattern builder .CENTURY_OF_ERA n

def appendYearOfEra (builder : DateTimeFormatterBuilder) (n : Nat) :=
  appendPattern builder .YEAR_OF_ERA n

def appendWeekYear (builder : DateTimeFormatterBuilder) (n : Nat) :=
  appendPattern builder .WEEK_YEAR n

def appendWeekOfWeekYear (builder : DateTimeFormatterBuilder) (n : Nat) :=
  appendPattern builder .WEEK_OF_WEEK_YEAR n

def appendDayOfWeek1Based (builder : DateTimeFormatterBuilder) (n : Nat) :=
  appendPattern builder .DAY_OF_WEEK_1_BASED n

def appendDayOfWeekText (builder : DateTimeFormatterBuilder) (n : Nat) :=
  appendPattern builder .DAY_OF_WEEK_TEXT n

def appendYear (builder : DateTimeFormatterBuilder) (n : Nat) :=
  appendPattern builder .YEAR n

def appendDayOfYear (builder : DateTimeFormatterBuilder) (n : Nat) :=
  appendPattern builder .DAY_OF_YEAR n

def appendMonthOfYear (builder : DateTimeFormatterBuilder) (n : Nat) :=
  appendPattern builder .MONTH_OF_YEAR n

def appendMonthOfYearText (builder : DateTimeFormatterBuilder) (n : Nat) :=
  appendPattern builder .MONTH_OF_YEAR_TEXT n

def appendDayOfMonth (builder : DateTimeFormatterBuilder) (n : Nat) :=
  appendPattern builder .DAY_OF_MONTH n

def appendHourOfHalfDay (builder : DateTimeFormatterBuilder) (n : Nat) :=
  appendPattern builder .HOUR_OF_HALFDAY n

def appendClockHourOfHalfDay (builder : DateTimeFormatterBuilder) (n : Nat) :=
  appendPattern builder .CLOCK_HOUR_OF_HALFDAY n

def appendHourOfDay (builder : DateTimeFormatterBuilder) (n : Nat) :=
  appendPattern builder .HOUR_OF_DAY n

def appendClockHourOfDay (builder : DateTimeFormatterBuilder) (n : Nat) :=
  appendPattern builder .CLOCK_HOUR_OF_DAY n

def appendMinuteOfHour (builder : DateTimeFormatterBuilder) (n : Nat) :=
  appendPattern builder .MINUTE_OF_HOUR n

def appendSecondOfMinute (builder : DateTimeFormatterBuilder) (n : Nat) :=
  appendPattern builder .SECOND_OF_MINUTE n

def appendFractionOfSecond (builder : DateTimeFormatterBuilder) (n : Nat) :=
  appendPattern builder .FRACTION_OF_SECOND n

def appendTimeZone (builder : DateTimeFormatterBuilder) (n : Nat) :=
  appendPattern builder .TIMEZONE n

def appendTimeZoneOffsetId (builder : DateTimeFormatterBuilder) (n : Nat) :=
  appendPattern builder .TIMEZONE_OFFSET_ID n

def appendWeekOfMonth (builder : DateTimeFormatterBuilder) (n : Nat) :=
  appendPattern builder .WEEK_OF_MONTH n

/-- Modelled from the spec: `builder.setType(type).build()`, the program made
of the tokens appended and the dialect tag. -/
def build (builder : DateTimeFormatterBuilder) (type : DateTimeFormatterType) :
    DateTimeFormatter :=
  ⟨builder, type⟩

/-! ## The MySQL compiler -/

/-- The `switch (*tokenEnd)` of `buildMysqlDateTimeFormatter` for the letter
after a `%`: the builder after the case, or `none` for an unsupported letter. -/
def mysqlSpecifier (builder : DateTimeFormatterBuilder) (c : Char) :
    Option DateTimeFormatterBuilder :=
  if c = 'a' then some (appendDayOfWeekText builder 3)
  else if c = 'b' then some (appendMonthOfYearText builder 3)
  else if c = 'c' then some (appendMonthOfYear builder 1)
  else if c = 'd' then some (appendDayOfMonth builder 2)
  else if c = 'e' then some (appendDayOfMonth builder 1)
  else if c = 'f' then some (appendFractionOfSecond builder 6)
  else if c = 'H' then some (appendHourOfDay builder 2)
  else if c = 'h' ∨ c = 'I' then some (appendClockHourOfHalfDay builder 2)
  else if c = 'i' then some (appendMinuteOfHour builder 2)
  else if c = 'j' then some (appendDayOfYear builder 3)
  else if c = 'k' then some (appendHourOfDay builder 1)
  else if c = 'l' then some (appendClockHourOfHalfDay builder 1)
  else if c = 'M' then some (appendMonthOfYearText builder 4)
  else if c = 'm' then some (appendMonthOfYear builder 2)
  else if c = 'p' then some (appendHalfDayOfDay builder)
  else if c = 'r' then
    some (appendHalfDayOfDay (appendLiteral (appendSecondOfMinute (appendLiteral
      (appendMinuteOfHour (appendLiteral (appendClockHourOfHalfDay builder 2) ":".toList) 2)
      ":".toList) 2) " ".toList))
  else if c = 'S' ∨ c = 's' then some (appendSecondOfMinute builder 2)
  else if c = 'T' then
    some (appendSecondOfMinute (appendLiteral (appendMinuteOfHour (appendLiteral
      (appendHourOfDay builder 2) ":".toList) 2) ":".toList) 2)
  else if c = 'v' then some (appendWeekOfWeekYear builder 2)
  else if c = 'W' then some (appendDayOfWeekText builder 4)
  else if c = 'x' then some (appendWeekYear builder 4)
  else if c = 'Y' then some (appendYear builder 4)
  else if c = 'y' then some (appendYear builder 2)
  else if c = '%' then some (appendLiteral builder "%".toList)
  else if c = 'D' ∨ c = 'U' ∨ c = 'u' ∨ c = 'V' ∨ c = 'w' ∨ c = 'X' then none
  else some (appendLiteral builder [c])

/-- The `while (cur < end)` loop of `buildMysqlDateTimeFormatter`. Every round
consumes at least one byte, so `cur.length` rounds are enough; the first argument
bounds the rounds. -/
def buildMysqlLoop (threadSkipErrorDetails : Bool) :
    Nat → List Char → DateTimeFormatterBuilder → Expected DateTimeFormatter
  | 0, _, builder => .value (build builder .MYSQL)
  | fuel + 1, cur, builder =>
    match cur with
    | [] => .value (build builder .MYSQL)
    | c :: rest =>
      if c = '%' then
        match rest with
        | [] => .value (build builder .MYSQL)
        | t :: rest2 =>
          match mysqlSpecifier builder t with
          | none =>
            if threadSkipErrorDetails then .unexpected ⟨none⟩
            else .unexpected ⟨some (.mysqlSpecifierNotSupported t)⟩
          | some builder1 => buildMysqlLoop threadSkipErrorDetails fuel rest2 builder1
      else
        let (literal, tokenEnd) := cur.span (fun x => x != '%')
        buildMysqlLoop threadSkipErrorDetails fuel tokenEnd (appendLiteral builder literal)

/-- The function `buildMysqlDateTimeFormatter`; the first argument is the value
of `threadSkipErrorDetails()`. -/
def buildMysqlDateTimeFormatter (threadSkipErrorDetails : Bool) (format : List Char) :
    Expected DateTimeFormatter :=
  if format.isEmpty then
    if threadSkipErrorDetails then .unexpected ⟨none⟩
    else .unexpected ⟨some .notSupportedBoth⟩
  else buildMysqlLoop threadSkipErrorDetails format.length format []

/-! ## The Joda and Simple compilers -/

/-- The loop `for (int64_t i = 1; i <= count; i++)` that appends the bytes of a
quoted literal one by one, stepping over the second quote of a doubled one. The
first argument bounds the rounds (`count` are enough), `start` is the text from
`startTokenPtr`. -/
def appendQuoted (start : List Char) (count : Nat) :
    Nat → Nat → DateTimeFormatterBuilder → DateTimeFormatterBuilder
  | 0, _, builder => builder
  | fuel + 1, i, builder =>
    if i ≤ count then
      let c := start.getD i ' '
      appendQuoted start count fuel (if c = singleQuote then i + 1 + 1 else i + 1)
        (appendLiteral builder [c])
    else builder

/-- The `switch (*startTokenPtr)` of `buildJodaDateTimeFormatter` for a run of
`count` bytes `c` that is the text `run`: the builder after the case, or `none`
for a letter that is not supported. -/
def jodaSpecifier (builder : DateTimeFormatterBuilder) (c : Char) (count : Nat)
    (run : List Char) : Option DateTimeFormatterBuilder :=
  if c = 'G' then some (appendEra builder)
  else if c = 'C' then some (appendCenturyOfEra builder count)
  else if c = 'Y' then some (appendYearOfEra builder count)
  else if c = 'x' then some (appendWeekYear builder count)
  else if c = 'w' then some (appendWeekOfWeekYear builder count)
  else if c = 'e' then some (appendDayOfWeek1Based builder count)
  else if c = 'E' then some (appendDayOfWeekText builder count)
  else if c = 'y' then some (appendYear builder count)
  else if c = 'D' then some (appendDayOfYear builder count)
  else if c = 'M' then
    if count ≤ 2 then some (appendMonthOfYear builder count)
    else some (appendMonthOfYearText builder count)
  else if c = 'd' then some (appendDayOfMonth builder count)
  else if c = 'a' then some (appendHalfDayOfDay builder)
  else if c = 'K' then some (appendHourOfHalfDay builder count)
  else if c = 'h' then some (appendClockHourOfHalfDay builder count)
  else if c = 'H' then some (appendHourOfDay builder count)
  else if c = 'k' then some (appendClockHourOfDay builder count)
  else if c = 'm' then some (appendMinuteOfHour builder count)
  else if c = 's' then some (appendSecondOfMinute builder count)
  else if c = 'S' then some (appendFractionOfSecond builder count)
  else if c = 'z' then some (appendTimeZone builder count)
  else if c = 'Z' then some (appendTimeZoneOffsetId builder count)
  else if c.isAlpha then none
  else some (appendLiteral builder run)

/-- The `switch (*startTokenPtr)` of `buildSimpleDateTimeFormatter`. -/
def simpleSpecifier (builder : DateTimeFormatterBuilder) (c : Char) (count : Nat)
    (run : List Char) : Option DateTimeFormatterBuilder :=
  if c = 'a' then some (appendHalfDayOfDay builder)
  else if c = 'C' then some (appendCenturyOfEra builder count)
  else if c = 'd' then some (appendDayOfMonth builder count)
  else if c = 'D' then some (appendDayOfYear builder count)
  else if c = 'e' then some (appendDayOfWeek1Based builder count)
  else if c = 'E' then some (appendDayOfWeekText builder count)
  else if c = 'G' then some (appendEra builder)
  else if c = 'h' then some (appendClockHourOfHalfDay builder count)
  else if c = 'H' then some (appendHourOfDay builder count)
  else if c = 'K' then some (appendHourOfHalfDay builder count)
  else if c = 'k' then some (appendClockHourOfDay builder count)
  else if c = 'm' then some (appendMinuteOfHour builder count)
  else if c = 'M' then
    if count ≤ 2 then some (appendMonthOfYear builder count)
    else some (appendMonthOfYearText builder count)
  else if c = 's' then some (appendSecondOfMinute builder count)
  else if c = 'S' then some (appendFractionOfSecond builder count)
  else if c = 'w' then some (appendWeekOfWeekYear builder count)
  else if c = 'W' then some (appendWeekOfMonth builder count)
  else if c = 'x' then some (appendWeekYear builder count)
  else if c = 'y' then some (appendYear builder count)
  else if c = 'Y' then some (appendYearOfEra builder count)
  else if c = 'z' then some (appendTimeZone builder count)
  else if c = 'Z' then some (appendTimeZoneOffsetId builder count)
  else if c.isAlpha then none
  else some (appendLiteral builder run)

/-- The `while (cur < end)` loop shared, line for line, by
`buildJodaDateTimeFormatter` and `buildSimpleDateTimeFormatter`; `specifier` is
the letter switch of the dialect and `type` its tag. Every round consumes at
least one byte, so `cur.length` rounds are enough; the first argument bounds the
rounds. -/
def buildQuotedLoop (threadSkipErrorDetails : Bool)
    (specifier : DateTimeFormatterBuilder → Char → Nat → List Char →
      Option DateTimeFormatterBuilder)
    (type : DateTimeFormatterType) :
    Nat → List Char → DateTimeFormatterBuilder → Expected DateTimeFormatter
  | 0, _, builder => .value (build builder type)
  | fuel + 1, cur, builder =>
    match cur with
    | [] => .value (build builder type)
    | c :: rest =>
      if c = singleQuote then
        if 0 < rest.length ∧ rest.getD 0 ' ' = singleQuote then
          buildQuotedLoop threadSkipErrorDetails specifier type fuel (cur.drop 2)
            (appendLiteral builder [singleQuote])
        else
          let count := numLiteralChars rest
          if count = -1 then
            if threadSkipErrorDetails then .unexpected ⟨none⟩
            else .unexpected ⟨some .noClosingQuote⟩
          else
            buildQuotedLoop threadSkipErrorDetails specifier type fuel
              (cur.drop (count.toNat + 2)) (appendQuoted cur count.toNat count.toNat 1 builder)
      else
        let count := 1 + (rest.takeWhile (fun x => x = c)).length
        let cur1 := rest.dropWhile (fun x => x = c)
        match specifier builder c count (cur.take count) with
        | none =>
          if threadSkipErrorDetails then .unexpected ⟨none⟩
          else .unexpected ⟨some (.specifierNotSupported c)⟩
        | some builder1 => buildQuotedLoop threadSkipErrorDetails specifier type fuel cur1 builder1

/-- The function `buildJodaDateTimeFormatter`; the first argument is the value
of `threadSkipErrorDetails()`. -/
def buildJodaDateTimeFormatter (threadSkipErrorDetails : Bool) (format : List Char) :
    Expected DateTimeFormatter :=
  if format.isEmpty then
    if threadSkipErrorDetails then .unexpected ⟨none⟩
    else .unexpected ⟨some .invalidPatternSpecification⟩
  else buildQuotedLoop threadSkipErrorDetails jodaSpecifier .JODA format.length format []

/-- The function `buildSimpleDateTimeFormatter`; the first argument is the
value of `threadSkipErrorDetails()`. -/
def buildSimpleDateTimeFormatter (threadSkipErrorDetails : Bool) (format : List Char)
    (lenient : Bool) : Expected DateTimeFormatter :=
  if format.isEmpty then
    if threadSkipErrorDetails then .unexpected ⟨none⟩
    else .unexpected ⟨some .emptyFormatPattern⟩
  else
    let type := if lenient then DateTimeFormatterType.LENIENT_SIMPLE
      else DateTimeFormatterType.STRICT_SIMPLE
    buildQuotedLoop threadSkipErrorDetails simpleSpecifier type format.length format []

/-! ## A sample environment

The theorems below hold for every environment. To evaluate the parser on
concrete inputs they are instantiated at `sampleEnv`. -/

/-- Modelled from the spec: `util::isLeapYear` of the proleptic Gregorian
calendar (the calendar library is not among the sources). -/
def isLeapYear (year : Int) : Bool :=
  decide (year % 4 = 0) && (decide (year % 100 ≠ 0) || decide (year % 400 = 0))

/-- Modelled from the spec: `util::getMaxDayOfMonth`, the number of days of a
month of the proleptic Gregorian calendar. -/
def getMaxDayOfMonth (year month : Int) : Int :=
  if month = 2 then (if isLeapYear year then 29 else 28)
  else if month = 4 ∨ month = 6 ∨ month = 9 ∨ month = 11 then 30
  else 31

/-- Modelled from the spec: `util::isValidDate`, a month in 1..12 and a day the
month has, for a year of the supported range. -/
def isValidDate (year month day : Int) : Bool :=
  decide (1 ≤ month ∧ month ≤ 12 ∧ -292275055 ≤ year ∧ year ≤ 292278994 ∧
    1 ≤ day ∧ day ≤ getMaxDayOfMonth year month)

/-- Modelled from the spec: `util::isValidDayOfYear`. -/
def isValidDayOfYear (year dayOfYear : Int) : Bool :=
  decide (-292275055 ≤ year ∧ year ≤ 292278994 ∧
    1 ≤ dayOfYear ∧ dayOfYear ≤ (if isLeapYear year then 366 else 365))

/-- The number of days from 1970-01-01 to a date of the proleptic Gregorian
calendar. -/
def daysFromCivil (year month day : Int) : Int :=
  let y := if month ≤ 2 then year - 1 else year
  let era := y / 400
  let yoe := y - era * 400
  let doy := (153 * (if month > 2 then month - 3 else month + 9) + 2) / 5 + day - 1
  let doe := yoe * 365 + yoe / 4 - yoe / 100 + doy
  era * 146097 + doe - 719468

/-- Modelled from the spec: `util::daysSinceEpochFromDate`, "given (year, month,
day) return days-since-epoch or an error". -/
def daysSinceEpochFromDate (year month day : Int) : Except Status Int :=
  if isValidDate year month day then .ok (daysFromCivil year month day)
  else .error ⟨some (.calendar 1)⟩

/-- Modelled from the spec: `util::daysSinceEpochFromDayOfYear`. -/
def daysSinceEpochFromDayOfYear (year dayOfYear : Int) : Except Status Int :=
  if isValidDayOfYear year dayOfYear then .ok (daysFromCivil year 1 1 + (dayOfYear - 1))
  else .error ⟨some (.calendar 2)⟩

/-- Modelled from the spec: `util::daysSinceEpochFromWeekDate`, the ISO-8601
week date: week 1 is the week (Monday to Sunday) that holds January 4th. -/
def daysSinceEpochFromWeekDate (weekYear weekOfYear dayOfWeek : Int) : Except Status Int :=
  if -292275055 ≤ weekYear ∧ weekYear ≤ 292278994 ∧ 1 ≤ weekOfYear ∧ weekOfYear ≤ 53 ∧
      1 ≤ dayOfWeek ∧ dayOfWeek ≤ 7 then
    let janFourth := daysFromCivil weekYear 1 4
    let isoDayOfJanFourth := (janFourth + 3) % 7 + 1
    .ok (janFourth - (isoDayOfJanFourth - 1) + 7 * (weekOfYear - 1) + dayOfWeek - 1)
  else .error ⟨some (.calendar 3)⟩

/-- Modelled from the spec: `util::daysSinceEpochFromWeekOfMonthDate`, the day
`dayOfWeek` of the `weekOfMonth`-th week (Monday to Sunday) touching the month. -/
def daysSinceEpochFromWeekOfMonthDate (year month weekOfMonth dayOfWeek : Int)
    (lenient : Bool) : Except Status Int :=
  if lenient ∨ (isValidDate year month 1 ∧ 1 ≤ weekOfMonth ∧ weekOfMonth ≤ 5 ∧
      1 ≤ dayOfWeek ∧ dayOfWeek ≤ 7) then
    let first := daysFromCivil year month 1
    let isoDayOfFirst := (first + 3) % 7 + 1
    .ok (first - (isoDayOfFirst - 1) + 7 * (weekOfMonth - 1) + dayOfWeek - 1)
  else .error ⟨some (.calendar 4)⟩

/-- Modelled from the spec: `util::fromTime`, the microseconds since midnight. -/
def fromTime (hour minute second microseconds : Int) : Int :=
  ((hour * 60 + minute) * 60 + second) * 1000000 + microseconds

/-- Modelled from the spec: `util::fromDatetime`, the instant of a day count and
a time of day in microseconds. -/
def fromDatetime (daysSinceEpoch microsSinceMidnight : Int) : Timestamp :=
  { seconds := daysSinceEpoch * 86400 + microsSinceMidnight / 1000000
    nanos := microsSinceMidnight % 1000000 * 1000 }

/-- A sample environment: a zone table that knows every name but the empty one
(the handle of a zone is the name looked up), no names in the tz database index,
the proleptic Gregorian calendar, error details shown, and truncating fraction
scaling. -/
def sampleEnv : Env (List Char) where
  locateZone := fun name => if name.isEmpty then none else some name
  timeZoneNames := []
  isValidDate := isValidDate
  isValidDayOfYear := isValidDayOfYear
  isLeapYear := isLeapYear
  getMaxDayOfMonth := getMaxDayOfMonth
  daysSinceEpochFromDate := daysSinceEpochFromDate
  daysSinceEpochFromWeekDate := daysSinceEpochFromWeekDate
  daysSinceEpochFromDayOfYear := daysSinceEpochFromDayOfYear
  daysSinceEpochFromWeekOfMonthDate := daysSinceEpochFromWeekOfMonthDate
  fromTime := fromTime
  fromDatetime := fromDatetime
  threadSkipErrorDetails := false
  scaleFraction := fun number count => number / 10 ^ (count - 3)

/-! ## The renderer -/

/-- The tables `weekdaysFull` and `weekdaysShort`, indexed from Sunday. -/
def weekdaysFull : List (List Char) :=
  ["Sunday".toList, "Monday".toList, "Tuesday".toList, "Wednesday".toList,
    "Thursday".toList, "Friday".toList, "Saturday".toList]

def weekdaysShort : List (List Char) :=
  ["Sun".toList, "Mon".toList, "Tue".toList, "Wed".toList, "Thu".toList, "Fri".toList,
    "Sat".toList]

/-- The tables `monthsFull` and `monthsShort`. -/
def monthsFull : List (List Char) :=
  ["January".toList, "February".toList, "March".toList, "April".toList, "May".toList,
    "June".toList, "July".toList, "August".toList, "September".toList, "October".toList,
    "November".toList, "December".toList]

def monthsShort : List (List Char) :=
  ["Jan".toList, "Feb".toList, "Mar".toList, "Apr".toList, "May".toList, "Jun".toList,
    "Jul".toList, "Aug".toList, "Sep".toList, "Oct".toList, "Nov".toList, "Dec".toList]

/-- The digit byte of a value below ten (`char(d + '0')`). -/
def digitChar (d : Nat) : Char := Char.ofNat (48 + d)

/-- The loop of `countDigitsLoop`, bounded by its first argument. -/
def countDigitsLoop : Nat → Nat → Nat
  | 0, _ => 0
  | fuel + 1, n => if n = 0 then 0 else 1 + countDigitsLoop fuel (n / 10)

/-- Modelled from the spec: `countDigits` of `velox/common/base/CountBits.h`,
the number of decimal digits of a value. Neither the spec nor the sources fix
its value at zero; it is taken as 0, the value under which the branch
`contentLength == 0` of `padContent` can be reached (with 1 that branch is dead
and zero is written as the digit `0`). Both choices give the same bytes
whenever zero is padded with the fill character `0`, the only one `format`
passes; `padContentGiven` keeps the counter as a parameter. -/
def countDigits (n : Nat) : Nat := countDigitsLoop n n

/-- The last `k` decimal digits of `n`, most significant first. -/
def digitsOfWidth : Nat → Nat → List Char
  | 0, _ => []
  | k + 1, n => digitsOfWidth k (n / 10) ++ [digitChar (n % 10)]

/-- The bytes `std::to_chars` writes for a value: its decimal digits, after a
`-` when it is negative. -/
def toChars (content : Int) : List Char :=
  if content < 0 then '-' :: digitsOfWidth (countDigits content.natAbs) content.natAbs
  else if content = 0 then ['0']
  else digitsOfWidth (countDigits content.natAbs) content.natAbs

/-- The function `padContent`: the bytes written to `result` (their number is
the value returned), when `maxResultEnd` leaves room for them. `std::to_chars`
is taken without its bound `maxResultEnd`: when the digits do not fit before
it, the call fails and returns that end pointer, which the model does not
follow; the model is exact as long as the bytes fit. -/
def padContent (content : Int) (padding : Char) (totalDigits : Nat) (padFront : Bool) :
    List Char :=
  let isNegative := decide (content < 0)
  let digitLength := countDigits content.natAbs
  let contentLength := if isNegative then digitLength + 1 else digitLength
  if contentLength = 0 then List.replicate totalDigits padding
  else if digitLength ≥ totalDigits then toChars content
  else
    let paddingSize := totalDigits - digitLength
    if padFront then
      if isNegative then '-' :: (List.replicate paddingSize padding ++ toChars (-content))
      else List.replicate paddingSize padding ++ toChars content
    else toChars content ++ List.replicate paddingSize padding

def formatFractionOfSecond (subseconds : Nat) (minRepresentDigits : Nat) : List Char :=
  let toAdd := List.replicate (if minRepresentDigits > 3 then minRepresentDigits else 3) '0'
  let toAdd1 :=
    if subseconds < 10 then
      ((toAdd.set 0 '0').set 1 '0').set 2 (digitChar subseconds)
    else if subseconds < 100 then
      ((toAdd.set 2 (digitChar (subseconds % 10))).set 1
        (digitChar ((subseconds / 10) % 10))).set 0 '0'
    else
      ((toAdd.set 2 (digitChar (subseconds % 10))).set 1
        (digitChar ((subseconds / 10) % 10))).set 0 (digitChar ((subseconds / 100) % 10))
  -- `toAdd.resize(minRepresentDigits)` only shortens: the string has at least
  -- `minRepresentDigits` bytes.
  toAdd1.take minRepresentDigits

/-- The byte `char(v + '0')` for an `int64_t` value `v`. -/
def offsetChar (v : Int) : Char := Char.ofNat ((v + 48) % 256).toNat

/-- The function `appendTimezoneOffset`: the bytes written to `result`. -/
def appendTimezoneOffset (offset : Int) (includeColon : Bool) : List Char :=
  let sign : Char := if offset ≥ 0 then '+' else '-'
  let offset1 := if offset ≥ 0 then offset else -offset
  let hours := Int.tdiv (Int.tdiv offset1 60) 60
  let hoursText :=
    if hours < 10 then ['0', offsetChar hours]
    else [offsetChar (Int.tdiv hours 10), offsetChar (Int.tmod hours 10)]
  let colon := if includeColon then [':'] else []
  let minutes := Int.tmod (Int.tdiv offset1 60) 60
  let minutesText :=
    if minutes = 0 then ['0', '0']
    else if minutes < 10 then ['0', offsetChar minutes]
    else [offsetChar (Int.tdiv minutes 10), offsetChar (Int.tmod minutes 10)]
  let seconds := Int.tmod offset1 60
  let secondsText :=
    if seconds > 0 then
      ':' :: (if seconds < 10 then ['0', offsetChar seconds]
        else [offsetChar (Int.tdiv seconds 10), offsetChar (Int.tmod seconds 10)])
    else []
  sign :: (hoursText ++ colon ++ minutesText ++ secondsText)

/-- What the first lines of `DateTimeFormatter::format` obtain from the instant
and the zone through the date and zone libraries: the zone and its offset in
seconds, the civil date (`calDate`), the weekday (`c_encoding`, Sunday is 0), the
time of day (`durationInTheDay`), the ISO week date, the day of the year, and
the names the zone table reports for the zone at this instant. -/
structure CivilTime (Z : Type) where
  timezone : Option Z
  offset : Int
  year : Int
  month : Nat
  day : Nat
  weekday : Nat
  hours : Int
  minutes : Int
  seconds : Int
  subseconds : Nat
  isoWeekYear : Option Int
  isoWeeknum : Nat
  dayOfYear : Int
  shortName : List Char
  longName : List Char
  zoneName : List Char
  zoneLink : Option (List Char)

/-- The bytes one token contributes to the output of `DateTimeFormatter::format`
(one round of its loop), or the exception the round raises. -/
def formatToken {Z : Type} (civil : CivilTime Z) (zeroOffsetText : Option (List Char))
    (token : DateTimeToken) : Except VeloxException (List Char) :=
  match token with
  | .kLiteral literal => .ok literal
  | .kPattern pattern =>
    let width := pattern.minRepresentDigits
    match pattern.specifier with
    | .ERA => .ok (if civil.year > 0 then "AD".toList else "BC".toList)
    | .CENTURY_OF_ERA =>
      let year := if civil.year < 0 then -civil.year else civil.year
      .ok (padContent (Int.tdiv year 100) '0' width true)
    | .YEAR_OF_ERA =>
      if width = 2 then .ok (padContent (Int.tmod (Int.natAbs civil.year) 100) '0' 2 true)
      else
        let year := if civil.year ≤ 0 then (Int.natAbs (civil.year - 1) : Int) else civil.year
        .ok (padContent year '0' width true)
    | .DAY_OF_WEEK_0_BASED => .ok (padContent civil.weekday '0' width true)
    | .DAY_OF_WEEK_1_BASED =>
      .ok (padContent (if civil.weekday = 0 then 7 else civil.weekday) '0' width true)
    | .DAY_OF_WEEK_TEXT =>
      .ok (if width ≤ 3 then weekdaysShort.getD civil.weekday []
        else weekdaysFull.getD civil.weekday [])
    | .WEEK_YEAR =>
      let year := match civil.isoWeekYear with
        | some isoYear => isoYear
        | none => civil.year
      if width = 2 then .ok (padContent (Int.tmod (Int.natAbs year) 100) '0' width true)
      else .ok (padContent year '0' width true)
    | .YEAR =>
      if width = 2 then
        .ok (padContent (Int.tmod (Int.natAbs civil.year) 100) '0' width true)
      else .ok (padContent civil.year '0' width true)
    | .DAY_OF_YEAR => .ok (padContent civil.dayOfYear '0' width true)
    | .MONTH_OF_YEAR => .ok (padContent civil.month '0' width true)
    | .MONTH_OF_YEAR_TEXT =>
      .ok (if width ≤ 3 then monthsShort.getD (civil.month - 1) []
        else monthsFull.getD (civil.month - 1) [])
    | .DAY_OF_MONTH => .ok (padContent civil.day '0' width true)
    | .HALFDAY_OF_DAY => .ok (if civil.hours < 12 then "AM".toList else "PM".toList)
    | .HOUR_OF_HALFDAY => .ok (padContent (Int.tmod civil.hours 12) '0' width true)
    | .CLOCK_HOUR_OF_HALFDAY =>
      .ok (padContent (Int.tmod (civil.hours + 11) 12 + 1) '0' width true)
    | .HOUR_OF_DAY => .ok (padContent civil.hours '0' width true)
    | .CLOCK_HOUR_OF_DAY =>
      .ok (padContent (Int.tmod (civil.hours + 23) 24 + 1) '0' width true)
    | .MINUTE_OF_HOUR => .ok (padContent (Int.tmod civil.minutes 60) '0' width true)
    | .SECOND_OF_MINUTE => .ok (padContent (Int.tmod civil.seconds 60) '0' width true)
    | .FRACTION_OF_SECOND => .ok (formatFractionOfSecond civil.subseconds width)
    | .TIMEZONE =>
      match civil.timezone with
      | none => .error .timezoneNotPresent
      | some _ => .ok (if width ≤ 3 then civil.shortName else civil.longName)
    | .TIMEZONE_OFFSET_ID =>
      match (if civil.offset = 0 then zeroOffsetText else none) with
      | some text => .ok text
      | none =>
        match civil.timezone with
        | none => .error .timezoneUnknown
        | some _ =>
          if width ≥ 3 then
            match civil.zoneLink with
            | some timeZoneLink => .ok timeZoneLink
            | none => .ok civil.zoneName
          else .ok (appendTimezoneOffset civil.offset (decide (width = 2)))
    | .WEEK_OF_WEEK_YEAR => .ok (padContent civil.isoWeeknum '0' width true)
    | .WEEK_OF_MONTH =>
      -- `ceil((7 + day - weekday - 1) / 7.0)`, exact for these small values
      .ok (padContent (((7 + civil.day - civil.weekday - 1 + 6) / 7 : Nat) : Int) '0' width true)
    | .LITERAL_PERCENT => .error (.formatUnsupported .LITERAL_PERCENT)

/-- The loop of `DateTimeFormatter::format` over the tokens: the bytes written,
or the exception of the first token that raises one. -/
def formatTokens {Z : Type} (civil : CivilTime Z) (zeroOffsetText : Option (List Char)) :
    List DateTimeToken → Except VeloxException (List Char)
  | [] => .ok []
  | token :: rest =>
    match formatToken civil zeroOffsetText token with
    | .error e => .error e
    | .ok piece =>
      match formatTokens civil zeroOffsetText rest with
      | .error e => .error e
      | .ok text => .ok (piece ++ text)

/-- The function `DateTimeFormatter::format` on the civil decomposition of the
instant: the text written to `result`, or the exception raised; the last check
is `VELOX_CHECK_LE(resultSize, maxResultSize)`. The model is exact as long as
every padded field fits before `maxResultEnd`: a field that does not fit is
cut off by `std::to_chars` in the code, without exception, while the model
counts its full length. -/
def format {Z : Type} (formatter : DateTimeFormatter) (civil : CivilTime Z)
    (maxResultSize : Nat) (zeroOffsetText : Option (List Char)) : Expected (List Char) :=
  match formatTokens civil zeroOffsetText formatter.tokens with
  | .error e => .thrown e
  | .ok text => if text.length ≤ maxResultSize then .value text else .thrown .badAllocationSize

/-! ## Definitions used to state the theorems -/

/-- The value of two digit bytes read as a decimal number. -/
def twoDigitValue (d1 d2 : Char) : Int :=
  10 * ((d1.toNat : Int) - 48) + ((d2.toNat : Int) - 48)

/-- The four-digit year program of a dialect: `yyyy` (Joda, Simple), `%Y` (MySQL). -/
def yearProgram (type : DateTimeFormatterType) : DateTimeFormatter :=
  ⟨[.kPattern ⟨.YEAR, 4⟩], type⟩

/-- The program of the Joda pattern `yyyy-MM-dd`. -/
def yearMonthDayProgram : DateTimeFormatter :=
  ⟨[.kPattern ⟨.YEAR, 4⟩, .kLiteral ['-'], .kPattern ⟨.MONTH_OF_YEAR, 2⟩, .kLiteral ['-'],
    .kPattern ⟨.DAY_OF_MONTH, 2⟩], .JODA⟩

/-- The program of the Joda pattern `MM-dd`. -/
def monthDayProgram : DateTimeFormatter :=
  ⟨[.kPattern ⟨.MONTH_OF_YEAR, 2⟩, .kLiteral ['-'], .kPattern ⟨.DAY_OF_MONTH, 2⟩], .JODA⟩

/-- The token sequence the spec gives for the MySQL pattern `%r`. -/
def mysqlTimeTokens : List DateTimeToken :=
  [.kPattern ⟨.CLOCK_HOUR_OF_HALFDAY, 2⟩, .kLiteral [':'], .kPattern ⟨.MINUTE_OF_HOUR, 2⟩,
    .kLiteral [':'], .kPattern ⟨.SECOND_OF_MINUTE, 2⟩, .kLiteral [' '],
    .kPattern ⟨.HALFDAY_OF_DAY, 2⟩]

/-- The letters the MySQL dialect does not support after a `%`. -/
def mysqlUnsupportedLetters : List Char := ['D', 'U', 'u', 'V', 'w', 'X']

/-- The condition of the spec on a MySQL pattern, in its words: scanning left to
right, some `%` at a specifier position is immediately followed by one of the
letters `D U u V w X`. The byte right after a `%` at a specifier position belongs
to that specifier, so the scan resumes behind it; every other byte is passed
over one at a time. -/
def hasUnsupportedMysqlSpecifier : List Char → Bool
  | [] => false
  | [_] => false
  | c :: t :: rest =>
    if c = '%' then
      if t ∈ mysqlUnsupportedLetters then true else hasUnsupportedMysqlSpecifier rest
    else hasUnsupportedMysqlSpecifier (t :: rest)

/-- The first search of `parseTimezoneName`, over the suffixes recorded for the
text `pfx` before the first `/`; `tail` starts at that `/`, if there is one. -/
def withPrefixMatch (mappings : TimeZoneNameMappings) (pfx tail : List Char) :
    Option (List Char) :=
  match tail with
  | [] => none
  | _ :: afterSeparator =>
    match mappings.timeZoneNamePrefixMap.lookup pfx with
    | none => none
    | some suffixes =>
      suffixes.find? (fun suffixName =>
        decide (suffixName.length ≤ afterSeparator.length) &&
          startsWith afterSeparator suffixName)

/-- The second search of `parseTimezoneName`, over the names without `/`. -/
def withoutPrefixMatch (mappings : TimeZoneNameMappings) (pfx : List Char) :
    Option (List Char) :=
  mappings.timeZoneNamesWithoutPrefix.find? (fun timeZoneName =>
    decide (timeZoneName.length ≤ pfx.length) && startsWith pfx timeZoneName)

/-- The end of both searches of `parseTimezoneName`: look the matched name up,
return `-1` when the zone table rejects it, else the length matched. -/
def locateMatched {Z : Type} (env : Env Z) (date : Date Z) (name : List Char) (size : Nat) :
    Int × Date Z :=
  if (env.locateZone name).isNone then (-1, { date with timezone := env.locateZone name })
  else ((size : Int), { date with timezone := env.locateZone name })

/-- Whether `rest` begins with a pattern token (`specifierNext`). -/
def startsWithPattern (rest : List DateTimeToken) : Bool :=
  match rest with
  | .kPattern _ :: _ => true
  | _ => false

/-- The two bytes `appendTimezoneOffset` writes for the minutes `m`. -/
def minutesText (m : Int) : List Char :=
  if m = 0 then ['0', '0']
  else if m < 10 then ['0', offsetChar m]
  else [offsetChar (m / 10), offsetChar (m % 10)]

/-- The two bytes `appendTimezoneOffset` writes for the hours `h`. -/
def hoursText (h : Int) : List Char :=
  if h < 10 then ['0', offsetChar h] else [offsetChar (h / 10), offsetChar (h % 10)]


/-- The civil decomposition of 13:05:09 on Thursday 29 February 2024 in the zone
`+05:30`. -/
def leapDayCivil : CivilTime (List Char) where
  timezone := some "+05:30".toList
  offset := 19800
  year := 2024
  month := 2
  day := 29
  weekday := 4
  hours := 13
  minutes := 5
  seconds := 9
  subseconds := 0
  isoWeekYear := some 2024
  isoWeeknum := 9
  dayOfYear := 60
  shortName := "+05:30".toList
  longName := "+05:30".toList
  zoneName := "+05:30".toList
  zoneLink := none

/-- The letters for which the `switch` of `buildMysqlDateTimeFormatter` appends
pattern tokens. -/
def mysqlRecognisedLetters : List Char := "abcdefHhIijklMmprSsTvWxYy".toList

/-- The loop of the Joda and Simple compilers from the cursor `cur` on, with
the tokens of `builder` appended so far and as many rounds as `cur` has bytes. -/
def compileFrom (threadSkipErrorDetails : Bool)
    (specifier : DateTimeFormatterBuilder → Char → Nat → List Char →
      Option DateTimeFormatterBuilder)
    (type : DateTimeFormatterType) (cur : List Char) (builder : DateTimeFormatterBuilder) :
    Expected DateTimeFormatter :=
  buildQuotedLoop threadSkipErrorDetails specifier type cur.length cur builder

/-- The letters of the Joda dialect whose `switch` case passes the run length
on to the builder. -/
def jodaWidthLetters : List Char := "CYxweEyDMdKhHkmsSzZ".toList

/-- The field a run of `n` letters `c` stands for in the Joda dialect (`M` is
the numeric month up to two letters and the month text from three on). -/
def jodaLetterSpecifier (c : Char) (n : Nat) : DateTimeFormatSpecifier :=
  if c = 'G' then .ERA
  else if c = 'C' then .CENTURY_OF_ERA
  else if c = 'Y' then .YEAR_OF_ERA
  else if c = 'x' then .WEEK_YEAR
  else if c = 'w' then .WEEK_OF_WEEK_YEAR
  else if c = 'e' then .DAY_OF_WEEK_1_BASED
  else if c = 'E' then .DAY_OF_WEEK_TEXT
  else if c = 'y' then .YEAR
  else if c = 'D' then .DAY_OF_YEAR
  else if c = 'M' then (if n ≤ 2 then .MONTH_OF_YEAR else .MONTH_OF_YEAR_TEXT)
  else if c = 'd' then .DAY_OF_MONTH
  else if c = 'a' then .HALFDAY_OF_DAY
  else if c = 'K' then .HOUR_OF_HALFDAY
  else if c = 'h' then .CLOCK_HOUR_OF_HALFDAY
  else if c = 'H' then .HOUR_OF_DAY
  else if c = 'k' then .CLOCK_HOUR_OF_DAY
  else if c = 'm' then .MINUTE_OF_HOUR
  else if c = 's' then .SECOND_OF_MINUTE
  else if c = 'S' then .FRACTION_OF_SECOND
  else if c = 'z' then .TIMEZONE
  else .TIMEZONE_OFFSET_ID

/-- The body of a quoted literal as it is written in a pattern: the text with
every single quote doubled. -/
def encodeQuotes : List Char → List Char
  | [] => []
  | c :: rest =>
    if c = singleQuote then singleQuote :: singleQuote :: encodeQuotes rest
    else c :: encodeQuotes rest

/-- One literal token per byte of the text. -/
def literalTokens (text : List Char) : List DateTimeToken :=
  text.map (fun c => .kLiteral [c])

/-- The three case variants of a name. -/
inductive LetterCase where
  | capitalized
  | lower
  | upper
  deriving DecidableEq, Repr

/-- A capitalized name in the given case variant. -/
def LetterCase.apply (v : LetterCase) (name : List Char) : List Char :=
  match v with
  | .capitalized => name
  | .lower => name.map Char.toLower
  | .upper => name.map Char.toUpper

/-- The record after a month-text token read the month `m`: the month is stored
and the year defaults to 2000 when none was set. -/
def withMonth {Z : Type} (date : Date Z) (m : Int) : Date Z :=
  let date1 := { date with month := m }
  if date1.hasYear then date1 else { date1 with hasYear := true, year := 2000 }

/-- The facts about `monthMap` the month-text theorem rests on, for the month
of index `m` in the case variant `v`: the abbreviation has three bytes, is a
key of the map with the number `m + 1`, and the rest recorded with it is the
rest of the full name. -/
def monthEntryOk (m : Nat) (v : LetterCase) : Bool :=
  let key := v.apply (monthsShort.getD m [])
  let full := v.apply (monthsFull.getD m [])
  decide (key.length = 3) &&
    decide (monthMap.lookup key = some (full.drop 3, ((m : Int) + 1))) &&
    decide (full = key ++ full.drop 3) &&
    (full.drop 3).all Char.isAlpha

/-- The numeric fields whose value has a domain by the spec, and the domain
under the given dialect as inclusive bounds; `none` for a field that is not
checked (month and day-of-week under lenient-simple). -/
def fieldDomain (s : DateTimeFormatSpecifier) (type : DateTimeFormatterType) :
    Option (Int × Int) :=
  match s with
  | .MONTH_OF_YEAR => if type = .LENIENT_SIMPLE then none else some (1, 12)
  | .DAY_OF_WEEK_1_BASED => if type = .LENIENT_SIMPLE then none else some (1, 7)
  | .HOUR_OF_DAY => some (0, 23)
  | .CLOCK_HOUR_OF_DAY => some (1, 24)
  | .HOUR_OF_HALFDAY => some (0, 11)
  | .CLOCK_HOUR_OF_HALFDAY => some (1, 12)
  | .MINUTE_OF_HOUR => some (0, 59)
  | .SECOND_OF_MINUTE => some (0, 59)
  | .WEEK_OF_WEEK_YEAR => some (1, 52)
  | _ => none

/-- The fields `fieldDomain` speaks about. -/
def hasFieldDomain (s : DateTimeFormatSpecifier) : Bool :=
  match s with
  | .MONTH_OF_YEAR | .DAY_OF_WEEK_1_BASED | .HOUR_OF_DAY | .CLOCK_HOUR_OF_DAY
  | .HOUR_OF_HALFDAY | .CLOCK_HOUR_OF_HALFDAY | .MINUTE_OF_HOUR | .SECOND_OF_MINUTE
  | .WEEK_OF_WEEK_YEAR => true
  | _ => false

/-- Whether the value `v` lies in the domain of the field. -/
def inFieldDomain (s : DateTimeFormatSpecifier) (type : DateTimeFormatterType) (v : Int) :
    Bool :=
  match fieldDomain s type with
  | none => true
  | some (lo, hi) => decide (lo ≤ v) && decide (v ≤ hi)

/-- The part of `DateTimeFormatter::parse` behind the era and half-day
adjustments: the two validation loops, the day count and the result. -/
def resolveDate {Z : Type} (env : Env Z) (type : DateTimeFormatterType) (date : Date Z) :
    Expected (DateTimeResult Z) :=
  match validateDays env date with
  | some status => .unexpected status
  | none =>
    match daysSinceEpochOf env type date with
    | .error status => .unexpected status
    | .ok daysSinceEpoch =>
      .value
        { timestamp := env.fromDatetime daysSinceEpoch
            (env.fromTime date.hour date.minute date.second date.microsecond)
          timezone := date.timezone }

/-- The post-processing of the spec, in its words: a year of era with the era
BC becomes `-(year - 1)`, an hour of a 12-hour field with PM gets 12 added. -/
def postProcessed {Z : Type} (date : Date Z) : Date Z :=
  { date with
    year := if date.isYearOfEra = true ∧ date.isAd = false then -(date.year - 1) else date.year
    hour :=
      if date.isHourOfHalfDay = true ∧ date.isAm = false then date.hour + 12 else date.hour }

/-- The program of the Joda pattern `YYYY G`. -/
def yearOfEraProgram : DateTimeFormatter :=
  ⟨[.kPattern ⟨.YEAR_OF_ERA, 4⟩, .kLiteral [' '], .kPattern ⟨.ERA, 2⟩], .JODA⟩

/-- The program of the Joda pattern `hh a`. -/
def halfDayHourProgram : DateTimeFormatter :=
  ⟨[.kPattern ⟨.CLOCK_HOUR_OF_HALFDAY, 2⟩, .kLiteral [' '], .kPattern ⟨.HALFDAY_OF_DAY, 2⟩],
    .JODA⟩

/-- The value `std::max((int)minRepresentDigits, k)` of `maxResultSize`; the
width is cast to `int`. -/
def maxWidth (minRepresentDigits : Nat) (k : Int) : Int :=
  max (wrapInt32 minRepresentDigits) k

/-- What one round of the loop of `DateTimeFormatter::maxResultSize` adds to
`size`; `none` for the `default` case, which raises `VELOX_UNSUPPORTED`. -/
def tokenMaxSize (token : DateTimeToken) : Option Int :=
  match token with
  | .kLiteral literal => some literal.length
  | .kPattern pattern =>
    match pattern.specifier with
    | .ERA | .HALFDAY_OF_DAY => some 2
    | .YEAR_OF_ERA => some (maxWidth pattern.minRepresentDigits 9)
    | .DAY_OF_WEEK_0_BASED | .DAY_OF_WEEK_1_BASED | .WEEK_OF_MONTH =>
      some (maxWidth pattern.minRepresentDigits 1)
    | .DAY_OF_WEEK_TEXT | .MONTH_OF_YEAR_TEXT =>
      some (if pattern.minRepresentDigits ≤ 3 then 3 else 9)
    | .WEEK_YEAR | .YEAR =>
      some (if pattern.minRepresentDigits = 2 then 2 else maxWidth pattern.minRepresentDigits 10)
    | .CENTURY_OF_ERA => some (maxWidth pattern.minRepresentDigits 8)
    | .DAY_OF_YEAR => some (maxWidth pattern.minRepresentDigits 3)
    | .MONTH_OF_YEAR | .DAY_OF_MONTH | .HOUR_OF_HALFDAY | .CLOCK_HOUR_OF_HALFDAY
    | .WEEK_OF_WEEK_YEAR | .HOUR_OF_DAY | .CLOCK_HOUR_OF_DAY | .MINUTE_OF_HOUR
    | .SECOND_OF_MINUTE => some (maxWidth pattern.minRepresentDigits 2)
    | .FRACTION_OF_SECOND => some (maxWidth pattern.minRepresentDigits 9)
    | .TIMEZONE => some (if pattern.minRepresentDigits ≤ 3 then 5 else 50)
    | .TIMEZONE_OFFSET_ID =>
      some (if pattern.minRepresentDigits = 1 then 8
        else if pattern.minRepresentDigits = 2 then 9 else 32)
    | .LITERAL_PERCENT => none

/-- The loop of `DateTimeFormatter::maxResultSize` from the value `size` on; the
sum is a `uint32_t` and wraps at `2^32`. -/
def maxResultSizeFrom : List DateTimeToken → Nat → Option Nat
  | [], size => some size
  | token :: rest, size =>
    match tokenMaxSize token with
    | none => none
    | some added => maxResultSizeFrom rest (((size : Int) + added) % 4294967296).toNat

/-- The function `DateTimeFormatter::maxResultSize` (its argument `timezone` is
not read): the bound on the bytes `format` writes, or `none` when
`VELOX_UNSUPPORTED` is raised. -/
def maxResultSize (formatter : DateTimeFormatter) : Option Nat :=
  maxResultSizeFrom formatter.tokens 0

/-- The program of the Joda pattern `yyyyyyyyyy-`: a year of width 10 and the
literal `-`. -/
def wideYearProgram : DateTimeFormatter :=
  ⟨[.kPattern ⟨.YEAR, 10⟩, .kLiteral ['-']], .JODA⟩

/-- The civil decomposition of 12:00:00 on Wednesday 15 June of the year -5
(6 BC), with no zone supplied. -/
def yearMinus5Civil : CivilTime (List Char) where
  timezone := none
  offset := 0
  year := -5
  month := 6
  day := 15
  weekday := 3
  hours := 12
  minutes := 0
  seconds := 0
  subseconds := 0
  isoWeekYear := some (-5)
  isoWeeknum := 24
  dayOfYear := 166
  shortName := []
  longName := []
  zoneName := []
  zoneLink := none

/-- The invariants of the civil decomposition `format` computes: the year and
the ISO week-year in the range of `Timestamp`, and every calendar and clock
field in its range. -/
def civilWellFormed {Z : Type} (civil : CivilTime Z) : Prop :=
  -292275054 ≤ civil.year ∧ civil.year ≤ 292278993 ∧
  (∀ y ∈ civil.isoWeekYear, -292275055 ≤ y ∧ y ≤ 292278994) ∧
  1 ≤ civil.month ∧ civil.month ≤ 12 ∧ 1 ≤ civil.day ∧ civil.day ≤ 31 ∧ civil.weekday ≤ 6 ∧
  0 ≤ civil.hours ∧ civil.hours ≤ 23 ∧ 0 ≤ civil.minutes ∧ civil.minutes ≤ 59 ∧
  0 ≤ civil.seconds ∧ civil.seconds ≤ 59 ∧ civil.isoWeeknum ≤ 53 ∧
  0 ≤ civil.dayOfYear ∧ civil.dayOfYear ≤ 366

/-- The value a WEEK_YEAR token renders. -/
def weekYearValue {Z : Type} (civil : CivilTime Z) : Int :=
  match civil.isoWeekYear with
  | some isoYear => isoYear
  | none => civil.year

/-- The tokens for which the bound of `maxResultSize` is shown to hold: no
timezone token, a width below `2^31`, and for a YEAR or WEEK_YEAR token a width
of at most 9 or a value that is not negative. -/
def boundCovers {Z : Type} (civil : CivilTime Z) (token : DateTimeToken) : Bool :=
  match token with
  | .kLiteral _ => true
  | .kPattern p =>
    decide (p.minRepresentDigits < 2147483648) &&
      match p.specifier with
      | .TIMEZONE | .TIMEZONE_OFFSET_ID | .LITERAL_PERCENT => false
      | .YEAR => decide (p.minRepresentDigits ≤ 9) || decide (0 ≤ civil.year)
      | .WEEK_YEAR => decide (p.minRepresentDigits ≤ 9) || decide (0 ≤ weekYearValue civil)
      | _ => true

/-- The sum `maxResultSize` forms, without the wrap of `uint32_t`. -/
def sizeSum : List DateTimeToken → Int
  | [] => 0
  | token :: rest =>
    (match tokenMaxSize token with
      | some added => added
      | none => 0) + sizeSum rest

/-! ## Definitions for padding, zone names, offsets, signs and the resolution mode -/

/-- The names with a `/` that a prefix map records: every suffix behind its
prefix and a `/`. -/
def prefixedNames (m : List (List Char × List (List Char))) : List (List Char) :=
  m.flatMap (fun kv => kv.2.map (fun sfx => kv.1 ++ '/' :: sfx))

instance longerFirstTotal : IsTotal (List Char) longerFirst :=
  ⟨fun a b => by unfold longerFirst; omega⟩

instance longerFirstTrans : IsTrans (List Char) longerFirst :=
  ⟨fun a b c h1 h2 => by unfold longerFirst at *; omega⟩

/-- The sample environment with a tz database of five names. -/
def zoneNamesEnv : Env (List Char) :=
  { sampleEnv with
    timeZoneNames := ["UTC".toList, "America/Argentina".toList, "Asia/Tokyo".toList,
      "America/Argentina/Salta".toList, "UT".toList] }

/-- The shape of the thread-local `timezoneBuffer`: six bytes with a `:` at
index 3. -/
def bufferShape (timezoneBuffer : List Char) : Prop :=
  timezoneBuffer.length = 6 ∧ timezoneBuffer.getD 3 ' ' = ':'

instance bufferShapeDecidable (timezoneBuffer : List Char) :
    Decidable (bufferShape timezoneBuffer) :=
  inferInstanceAs (Decidable (timezoneBuffer.length = 6 ∧ timezoneBuffer.getD 3 ' ' = ':'))

/-- The end of each signed form of `parseTimezoneOffset`: the zone id `id` is
handed to `tz::locateZone`; the result is `-1` when the table knows no such
zone and the number `size` of bytes consumed otherwise. The third component is
the `timezoneBuffer` after the call. -/
def offsetOutcome {Z : Type} (env : Env Z) (date : Date Z) (id : List Char) (size : Int)
    (timezoneBuffer : List Char) : Int × Date Z × List Char :=
  let date1 := { date with timezone := env.locateZone id }
  if date1.timezone.isNone then (-1, date1, timezoneBuffer) else (size, date1, timezoneBuffer)

/-- The specifiers that reach the numeric case of `parseFromPattern`, its final
`else` branch: all but the zone, era, month-text, half-day and weekday-text
specifiers. -/
def isNumericSpecifier (s : DateTimeFormatSpecifier) : Bool :=
  match s with
  | .TIMEZONE_OFFSET_ID | .TIMEZONE | .ERA | .MONTH_OF_YEAR_TEXT | .HALFDAY_OF_DAY
  | .DAY_OF_WEEK_TEXT => false
  | _ => true

/-- Whether a specifier is one of the two fields that set `hasWeek`:
week-year and week-of-week-year. -/
def setsHasWeek (s : DateTimeFormatSpecifier) : Bool :=
  match s with
  | .WEEK_YEAR | .WEEK_OF_WEEK_YEAR => true
  | _ => false

/-- Whether a token program holds a week-year or week-of-week-year token. -/
def hasWeekToken (tokens : List DateTimeToken) : Bool :=
  tokens.any (fun token =>
    match token with
    | .kPattern pattern => setsHasWeek pattern.specifier
    | .kLiteral _ => false)

/-- The state of the flags `hasWeek` and `hasYear` of a record once the fields
parsed so far did (`seen`) or did not include a week-year or week-of-week-year
field. -/
def weekSeen {Z : Type} (seen : Bool) (date : Date Z) : Prop :=
  date.hasWeek = seen ∧ (seen = true → date.hasYear = true)

/-- The program of the Joda pattern `ww MM dd`: a week-of-week-year field
followed by a month and a day-of-month field. -/
def weekThenDateProgram : DateTimeFormatter :=
  ⟨[.kPattern ⟨.WEEK_OF_WEEK_YEAR, 2⟩, .kLiteral [' '], .kPattern ⟨.MONTH_OF_YEAR, 2⟩,
    .kLiteral [' '], .kPattern ⟨.DAY_OF_MONTH, 2⟩], .JODA⟩

/-- The program of the Simple pattern `DDD W`: a day-of-year field followed by
a week-of-month field. -/
def dayOfYearThenWeekOfMonthProgram : DateTimeFormatter :=
  ⟨[.kPattern ⟨.DAY_OF_YEAR, 3⟩, .kLiteral [' '], .kPattern ⟨.WEEK_OF_MONTH, 1⟩],
    .STRICT_SIMPLE⟩

/-- The program of the Joda pattern `MM e`: a month field followed by a
day-of-week field. -/
def monthThenDayOfWeekProgram : DateTimeFormatter :=
  ⟨[.kPattern ⟨.MONTH_OF_YEAR, 2⟩, .kLiteral [' '], .kPattern ⟨.DAY_OF_WEEK_1_BASED, 1⟩],
    .JODA⟩

/-! ## Definitions for the cursor, clock-field and half-day properties -/

/-- The range of the time fields of a record: the hour within 0..23, and within
0..11 while the hour counts as an hour of the half day, minute and second
within 0..59. -/
def clockOk {Z : Type} (date : Date Z) : Prop :=
  0 ≤ date.hour ∧ date.hour ≤ 23 ∧ (date.isHourOfHalfDay = true → date.hour ≤ 11) ∧
    0 ≤ date.minute ∧ date.minute ≤ 59 ∧ 0 ≤ date.second ∧ date.second ≤ 59

/-- The time fields of a record and the flag that governs the half-day
adjustment. -/
def clockFields {Z : Type} (date : Date Z) : Int × Int × Int × Bool :=
  (date.hour, date.minute, date.second, date.isHourOfHalfDay)

/-- The four hour specifiers. -/
def isHourSpecifier (s : DateTimeFormatSpecifier) : Bool :=
  match s with
  | .HOUR_OF_DAY | .CLOCK_HOUR_OF_DAY | .HOUR_OF_HALFDAY | .CLOCK_HOUR_OF_HALFDAY => true
  | _ => false

/-- Whether a token program holds one of the four hour tokens. -/
def hasHourToken (tokens : List DateTimeToken) : Bool :=
  tokens.any (fun token =>
    match token with
    | .kPattern pattern => isHourSpecifier pattern.specifier
    | .kLiteral _ => false)

/-- Whether a token program holds a half-day token. -/
def hasHalfDayToken (tokens : List DateTimeToken) : Bool :=
  tokens.any (fun token =>
    match token with
    | .kPattern pattern => decide (pattern.specifier = .HALFDAY_OF_DAY)
    | .kLiteral _ => false)

/-! ## Definitions for the compiler properties: suppression flag, literal bytes -/

/-- The environment with the error-detail suppression flag set to `flag`. -/
def withSkipErrorDetails {Z : Type} (env : Env Z) (flag : Bool) : Env Z :=
  { env with threadSkipErrorDetails := flag }

/-- The number of literal bytes a token program holds: the sum of the lengths
of its literal tokens, which is what the `appendLiteral` calls that built it
have copied. -/
def literalBytes (tokens : List DateTimeToken) : Nat :=
  match tokens with
  | [] => 0
  | .kLiteral literal :: rest => literal.length + literalBytes rest
  | .kPattern _ :: rest => literalBytes rest

/-- The search of `std::string_view::find(target, pos)` from the text `cur`
that starts at index `pos` of the base: the first index at which `target`
stands, if any. -/
def stringFindFrom (target : List Char) : List Char → Nat → Option Nat
  | [], pos => if target = [] then some pos else none
  | c :: rest, pos =>
    if startsWith (c :: rest) target then some pos
    else stringFindFrom target rest (pos + 1)

/-- The standard call `base.find(target, pos)`; `none` stands for `npos`. -/
def stringFind (base target : List Char) (pos : Nat) : Option Nat :=
  if base.length < pos then none else stringFindFrom target (base.drop pos) pos

/-- The `while` loop of `countOccurence` from the position `pos` with the
count `occurrences`. For a non-empty target every round moves `pos` forward,
so `base.length + 1` rounds are enough; the first argument bounds the rounds
(with an empty target the C++ loop does not end). -/
def countOccurenceLoop (base target : List Char) : Nat → Nat → Nat → Nat
  | 0, _, occurrences => occurrences
  | fuel + 1, pos, occurrences =>
    match stringFind base target pos with
    | none => occurrences
    | some found => countOccurenceLoop base target fuel (found + target.length) (occurrences + 1)

/-- The function `countOccurence(base, target)`. -/
def countOccurence (base target : List Char) : Nat :=
  countOccurenceLoop base target (base.length + 1) 0 0

/-- The builder `buildMysqlDateTimeFormatter` holds when it leaves its loop,
by the end of the pattern or by the return of an error: the loop of
`buildMysqlLoop` with the builder as its result. -/
def mysqlAppended : Nat → List Char → DateTimeFormatterBuilder → DateTimeFormatterBuilder
  | 0, _, builder => builder
  | fuel + 1, cur, builder =>
    match cur with
    | [] => builder
    | c :: rest =>
      if c = '%' then
        match rest with
        | [] => builder
        | t :: rest2 =>
          match mysqlSpecifier builder t with
          | none => builder
          | some builder1 => mysqlAppended fuel rest2 builder1
      else
        let (literal, tokenEnd) := cur.span (fun x => x != '%')
        mysqlAppended fuel tokenEnd (appendLiteral builder literal)

/-- The builder the Joda and Simple compilers hold when they leave their
loop, by the end of the pattern or by the return of an error: the loop of
`buildQuotedLoop` with the builder as its result. -/
def quotedAppended
    (specifier : DateTimeFormatterBuilder → Char → Nat → List Char →
      Option DateTimeFormatterBuilder) :
    Nat → List Char → DateTimeFormatterBuilder → DateTimeFormatterBuilder
  | 0, _, builder => builder
  | fuel + 1, cur, builder =>
    match cur with
    | [] => builder
    | c :: rest =>
      if c = singleQuote then
        if 0 < rest.length ∧ rest.getD 0 ' ' = singleQuote then
          quotedAppended specifier fuel (cur.drop 2) (appendLiteral builder [singleQuote])
        else
          let count := numLiteralChars rest
          if count = -1 then builder
          else
            quotedAppended specifier fuel (cur.drop (count.toNat + 2))
              (appendQuoted cur count.toNat count.toNat 1 builder)
      else
        let count := 1 + (rest.takeWhile (fun x => x = c)).length
        let cur1 := rest.dropWhile (fun x => x = c)
        match specifier builder c count (cur.take count) with
        | none => builder
        | some builder1 => quotedAppended specifier fuel cur1 builder1

/-- The number of positions of a text at which `%r` stands. -/
def percentRCount : List Char → Nat
  | [] => 0
  | c :: rest => (if startsWith (c :: rest) "%r".toList then 1 else 0) + percentRCount rest

/-! ## Definitions for the round trips of hour, year of era and zone offset -/

/-- The program of an hour token of width `w`, a space and the half-day token. -/
def hourHalfDayProgram (s : DateTimeFormatSpecifier) (w : Nat) : List DateTimeToken :=
  [.kPattern ⟨s, w⟩, .kLiteral [' '], .kPattern ⟨.HALFDAY_OF_DAY, 2⟩]

/-- The value of an hour field for the hour `h` of the day, in the words of the
spec: `(h + 11) mod 12 + 1` for the clock hour of the half day, `h mod 12` for
the hour of the half day, `(h + 23) mod 24 + 1` for the clock hour of the day
and `h` for the hour of the day. -/
def hourFieldValue (s : DateTimeFormatSpecifier) (h : Nat) : Nat :=
  match s with
  | .CLOCK_HOUR_OF_HALFDAY => (h + 11) % 12 + 1
  | .HOUR_OF_HALFDAY => h % 12
  | .CLOCK_HOUR_OF_DAY => (h + 23) % 24 + 1
  | _ => h

/-- The program of a year-of-era token of width `w`, a space and the era
token. -/
def yearEraProgram (w : Nat) : List DateTimeToken :=
  [.kPattern ⟨.YEAR_OF_ERA, w⟩, .kLiteral [' '], .kPattern ⟨.ERA, 2⟩]

/-- The year of era of the civil year `y`, in the words of the spec: `|y - 1|`
for `y ≤ 0` and `y` from 1 on. -/
def yearOfEraValue (y : Int) : Nat :=
  if y ≤ 0 then (y - 1).natAbs else y.natAbs

/-- An environment whose zone table holds the zone `+00:00` only. -/
def utcOnlyEnv : Env (List Char) :=
  { sampleEnv with
    locateZone := fun name => if name = "+00:00".toList then some name else none }
/-! ## The round trip through format and parse -/

/-- The program of the Joda pattern `yyyyMMdd'T'HHmmssZ`. -/
def compactDateTimeProgram : DateTimeFormatter :=
  ⟨[.kPattern ⟨.YEAR, 4⟩, .kPattern ⟨.MONTH_OF_YEAR, 2⟩, .kPattern ⟨.DAY_OF_MONTH, 2⟩,
    .kLiteral ['T'], .kPattern ⟨.HOUR_OF_DAY, 2⟩, .kPattern ⟨.MINUTE_OF_HOUR, 2⟩,
    .kPattern ⟨.SECOND_OF_MINUTE, 2⟩, .kPattern ⟨.TIMEZONE_OFFSET_ID, 1⟩], .JODA⟩

/-- The civil decomposition of 13:05:09.123 on Thursday 29 February 2024 in the
zone `+05:30`. -/
def leapDayMillisCivil : CivilTime (List Char) :=
  { leapDayCivil with subseconds := 123 }

/-- Rendering the civil fields with a compiled program and parsing the text
back: `format` followed by `parse`, an error of the compiler or of `format`
being handed on. -/
def formatThenParse {Z : Type} (env : Env Z) (compiled : Expected DateTimeFormatter)
    (civil : CivilTime Z) (maxResultSize : Nat) (timezoneBuffer : List Char) :
    Expected (DateTimeResult Z) :=
  match compiled with
  | .value formatter =>
    match format formatter civil maxResultSize none with
    | .value text => parse env formatter text timezoneBuffer
    | .unexpected status => .unexpected status
    | .thrown e => .thrown e
  | .unexpected status => .unexpected status
  | .thrown e => .thrown e
/-! ## Theorems -/

/-! ### Bytes and digits -/
theorem characterIsDigit_iff (c : Char) :
    characterIsDigit c = true ↔ 48 ≤ c.toNat ∧ c.toNat ≤ 57 := by
  unfold characterIsDigit
  simp only [Bool.and_eq_true, decide_eq_true_eq]
  constructor
  · rintro ⟨h1, h2⟩
    have h1' : ('0' : Char).val ≤ c.val := h1
    have h2' : c.val ≤ ('9' : Char).val := h2
    rw [UInt32.le_def] at h1' h2'
    exact ⟨h1', h2'⟩
  · rintro ⟨h1, h2⟩
    exact ⟨h1, h2⟩

theorem wrapInt64_eq_self (x : Int) (h0 : -9223372036854775808 ≤ x)
    (h1 : x < 9223372036854775808) : wrapInt64 x = x := by
  unfold wrapInt64; omega

theorem digit_ne_minus (c : Char) (h : characterIsDigit c = true) : c ≠ '-' := by
  rintro rfl
  exact absurd h (by decide)

theorem digit_ne_plus (c : Char) (h : characterIsDigit c = true) : c ≠ '+' := by
  rintro rfl
  exact absurd h (by decide)


theorem readDigits_two (k : Nat) (d1 d2 : Char) (rest : List Char)
    (hd1 : characterIsDigit d1 = true) (hd2 : characterIsDigit d2 = true)
    (hstop : k = 0 ∨ ∀ c ∈ rest.head?, characterIsDigit c = false) :
    readDigits (k + 2) (d1 :: d2 :: rest) 0 0 = (twoDigitValue d1 d2, 2, rest) := by
  have b1 := (characterIsDigit_iff d1).1 hd1
  have b2 := (characterIsDigit_iff d2).1 hd2
  have e0 : ('0'.toNat : Int) = 48 := by decide
  simp only [readDigits, hd1, hd2, if_true, e0]
  have w1 : wrapInt64 (0 * 10 + ((d1.toNat : Int) - 48)) = (d1.toNat : Int) - 48 := by
    rw [wrapInt64_eq_self] <;> omega
  rw [w1]
  have w2 : wrapInt64 (((d1.toNat : Int) - 48) * 10 + ((d2.toNat : Int) - 48))
      = twoDigitValue d1 d2 := by
    unfold twoDigitValue
    rw [wrapInt64_eq_self] <;> omega
  rw [w2]
  rcases hstop with rfl | hstop
  · simp [readDigits]
  · cases k with
    | zero => simp [readDigits]
    | succ k =>
      cases rest with
      | nil => simp [readDigits]
      | cons c cs =>
        have : characterIsDigit c = false := hstop c (by simp)
        simp [readDigits, this]

/-- C2: for every dialect, a year field of width 2 (YEAR, YEAR_OF_ERA or
WEEK_YEAR) that reads exactly two digits `d1 d2` with no sign (a pattern token
follows, or the next byte is not a digit) succeeds, consumes the two digits and
stores year `2000 + n` when the value `n` is at most 69 and `1900 + n`
otherwise. -/
theorem parseFromPattern_two_digit_year_pivot {Z : Type} (env : Env Z) (type : DateTimeFormatterType)
    (spec : DateTimeFormatSpecifier) (specifierNext : Bool) (st : ParseState Z)
    (d1 d2 : Char) (rest : List Char)
    (hspec : spec = .YEAR ∨ spec = .YEAR_OF_ERA ∨ spec = .WEEK_YEAR)
    (hcur : st.cur = d1 :: d2 :: rest)
    (hd1 : characterIsDigit d1 = true) (hd2 : characterIsDigit d2 = true)
    (hstop : specifierNext = true ∨ ∀ c ∈ rest.head?, characterIsDigit c = false) :
    ∃ st1, parseFromPattern env ⟨spec, 2⟩ st specifierNext type = (.ok, st1) ∧
      st1.cur = rest ∧
      st1.date.year =
        (if twoDigitValue d1 d2 ≤ 69 then 2000 + twoDigitValue d1 d2
         else 1900 + twoDigitValue d1 d2) := by
  have b1 := (characterIsDigit_iff d1).1 hd1
  have b2 := (characterIsDigit_iff d2).1 hd2
  have n1 := digit_ne_minus d1 hd1
  have n2 := digit_ne_plus d1 hd1
  have hv : 0 ≤ twoDigitValue d1 d2 ∧ twoDigitValue d1 d2 ≤ 99 := by
    unfold twoDigitValue; omega
  obtain ⟨k, hk, hk2⟩ : ∃ k, getMaxDigitConsume ⟨spec, 2⟩ specifierNext type = k + 2 ∧
      (k = 0 ∨ ∀ c ∈ rest.head?, characterIsDigit c = false) := by
    rcases hstop with h | h
    · subst h
      refine ⟨0, ?_, Or.inl rfl⟩
      rcases hspec with rfl | rfl | rfl <;> rfl
    · cases specifierNext
      · cases type
        · refine ⟨7, ?_, Or.inr h⟩
          rcases hspec with rfl | rfl | rfl <;> rfl
        · refine ⟨2, ?_, Or.inr h⟩
          rcases hspec with rfl | rfl | rfl <;> rfl
        · refine ⟨7, ?_, Or.inr h⟩
          rcases hspec with rfl | rfl | rfl <;> rfl
        · refine ⟨7, ?_, Or.inr h⟩
          rcases hspec with rfl | rfl | rfl <;> rfl
      · refine ⟨0, ?_, Or.inr h⟩
        rcases hspec with rfl | rfl | rfl <;> rfl
  have hr := readDigits_two k d1 d2 rest hd1 hd2 hk2
  generalize twoDigitValue d1 d2 = v at hv hr ⊢
  have hlen : ¬ (rest.length + 1 + 1 ≤ rest.length) := by omega
  by_cases h70 : v ≤ 69
  · have f1 : ¬ (70 ≤ v) := by omega
    have f2 : ¬ (292278994 < v + 2000 ∨ v + 2000 < -292275055) := by omega
    have f3 : ¬ (292278993 < v + 2000 ∨ v + 2000 < 1) := by omega
    have f4 : ¬ (v + 2000 < -292275054 ∨ 292278993 < v + 2000) := by omega
    have f5 : 0 ≤ v ∧ v < 70 := by omega
    have f6 : 2000 + v = v + 2000 := by omega
    rcases hspec with rfl | rfl | rfl <;>
      simp [parseFromPattern, parseNumeric, parseDigitsFrom, finishNumeric, hcur, n1, n2, hk, hr, isYearSpecifier, applyNumber,
        h70, f1, f2, f3, f4, f5, f6, hlen]
  · have f1 : 70 ≤ v := by omega
    have f2 : ¬ (292278994 < v + 1900 ∨ v + 1900 < -292275055) := by omega
    have f3 : ¬ (292278993 < v + 1900 ∨ v + 1900 < 1) := by omega
    have f4 : ¬ (v + 1900 < -292275054 ∨ 292278993 < v + 1900) := by omega
    have f6 : 1900 + v = v + 1900 := by omega
    rcases hspec with rfl | rfl | rfl <;>
      simp [parseFromPattern, parseNumeric, parseDigitsFrom, finishNumeric, hcur, n1, n2, hk, hr, isYearSpecifier, applyNumber,
        h70, f1, f2, f3, f4, f6, hlen]

/-- Witness of C2: `69` gives 2069 and `70` gives 1970. -/
theorem parseFromPattern_two_digit_year_pivot_witness :
    (∃ st1, parseFromPattern sampleEnv ⟨.YEAR, 2⟩ ⟨"69".toList, {}, timezoneBufferInit⟩ false
        .JODA = (.ok, st1) ∧ st1.cur = [] ∧ st1.date.year = 2069) ∧
    (∃ st1, parseFromPattern sampleEnv ⟨.YEAR, 2⟩ ⟨"70".toList, {}, timezoneBufferInit⟩ false
        .MYSQL = (.ok, st1) ∧ st1.cur = [] ∧ st1.date.year = 1970) :=
  ⟨parseFromPattern_two_digit_year_pivot sampleEnv .JODA .YEAR false
      ⟨"69".toList, {}, timezoneBufferInit⟩ '6' '9' [] (Or.inl rfl) rfl (by decide) (by decide)
      (Or.inr (by simp)),
   parseFromPattern_two_digit_year_pivot sampleEnv .MYSQL .YEAR false
      ⟨"70".toList, {}, timezoneBufferInit⟩ '7' '0' [] (Or.inl rfl) rfl (by decide) (by decide)
      (Or.inr (by simp))⟩

/-! ### C4: `2024extra` against a four-digit year -/


theorem yearProgram_compiled (skip : Bool) :
    buildJodaDateTimeFormatter skip "yyyy".toList = .value (yearProgram .JODA) ∧
    buildMysqlDateTimeFormatter skip "%Y".toList = .value (yearProgram .MYSQL) ∧
    buildSimpleDateTimeFormatter skip "yyyy".toList false = .value (yearProgram .STRICT_SIMPLE) ∧
    buildSimpleDateTimeFormatter skip "yyyy".toList true = .value (yearProgram .LENIENT_SIMPLE) := by
  cases skip <;> exact ⟨rfl, rfl, rfl, rfl⟩

/-- Counterexample to C4 as stated: under the strict-simple dialect `2024extra`
parses successfully against `yyyy`. -/
theorem parse_year_extra_strict_simple_succeeds :
    buildSimpleDateTimeFormatter false "yyyy".toList false = .value (yearProgram .STRICT_SIMPLE) ∧
    parse sampleEnv (yearProgram .STRICT_SIMPLE) "2024extra".toList timezoneBufferInit =
      .value ⟨⟨1704067200, 0⟩, none⟩ :=
  ⟨rfl, rfl⟩

/-- C4 (amended): against a four-digit year pattern, `2024extra` parses under
both Simple dialects, strict and lenient, to the instant of 2024-01-01 (the
text `extra` is ignored), and fails at `extra` under Joda and MySQL. -/
theorem parse_year_extra {Z : Type} (env : Env Z) (buf : List Char) (d : Int)
    (hdays : env.daysSinceEpochFromDate 2024 1 1 = .ok d) :
    parse env (yearProgram .LENIENT_SIMPLE) "2024extra".toList buf =
      .value ⟨env.fromDatetime d (env.fromTime 0 0 0 0), none⟩ ∧
    parse env (yearProgram .STRICT_SIMPLE) "2024extra".toList buf =
      .value ⟨env.fromDatetime d (env.fromTime 0 0 0 0), none⟩ ∧
    parse env (yearProgram .JODA) "2024extra".toList buf =
      .unexpected (parseFail env "2024extra".toList "extra".toList) ∧
    parse env (yearProgram .MYSQL) "2024extra".toList buf =
      .unexpected (parseFail env "2024extra".toList "extra".toList) := by
  have h1 : ∀ type, parseTokens env type [.kPattern ⟨.YEAR, 4⟩] ⟨"2024extra".toList, {}, buf⟩ =
      (.ok, ⟨"extra".toList, { year := 2024, hasYear := true }, buf⟩) := by
    intro type
    cases type <;> rfl
  refine ⟨?_, ?_, rfl, rfl⟩
  · unfold parse parseWithBuffer yearProgram
    rw [h1]
    simp [finishParse, adjustDate, validateDays, daysSinceEpochOf, hdays]
  · unfold parse parseWithBuffer yearProgram
    rw [h1]
    simp [finishParse, adjustDate, validateDays, daysSinceEpochOf, hdays]

/-- Witness of C4 (amended), in the sample environment. -/
theorem parse_year_extra_witness :
    parse sampleEnv (yearProgram .LENIENT_SIMPLE) "2024extra".toList timezoneBufferInit =
      .value ⟨⟨1704067200, 0⟩, none⟩ ∧
    parse sampleEnv (yearProgram .JODA) "2024extra".toList timezoneBufferInit =
      .unexpected ⟨some (.malformedAt "2024extra".toList "extra".toList)⟩ :=
  have h := parse_year_extra sampleEnv timezoneBufferInit 19723 rfl
  ⟨h.1, h.2.2.1⟩


/-! ### C5: every recorded day of month is checked against the final year and month -/

theorem find?_isSome_of_mem {α : Type} (p : α → Bool) (l : List α) (v : α) (hv : v ∈ l)
    (hp : p v = true) : ∃ w, l.find? p = some w := by
  cases h : l.find? p with
  | some w => exact ⟨w, rfl⟩
  | none =>
    rw [List.find?_eq_none] at h
    exact absurd hp (h v hv)

theorem adjustDate_dayOfMonthValues {Z : Type} (date : Date Z) :
    (adjustDate date).dayOfMonthValues = date.dayOfMonthValues := by
  simp only [adjustDate]
  split <;> split <;> rfl

/-- C5: when every token matches and some day-of-month value recorded during the
parse is not a valid day for the year and month the record holds after the last
token and after the era adjustment, `parse` returns an error, whatever the
resolution mode and the dialect. -/
theorem parse_rejects_invalid_day_of_month {Z : Type} (env : Env Z)
    (formatter : DateTimeFormatter) (input buf : List Char) (st : ParseState Z) (v : Int)
    (htokens : parseTokens env formatter.type formatter.tokens
      { cur := input, date := {}, timezoneBuffer := buf } = (.ok, st))
    (hv : v ∈ st.date.dayOfMonthValues)
    (hinvalid : env.isValidDate (adjustDate st.date).year (adjustDate st.date).month v = false) :
    ∃ status, parse env formatter input buf = .unexpected status := by
  unfold parse parseWithBuffer
  rw [htokens]
  simp only [finishParse]
  split
  · exact ⟨_, rfl⟩
  · have hv1 : v ∈ (adjustDate st.date).dayOfMonthValues := by
      rw [adjustDate_dayOfMonthValues]; exact hv
    obtain ⟨w, hw⟩ := find?_isSome_of_mem
      (fun v => !env.isValidDate (adjustDate st.date).year (adjustDate st.date).month v)
      _ v hv1 (by simp [hinvalid])
    have hval : ∃ status, validateDays env (adjustDate st.date) = some status := by
      simp only [validateDays, hw]
      split <;> exact ⟨_, rfl⟩
    obtain ⟨status, hs⟩ := hval
    rw [hs]
    exact ⟨status, rfl⟩

/-- Witness of C5: `2024-02-30` against `yyyy-MM-dd` fails, and day 31 with
month 4 (`04-31` against `MM-dd`) fails. -/
theorem parse_rejects_invalid_day_of_month_witness :
    (buildJodaDateTimeFormatter false "yyyy-MM-dd".toList = .value yearMonthDayProgram ∧
      ∃ status, parse sampleEnv yearMonthDayProgram "2024-02-30".toList timezoneBufferInit =
        .unexpected status) ∧
    (buildJodaDateTimeFormatter false "MM-dd".toList = .value monthDayProgram ∧
      ∃ status, parse sampleEnv monthDayProgram "04-31".toList timezoneBufferInit =
        .unexpected status) :=
  ⟨⟨rfl, parse_rejects_invalid_day_of_month sampleEnv yearMonthDayProgram "2024-02-30".toList
      timezoneBufferInit
      ⟨[], { year := 2024, hasYear := true, month := 2, day := 30, dayOfMonthValues := [30] },
        timezoneBufferInit⟩ 30 rfl (by decide) rfl⟩,
   ⟨rfl, parse_rejects_invalid_day_of_month sampleEnv monthDayProgram "04-31".toList
      timezoneBufferInit
      ⟨[], { year := 2000, hasYear := true, month := 4, day := 31, dayOfMonthValues := [31] },
        timezoneBufferInit⟩ 31 rfl (by decide) rfl⟩⟩

/-! ### C6: the three offset forms -/

theorem list_length_six {α : Type} (l : List α) (h : l.length = 6) :
    ∃ a b c d e f, l = [a, b, c, d, e, f] := by
  match l, h with
  | [a, b, c, d, e, f], _ => exact ⟨a, b, c, d, e, f, rfl⟩

/-- Counterexample to C6 as stated: `+05` does not look up the zone id that
`+0530` looks up; it looks up `+05:00`. -/
theorem parseTimezoneOffset_short_form_differs :
    (parseTimezoneOffset sampleEnv "+05".toList {} timezoneBufferInit).2.1.timezone =
      sampleEnv.locateZone "+05:00".toList ∧
    (parseTimezoneOffset sampleEnv "+0530".toList {} timezoneBufferInit).2.1.timezone =
      sampleEnv.locateZone "+05:30".toList ∧
    (parseTimezoneOffset sampleEnv "+05".toList {} timezoneBufferInit).2.1.timezone ≠
      (parseTimezoneOffset sampleEnv "+0530".toList {} timezoneBufferInit).2.1.timezone := by
  decide

/-- C6 (amended): with the scratch buffer in its shape (six bytes, `:` at index
3), `+0530` and `+05:30` both hand the zone id `+05:30` to the zone lookup,
consuming 5 and 6 bytes, while `+05` hands it `+05:00` (the two digits of
`defaultTrailingOffset`), consuming 3; each fails with `-1` when the lookup
knows no such zone. -/
theorem parseTimezoneOffset_offset_forms {Z : Type} (env : Env Z) (date : Date Z)
    (buf : List Char) (hlen : buf.length = 6) (hcolon : buf.getD 3 ' ' = ':') :
    parseTimezoneOffset env "+0530".toList date buf =
      (if (env.locateZone "+05:30".toList).isNone then -1 else 5,
        { date with timezone := env.locateZone "+05:30".toList }, "+05:30".toList) ∧
    parseTimezoneOffset env "+05:30".toList date buf =
      (if (env.locateZone "+05:30".toList).isNone then -1 else 6,
        { date with timezone := env.locateZone "+05:30".toList }, buf) ∧
    parseTimezoneOffset env "+05".toList date buf =
      (if (env.locateZone "+05:00".toList).isNone then -1 else 3,
        { date with timezone := env.locateZone "+05:00".toList }, "+05:00".toList) := by
  obtain ⟨a, b, c, d, e, f, rfl⟩ := list_length_six buf hlen
  have hd : d = ':' := hcolon
  subst hd
  refine ⟨?_, ?_, ?_⟩
  · cases h : env.locateZone ['+', '0', '5', ':', '3', '0'] <;>
      simp [parseTimezoneOffset, memcpy, h]
  · cases h : env.locateZone ['+', '0', '5', ':', '3', '0'] <;>
      simp [parseTimezoneOffset, h]
  · cases h : env.locateZone ['+', '0', '5', ':', '0', '0'] <;>
      simp [parseTimezoneOffset, memcpy, defaultTrailingOffset, h]

/-- Witness of C6 (amended), in the sample environment with the initial buffer. -/
theorem parseTimezoneOffset_offset_forms_witness :
    parseTimezoneOffset sampleEnv "+0530".toList {} timezoneBufferInit =
      (5, { timezone := some "+05:30".toList }, "+05:30".toList) ∧
    parseTimezoneOffset sampleEnv "+05:30".toList {} timezoneBufferInit =
      (6, { timezone := some "+05:30".toList }, timezoneBufferInit) ∧
    parseTimezoneOffset sampleEnv "+05".toList {} timezoneBufferInit =
      (3, { timezone := some "+05:00".toList }, "+05:00".toList) :=
  parseTimezoneOffset_offset_forms sampleEnv {} timezoneBufferInit rfl rfl

/-! ### C7, C8: `%r` and the empty pattern -/

/-- C7: compiling the MySQL pattern `%r` yields the same program as compiling
`%h:%i:%S %p`: clock-hour-of-halfday width 2, `:`, minute width 2, `:`, second
width 2, a blank, half-day. -/
theorem buildMysql_percent_r (skip : Bool) :
    buildMysqlDateTimeFormatter skip "%r".toList =
      buildMysqlDateTimeFormatter skip "%h:%i:%S %p".toList ∧
    buildMysqlDateTimeFormatter skip "%r".toList = .value ⟨mysqlTimeTokens, .MYSQL⟩ := by
  cases skip <;> exact ⟨rfl, rfl⟩

/-- C8: each of the three compilers, the Simple one with either leniency,
returns an error for the empty pattern and so builds no program. -/
theorem build_empty_pattern (skip lenient : Bool) :
    (∃ status, buildMysqlDateTimeFormatter skip [] = .unexpected status) ∧
    (∃ status, buildJodaDateTimeFormatter skip [] = .unexpected status) ∧
    (∃ status, buildSimpleDateTimeFormatter skip [] lenient = .unexpected status) := by
  cases skip <;> exact ⟨⟨_, rfl⟩, ⟨_, rfl⟩, ⟨_, rfl⟩⟩

/-! ### C9: quoted literals without a closing quote -/

/-- C9 (the code at the failing inputs): an opening quote that is the last byte
of the pattern, or whose text ends in a doubled quote, has no closing quote, yet
`numLiteralChars` does not return `-1` and both compilers build a program. -/
theorem build_unterminated_quote_accepted (skip lenient : Bool) :
    numLiteralChars [] = 0 ∧
    numLiteralChars "abc''".toList = 5 ∧
    buildJodaDateTimeFormatter skip "yyyy'".toList = .value ⟨[.kPattern ⟨.YEAR, 4⟩], .JODA⟩ ∧
    buildSimpleDateTimeFormatter skip "yyyy'".toList lenient =
      .value ⟨[.kPattern ⟨.YEAR, 4⟩], if lenient then .LENIENT_SIMPLE else .STRICT_SIMPLE⟩ ∧
    buildJodaDateTimeFormatter skip "'abc''".toList =
      .value ⟨[.kLiteral ['a'], .kLiteral ['b'], .kLiteral ['c'], .kLiteral [singleQuote]],
        .JODA⟩ := by
  cases skip <;> cases lenient <;> exact ⟨rfl, rfl, rfl, rfl, rfl⟩

/-! ### C10: the unsupported MySQL letters -/

theorem isSome_ite_some {α : Type} (c : Prop) [Decidable c] (x : α) (y : Option α)
    (h : y.isSome = true) : (if c then some x else y).isSome = true := by
  by_cases hc : c
  · rw [if_pos hc]; rfl
  · rw [if_neg hc]; exact h

theorem mysqlSpecifier_isSome (builder : DateTimeFormatterBuilder) (t : Char)
    (hn : ¬ (t = 'D' ∨ t = 'U' ∨ t = 'u' ∨ t = 'V' ∨ t = 'w' ∨ t = 'X')) :
    (mysqlSpecifier builder t).isSome = true := by
  unfold mysqlSpecifier
  repeat apply isSome_ite_some
  rw [if_neg hn]
  rfl

theorem mysqlSpecifier_eq_none (builder : DateTimeFormatterBuilder) (t : Char) :
    mysqlSpecifier builder t = none ↔ t ∈ mysqlUnsupportedLetters := by
  simp only [mysqlUnsupportedLetters, List.mem_cons, List.mem_singleton, List.not_mem_nil,
    or_false]
  constructor
  · intro h
    by_contra hn
    have := mysqlSpecifier_isSome builder t hn
    rw [h] at this
    exact absurd this (by simp)
  · intro h
    rcases h with rfl | rfl | rfl | rfl | rfl | rfl <;> rfl

theorem hasUnsupportedMysqlSpecifier_cons_of_ne (c : Char) (rest : List Char) (hc : c ≠ '%') :
    hasUnsupportedMysqlSpecifier (c :: rest) = hasUnsupportedMysqlSpecifier rest := by
  cases rest with
  | nil => rfl
  | cons t rest => simp [hasUnsupportedMysqlSpecifier, hc]

theorem hasUnsupportedMysqlSpecifier_dropWhile (cur : List Char) :
    hasUnsupportedMysqlSpecifier (cur.dropWhile (fun x => x != '%')) =
      hasUnsupportedMysqlSpecifier cur := by
  induction cur with
  | nil => rfl
  | cons c rest ih =>
    by_cases hc : c = '%'
    · subst hc
      simp [List.dropWhile]
    · have hb : (c != '%') = true := by simp [hc]
      rw [hasUnsupportedMysqlSpecifier_cons_of_ne c rest hc]
      simp only [List.dropWhile, hb]
      exact ih

theorem buildMysqlLoop_unexpected_iff (skip : Bool) (fuel : Nat) :
    ∀ (cur : List Char) (builder : DateTimeFormatterBuilder), cur.length ≤ fuel →
      ((∃ status, buildMysqlLoop skip fuel cur builder = .unexpected status) ↔
        hasUnsupportedMysqlSpecifier cur = true) := by
  induction fuel with
  | zero =>
    intro cur builder hlen
    have : cur = [] := List.length_eq_zero.mp (Nat.le_zero.mp hlen)
    subst this
    simp [buildMysqlLoop, hasUnsupportedMysqlSpecifier]
  | succ fuel ih =>
    intro cur builder hlen
    match cur, hlen with
    | [], _ => simp [buildMysqlLoop, hasUnsupportedMysqlSpecifier]
    | [c], _ =>
      by_cases hc : c = '%'
      · simp [buildMysqlLoop, hasUnsupportedMysqlSpecifier, hc]
      · have hb : (c != '%') = true := by simp [hc]
        have hspan : List.span (fun x => x != '%') [c] = ([c], []) := by
          simp [List.span_eq_take_drop, List.takeWhile, List.dropWhile, hb]
        have hnil : ∀ b, buildMysqlLoop skip fuel [] b = .value (build b .MYSQL) := by
          intro b
          cases fuel <;> rfl
        simp [buildMysqlLoop, hasUnsupportedMysqlSpecifier, hc, hspan, hnil]
    | c :: t :: rest, hlen =>
      by_cases hc : c = '%'
      · subst hc
        cases hs : mysqlSpecifier builder t with
        | none =>
          have ht := (mysqlSpecifier_eq_none builder t).1 hs
          simp only [buildMysqlLoop, hs, hasUnsupportedMysqlSpecifier, ht, if_true]
          cases skip <;> simp
        | some builder1 =>
          have ht : ¬ t ∈ mysqlUnsupportedLetters := by
            intro hmem
            rw [(mysqlSpecifier_eq_none builder t).2 hmem] at hs
            exact absurd hs (by simp)
          have hl : rest.length ≤ fuel := by
            simp only [List.length_cons] at hlen
            omega
          simp only [buildMysqlLoop, hs, hasUnsupportedMysqlSpecifier, ht, if_true, if_false]
          exact ih rest builder1 hl
      · have hb : (c != '%') = true := by simp [hc]
        have hspan : List.span (fun x => x != '%') (c :: t :: rest) =
            (c :: (t :: rest).takeWhile (fun x => x != '%'),
              (t :: rest).dropWhile (fun x => x != '%')) := by
          rw [List.span_eq_take_drop, List.takeWhile_cons, List.dropWhile_cons]
          simp only [hb, if_true]
        have hl : ((t :: rest).dropWhile (fun x => x != '%')).length ≤ fuel := by
          have := (List.dropWhile_sublist (fun x => x != '%') (l := t :: rest)).length_le
          simp only [List.length_cons] at hlen this
          omega
        rw [hasUnsupportedMysqlSpecifier_cons_of_ne c (t :: rest) hc,
          ← hasUnsupportedMysqlSpecifier_dropWhile (t :: rest)]
        simp only [buildMysqlLoop, hc, if_false, hspan]
        exact ih _ _ hl

/-- C10: for a non-empty MySQL pattern, `buildMysqlDateTimeFormatter` returns an
error exactly when, scanning left to right, some `%` at a specifier position is
immediately followed by one of the letters `D U u V w X`. -/
theorem buildMysql_error_iff (skip : Bool) (format : List Char) (hne : format ≠ []) :
    (∃ status, buildMysqlDateTimeFormatter skip format = .unexpected status) ↔
      hasUnsupportedMysqlSpecifier format = true := by
  unfold buildMysqlDateTimeFormatter
  have hempty : format.isEmpty = false := by
    cases format with
    | nil => exact absurd rfl hne
    | cons c rest => rfl
  simp only [hempty, Bool.false_eq_true, if_false]
  exact buildMysqlLoop_unexpected_iff skip format.length format [] (Nat.le_refl _)

/-- Witness of C10: `%D` is refused, and the `D` of `%%D` is not at a specifier
position. -/
theorem buildMysql_error_iff_witness :
    ("%D".toList ≠ [] ∧
      ((∃ status, buildMysqlDateTimeFormatter false "%D".toList = .unexpected status) ↔
        hasUnsupportedMysqlSpecifier "%D".toList = true)) ∧
    ("%%D".toList ≠ [] ∧
      ((∃ status, buildMysqlDateTimeFormatter false "%%D".toList = .unexpected status) ↔
        hasUnsupportedMysqlSpecifier "%%D".toList = true)) :=
  ⟨⟨by decide, buildMysql_error_iff false "%D".toList (by decide)⟩,
   ⟨by decide, buildMysql_error_iff false "%%D".toList (by decide)⟩⟩

/-! ### C3: trailing input -/

theorem startsWith_append (cur t s : List Char) (h : s.length ≤ cur.length) :
    startsWith (cur ++ t) s = startsWith cur s := by
  unfold startsWith
  rw [List.take_append_of_le_length h]

theorem startsWith_length (cur s : List Char) (h : startsWith cur s = true) :
    s.length ≤ cur.length := by
  unfold startsWith at h
  have h1 : cur.take s.length = s := by simpa using h
  have h2 := congrArg List.length h1
  rw [List.length_take] at h2
  omega

theorem getD_append_left (cur t : List Char) (i : Nat) (d : Char) (h : i < cur.length) :
    (cur ++ t).getD i d = cur.getD i d := by
  simp [List.getD, List.getElem?_append_left h]

theorem parseEra_append {Z : Type} (cur t : List Char) (date date1 : Date Z) (size : Int)
    (h : parseEra (cur ++ t) date = (size, date1)) (hs : size ≠ -1)
    (hn : size ≤ cur.length) : parseEra cur date = (size, date1) := by
  have hlen : 2 ≤ cur.length := by
    unfold parseEra at h
    split at h
    · split at h
      · simp only [Prod.mk.injEq] at h
        omega
      · split at h
        · simp only [Prod.mk.injEq] at h
          omega
        · simp only [Prod.mk.injEq] at h
          omega
    · simp only [Prod.mk.injEq] at h
      omega
  have hlen2 : 2 ≤ (cur ++ t).length := by
    rw [List.length_append]; omega
  rw [← h]
  simp only [parseEra, hlen, hlen2, if_true]
  rw [startsWith_append cur t "AD".toList hlen, startsWith_append cur t "ad".toList hlen,
    startsWith_append cur t "BC".toList hlen, startsWith_append cur t "bc".toList hlen]


theorem parseHalfDayOfDay_append {Z : Type} (cur t : List Char) (date date1 : Date Z)
    (size : Int) (h : parseHalfDayOfDay (cur ++ t) date = (size, date1)) (hs : size ≠ -1)
    (hn : size ≤ cur.length) : parseHalfDayOfDay cur date = (size, date1) := by
  have hlen : 2 ≤ cur.length := by
    unfold parseHalfDayOfDay at h
    split at h
    · split at h
      · simp only [Prod.mk.injEq] at h
        omega
      · split at h
        · simp only [Prod.mk.injEq] at h
          omega
        · simp only [Prod.mk.injEq] at h
          omega
    · simp only [Prod.mk.injEq] at h
      omega
  have hlen2 : 2 ≤ (cur ++ t).length := by
    rw [List.length_append]; omega
  rw [← h]
  simp only [parseHalfDayOfDay, hlen, hlen2, if_true]
  rw [startsWith_append cur t "AM".toList hlen, startsWith_append cur t "am".toList hlen,
    startsWith_append cur t "PM".toList hlen, startsWith_append cur t "pm".toList hlen]

theorem parseTimezone_append {Z : Type} (env : Env Z) (cur t : List Char)
    (date date1 : Date Z) (size : Int)
    (h : parseTimezone env (cur ++ t) date = (size, date1)) (hs : size ≠ -1)
    (hn : size ≤ cur.length) : parseTimezone env cur date = (size, date1) := by
  unfold parseTimezone at h
  split at h
  · split at h
    · split at h
      · have hlen : 3 ≤ cur.length := by
          simp only [Prod.mk.injEq] at h
          omega
        have hlen2 : 3 ≤ (cur ++ t).length := by
          rw [List.length_append]; omega
        rename_i zone hz
        rw [List.take_append_of_le_length hlen] at hz
        rw [← h]
        have hpos : 0 < cur.length := by omega
        simp only [parseTimezone, hlen, hpos, if_true, hz]
      · simp only [Prod.mk.injEq] at h
        omega
    · split at h
      · rename_i h3 h2
        have hsz : size = 2 := by
          simp only [Prod.mk.injEq] at h
          omega
        have ht : t = [] := by
          have := h2.1
          rw [List.length_append] at this
          have hl : t.length = 0 := by omega
          exact List.length_eq_zero.mp hl
        subst ht
        rw [List.append_nil] at h2 h3
        rw [← h]
        have hpos : 0 < cur.length := by omega
        simp only [parseTimezone, hpos, h3, h2, if_true, if_false]
        simp
      · simp only [Prod.mk.injEq] at h
        omega
  · simp only [Prod.mk.injEq] at h
    omega


theorem startsWith_drop_append (cur t s : List Char) (k : Nat)
    (h : s.length + k ≤ cur.length) :
    startsWith ((cur ++ t).drop k) s = startsWith (cur.drop k) s := by
  have hk : k ≤ cur.length := by omega
  rw [List.drop_append_of_le_length hk]
  apply startsWith_append
  rw [List.length_drop]
  omega

theorem parseMonthText_append {Z : Type} (cur t : List Char) (date date1 : Date Z)
    (size : Int) (h : parseMonthText (cur ++ t) date = (size, date1)) (hs : size ≠ -1)
    (hn : size ≤ cur.length) : parseMonthText cur date = (size, date1) := by
  unfold parseMonthText at h
  split at h
  · split at h
    · rename_i rest value hlook
      split at h
      · rename_i hcond
        have hsz : size = (rest.length : Int) + 3 := by
          simp only [Prod.mk.injEq] at h
          omega
        have hlen : rest.length + 3 ≤ cur.length := by omega
        have hlen3 : 3 ≤ cur.length := by omega
        rw [List.take_append_of_le_length hlen3] at hlook
        rw [startsWith_drop_append cur t rest 3 hlen] at hcond
        rw [← h]
        simp only [parseMonthText, hlen3, if_true, hlook, hlen, hcond.2, and_self]
      · rename_i hcond
        have hsz : size = 3 := by
          simp only [Prod.mk.injEq] at h
          omega
        have hlen3 : 3 ≤ cur.length := by omega
        rw [List.take_append_of_le_length hlen3] at hlook
        have hcond1 : ¬ (rest.length + 3 ≤ cur.length ∧ startsWith (cur.drop 3) rest = true) := by
          rintro ⟨h1, h2⟩
          apply hcond
          constructor
          · rw [List.length_append]; omega
          · rw [startsWith_drop_append cur t rest 3 h1]; exact h2
        rw [← h]
        simp only [parseMonthText, hlen3, if_true, hlook, hcond1, if_false]
    · simp only [Prod.mk.injEq] at h
      omega
  · simp only [Prod.mk.injEq] at h
    omega

theorem parseDayOfWeekText_append {Z : Type} (cur t : List Char) (date date1 : Date Z)
    (size : Int) (h : parseDayOfWeekText (cur ++ t) date = (size, date1)) (hs : size ≠ -1)
    (hn : size ≤ cur.length) : parseDayOfWeekText cur date = (size, date1) := by
  unfold parseDayOfWeekText at h
  split at h
  · split at h
    · rename_i rest value hlook
      split at h
      · rename_i hcond
        have hsz : size = (rest.length : Int) + 3 := by
          simp only [Prod.mk.injEq] at h
          omega
        have hlen : rest.length + 3 ≤ cur.length := by omega
        have hlen3 : 3 ≤ cur.length := by omega
        rw [List.take_append_of_le_length hlen3] at hlook
        rw [startsWith_drop_append cur t rest 3 hlen] at hcond
        rw [← h]
        simp only [parseDayOfWeekText, hlen3, if_true, hlook, hlen, hcond.2, and_self]
      · rename_i hcond
        have hsz : size = 3 := by
          simp only [Prod.mk.injEq] at h
          omega
        have hlen3 : 3 ≤ cur.length := by omega
        rw [List.take_append_of_le_length hlen3] at hlook
        have hcond1 : ¬ (rest.length + 3 ≤ cur.length ∧ startsWith (cur.drop 3) rest = true) := by
          rintro ⟨h1, h2⟩
          apply hcond
          constructor
          · rw [List.length_append]; omega
          · rw [startsWith_drop_append cur t rest 3 h1]; exact h2
        rw [← h]
        simp only [parseDayOfWeekText, hlen3, if_true, hlook, hcond1, if_false]
    · simp only [Prod.mk.injEq] at h
      omega
  · simp only [Prod.mk.injEq] at h
    omega

theorem memcpy_take (dst : List Char) (off : Nat) (src : List Char) (n : Nat) :
    memcpy dst off (src.take n) n = memcpy dst off src n := by
  induction n generalizing dst off src with
  | zero => simp [memcpy]
  | succ n ih =>
    cases src with
    | nil => rfl
    | cons c cs => simp only [List.take_succ_cons, memcpy, ih]

theorem parseTimezoneOffset_size {Z : Type} (env : Env Z) (cur : List Char)
    (date date1 : Date Z) (buf buf1 : List Char) (size : Int)
    (h : parseTimezoneOffset env cur date buf = (size, date1, buf1)) :
    size = -1 ∨ (1 ≤ size ∧ size ≤ 6) := by
  unfold parseTimezoneOffset at h
  repeat' split at h
  all_goals try dsimp only at h
  all_goals try split at h
  all_goals simp only [Prod.mk.injEq] at h
  all_goals omega

theorem parseTimezoneOffset_append {Z : Type} (env : Env Z) (cur t : List Char)
    (date date1 : Date Z) (buf buf1 : List Char) (size : Int)
    (h : parseTimezoneOffset env (cur ++ t) date buf = (size, date1, buf1)) (hs : size ≠ -1)
    (hn : size ≤ cur.length) : parseTimezoneOffset env cur date buf = (size, date1, buf1) := by
  have hsize := parseTimezoneOffset_size env (cur ++ t) date date1 buf buf1 size h
  have hpos : 0 < cur.length := by omega
  have hlen := List.length_append cur t
  have e0 : (cur ++ t).getD 0 ' ' = cur.getD 0 ' ' := getD_append_left cur t 0 ' ' hpos
  have e3 : 3 < cur.length → (cur ++ t).getD 3 ' ' = cur.getD 3 ' ' :=
    fun h3 => getD_append_left cur t 3 ' ' h3
  have et : ∀ k, k ≤ cur.length → (cur ++ t).take k = cur.take k :=
    fun k hk => List.take_append_of_le_length hk
  have es : ∀ s : List Char, s.length ≤ cur.length → startsWith (cur ++ t) s = startsWith cur s :=
    fun s hs => startsWith_append cur t s hs
  have em : 5 ≤ cur.length → ∀ d, memcpy d 4 ((cur ++ t).drop 3) 2 = memcpy d 4 (cur.drop 3) 2 := by
    intro h5 d
    rw [← memcpy_take d 4 ((cur ++ t).drop 3), ← memcpy_take d 4 (cur.drop 3)]
    congr 1
    rw [List.drop_append_of_le_length (by omega), List.take_append_of_le_length]
    rw [List.length_drop]; omega
  have em0 : 3 ≤ cur.length → ∀ d, memcpy d 0 (cur ++ t) 3 = memcpy d 0 cur 3 := by
    intro h3 d
    rw [← memcpy_take d 0 (cur ++ t), ← memcpy_take d 0 cur, et 3 h3]
  unfold parseTimezoneOffset at h
  rw [e0] at h
  unfold parseTimezoneOffset
  rw [if_pos hpos]
  split at h
  · split at h
    · rename_i hsign
      rw [if_pos hsign]
      split at h
      · -- six bytes with a colon
        rename_i h6
        dsimp only at h
        split at h
        · simp only [Prod.mk.injEq] at h; omega
        · rename_i hz
          have hsz : size = 6 := by simp only [Prod.mk.injEq] at h; omega
          have hl : 6 ≤ cur.length := by omega
          rw [e3 (by omega)] at h6
          rw [et 6 hl] at h hz
          rw [if_pos ⟨hl, h6.2⟩]
          dsimp only
          rw [if_neg hz]
          exact h
      · rename_i h6
        split at h
        · rename_i h5
          dsimp only at h
          split at h
          · simp only [Prod.mk.injEq] at h; omega
          · rename_i hz
            have hsz : size = 5 := by simp only [Prod.mk.injEq] at h; omega
            have hl : 5 ≤ cur.length := by omega
            rw [e3 (by omega)] at h5 h6
            rw [em hl, em0 (by omega)] at h hz
            have h6' : ¬ (6 ≤ cur.length ∧ cur.getD 3 ' ' = ':') := fun hh => h5.2 hh.2
            rw [if_neg h6', if_pos ⟨hl, h5.2⟩]
            dsimp only
            rw [if_neg hz]
            exact h
        · rename_i h5
          split at h
          · rename_i h3
            dsimp only at h
            split at h
            · simp only [Prod.mk.injEq] at h; omega
            · rename_i hz
              have hsz : size = 3 := by simp only [Prod.mk.injEq] at h; omega
              have hl : 3 ≤ cur.length := by omega
              rw [em0 hl] at h hz
              have h6' : ¬ (6 ≤ cur.length ∧ cur.getD 3 ' ' = ':') := by
                rintro ⟨a, b⟩
                exact h6 ⟨by omega, by rw [e3 (by omega)]; exact b⟩
              have h5' : ¬ (5 ≤ cur.length ∧ cur.getD 3 ' ' ≠ ':') := by
                rintro ⟨a, b⟩
                exact h5 ⟨by omega, by rw [e3 (by omega)]; exact b⟩
              rw [if_neg h6', if_neg h5', if_pos hl]
              dsimp only
              rw [if_neg hz]
              exact h
          · simp only [Prod.mk.injEq] at h; omega
    · rename_i hsign
      rw [if_neg hsign]
      split at h
      · rename_i hZ
        rw [if_pos hZ]
        exact h
      · rename_i hZ
        rw [if_neg hZ]
        split at h
        · rename_i h3
          split at h
          · rename_i hutc
            have hsz : size = 3 := by simp only [Prod.mk.injEq] at h; omega
            have hl : 3 ≤ cur.length := by omega
            rw [es "UTC".toList hl, es "UCT".toList hl] at hutc
            rw [if_pos hl, if_pos hutc]
            exact h
          · rename_i hutc
            split at h
            · rename_i hgmt
              dsimp only at h
              have hl : 3 ≤ cur.length := by
                split at h <;> simp only [Prod.mk.injEq] at h <;> omega
              rw [es "UTC".toList hl, es "UCT".toList hl] at hutc
              rw [es "GMT".toList hl] at hgmt
              rw [if_pos hl, if_neg hutc, if_pos hgmt]
              dsimp only
              split at h
              · rename_i h4
                have hsz : size = 4 := by simp only [Prod.mk.injEq] at h; omega
                rw [e3 (by omega)] at h4
                rw [if_pos ⟨by omega, h4.2⟩]
                exact h
              · rename_i h4
                have h4' : ¬ (4 ≤ cur.length ∧ cur.getD 3 ' ' = '0') := by
                  rintro ⟨a, b⟩
                  exact h4 ⟨by omega, by rw [e3 (by omega)]; exact b⟩
                rw [if_neg h4']
                exact h
            · simp only [Prod.mk.injEq] at h; omega
        · simp only [Prod.mk.injEq] at h; omega
  · simp only [Prod.mk.injEq] at h; omega
theorem find?_of_imp {α : Type} (l : List α) (p q : α → Bool) (a : α)
    (h : l.find? p = some a) (hq : q a = true) (himp : ∀ x, q x = true → p x = true) :
    l.find? q = some a := by
  induction l with
  | nil => simp at h
  | cons x xs ih =>
    rw [List.find?_cons] at h ⊢
    cases hpx : p x with
    | true =>
      rw [hpx] at h
      simp only [Option.some.injEq] at h
      subst h
      rw [hq]
    | false =>
      rw [hpx] at h
      have hqx : q x = false := by
        cases hqx : q x with
        | false => rfl
        | true => rw [himp x hqx] at hpx; exact absurd hpx (by simp)
      rw [hqx]
      exact ih h

theorem find?_none_of_imp {α : Type} (l : List α) (p q : α → Bool)
    (h : l.find? p = none) (himp : ∀ x, q x = true → p x = true) :
    l.find? q = none := by
  rw [List.find?_eq_none] at h ⊢
  intro x hx hqx
  exact h x hx (himp x hqx)

theorem parseTimezoneName_eq {Z : Type} (env : Env Z) (cur : List Char) (date : Date Z) :
    parseTimezoneName env cur date =
      if 0 < cur.length then
        match withPrefixMatch (getTimeZoneNameMappings env.timeZoneNames)
            (cur.takeWhile (fun c => c != '/')) (cur.dropWhile (fun c => c != '/')) with
        | some suffixName =>
          locateMatched env date
            (cur.take ((cur.takeWhile (fun c => c != '/')).length + 1 + suffixName.length))
            ((cur.takeWhile (fun c => c != '/')).length + 1 + suffixName.length)
        | none =>
          match withoutPrefixMatch (getTimeZoneNameMappings env.timeZoneNames)
              (cur.takeWhile (fun c => c != '/')) with
          | some timeZoneName => locateMatched env date timeZoneName timeZoneName.length
          | none => (-1, date)
      else (-1, date) := by
  unfold parseTimezoneName withPrefixMatch withoutPrefixMatch locateMatched
  simp only [List.span_eq_take_drop]

theorem locateMatched_size {Z : Type} (env : Env Z) (date date1 : Date Z) (name : List Char)
    (n : Nat) (size : Int) (h : locateMatched env date name n = (size, date1))
    (hs : size ≠ -1) : size = n := by
  unfold locateMatched at h
  split at h
  · simp only [Prod.mk.injEq] at h; omega
  · simp only [Prod.mk.injEq] at h; omega

theorem takeWhile_append_dropWhile_length (cur : List Char) (p : Char → Bool) :
    (cur.takeWhile p).length + (cur.dropWhile p).length = cur.length := by
  have := congrArg List.length (List.takeWhile_append_dropWhile p cur)
  rw [List.length_append] at this
  exact this

theorem startsWith_mono (cur t s : List Char) (h : startsWith cur s = true) :
    startsWith (cur ++ t) s = true := by
  rw [startsWith_append cur t s (startsWith_length cur s h)]
  exact h

theorem withPrefixMatch_append (mappings : TimeZoneNameMappings)
    (pfx after t : List Char) (c : Char) :
    (∀ s, withPrefixMatch mappings pfx (c :: (after ++ t)) = some s →
      s.length ≤ after.length → withPrefixMatch mappings pfx (c :: after) = some s) ∧
    (withPrefixMatch mappings pfx (c :: (after ++ t)) = none →
      withPrefixMatch mappings pfx (c :: after) = none) := by
  have himp : ∀ x : List Char,
      (decide (x.length ≤ after.length) && startsWith after x) = true →
      (decide (x.length ≤ (after ++ t).length) && startsWith (after ++ t) x) = true := by
    intro x hx
    simp only [Bool.and_eq_true, decide_eq_true_eq] at hx ⊢
    refine ⟨?_, startsWith_mono after t x hx.2⟩
    rw [List.length_append]; omega
  unfold withPrefixMatch
  cases hl : mappings.timeZoneNamePrefixMap.lookup pfx with
  | none => simp
  | some suffixes =>
    simp only
    constructor
    · intro s hs hlen
      apply find?_of_imp suffixes _ _ s hs _ himp
      have hs2 := List.find?_some hs
      simp only [Bool.and_eq_true, decide_eq_true_eq] at hs2 ⊢
      refine ⟨hlen, ?_⟩
      rw [← startsWith_append after t s hlen]
      exact hs2.2
    · intro hnone
      exact find?_none_of_imp suffixes _ _ hnone himp

theorem withoutPrefixMatch_append (mappings : TimeZoneNameMappings)
    (cur t name : List Char)
    (h : withoutPrefixMatch mappings (cur ++ t) = some name)
    (hlen : name.length ≤ cur.length) :
    withoutPrefixMatch mappings cur = some name := by
  unfold withoutPrefixMatch at h ⊢
  apply find?_of_imp _ _ _ name h
  · have hs2 := List.find?_some h
    simp only [Bool.and_eq_true, decide_eq_true_eq] at hs2 ⊢
    refine ⟨hlen, ?_⟩
    rw [← startsWith_append cur t name hlen]
    exact hs2.2
  · intro x hx
    simp only [Bool.and_eq_true, decide_eq_true_eq] at hx ⊢
    refine ⟨?_, startsWith_mono cur t x hx.2⟩
    rw [List.length_append]; omega

theorem parseTimezoneName_append {Z : Type} (env : Env Z) (cur t : List Char)
    (date date1 : Date Z) (size : Int) (hzone : env.locateZone [] = none)
    (h : parseTimezoneName env (cur ++ t) date = (size, date1)) (hs : size ≠ -1)
    (hn : size ≤ cur.length) : parseTimezoneName env cur date = (size, date1) := by
  rw [parseTimezoneName_eq] at h ⊢
  have hpos2 : 0 < (cur ++ t).length := by
    by_contra hc
    rw [if_neg hc] at h
    simp only [Prod.mk.injEq] at h
    omega
  rw [if_pos hpos2] at h
  have hsum := takeWhile_append_dropWhile_length cur (fun c => c != '/')
  have hcat := List.takeWhile_append_dropWhile (fun c => c != '/') cur
  cases hdw : cur.dropWhile (fun c => c != '/') with
  | nil =>
    rw [hdw] at hsum hcat
    rw [List.append_nil] at hcat
    have htw2 : (cur ++ t).takeWhile (fun c => c != '/') =
        cur ++ t.takeWhile (fun c => c != '/') := by
      rw [List.takeWhile_append, hcat]
      simp
    have hdw2 : (cur ++ t).dropWhile (fun c => c != '/') =
        t.dropWhile (fun c => c != '/') := by
      rw [List.dropWhile_append, hdw]
      simp
    rw [htw2, hdw2] at h
    split at h
    · have := locateMatched_size env date date1 _ _ size h hs
      rw [this] at hn
      simp only [List.length_append] at hn
      omega
    · split at h
      · rename_i name hname
        have hsz := locateMatched_size env date date1 _ _ size h hs
        have hlen : name.length ≤ cur.length := by omega
        have hname1 := withoutPrefixMatch_append _ cur _ name hname hlen
        have hpos : 0 < cur.length := by
          by_contra hc
          have hc0 : name = [] := List.length_eq_zero.mp (by omega)
          subst hc0
          unfold locateMatched at h
          rw [hzone] at h
          simp only [Option.isNone_none, if_true, Prod.mk.injEq] at h
          omega
        rw [if_pos hpos, hcat]
        have hwp : withPrefixMatch (getTimeZoneNameMappings env.timeZoneNames) cur [] = none := rfl
        rw [hwp]
        simp only
        rw [hname1]
        exact h
      · simp only [Prod.mk.injEq] at h; omega
  | cons c after =>
    rw [hdw] at hsum hcat
    have hpos : 0 < cur.length := by
      simp only [List.length_cons] at hsum
      omega
    rw [if_pos hpos]
    have htw2 : (cur ++ t).takeWhile (fun c => c != '/') =
        cur.takeWhile (fun c => c != '/') := by
      rw [List.takeWhile_append]
      have : ¬ ((cur.takeWhile (fun c => c != '/')).length = cur.length) := by
        simp only [List.length_cons] at hsum
        omega
      rw [if_neg this]
    have hdw2 : (cur ++ t).dropWhile (fun c => c != '/') = c :: (after ++ t) := by
      rw [List.dropWhile_append, hdw]
      simp
    rw [htw2, hdw2] at h
    have hwp := withPrefixMatch_append (getTimeZoneNameMappings env.timeZoneNames)
      (cur.takeWhile (fun c => c != '/')) after t c
    split at h
    · rename_i s hsome
      have hsz := locateMatched_size env date date1 _ _ size h hs
      have hlen : s.length ≤ after.length := by
        simp only [List.length_cons] at hsum
        rw [hsz] at hn
        omega
      rw [hwp.1 s hsome hlen]
      simp only
      have htake : (cur ++ t).take ((cur.takeWhile (fun c => c != '/')).length + 1 + s.length) =
          cur.take ((cur.takeWhile (fun c => c != '/')).length + 1 + s.length) := by
        apply List.take_append_of_le_length
        simp only [List.length_cons] at hsum
        omega
      rw [htake] at h
      exact h
    · rename_i hnone
      rw [hwp.2 hnone]
      simp only
      exact h

theorem readDigits_consumed (max : Nat) :
    ∀ (cur : List Char) (number : Int) (count : Nat) (num : Int) (cnt : Nat) (rest : List Char),
      readDigits max cur number count = (num, cnt, rest) →
      count ≤ cnt ∧ rest = cur.drop (cnt - count) ∧ cnt - count ≤ cur.length ∧
        cnt - count ≤ max := by
  induction max with
  | zero =>
    intro cur number count num cnt rest h
    simp only [readDigits, Prod.mk.injEq] at h
    obtain ⟨_, h2, h3⟩ := h
    subst h2 h3
    simp
  | succ max ih =>
    intro cur number count num cnt rest h
    cases cur with
    | nil =>
      simp only [readDigits, Prod.mk.injEq] at h
      obtain ⟨_, h2, h3⟩ := h
      subst h2 h3
      simp
    | cons c cs =>
      simp only [readDigits] at h
      split at h
      · obtain ⟨h1, h2, h3, h4⟩ := ih cs _ _ num cnt rest h
        have e : cnt - count = (cnt - (count + 1)) + 1 := by omega
        refine ⟨by omega, ?_, ?_, by omega⟩
        · rw [e, List.drop_succ_cons]; exact h2
        · simp only [List.length_cons]; omega
      · simp only [Prod.mk.injEq] at h
        obtain ⟨_, h2, h3⟩ := h
        subst h2 h3
        simp

theorem readDigits_append (max : Nat) :
    ∀ (cur t : List Char) (number : Int) (count : Nat) (num : Int) (cnt : Nat)
      (rest : List Char),
      readDigits max (cur ++ t) number count = (num, cnt, rest) →
      cnt - count ≤ cur.length →
      readDigits max cur number count = (num, cnt, cur.drop (cnt - count)) := by
  induction max with
  | zero =>
    intro cur t number count num cnt rest h _
    simp only [readDigits, Prod.mk.injEq] at h
    obtain ⟨h1, h2, _⟩ := h
    subst h1 h2
    simp [readDigits]
  | succ max ih =>
    intro cur t number count num cnt rest h hle
    have hc := readDigits_consumed (max + 1) (cur ++ t) number count num cnt rest h
    cases cur with
    | nil =>
      have hcnt : cnt = count := by
        simp only [List.length_nil] at hle
        omega
      subst hcnt
      cases t with
      | nil =>
        simp only [List.append_nil, readDigits, Prod.mk.injEq] at h
        simp [readDigits, h.1]
      | cons c cs =>
        simp only [List.nil_append, readDigits] at h
        split at h
        · have := readDigits_consumed max cs _ _ num cnt rest h
          omega
        · simp only [Prod.mk.injEq] at h
          simp [readDigits, h.1]
    | cons c cs =>
      simp only [List.cons_append, readDigits] at h
      simp only [readDigits]
      split at h
      · rename_i hd
        rw [if_pos hd]
        have h1 := readDigits_consumed max (cs ++ t) _ _ num cnt rest h
        have e : cnt - count = (cnt - (count + 1)) + 1 := by omega
        rw [e, List.drop_succ_cons]
        apply ih cs t _ _ num cnt rest h
        simp only [List.length_cons] at hle
        omega
      · rename_i hd
        rw [if_neg hd]
        simp only [Prod.mk.injEq] at h
        obtain ⟨h1, h2, _⟩ := h
        subst h1 h2
        simp

theorem finishNumeric_append {Z : Type} (p : FormatPattern) (type : DateTimeFormatterType)
    (st st' st1 : ParseState Z) (neg : Bool) (s t : List Char) (k : Nat) (v : Int)
    (hdate : st'.date = st.date) (hbuf : st'.timezoneBuffer = st.timezoneBuffer)
    (hk : k ≤ s.length)
    (h : finishNumeric p type st neg (s ++ t) ((s ++ t).drop k) v = (.ok, st1)) :
    finishNumeric p type st' neg s (s.drop k) v =
      (.ok, ⟨s.drop k, st1.date, st1.timezoneBuffer⟩) := by
  unfold finishNumeric at h ⊢
  have hl1 : ((s ++ t).drop k).length = (s ++ t).length - k := List.length_drop _ _
  have hl2 : (s.drop k).length = s.length - k := List.length_drop _ _
  have hl3 : (s ++ t).length = s.length + t.length := List.length_append _ _
  split at h
  · simp only [Prod.mk.injEq, reduceCtorEq, false_and] at h
  · rename_i hchk
    have hchk' : ¬ (s.length ≤ (s.drop k).length) := by omega
    rw [if_neg hchk', hdate, hbuf]
    dsimp only at h ⊢
    rcases ha : applyNumber p type (if neg = true then wrapInt64 (v * -1) else v) st.date
      with ⟨code, date1⟩
    rw [ha] at h
    simp only [Prod.mk.injEq] at h
    obtain ⟨h1, h2⟩ := h
    subst h1 h2
    rfl

theorem finishNumeric_cur {Z : Type} (p : FormatPattern) (type : DateTimeFormatterType)
    (st st1 : ParseState Z) (neg : Bool) (s cur : List Char) (v : Int)
    (h : finishNumeric p type st neg s cur v = (.ok, st1)) :
    st1.cur = cur ∧ cur.length < s.length := by
  unfold finishNumeric at h
  split at h
  · simp only [Prod.mk.injEq, reduceCtorEq, false_and] at h
  · rename_i hchk
    dsimp only at h
    rcases ha : applyNumber p type (if neg = true then wrapInt64 (v * -1) else v) st.date
      with ⟨code, date1⟩
    rw [ha] at h
    simp only [Prod.mk.injEq] at h
    obtain ⟨h1, h2⟩ := h
    subst h2
    exact ⟨rfl, by omega⟩

theorem parseDigitsFrom_append {Z : Type} (env : Env Z) (p : FormatPattern)
    (st st' st1 : ParseState Z) (next : Bool) (type : DateTimeFormatterType) (neg : Bool)
    (s t : List Char) (hdate : st'.date = st.date)
    (hbuf : st'.timezoneBuffer = st.timezoneBuffer)
    (h : parseDigitsFrom env p st next type neg (s ++ t) = (.ok, st1)) :
    ∃ k, 1 ≤ k ∧ k ≤ (s ++ t).length ∧ st1.cur = (s ++ t).drop k ∧
      (k ≤ s.length → parseDigitsFrom env p st' next type neg s =
        (.ok, ⟨s.drop k, st1.date, st1.timezoneBuffer⟩)) := by
  rcases hr : readDigits (getMaxDigitConsume p next type) (s ++ t) 0 0 with ⟨num, cnt, rest⟩
  have hc := readDigits_consumed _ _ _ _ _ _ _ hr
  simp only [Nat.sub_zero] at hc
  obtain ⟨-, hrest, hcl, -⟩ := hc
  have hlen1 : ((s ++ t).drop cnt).length = (s ++ t).length - cnt := List.length_drop _ _
  subst hrest
  simp only [parseDigitsFrom, hr] at h
  have key : ∀ v, finishNumeric p type st neg (s ++ t) ((s ++ t).drop cnt) v = (.ok, st1) →
      1 ≤ cnt ∧ st1.cur = (s ++ t).drop cnt ∧
      (cnt ≤ s.length → finishNumeric p type st' neg s (s.drop cnt) v =
        (.ok, ⟨s.drop cnt, st1.date, st1.timezoneBuffer⟩)) := by
    intro v hv
    have h1 := finishNumeric_cur p type st st1 neg _ _ v hv
    refine ⟨by omega, h1.1, fun hk => finishNumeric_append p type st st' st1 neg s t cnt v
      hdate hbuf hk hv⟩
  have goal_of : ∀ v, finishNumeric p type st neg (s ++ t) ((s ++ t).drop cnt) v = (.ok, st1) →
      (cnt ≤ s.length → parseDigitsFrom env p st' next type neg s =
        finishNumeric p type st' neg s (s.drop cnt) v) →
      ∃ k, 1 ≤ k ∧ k ≤ (s ++ t).length ∧ st1.cur = (s ++ t).drop k ∧
      (k ≤ s.length → parseDigitsFrom env p st' next type neg s =
        (.ok, ⟨s.drop k, st1.date, st1.timezoneBuffer⟩)) := by
    intro v hv hg
    obtain ⟨k1, k2, k3⟩ := key v hv
    exact ⟨cnt, k1, hcl, k2, fun hk => (hg hk).trans (k3 hk)⟩
  have hr' : cnt ≤ s.length → readDigits (getMaxDigitConsume p next type) s 0 0 =
      (num, cnt, s.drop cnt) := by
    intro hk
    have := readDigits_append _ s t 0 0 num cnt _ hr (by simpa using hk)
    simpa using this
  split at h
  · rename_i c1
    split at h
    · rename_i c2
      exact goal_of _ h (fun hk => by
        simp only [parseDigitsFrom, hr' hk]; rw [if_pos c1, if_pos c2])
    · rename_i c2
      exact goal_of _ h (fun hk => by
        simp only [parseDigitsFrom, hr' hk]; rw [if_pos c1, if_neg c2])
  · rename_i c1
    split at h
    · rename_i c2
      split at h
      · rename_i c3
        split at h
        · rename_i c4
          exact goal_of _ h (fun hk => by
            simp only [parseDigitsFrom, hr' hk]; rw [if_neg c1, if_pos c2, if_pos c3, if_pos c4])
        · rename_i c4
          split at h
          · rename_i c5
            exact goal_of _ h (fun hk => by
              simp only [parseDigitsFrom, hr' hk]
              rw [if_neg c1, if_pos c2, if_pos c3, if_neg c4, if_pos c5])
          · rename_i c5
            exact goal_of _ h (fun hk => by
              simp only [parseDigitsFrom, hr' hk]
              rw [if_neg c1, if_pos c2, if_pos c3, if_neg c4, if_neg c5])
      · rename_i c3
        split at h
        · split at h <;> simp only [Prod.mk.injEq, reduceCtorEq, false_and] at h
        · rename_i c4
          exact goal_of _ h (fun hk => by
            simp only [parseDigitsFrom, hr' hk]; rw [if_neg c1, if_pos c2, if_neg c3, if_neg c4])
    · rename_i c2
      exact goal_of _ h (fun hk => by
        simp only [parseDigitsFrom, hr' hk]; rw [if_neg c1, if_neg c2])

theorem parseNumeric_append {Z : Type} (env : Env Z) (p : FormatPattern)
    (cur t : List Char) (date : Date Z) (buf : List Char) (next : Bool)
    (type : DateTimeFormatterType) (st1 : ParseState Z)
    (h : parseNumeric env p ⟨cur ++ t, date, buf⟩ next type = (.ok, st1)) :
    ∃ n, st1.cur = (cur ++ t).drop n ∧
      (n ≤ cur.length → parseNumeric env p ⟨cur, date, buf⟩ next type =
        (.ok, ⟨cur.drop n, st1.date, st1.timezoneBuffer⟩)) := by
  cases cur with
  | nil =>
    simp only [List.nil_append] at h ⊢
    unfold parseNumeric at h
    dsimp only at h
    cases t with
    | nil =>
      dsimp only at h
      obtain ⟨k, hk1, hk2, -, -⟩ := parseDigitsFrom_append env p _ ⟨[], date, buf⟩ st1 next type
        false [] [] rfl rfl h
      simp only [List.append_nil, List.length_nil] at hk2
      omega
    | cons c rest =>
      dsimp only at h
      split at h
      · obtain ⟨k, hk1, -, hk3, -⟩ := parseDigitsFrom_append env p _ ⟨[], date, buf⟩ st1 next
          type true [] rest rfl rfl h
        refine ⟨k + 1, ?_, ?_⟩
        · rw [List.drop_succ_cons]; exact hk3
        · intro hle
          simp only [List.length_nil] at hle
          omega
      · split at h
        · obtain ⟨k, hk1, -, hk3, -⟩ := parseDigitsFrom_append env p _ ⟨[], date, buf⟩ st1 next
            type false [] rest rfl rfl h
          refine ⟨k + 1, ?_, ?_⟩
          · rw [List.drop_succ_cons]; exact hk3
          · intro hle
            simp only [List.length_nil] at hle
            omega
        · obtain ⟨k, hk1, -, hk3, -⟩ := parseDigitsFrom_append env p _ ⟨[], date, buf⟩ st1 next
            type false [] (c :: rest) rfl rfl h
          refine ⟨k, hk3, ?_⟩
          intro hle
          simp only [List.length_nil] at hle
          omega
  | cons c cs =>
    unfold parseNumeric at h ⊢
    simp only [List.cons_append] at h ⊢
    split at h
    · rename_i c1
      rw [if_pos c1]
      obtain ⟨k, hk1, -, hk3, hk4⟩ := parseDigitsFrom_append env p _
        ⟨c :: cs, date, buf⟩ st1 next type true cs t rfl rfl h
      refine ⟨k + 1, ?_, ?_⟩
      · rw [List.drop_succ_cons]; exact hk3
      · intro hle
        simp only [List.length_cons] at hle
        rw [List.drop_succ_cons]
        exact hk4 (by omega)
    · rename_i c1
      rw [if_neg c1]
      split at h
      · rename_i c2
        rw [if_pos c2]
        obtain ⟨k, hk1, -, hk3, hk4⟩ := parseDigitsFrom_append env p _
          ⟨c :: cs, date, buf⟩ st1 next type false cs t rfl rfl h
        refine ⟨k + 1, ?_, ?_⟩
        · rw [List.drop_succ_cons]; exact hk3
        · intro hle
          simp only [List.length_cons] at hle
          rw [List.drop_succ_cons]
          exact hk4 (by omega)
      · rename_i c2
        rw [if_neg c2]
        obtain ⟨k, hk1, -, hk3, hk4⟩ := parseDigitsFrom_append env p _
          ⟨c :: cs, date, buf⟩ st1 next type false (c :: cs) t rfl rfl h
        exact ⟨k, hk3, hk4⟩

theorem parseFromPattern_append {Z : Type} (env : Env Z) (p : FormatPattern)
    (cur t : List Char) (date : Date Z) (buf : List Char) (next : Bool)
    (type : DateTimeFormatterType) (st1 : ParseState Z) (hzone : env.locateZone [] = none)
    (h : parseFromPattern env p ⟨cur ++ t, date, buf⟩ next type = (.ok, st1)) :
    ∃ n, st1.cur = (cur ++ t).drop n ∧
      (n ≤ cur.length → parseFromPattern env p ⟨cur, date, buf⟩ next type =
        (.ok, ⟨cur.drop n, st1.date, st1.timezoneBuffer⟩)) := by
  have hsz : ∀ size : Int, size.toNat ≤ cur.length → size ≤ (cur.length : Int) := by
    intro size hle
    have := Int.self_le_toNat size
    omega
  unfold parseFromPattern at h ⊢
  dsimp only at h ⊢
  split at h
  · rename_i c1
    rw [if_pos c1]
    split at h
    · rename_i c2
      rw [if_pos c2]
      rcases hp : parseTimezoneOffset env (cur ++ t) date buf with ⟨size, date1, buf1⟩
      rw [hp] at h
      dsimp only at h
      split at h
      · simp only [Prod.mk.injEq, reduceCtorEq, false_and] at h
      · rename_i hne
        simp only [Prod.mk.injEq, true_and] at h
        subst h
        refine ⟨size.toNat, rfl, ?_⟩
        intro hle
        rw [parseTimezoneOffset_append env cur t date date1 buf buf1 size hp hne (hsz _ hle)]
        dsimp only
        rw [if_neg hne]
    · rename_i c2
      rw [if_neg c2]
      rcases hp : parseTimezoneName env (cur ++ t) date with ⟨size, date1⟩
      rw [hp] at h
      dsimp only at h
      split at h
      · simp only [Prod.mk.injEq, reduceCtorEq, false_and] at h
      · rename_i hne
        simp only [Prod.mk.injEq, true_and] at h
        subst h
        refine ⟨size.toNat, rfl, ?_⟩
        intro hle
        rw [parseTimezoneName_append env cur t date date1 size hzone hp hne (hsz _ hle)]
        dsimp only
        rw [if_neg hne]
  · rename_i c1
    rw [if_neg c1]
    split at h
    · rename_i c2
      rw [if_pos c2]
      split at h
      · simp only [Prod.mk.injEq, reduceCtorEq, false_and] at h
      · rename_i c3
        rw [if_neg c3]
        rcases hp : parseTimezone env (cur ++ t) date with ⟨size, date1⟩
        rw [hp] at h
        dsimp only at h
        split at h
        · simp only [Prod.mk.injEq, reduceCtorEq, false_and] at h
        · rename_i hne
          simp only [Prod.mk.injEq, true_and] at h
          subst h
          refine ⟨size.toNat, rfl, ?_⟩
          intro hle
          rw [parseTimezone_append env cur t date date1 size hp hne (hsz _ hle)]
          dsimp only
          rw [if_neg hne]
    · rename_i c2
      rw [if_neg c2]
      split at h
      · rename_i c3
        rw [if_pos c3]
        rcases hp : parseEra (cur ++ t) date with ⟨size, date1⟩
        rw [hp] at h
        dsimp only at h
        split at h
        · simp only [Prod.mk.injEq, reduceCtorEq, false_and] at h
        · rename_i hne
          simp only [Prod.mk.injEq, true_and] at h
          subst h
          refine ⟨size.toNat, rfl, ?_⟩
          intro hle
          rw [parseEra_append cur t date date1 size hp hne (hsz _ hle)]
          dsimp only
          rw [if_neg hne]
      · rename_i c3
        rw [if_neg c3]
        split at h
        · rename_i c4
          rw [if_pos c4]
          rcases hp : parseMonthText (cur ++ t) date with ⟨size, date1⟩
          rw [hp] at h
          dsimp only at h
          split at h
          · simp only [Prod.mk.injEq, reduceCtorEq, false_and] at h
          · rename_i hne
            simp only [Prod.mk.injEq, true_and] at h
            subst h
            refine ⟨size.toNat, rfl, ?_⟩
            intro hle
            rw [parseMonthText_append cur t date date1 size hp hne (hsz _ hle)]
            dsimp only
            rw [if_neg hne]
        · rename_i c4
          rw [if_neg c4]
          split at h
          · rename_i c5
            rw [if_pos c5]
            rcases hp : parseHalfDayOfDay (cur ++ t) date with ⟨size, date1⟩
            rw [hp] at h
            dsimp only at h
            split at h
            · simp only [Prod.mk.injEq, reduceCtorEq, false_and] at h
            · rename_i hne
              simp only [Prod.mk.injEq, true_and] at h
              subst h
              refine ⟨size.toNat, rfl, ?_⟩
              intro hle
              rw [parseHalfDayOfDay_append cur t date date1 size hp hne (hsz _ hle)]
              dsimp only
              rw [if_neg hne]
          · rename_i c5
            rw [if_neg c5]
            split at h
            · rename_i c6
              rw [if_pos c6]
              rcases hp : parseDayOfWeekText (cur ++ t) date with ⟨size, date1⟩
              rw [hp] at h
              dsimp only at h
              split at h
              · simp only [Prod.mk.injEq, reduceCtorEq, false_and] at h
              · rename_i hne
                simp only [Prod.mk.injEq, true_and] at h
                subst h
                refine ⟨size.toNat, rfl, ?_⟩
                intro hle
                rw [parseDayOfWeekText_append cur t date date1 size hp hne (hsz _ hle)]
                dsimp only
                rw [if_neg hne]
            · rename_i c6
              rw [if_neg c6]
              exact parseNumeric_append env p cur t date buf next type st1 h

theorem parseTokens_append {Z : Type} (env : Env Z) (type : DateTimeFormatterType)
    (hzone : env.locateZone [] = none) (tokens : List DateTimeToken) :
    ∀ (cur t : List Char) (date : Date Z) (buf : List Char) (st : ParseState Z),
      parseTokens env type tokens ⟨cur ++ t, date, buf⟩ = (.ok, st) →
      ∃ n, st.cur = (cur ++ t).drop n ∧
        (n ≤ cur.length → parseTokens env type tokens ⟨cur, date, buf⟩ =
          (.ok, ⟨cur.drop n, st.date, st.timezoneBuffer⟩)) := by
  induction tokens with
  | nil =>
    intro cur t date buf st h
    simp only [parseTokens, Prod.mk.injEq, true_and] at h
    subst h
    exact ⟨0, rfl, fun _ => rfl⟩
  | cons tok rest ih =>
    intro cur t date buf st h
    cases tok with
    | kLiteral literal =>
      simp only [parseTokens] at h
      split at h
      · simp only [Prod.mk.injEq, reduceCtorEq, false_and] at h
      · rename_i hlit
        simp only [not_or, not_lt, ne_eq, Decidable.not_not] at hlit
        by_cases hL : literal.length ≤ cur.length
        · rw [List.drop_append_of_le_length hL] at h
          obtain ⟨n2, h1, h2⟩ := ih (cur.drop literal.length) t date buf st h
          refine ⟨literal.length + n2, ?_, ?_⟩
          · rw [h1, ← List.drop_append_of_le_length hL, List.drop_drop]
          · intro hle
            have htake : cur.take literal.length = literal := by
              rw [← List.take_append_of_le_length hL]
              exact hlit.2
            have hn2 : n2 ≤ (cur.drop literal.length).length := by
              rw [List.length_drop]; omega
            have hnot : ¬ (literal.length > cur.length ∨ cur.take literal.length ≠ literal) := by
              simp only [not_or, not_lt, ne_eq, Decidable.not_not]
              exact ⟨hL, htake⟩
            simp only [parseTokens]
            rw [if_neg hnot, h2 hn2, List.drop_drop]
        · obtain ⟨n2, h1, -⟩ := ih [] ((cur ++ t).drop literal.length) date buf st
            (by simpa using h)
          refine ⟨literal.length + n2, ?_, ?_⟩
          · rw [h1, List.nil_append, List.drop_drop]
          · intro hle
            omega
    | kPattern pattern =>
      have hgoal : ∀ next : Bool,
          (match parseFromPattern env pattern ⟨cur ++ t, date, buf⟩ next type with
            | (.ok, st1) => parseTokens env type rest st1
            | failed => failed) = (.ok, st) →
          ∃ n, st.cur = (cur ++ t).drop n ∧
            (n ≤ cur.length →
              (match parseFromPattern env pattern ⟨cur, date, buf⟩ next type with
                | (.ok, st1) => parseTokens env type rest st1
                | failed => failed) =
              (.ok, ⟨cur.drop n, st.date, st.timezoneBuffer⟩)) := by
        intro next h
        rcases hp : parseFromPattern env pattern ⟨cur ++ t, date, buf⟩ next type with ⟨code, st1⟩
        rw [hp] at h
        cases code with
        | ok =>
          dsimp only at h
          obtain ⟨n1, h1, h2⟩ := parseFromPattern_append env pattern cur t date buf _ type st1
            hzone hp
          by_cases hL : n1 ≤ cur.length
          · have hst1 : st1 = ⟨cur.drop n1 ++ t, st1.date, st1.timezoneBuffer⟩ := by
              rw [← List.drop_append_of_le_length hL, ← h1]
            rw [hst1] at h
            obtain ⟨n2, h3, h4⟩ := ih (cur.drop n1) t st1.date st1.timezoneBuffer st h
            refine ⟨n1 + n2, ?_, ?_⟩
            · rw [h3, ← List.drop_append_of_le_length hL, List.drop_drop]
            · intro hle
              have hn2 : n2 ≤ (cur.drop n1).length := by
                rw [List.length_drop]; omega
              rw [h2 hL]
              dsimp only
              rw [h4 hn2, List.drop_drop]
          · have hst1 : st1 = ⟨[] ++ (cur ++ t).drop n1, st1.date, st1.timezoneBuffer⟩ := by
              rw [List.nil_append, ← h1]
            rw [hst1] at h
            obtain ⟨n2, h3, -⟩ := ih [] ((cur ++ t).drop n1) st1.date st1.timezoneBuffer st h
            refine ⟨n1 + n2, ?_, ?_⟩
            · rw [h3, List.nil_append, List.drop_drop]
            · intro hle
              omega
        | fail =>
          simp only [Prod.mk.injEq, reduceCtorEq, false_and] at h
        | thrown e =>
          simp only [Prod.mk.injEq, reduceCtorEq, false_and] at h
      simp only [parseTokens] at h ⊢
      exact hgoal _ h

theorem finishParse_simple {Z : Type} (env : Env Z) (type : DateTimeFormatterType)
    (input input' cur cur' : List Char) (date : Date Z)
    (htype : type = .STRICT_SIMPLE ∨ type = .LENIENT_SIMPLE) :
    finishParse env type input cur date = finishParse env type input' cur' date := by
  have h1 : ¬ (type ≠ .LENIENT_SIMPLE ∧ type ≠ .STRICT_SIMPLE ∧ 0 < cur.length) := by
    rcases htype with h | h <;> simp [h]
  have h2 : ¬ (type ≠ .LENIENT_SIMPLE ∧ type ≠ .STRICT_SIMPLE ∧ 0 < cur'.length) := by
    rcases htype with h | h <;> simp [h]
  unfold finishParse
  rw [if_neg h1, if_neg h2]

/-- C3: when every token matches, `parse` under the Joda and MySQL dialects
fails whenever unconsumed input remains, reporting the rest of the input, and
under the two Simple dialects the remaining input has no effect: the result
equals that of parsing the consumed prefix alone. (The zone table is taken to
reject the empty zone name.) -/
theorem parse_trailing_input {Z : Type} (env : Env Z) (formatter : DateTimeFormatter)
    (input buf : List Char) (st : ParseState Z) (hzone : env.locateZone [] = none)
    (htokens : parseTokens env formatter.type formatter.tokens
      { cur := input, date := {}, timezoneBuffer := buf } = (.ok, st)) :
    ((formatter.type = .JODA ∨ formatter.type = .MYSQL) → st.cur ≠ [] →
      parse env formatter input buf = .unexpected (parseFail env input st.cur)) ∧
    ((formatter.type = .STRICT_SIMPLE ∨ formatter.type = .LENIENT_SIMPLE) →
      parse env formatter input buf =
        parse env formatter (input.take (input.length - st.cur.length)) buf) := by
  constructor
  · intro htype hrest
    have hpos : 0 < st.cur.length := List.length_pos.mpr hrest
    have hc : formatter.type ≠ .LENIENT_SIMPLE ∧ formatter.type ≠ .STRICT_SIMPLE ∧
        0 < st.cur.length := by
      rcases htype with h | h <;> simp [h, hpos]
    unfold parse parseWithBuffer
    rw [htokens]
    simp only [finishParse]
    rw [if_pos hc]
  · intro htype
    have hsplit : input = input.take (input.length - st.cur.length) ++
        input.drop (input.length - st.cur.length) := (List.take_append_drop _ _).symm
    have htokens' := htokens
    rw [hsplit] at htokens'
    obtain ⟨n, h1, h2⟩ := parseTokens_append env formatter.type hzone formatter.tokens _ _ _ _ st
      htokens'
    rw [← hsplit] at h1
    have hlen : st.cur.length = input.length - n := by
      rw [h1, List.length_drop]
    by_cases hn : n ≤ input.length
    · have hm : input.length - st.cur.length = n := by omega
      rw [hm] at h2 ⊢
      have h3 := h2 (by rw [List.length_take]; omega)
      unfold parse parseWithBuffer
      rw [htokens, h3]
      exact finishParse_simple env formatter.type _ _ _ _ st.date htype
    · have hm : input.length - st.cur.length = input.length := by omega
      rw [hm, List.take_length]

/-- Witness of C3: `2024-02-29T10` against `yyyy-MM-dd` fails at `T10` under
Joda and parses like `2024-02-29` under a Simple dialect. -/
theorem parse_trailing_input_witness :
    parse sampleEnv yearMonthDayProgram "2024-02-29T10".toList timezoneBufferInit =
      .unexpected (parseFail sampleEnv "2024-02-29T10".toList "T10".toList) ∧
    parse sampleEnv ⟨yearMonthDayProgram.tokens, .LENIENT_SIMPLE⟩ "2024-02-29T10".toList
        timezoneBufferInit =
      parse sampleEnv ⟨yearMonthDayProgram.tokens, .LENIENT_SIMPLE⟩ "2024-02-29".toList
        timezoneBufferInit :=
  ⟨(parse_trailing_input sampleEnv yearMonthDayProgram "2024-02-29T10".toList
      timezoneBufferInit
      ⟨"T10".toList,
        { year := 2024, hasYear := true, month := 2, day := 29, dayOfMonthValues := [29] },
        timezoneBufferInit⟩ rfl rfl).1 (Or.inl rfl) (by decide),
   (parse_trailing_input sampleEnv ⟨yearMonthDayProgram.tokens, .LENIENT_SIMPLE⟩
      "2024-02-29T10".toList timezoneBufferInit
      ⟨"T10".toList,
        { year := 2024, hasYear := true, month := 2, day := 29, dayOfMonthValues := [29] },
        timezoneBufferInit⟩ rfl rfl).2 (Or.inr rfl)⟩

/-! ### Rendered digits and offsets read back -/

theorem digitChar_toNat (d : Nat) (h : d < 10) : (digitChar d).toNat = 48 + d := by
  have h10 : d = 0 ∨ d = 1 ∨ d = 2 ∨ d = 3 ∨ d = 4 ∨ d = 5 ∨ d = 6 ∨ d = 7 ∨ d = 8 ∨ d = 9 := by
    omega
  rcases h10 with rfl | rfl | rfl | rfl | rfl | rfl | rfl | rfl | rfl | rfl <;> rfl

theorem digitChar_isDigit (d : Nat) (h : d < 10) : characterIsDigit (digitChar d) = true := by
  rw [characterIsDigit_iff, digitChar_toNat d h]
  omega

theorem countDigitsLoop_bound (fuel : Nat) :
    ∀ n, n ≤ fuel → n < 10 ^ countDigitsLoop fuel n := by
  induction fuel with
  | zero =>
    intro n hn
    have : n = 0 := by omega
    subst this
    simp [countDigitsLoop]
  | succ fuel ih =>
    intro n hn
    unfold countDigitsLoop
    by_cases h0 : n = 0
    · subst h0
      simp
    · rw [if_neg h0]
      have hdiv : n / 10 ≤ fuel := by omega
      have := ih (n / 10) hdiv
      rw [Nat.pow_add, Nat.pow_one]
      omega

theorem countDigits_bound (n : Nat) : n < 10 ^ countDigits n :=
  countDigitsLoop_bound n n (Nat.le_refl n)

theorem countDigits_pos (n : Nat) (h : 0 < n) : 1 ≤ countDigits n := by
  unfold countDigits
  cases n with
  | zero => omega
  | succ m =>
    unfold countDigitsLoop
    simp

theorem countDigits_zero : countDigits 0 = 0 := rfl

theorem digitsOfWidth_length (k n : Nat) : (digitsOfWidth k n).length = k := by
  induction k generalizing n with
  | zero => rfl
  | succ k ih => simp [digitsOfWidth, ih]

theorem digitsOfWidth_zero_value (k : Nat) : digitsOfWidth k 0 = List.replicate k '0' := by
  induction k with
  | zero => rfl
  | succ k ih =>
    simp only [digitsOfWidth, Nat.zero_div, Nat.zero_mod, ih]
    rw [List.replicate_succ']
    rfl

theorem digitsOfWidth_pad (j : Nat) : ∀ (k n : Nat), n < 10 ^ k →
    digitsOfWidth (j + k) n = List.replicate j '0' ++ digitsOfWidth k n := by
  intro k
  induction k with
  | zero =>
    intro n hn
    have : n = 0 := by simpa using hn
    subst this
    simp [digitsOfWidth_zero_value, digitsOfWidth]
  | succ k ih =>
    intro n hn
    have hdiv : n / 10 < 10 ^ k := by
      rw [Nat.pow_succ] at hn
      omega
    rw [← Nat.add_assoc]
    simp only [digitsOfWidth, ih (n / 10) hdiv, List.append_assoc]

theorem readDigits_stop (j : Nat) (rest : List Char) (number : Int) (count : Nat)
    (hstop : ∀ c ∈ rest.head?, characterIsDigit c = false) :
    readDigits j rest number count = (number, count, rest) := by
  cases j with
  | zero => rfl
  | succ j =>
    cases rest with
    | nil => rfl
    | cons c cs =>
      have : characterIsDigit c = false := hstop c (by simp)
      simp [readDigits, this]

theorem readDigits_digitsOfWidth (k : Nat) : ∀ (j n : Nat) (rest : List Char) (count : Nat),
    n < 10 ^ k → n < 1000000000000000000 →
    readDigits (k + j) (digitsOfWidth k n ++ rest) 0 count =
      readDigits j rest n (count + k) := by
  induction k with
  | zero =>
    intro j n rest count hn _
    have : n = 0 := by simpa using hn
    subst this
    simp [digitsOfWidth]
  | succ k ih =>
    intro j n rest count hn hbig
    have hdiv : n / 10 < 10 ^ k := by
      rw [Nat.pow_succ] at hn
      omega
    have hmod : n % 10 < 10 := Nat.mod_lt _ (by omega)
    have e : k + 1 + j = k + (j + 1) := by omega
    rw [e]
    simp only [digitsOfWidth, List.append_assoc, List.singleton_append]
    rw [ih (j + 1) (n / 10) _ count hdiv (by omega)]
    simp only [readDigits, digitChar_isDigit _ hmod, if_true, digitChar_toNat _ hmod]
    have e0 : ('0'.toNat : Int) = 48 := by decide
    rw [e0]
    have hw : wrapInt64 (((n / 10 : Nat) : Int) * 10 + (((48 + n % 10 : Nat) : Int) - 48)) =
        (n : Int) := by
      rw [wrapInt64_eq_self] <;> omega
    rw [hw]
    congr 1

theorem countDigits_eq_zero_iff (n : Nat) : countDigits n = 0 ↔ n = 0 := by
  constructor
  · intro h
    have := countDigits_bound n
    rw [h] at this
    simpa using this
  · rintro rfl
    rfl

theorem padContent_eq (v : Int) (w : Nat) :
    padContent v '0' w true =
      (if v < 0 then ['-'] else []) ++
        digitsOfWidth (max w (countDigits v.natAbs)) v.natAbs := by
  have hb := countDigits_bound v.natAbs
  unfold padContent
  by_cases hneg : v < 0
  · have hna : (-v).natAbs = v.natAbs := Int.natAbs_neg v
    have hpos : ¬ (-v < 0) := by omega
    have hne : ¬ (-v = 0) := by omega
    simp only [hneg, decide_True, if_true, Nat.add_one_ne_zero, if_false, ge_iff_le,
      List.singleton_append]
    by_cases hge : w ≤ countDigits v.natAbs
    · rw [if_pos hge]
      simp only [toChars, hneg, if_true, Nat.max_eq_right hge]
    · rw [if_neg hge]
      simp only [toChars, hpos, hne, if_false, hna]
      have hmax : max w (countDigits v.natAbs) = (w - countDigits v.natAbs) +
          countDigits v.natAbs := by omega
      rw [hmax, digitsOfWidth_pad _ _ _ hb]
  · simp only [hneg, decide_False, if_false, ge_iff_le, List.nil_append, Bool.false_eq_true]
    by_cases h0 : countDigits v.natAbs = 0
    · have hz : v.natAbs = 0 := (countDigits_eq_zero_iff _).1 h0
      rw [if_pos h0, h0, hz, digitsOfWidth_zero_value]
      simp
    · rw [if_neg h0]
      have hvne : ¬ (v = 0) := by
        intro hv
        apply h0
        rw [hv]
        rfl
      by_cases hge : w ≤ countDigits v.natAbs
      · rw [if_pos hge]
        simp only [toChars, hneg, hvne, if_false, Nat.max_eq_right hge]
      · rw [if_neg hge]
        simp only [toChars, hneg, hvne, if_false]
        have hmax : max w (countDigits v.natAbs) = (w - countDigits v.natAbs) +
            countDigits v.natAbs := by omega
        rw [hmax, digitsOfWidth_pad _ _ _ hb, if_pos trivial]

theorem countDigitsLoop_le (fuel : Nat) : ∀ (n k : Nat), n ≤ fuel → n < 10 ^ k →
    countDigitsLoop fuel n ≤ k := by
  induction fuel with
  | zero =>
    intro n k _ _
    simp [countDigitsLoop]
  | succ fuel ih =>
    intro n k hn hk
    unfold countDigitsLoop
    by_cases h0 : n = 0
    · rw [if_pos h0]; omega
    · rw [if_neg h0]
      cases k with
      | zero =>
        simp at hk
        omega
      | succ k =>
        have hdiv : n / 10 < 10 ^ k := by
          rw [Nat.pow_succ] at hk
          omega
        have := ih (n / 10) k (by omega) hdiv
        omega

theorem countDigits_le (n k : Nat) (h : n < 10 ^ k) : countDigits n ≤ k :=
  countDigitsLoop_le n n k (Nat.le_refl n) h

theorem digitsOfWidth_all_digits (k n : Nat) :
    ∀ c ∈ digitsOfWidth k n, characterIsDigit c = true := by
  induction k generalizing n with
  | zero => simp [digitsOfWidth]
  | succ k ih =>
    intro c hc
    simp only [digitsOfWidth, List.mem_append, List.mem_singleton] at hc
    rcases hc with hc | hc
    · exact ih _ c hc
    · rw [hc]
      exact digitChar_isDigit _ (Nat.mod_lt _ (by omega))

theorem digitsOfWidth_cons (k n : Nat) (hk : 1 ≤ k) :
    ∃ c cs, digitsOfWidth k n = c :: cs ∧ characterIsDigit c = true := by
  cases h : digitsOfWidth k n with
  | nil =>
    have := digitsOfWidth_length k n
    rw [h] at this
    simp at this
    omega
  | cons c cs =>
    refine ⟨c, cs, rfl, ?_⟩
    apply digitsOfWidth_all_digits k n
    rw [h]
    simp

theorem parseDigitsFrom_rendered {Z : Type} (env : Env Z) (p : FormatPattern)
    (st : ParseState Z) (next : Bool) (type : DateTimeFormatterType) (neg : Bool)
    (K n : Nat) (rest : List Char) (hK : 1 ≤ K)
    (hmax : K ≤ getMaxDigitConsume p next type) (hn : n < 10 ^ K)
    (hbig : n < 1000000000000000000)
    (hstop : ∀ c ∈ rest.head?, characterIsDigit c = false)
    (hfrac : p.specifier ≠ .FRACTION_OF_SECOND)
    (hyear2 : ¬ (isYearSpecifier p.specifier = true ∧ p.minRepresentDigits = 2)) :
    parseDigitsFrom env p st next type neg (digitsOfWidth K n ++ rest) =
      ((applyNumber p type (if neg then wrapInt64 ((n : Int) * (-1)) else (n : Int)) st.date).1,
        { st with
          cur := rest
          date := (applyNumber p type (if neg then wrapInt64 ((n : Int) * (-1)) else (n : Int))
            st.date).2 }) := by
  have hr : readDigits (getMaxDigitConsume p next type) (digitsOfWidth K n ++ rest) 0 0 =
      ((n : Int), K, rest) := by
    have e : getMaxDigitConsume p next type = K + (getMaxDigitConsume p next type - K) := by
      omega
    rw [e, readDigits_digitsOfWidth K _ n rest 0 hn hbig, readDigits_stop _ rest _ _ hstop]
    simp
  have hlen : ¬ ((digitsOfWidth K n ++ rest).length ≤ rest.length) := by
    rw [List.length_append, digitsOfWidth_length]
    omega
  simp only [parseDigitsFrom, hr]
  rw [if_neg hfrac, if_neg hyear2]
  simp only [finishNumeric]
  rw [if_neg hlen]

theorem offsetChar_ne_colon (x : Int) (h0 : 0 ≤ x) (h9 : x ≤ 9) : offsetChar x ≠ ':' := by
  have h10 : x = 0 ∨ x = 1 ∨ x = 2 ∨ x = 3 ∨ x = 4 ∨ x = 5 ∨ x = 6 ∨ x = 7 ∨ x = 8 ∨ x = 9 := by
    omega
  rcases h10 with rfl | rfl | rfl | rfl | rfl | rfl | rfl | rfl | rfl | rfl <;> decide

theorem appendTimezoneOffset_abs (a : Int) (ha : 0 ≤ a) (hsec : a % 60 = 0) (sign : Char)
    (colon : Bool) :
    sign :: ((if Int.tdiv (Int.tdiv a 60) 60 < 10 then ['0', offsetChar (Int.tdiv (Int.tdiv a 60) 60)]
        else [offsetChar (Int.tdiv (Int.tdiv (Int.tdiv a 60) 60) 10),
          offsetChar (Int.tmod (Int.tdiv (Int.tdiv a 60) 60) 10)]) ++
      (if colon then [':'] else []) ++
      (if Int.tmod (Int.tdiv a 60) 60 = 0 then ['0', '0']
        else if Int.tmod (Int.tdiv a 60) 60 < 10 then ['0', offsetChar (Int.tmod (Int.tdiv a 60) 60)]
        else [offsetChar (Int.tdiv (Int.tmod (Int.tdiv a 60) 60) 10),
          offsetChar (Int.tmod (Int.tmod (Int.tdiv a 60) 60) 10)]) ++
      (if Int.tmod a 60 > 0 then
        ':' :: (if Int.tmod a 60 < 10 then ['0', offsetChar (Int.tmod a 60)]
          else [offsetChar (Int.tdiv (Int.tmod a 60) 10), offsetChar (Int.tmod (Int.tmod a 60) 10)])
        else [])) =
    sign :: (hoursText (a / 3600) ++ (if colon then [':'] else []) ++ minutesText (a / 60 % 60)) := by
  have e1 : Int.tmod a 60 = a % 60 := Int.tmod_eq_emod ha (by omega)
  have e2 : Int.tdiv a 60 = a / 60 := Int.tdiv_eq_ediv ha (by omega)
  have h60 : 0 ≤ a / 60 := by omega
  have e3 : Int.tmod (a / 60) 60 = a / 60 % 60 := Int.tmod_eq_emod h60 (by omega)
  have e4 : Int.tdiv (a / 60) 60 = a / 3600 := by
    rw [Int.tdiv_eq_ediv h60 (by omega)]; omega
  have hh : 0 ≤ a / 3600 := by omega
  have hm : 0 ≤ a / 60 % 60 := by omega
  have e5 : Int.tdiv (a / 3600) 10 = a / 3600 / 10 := Int.tdiv_eq_ediv hh (by omega)
  have e6 : Int.tmod (a / 3600) 10 = a / 3600 % 10 := Int.tmod_eq_emod hh (by omega)
  have e7 : Int.tdiv (a / 60 % 60) 10 = a / 60 % 60 / 10 := Int.tdiv_eq_ediv hm (by omega)
  have e8 : Int.tmod (a / 60 % 60) 10 = a / 60 % 60 % 10 := Int.tmod_eq_emod hm (by omega)
  have hs0 : ¬ (a % 60 > 0) := by omega
  simp only [e1, e2, e3, e4, e5, e6, e7, e8, hs0, if_false, List.append_nil, hoursText,
    minutesText]

theorem appendTimezoneOffset_eq (offset : Int) (hsec : offset % 60 = 0) (colon : Bool) :
    appendTimezoneOffset offset colon =
      (if offset ≥ 0 then '+' else '-') ::
        (hoursText ((if offset ≥ 0 then offset else -offset) / 3600) ++
          (if colon then [':'] else []) ++
          minutesText ((if offset ≥ 0 then offset else -offset) / 60 % 60)) := by
  unfold appendTimezoneOffset
  exact appendTimezoneOffset_abs (if offset ≥ 0 then offset else -offset)
    (by split <;> omega) (by split <;> omega) _ colon

theorem hoursText_shape (h : Int) : ∃ a b, hoursText h = [a, b] := by
  unfold hoursText
  split
  · exact ⟨_, _, rfl⟩
  · exact ⟨_, _, rfl⟩

theorem minutesText_shape (m : Int) (h0 : 0 ≤ m) (h60 : m < 60) :
    ∃ c d, minutesText m = [c, d] ∧ c ≠ ':' := by
  unfold minutesText
  split
  · exact ⟨_, _, rfl, by decide⟩
  · split
    · exact ⟨_, _, rfl, by decide⟩
    · exact ⟨_, _, rfl, offsetChar_ne_colon _ (by omega) (by omega)⟩

theorem parseTimezoneOffset_rendered {Z : Type} (env : Env Z) (offset : Int) (colon : Bool)
    (rest : List Char) (date : Date Z) (buf : List Char)
    (hlen : buf.length = 6) (hcolon : buf.getD 3 ' ' = ':') (hsec : offset % 60 = 0) :
    parseTimezoneOffset env (appendTimezoneOffset offset colon ++ rest) date buf =
      (if (env.locateZone (appendTimezoneOffset offset true)).isNone then -1
        else if colon then 6 else 5,
        { date with timezone := env.locateZone (appendTimezoneOffset offset true) },
        if colon then buf else appendTimezoneOffset offset true) := by
  obtain ⟨b0, b1, b2, b3, b4, b5, rfl⟩ := list_length_six buf hlen
  have hb3 : b3 = ':' := hcolon
  subst hb3
  rw [appendTimezoneOffset_eq offset hsec colon, appendTimezoneOffset_eq offset hsec true]
  obtain ⟨a, b, hab⟩ := hoursText_shape ((if offset ≥ 0 then offset else -offset) / 3600)
  obtain ⟨c, d, hcd, hc⟩ := minutesText_shape
    ((if offset ≥ 0 then offset else -offset) / 60 % 60) (by split <;> omega)
    (by split <;> omega)
  rw [hab, hcd]
  have hsign : (if offset ≥ 0 then '+' else '-') = '-' ∨ (if offset ≥ 0 then '+' else '-') = '+' := by
    split
    · exact Or.inr rfl
    · exact Or.inl rfl
  generalize (if offset ≥ 0 then '+' else '-') = s at hsign
  cases colon
  · cases hz : env.locateZone [s, a, b, ':', c, d] <;>
      simp [parseTimezoneOffset, memcpy, hsign, hc, hz]
  · cases hz : env.locateZone [s, a, b, ':', c, d] <;>
      simp [parseTimezoneOffset, hsign, hz]
theorem wrapInt32_eq_self (x : Int) (h0 : -2147483648 ≤ x) (h1 : x < 2147483648) :
    wrapInt32 x = x := by
  unfold wrapInt32; omega

theorem mysqlSpecifier_default (builder : DateTimeFormatterBuilder) (c : Char)
    (h1 : c ∉ mysqlRecognisedLetters) (h2 : c ∉ mysqlUnsupportedLetters) :
    mysqlSpecifier builder c = some (appendLiteral builder [c]) := by
  simp only [mysqlRecognisedLetters, String.toList, String.data, List.mem_cons,
    List.mem_singleton, List.not_mem_nil, or_false, not_or] at h1
  simp only [mysqlUnsupportedLetters, List.mem_cons, List.mem_singleton, List.not_mem_nil,
    or_false] at h2
  obtain ⟨ha, hb, hc, hd, he, hf, hH, hh, hI, hi, hj, hk, hl, hM, hm, hp, hr, hS, hs, hT, hv,
    hW, hx, hY, hy⟩ := h1
  have hhI : ¬ (c = 'h' ∨ c = 'I') := by rintro (h | h) <;> contradiction
  have hSs : ¬ (c = 'S' ∨ c = 's') := by rintro (h | h) <;> contradiction
  unfold mysqlSpecifier
  rw [if_neg ha, if_neg hb, if_neg hc, if_neg hd, if_neg he, if_neg hf, if_neg hH, if_neg hhI,
    if_neg hi, if_neg hj, if_neg hk, if_neg hl, if_neg hM, if_neg hm, if_neg hp, if_neg hr,
    if_neg hSs, if_neg hT, if_neg hv, if_neg hW, if_neg hx, if_neg hY, if_neg hy, if_neg h2]
  split
  · rename_i h; rw [h]; rfl
  · rfl

/-- Counterexample to C11 as stated: `%z` compiles to the one-byte literal `z`,
not to the two bytes `%z`. -/
theorem buildMysql_percent_z_one_byte :
    'z' ∉ mysqlRecognisedLetters ∧ 'z' ∉ mysqlUnsupportedLetters ∧
    buildMysqlDateTimeFormatter false "%z".toList = .value ⟨[.kLiteral ['z']], .MYSQL⟩ ∧
    buildMysqlDateTimeFormatter false "%z".toList ≠
      .value ⟨[.kLiteral ['%', 'z']], .MYSQL⟩ := by
  refine ⟨by decide, by decide, rfl, by decide⟩

/-- C11 (amended): in the MySQL compiler a `%` followed by a byte `c` that is
neither a recognised specifier letter nor one of the unsupported letters adds
one literal token whose text is the single byte `c`; the `%` is dropped. -/
theorem buildMysql_unrecognised_letter (skip : Bool) (c : Char) (rest : List Char)
    (builder : DateTimeFormatterBuilder) (fuel : Nat)
    (h1 : c ∉ mysqlRecognisedLetters) (h2 : c ∉ mysqlUnsupportedLetters) :
    buildMysqlLoop skip (fuel + 1) ('%' :: c :: rest) builder =
      buildMysqlLoop skip fuel rest (builder ++ [.kLiteral [c]]) ∧
    buildMysqlDateTimeFormatter skip ['%', c] = .value ⟨[.kLiteral [c]], .MYSQL⟩ := by
  have h := mysqlSpecifier_default
  constructor
  · simp only [buildMysqlLoop, if_true, h builder c h1 h2]
    rfl
  · simp only [buildMysqlDateTimeFormatter, buildMysqlLoop, if_true, h [] c h1 h2]
    rfl

/-- Witness of C11 (amended): `%z` and `%1`. -/
theorem buildMysql_unrecognised_letter_witness :
    buildMysqlDateTimeFormatter false ['%', 'z'] = .value ⟨[.kLiteral ['z']], .MYSQL⟩ ∧
    buildMysqlDateTimeFormatter true ['%', '1'] = .value ⟨[.kLiteral ['1']], .MYSQL⟩ :=
  ⟨(buildMysql_unrecognised_letter false 'z' [] [] 0 (by decide) (by decide)).2,
    (buildMysql_unrecognised_letter true '1' [] [] 0 (by decide) (by decide)).2⟩

/-! ### C12: runs of pattern letters -/

theorem buildQuotedLoop_fuel (skip : Bool)
    (specifier : DateTimeFormatterBuilder → Char → Nat → List Char →
      Option DateTimeFormatterBuilder)
    (type : DateTimeFormatterType) (fuel : Nat) :
    ∀ (cur : List Char) (builder : DateTimeFormatterBuilder), cur.length ≤ fuel →
      buildQuotedLoop skip specifier type fuel cur builder =
        compileFrom skip specifier type cur builder := by
  induction fuel using Nat.strong_induction_on with
  | _ fuel ih =>
    intro cur builder h
    cases fuel with
    | zero =>
      have : cur = [] := List.length_eq_zero.mp (Nat.le_zero.mp h)
      subst this
      rfl
    | succ fuel =>
      cases cur with
      | nil => rfl
      | cons c rest =>
        have hrest : rest.length ≤ fuel := by simpa using h
        have hdw : (rest.dropWhile (fun x => decide (x = c))).length ≤ rest.length :=
          (List.dropWhile_sublist _).length_le
        have key : ∀ (cur1 : List Char) (builder1 : DateTimeFormatterBuilder),
            cur1.length ≤ rest.length →
            buildQuotedLoop skip specifier type fuel cur1 builder1 =
              buildQuotedLoop skip specifier type rest.length cur1 builder1 := by
          intro cur1 builder1 h1
          rw [ih fuel (by omega) cur1 builder1 (by omega),
            ih rest.length (by omega) cur1 builder1 h1]
        simp only [compileFrom, List.length_cons, buildQuotedLoop]
        split
        · split
          · exact key _ _ (by simp)
          · split
            · rfl
            · exact key _ _ (by simp)
        · split
          · rfl
          · exact key _ _ hdw

theorem buildJoda_eq_compileFrom (skip : Bool) (format : List Char) (h : format ≠ []) :
    buildJodaDateTimeFormatter skip format = compileFrom skip jodaSpecifier .JODA format [] := by
  cases format with
  | nil => exact absurd rfl h
  | cons c rest => rfl

theorem buildSimple_eq_compileFrom (skip lenient : Bool) (format : List Char)
    (h : format ≠ []) :
    buildSimpleDateTimeFormatter skip format lenient =
      compileFrom skip simpleSpecifier (if lenient then .LENIENT_SIMPLE else .STRICT_SIMPLE)
        format [] := by
  cases format with
  | nil => exact absurd rfl h
  | cons c rest => rfl

theorem takeWhile_replicate_append (c : Char) (k : Nat) (rest : List Char)
    (h : rest.head? ≠ some c) :
    (List.replicate k c ++ rest).takeWhile (fun x => decide (x = c)) = List.replicate k c ∧
    (List.replicate k c ++ rest).dropWhile (fun x => decide (x = c)) = rest := by
  induction k with
  | zero =>
    cases rest with
    | nil => exact ⟨rfl, rfl⟩
    | cons d rest =>
      have hd : d ≠ c := fun e => h (by rw [e]; rfl)
      simp [List.takeWhile, List.dropWhile, hd]
  | succ k ih =>
    have e1 : (List.replicate (k + 1) c ++ rest).takeWhile (fun x => decide (x = c)) =
        c :: (List.replicate k c ++ rest).takeWhile (fun x => decide (x = c)) := by
      simp [List.replicate_succ, List.takeWhile]
    have e2 : (List.replicate (k + 1) c ++ rest).dropWhile (fun x => decide (x = c)) =
        (List.replicate k c ++ rest).dropWhile (fun x => decide (x = c)) := by
      simp [List.replicate_succ, List.dropWhile]
    rw [e1, e2, ih.1, ih.2]
    exact ⟨rfl, rfl⟩

theorem compileFrom_run (skip : Bool)
    (specifier : DateTimeFormatterBuilder → Char → Nat → List Char →
      Option DateTimeFormatterBuilder)
    (type : DateTimeFormatterType) (c : Char) (n : Nat) (rest : List Char)
    (builder : DateTimeFormatterBuilder) (hq : c ≠ singleQuote)
    (hrest : rest.head? ≠ some c) :
    compileFrom skip specifier type (List.replicate (n + 1) c ++ rest) builder =
      match specifier builder c (n + 1) (List.replicate (n + 1) c) with
      | none =>
        if skip then .unexpected ⟨none⟩ else .unexpected ⟨some (.specifierNotSupported c)⟩
      | some builder1 => compileFrom skip specifier type rest builder1 := by
  obtain ⟨h1, h2⟩ := takeWhile_replicate_append c n rest hrest
  have htake : (c :: (List.replicate n c ++ rest)).take (1 + n) = List.replicate (n + 1) c := by
    rw [← List.cons_append, ← List.replicate_succ, Nat.add_comm 1 n]
    rw [List.take_append_of_le_length (by simp)]
    simp [List.take_of_length_le]
  simp only [compileFrom, List.replicate_succ, List.cons_append, List.length_cons,
    buildQuotedLoop, if_neg hq, h1, h2, List.length_replicate, htake]
  rw [Nat.add_comm 1 n]
  cases hs : specifier builder c (n + 1) (c :: List.replicate n c) with
  | none => rfl
  | some builder1 =>
    simp only
    exact buildQuotedLoop_fuel skip specifier type _ rest builder1 (by simp)

theorem jodaSpecifier_width_letter (builder : DateTimeFormatterBuilder) (c : Char) (n : Nat)
    (run : List Char) (hc : c ∈ jodaWidthLetters) :
    jodaSpecifier builder c n run =
      some (builder ++ [.kPattern ⟨jodaLetterSpecifier c n, n⟩]) := by
  simp only [jodaWidthLetters, String.toList, String.data, List.mem_cons,
    List.mem_singleton, List.not_mem_nil, or_false] at hc
  rcases hc with rfl | rfl | rfl | rfl | rfl | rfl | rfl | rfl | rfl | rfl | rfl | rfl | rfl |
    rfl | rfl | rfl | rfl | rfl | rfl
  all_goals first
    | rfl
    | (by_cases h : n ≤ 2
       · simp [jodaSpecifier, jodaLetterSpecifier, h, appendMonthOfYear, appendPattern]
       · simp [jodaSpecifier, jodaLetterSpecifier, h, appendMonthOfYearText, appendPattern])

theorem not_quote_of_mem (c : Char) (hc : c ∈ jodaWidthLetters ∨ c = 'G' ∨ c = 'a') :
    c ≠ singleQuote := by
  intro h
  subst h
  revert hc
  decide

/-- Counterexample to C12 as stated: a run of three `G` compiles to the same
program as a single `G`, one era token of width 2; the run length is not passed
to the builder for `G` and `a`. -/
theorem buildJoda_era_run_width :
    buildJodaDateTimeFormatter false "GGG".toList = .value ⟨[.kPattern ⟨.ERA, 2⟩], .JODA⟩ ∧
    buildJodaDateTimeFormatter false "G".toList = .value ⟨[.kPattern ⟨.ERA, 2⟩], .JODA⟩ ∧
    buildJodaDateTimeFormatter false "aaa".toList =
      .value ⟨[.kPattern ⟨.HALFDAY_OF_DAY, 2⟩], .JODA⟩ :=
  ⟨rfl, rfl, rfl⟩

/-- C12 (amended): in the Joda compiler a maximal run of `n` letters `c` outside
quotes adds exactly one pattern token. For the letters `C Y x w e E y D M d K h
H k m s S z Z` its minRepresentDigits is the run length `n` (`M` giving the
numeric month for `n ≤ 2` and the month text for `n ≥ 3`); for `G` and `a` the
run length is not recorded and the token has the fixed width 2. -/
theorem buildJoda_letter_run (skip : Bool) (c : Char) (n : Nat) (rest : List Char)
    (builder : DateTimeFormatterBuilder) (hn : 1 ≤ n) (hrest : rest.head? ≠ some c) :
    (c ∈ jodaWidthLetters →
      compileFrom skip jodaSpecifier .JODA (List.replicate n c ++ rest) builder =
        compileFrom skip jodaSpecifier .JODA rest
          (builder ++ [.kPattern ⟨jodaLetterSpecifier c n, n⟩])) ∧
    (c = 'G' ∨ c = 'a' →
      compileFrom skip jodaSpecifier .JODA (List.replicate n c ++ rest) builder =
        compileFrom skip jodaSpecifier .JODA rest
          (builder ++ [.kPattern ⟨jodaLetterSpecifier c n, 2⟩])) := by
  obtain ⟨k, rfl⟩ : ∃ k, n = k + 1 := ⟨n - 1, by omega⟩
  constructor
  · intro hc
    rw [compileFrom_run skip jodaSpecifier .JODA c k rest builder
      (not_quote_of_mem c (Or.inl hc)) hrest, jodaSpecifier_width_letter builder c _ _ hc]
  · intro hc
    rw [compileFrom_run skip jodaSpecifier .JODA c k rest builder
      (not_quote_of_mem c (Or.inr hc)) hrest]
    rcases hc with rfl | rfl <;> rfl

/-- Witness of C12 (amended): `yyyy-MMM` and `GG`. -/
theorem buildJoda_letter_run_witness :
    buildJodaDateTimeFormatter false "yyyy-MMM".toList =
      compileFrom false jodaSpecifier .JODA "-MMM".toList [.kPattern ⟨.YEAR, 4⟩] ∧
    buildJodaDateTimeFormatter false "MMM".toList =
      .value ⟨[.kPattern ⟨.MONTH_OF_YEAR_TEXT, 3⟩], .JODA⟩ ∧
    buildJodaDateTimeFormatter false "GG".toList = .value ⟨[.kPattern ⟨.ERA, 2⟩], .JODA⟩ :=
  ⟨(buildJoda_letter_run false 'y' 4 "-MMM".toList [] (by decide) (by decide)).1 (by decide),
    (buildJoda_letter_run false 'M' 3 [] [] (by decide) (by decide)).1 (by decide),
    (buildJoda_letter_run false 'G' 2 [] [] (by decide) (by decide)).2 (Or.inl rfl)⟩

/-! ### C13: quoted literals -/

theorem encodeQuotes_length_le (text : List Char) :
    text.length ≤ (encodeQuotes text).length := by
  induction text with
  | nil => simp [encodeQuotes]
  | cons c t ih =>
    simp only [encodeQuotes]
    split <;> simp <;> omega

theorem numLiteralCharsFrom_encoded (text rest : List Char)
    (hrest : rest.head? ≠ some singleQuote) :
    ∀ count : Int, numLiteralCharsFrom (encodeQuotes text ++ singleQuote :: rest) count =
      count + (encodeQuotes text).length := by
  induction text with
  | nil =>
    intro count
    cases rest with
    | nil => simp [encodeQuotes, numLiteralCharsFrom]
    | cons d rest =>
      have hd : d ≠ singleQuote := fun e => hrest (by rw [e]; rfl)
      simp [encodeQuotes, numLiteralCharsFrom, hd]
  | cons c t ih =>
    intro count
    by_cases hc : c = singleQuote
    · simp only [encodeQuotes, if_pos hc, List.cons_append, numLiteralCharsFrom, if_true]
      rw [ih]
      simp only [List.length_cons]
      push_cast
      omega
    · simp only [encodeQuotes, if_neg hc, List.cons_append]
      obtain ⟨d, tail, htail⟩ : ∃ d tail, encodeQuotes t ++ singleQuote :: rest = d :: tail := by
        cases encodeQuotes t with
        | nil => exact ⟨_, _, rfl⟩
        | cons d tl => exact ⟨_, _, rfl⟩
      have step : numLiteralCharsFrom (c :: (encodeQuotes t ++ singleQuote :: rest)) count =
          numLiteralCharsFrom (encodeQuotes t ++ singleQuote :: rest) (count + 1) := by
        rw [htail]
        simp only [numLiteralCharsFrom, if_neg hc]
      rw [step, ih]
      simp only [List.length_cons]
      push_cast
      omega

theorem getD_append_length (pre : List Char) (c : Char) (tl : List Char) (d : Char) :
    (pre ++ c :: tl).getD pre.length d = c := by
  induction pre with
  | nil => rfl
  | cons x xs ih =>
    simp only [List.cons_append, List.length_cons, List.getD_cons_succ]
    exact ih

theorem appendQuoted_encoded (tail : List Char) :
    ∀ (text pre : List Char) (count fuel : Nat) (builder : DateTimeFormatterBuilder),
      1 ≤ pre.length → count + 1 = pre.length + (encodeQuotes text).length →
      text.length ≤ fuel →
      appendQuoted (pre ++ encodeQuotes text ++ tail) count fuel pre.length builder =
        builder ++ literalTokens text := by
  intro text
  induction text with
  | nil =>
    intro pre count fuel builder hpre hcount _
    simp only [encodeQuotes, List.length_nil, Nat.add_zero] at hcount
    have hle : ¬ pre.length ≤ count := by omega
    cases fuel with
    | zero => simp [appendQuoted, literalTokens]
    | succ fuel => simp [appendQuoted, literalTokens, hle]
  | cons c t ih =>
    intro pre count fuel builder hpre hcount hfuel
    obtain ⟨f, rfl⟩ : ∃ f, fuel = f + 1 := ⟨fuel - 1, by simp at hfuel; omega⟩
    have hf : t.length ≤ f := by simpa using hfuel
    by_cases hc : c = singleQuote
    · subst hc
      simp only [encodeQuotes, if_true, List.length_cons] at hcount ⊢
      have hle : pre.length ≤ count := by omega
      have hget : (pre ++ singleQuote :: singleQuote :: encodeQuotes t ++ tail).getD pre.length
          ' ' = singleQuote := by
        rw [List.append_assoc]
        exact getD_append_length pre _ _ _
      simp only [appendQuoted, if_pos hle, hget, if_true]
      have e : pre ++ singleQuote :: singleQuote :: encodeQuotes t ++ tail =
          (pre ++ [singleQuote, singleQuote]) ++ encodeQuotes t ++ tail := by simp
      have el : pre.length + 1 + 1 = (pre ++ [singleQuote, singleQuote]).length := by simp
      rw [e, el, ih _ count f _ (by simp) (by simp; omega) hf]
      simp [appendLiteral, literalTokens]
    · simp only [encodeQuotes, if_neg hc, List.length_cons] at hcount ⊢
      have hle : pre.length ≤ count := by omega
      have hget : (pre ++ c :: encodeQuotes t ++ tail).getD pre.length ' ' = c := by
        rw [List.append_assoc]
        exact getD_append_length pre _ _ _
      simp only [appendQuoted, if_pos hle, hget, if_neg hc]
      have e : pre ++ c :: encodeQuotes t ++ tail = (pre ++ [c]) ++ encodeQuotes t ++ tail := by
        simp
      have el : pre.length + 1 = (pre ++ [c]).length := by simp
      rw [e, el, ih _ count f _ (by simp) (by simp; omega) hf]
      simp [appendLiteral, literalTokens]

theorem drop_quoted (body rest : List Char) :
    (singleQuote :: (body ++ singleQuote :: rest)).drop (body.length + 2) = rest := by
  have e : singleQuote :: (body ++ singleQuote :: rest) =
      (singleQuote :: body ++ [singleQuote]) ++ rest := by simp
  rw [e, List.drop_left' (by simp)]

/-- C13: in the Joda and Simple compilers (the loop they share, for either
letter switch and any dialect tag) a quoted run, that is an opening quote not
directly followed by a quote, a body in which every quote is doubled, and a
closing quote not directly followed by a quote, adds one literal token per byte
of the body with every doubled quote replaced by one quote, whatever letters the
body holds; and a doubled quote outside a quoted run adds the literal of one
single quote. -/
theorem compile_quoted_run (skip : Bool)
    (specifier : DateTimeFormatterBuilder → Char → Nat → List Char →
      Option DateTimeFormatterBuilder)
    (type : DateTimeFormatterType) (text rest : List Char)
    (builder : DateTimeFormatterBuilder)
    (hne : text ≠ []) (hfirst : text.head? ≠ some singleQuote)
    (hrest : rest.head? ≠ some singleQuote) :
    compileFrom skip specifier type
        (singleQuote :: (encodeQuotes text ++ singleQuote :: rest)) builder =
      compileFrom skip specifier type rest (builder ++ literalTokens text) ∧
    compileFrom skip specifier type (singleQuote :: singleQuote :: rest) builder =
      compileFrom skip specifier type rest (builder ++ [.kLiteral [singleQuote]]) := by
  constructor
  · obtain ⟨c0, t, rfl⟩ : ∃ c0 t, text = c0 :: t := by
      cases text with
      | nil => exact absurd rfl hne
      | cons c0 t => exact ⟨c0, t, rfl⟩
    have hc0 : c0 ≠ singleQuote := fun e => hfirst (by rw [e]; rfl)
    have hcount : numLiteralChars (encodeQuotes (c0 :: t) ++ singleQuote :: rest) =
        ((encodeQuotes (c0 :: t)).length : Int) := by
      unfold numLiteralChars
      rw [numLiteralCharsFrom_encoded _ _ hrest]
      omega
    have hhead : ¬ (0 < (encodeQuotes (c0 :: t) ++ singleQuote :: rest).length ∧
        (encodeQuotes (c0 :: t) ++ singleQuote :: rest).getD 0 ' ' = singleQuote) := by
      simp only [encodeQuotes, if_neg hc0, List.cons_append, List.getD_cons_zero]
      exact fun h => hc0 h.2
    have hneg : ¬ ((encodeQuotes (c0 :: t)).length : Int) = -1 := by omega
    have happ := appendQuoted_encoded (singleQuote :: rest) (c0 :: t) [singleQuote]
      (encodeQuotes (c0 :: t)).length (encodeQuotes (c0 :: t)).length builder (by simp)
      (by simp; omega) (encodeQuotes_length_le _)
    simp only [List.singleton_append, List.length_singleton] at happ
    rw [List.cons_append] at happ
    simp only [compileFrom, List.length_cons, buildQuotedLoop, if_true, if_neg hhead, hcount,
      if_neg hneg, Int.toNat_ofNat, happ, drop_quoted]
    exact buildQuotedLoop_fuel skip specifier type _ rest _
      (by simp only [List.length_append, List.length_cons]; omega)
  · have hhead : 0 < (singleQuote :: rest).length ∧
        (singleQuote :: rest).getD 0 ' ' = singleQuote := ⟨by simp, rfl⟩
    show buildQuotedLoop skip specifier type (rest.length + 1 + 1)
      (singleQuote :: singleQuote :: rest) builder = _
    rw [buildQuotedLoop]
    dsimp only
    rw [if_pos rfl, if_pos hhead]
    exact buildQuotedLoop_fuel skip specifier type (rest.length + 1) rest _ (by omega)

/-- Witness of C13: `'o''clock yy'` compiles to the bytes of `o'clock yy` under
Joda, `''` to one quote under Simple. -/
theorem compile_quoted_run_witness :
    buildJodaDateTimeFormatter false
        (singleQuote :: ("o".toList ++ [singleQuote, singleQuote] ++ "clock yy".toList ++
          [singleQuote])) =
      .value ⟨literalTokens ("o".toList ++ [singleQuote] ++ "clock yy".toList), .JODA⟩ ∧
    buildSimpleDateTimeFormatter false [singleQuote, singleQuote] true =
      .value ⟨[.kLiteral [singleQuote]], .LENIENT_SIMPLE⟩ :=
  ⟨(compile_quoted_run false jodaSpecifier .JODA
      ("o".toList ++ [singleQuote] ++ "clock yy".toList) [] [] (by decide) (by decide)
      (by decide)).1,
    (compile_quoted_run false simpleSpecifier .LENIENT_SIMPLE ['x'] [] [] (by decide)
      (by decide) (by decide)).2⟩

/-! ### C14: month names -/

theorem monthEntryOk_all : ∀ m ∈ List.range 12, ∀ v ∈ [LetterCase.capitalized, .lower, .upper],
    monthEntryOk m v = true := by
  decide

theorem startsWith_self_append (s rest : List Char) : startsWith (s ++ rest) s = true := by
  simp [startsWith]

theorem startsWith_false_of_alpha (rest suffix : List Char) (hne : suffix ≠ [])
    (hs : suffix.all Char.isAlpha = true) (hrest : ∀ c ∈ rest.head?, c.isAlpha = false) :
    startsWith rest suffix = false := by
  cases suffix with
  | nil => exact absurd rfl hne
  | cons s0 tl =>
    have hs0 : s0.isAlpha = true := by
      simp only [List.all_cons, Bool.and_eq_true] at hs
      exact hs.1
    cases rest with
    | nil => simp [startsWith]
    | cons r0 rt =>
      have hr0 : r0.isAlpha = false := hrest r0 rfl
      have hne0 : r0 ≠ s0 := by
        intro e
        rw [e, hs0] at hr0
        cases hr0
      simp [startsWith, hne0]

theorem parseMonthText_full {Z : Type} (date : Date Z) (key suffix rest : List Char) (value : Int)
    (hk : key.length = 3) (hlook : monthMap.lookup key = some (suffix, value)) :
    parseMonthText (key ++ suffix ++ rest) date =
      ((suffix.length : Int) + 3, { date with month := value }) := by
  have htake : (key ++ suffix ++ rest).take 3 = key := by
    rw [List.append_assoc, ← hk, List.take_left]
  have hdrop : (key ++ suffix ++ rest).drop 3 = suffix ++ rest := by
    rw [List.append_assoc, ← hk, List.drop_left]
  have hlen : 3 ≤ (key ++ suffix ++ rest).length := by
    simp only [List.length_append]; omega
  have hlen2 : suffix.length + 3 ≤ (key ++ suffix ++ rest).length := by
    simp only [List.length_append]; omega
  simp only [parseMonthText, if_pos hlen, htake, hlook, hdrop, startsWith_self_append, hlen2,
    and_self, if_true]

theorem parseMonthText_short {Z : Type} (date : Date Z) (key suffix rest : List Char)
    (value : Int) (hk : key.length = 3) (hlook : monthMap.lookup key = some (suffix, value))
    (hrest : suffix = [] ∨ startsWith rest suffix = false) :
    parseMonthText (key ++ rest) date = (3, { date with month := value }) := by
  have htake : (key ++ rest).take 3 = key := by
    rw [← hk, List.take_left]
  have hdrop : (key ++ rest).drop 3 = rest := by
    rw [← hk, List.drop_left]
  have hlen : 3 ≤ (key ++ rest).length := by
    simp only [List.length_append]; omega
  simp only [parseMonthText, if_pos hlen, htake, hlook, hdrop]
  rcases hrest with h | h
  · subst h
    simp
  · simp [h]

theorem parseFromPattern_monthText {Z : Type} (env : Env Z) (p : FormatPattern)
    (hp : p.specifier = .MONTH_OF_YEAR_TEXT) (cur rest : List Char) (date : Date Z)
    (buf : List Char) (next : Bool) (type : DateTimeFormatterType) (size : Nat) (value : Int)
    (hparse : parseMonthText cur date = ((size : Int), { date with month := value }))
    (hdrop : cur.drop size = rest) :
    parseFromPattern env p ⟨cur, date, buf⟩ next type =
      (.ok, ⟨rest, withMonth date value, buf⟩) := by
  have hs : ¬ ((size : Int) = -1) := by omega
  simp only [parseFromPattern, hp, reduceCtorEq, if_false, if_true, hparse, if_neg hs,
    Int.toNat_ofNat, hdrop, withMonth]

/-- C14: for each of the twelve months and each of the three case variants, a
month-text token reads the three-letter abbreviation (when no letter follows
it) and the full name (whatever follows) as that month, moves the cursor
behind the three letters or the whole name, and sets the year to 2000 when
none was set before. -/
theorem parseFromPattern_month_names {Z : Type} (env : Env Z) (p : FormatPattern)
    (hp : p.specifier = .MONTH_OF_YEAR_TEXT) (date : Date Z) (buf : List Char) (next : Bool)
    (type : DateTimeFormatterType) (m : Nat) (hm : m < 12) (v : LetterCase)
    (rest : List Char) :
    ((∀ c ∈ rest.head?, c.isAlpha = false) →
      parseFromPattern env p ⟨v.apply (monthsShort.getD m []) ++ rest, date, buf⟩ next type =
        (.ok, ⟨rest, withMonth date ((m : Int) + 1), buf⟩)) ∧
    parseFromPattern env p ⟨v.apply (monthsFull.getD m []) ++ rest, date, buf⟩ next type =
      (.ok, ⟨rest, withMonth date ((m : Int) + 1), buf⟩) ∧
    (v.apply (monthsShort.getD m [])).length = 3 ∧
    (withMonth date ((m : Int) + 1)).month = (m : Int) + 1 ∧
    (date.hasYear = false → (withMonth date ((m : Int) + 1)).year = 2000) := by
  have hok := monthEntryOk_all m (List.mem_range.mpr hm) v (by cases v <;> simp)
  simp only [monthEntryOk, Bool.and_eq_true, decide_eq_true_eq] at hok
  obtain ⟨⟨⟨hk, hlook⟩, hfull⟩, halpha⟩ := hok
  refine ⟨fun hrest => ?_, ?_, hk, ?_, ?_⟩
  · apply parseFromPattern_monthText env p hp _ rest date buf next type 3 _
    · refine parseMonthText_short date _ _ rest _ hk hlook ?_
      by_cases hs : (v.apply (monthsFull.getD m [])).drop 3 = []
      · exact Or.inl hs
      · exact Or.inr (startsWith_false_of_alpha rest _ hs halpha hrest)
    · rw [← hk, List.drop_left]
  · rw [hfull]
    apply parseFromPattern_monthText env p hp _ rest date buf next type
      (((v.apply (monthsFull.getD m [])).drop 3).length + 3) _
    · have := parseMonthText_full date _ _ rest _ hk hlook
      rw [this]
      push_cast
      rfl
    · rw [List.append_assoc]
      have e : ((v.apply (monthsFull.getD m [])).drop 3).length + 3 =
          (v.apply (monthsShort.getD m []) ++ (v.apply (monthsFull.getD m [])).drop 3).length := by
        rw [List.length_append, hk]; omega
      rw [← List.append_assoc, e, List.drop_left]
  · unfold withMonth
    dsimp only
    split <;> rfl
  · intro hy
    unfold withMonth
    dsimp only
    rw [hy]
    rfl

/-- Witness of C14: `Jan`, `jan`, `JAN` and `January` give month 1 and the
year 2000. -/
theorem parseFromPattern_month_names_witness :
    (parseFromPattern sampleEnv ⟨.MONTH_OF_YEAR_TEXT, 3⟩ ⟨"Jan".toList, {}, timezoneBufferInit⟩
        false .JODA =
      (.ok, ⟨[], { month := 1, hasYear := true, year := 2000 }, timezoneBufferInit⟩)) ∧
    (parseFromPattern sampleEnv ⟨.MONTH_OF_YEAR_TEXT, 3⟩ ⟨"jan".toList, {}, timezoneBufferInit⟩
        false .JODA =
      (.ok, ⟨[], { month := 1, hasYear := true, year := 2000 }, timezoneBufferInit⟩)) ∧
    (parseFromPattern sampleEnv ⟨.MONTH_OF_YEAR_TEXT, 3⟩ ⟨"JAN".toList, {}, timezoneBufferInit⟩
        false .JODA =
      (.ok, ⟨[], { month := 1, hasYear := true, year := 2000 }, timezoneBufferInit⟩)) ∧
    (parseFromPattern sampleEnv ⟨.MONTH_OF_YEAR_TEXT, 4⟩
        ⟨"January".toList, {}, timezoneBufferInit⟩ false .JODA =
      (.ok, ⟨[], { month := 1, hasYear := true, year := 2000 }, timezoneBufferInit⟩)) :=
  ⟨(parseFromPattern_month_names sampleEnv ⟨.MONTH_OF_YEAR_TEXT, 3⟩ rfl {} timezoneBufferInit
      false .JODA 0 (by decide) .capitalized []).1 (by simp),
    (parseFromPattern_month_names sampleEnv ⟨.MONTH_OF_YEAR_TEXT, 3⟩ rfl {} timezoneBufferInit
      false .JODA 0 (by decide) .lower []).1 (by simp),
    (parseFromPattern_month_names sampleEnv ⟨.MONTH_OF_YEAR_TEXT, 3⟩ rfl {} timezoneBufferInit
      false .JODA 0 (by decide) .upper []).1 (by simp),
    (parseFromPattern_month_names sampleEnv ⟨.MONTH_OF_YEAR_TEXT, 4⟩ rfl {} timezoneBufferInit
      false .JODA 0 (by decide) .capitalized []).2.1⟩

/-! ### C15: era and half-day text -/

/-- Counterexample to C15 as stated: the capitalized forms `Ad`, `Bc`, `Am` and
`Pm` are rejected, by the sub-parsers and by the era and half-day tokens. -/
theorem parseEra_capitalized_rejected :
    parseEra "Ad".toList ({} : Date (List Char)) = (-1, {}) ∧
    parseEra "Bc".toList ({} : Date (List Char)) = (-1, {}) ∧
    parseHalfDayOfDay "Am".toList ({} : Date (List Char)) = (-1, {}) ∧
    parseHalfDayOfDay "Pm".toList ({} : Date (List Char)) = (-1, {}) ∧
    (parseFromPattern sampleEnv ⟨.ERA, 2⟩ ⟨"Ad".toList, {}, timezoneBufferInit⟩ false .JODA).1 =
      .fail ∧
    (parseFromPattern sampleEnv ⟨.HALFDAY_OF_DAY, 2⟩ ⟨"Pm".toList, {}, timezoneBufferInit⟩ false
      .JODA).1 = .fail :=
  ⟨rfl, rfl, rfl, rfl, rfl, rfl⟩

theorem startsWith_iff_prefix (cur s : List Char) : startsWith cur s = true ↔ s <+: cur := by
  simp only [startsWith, decide_eq_true_eq, List.prefix_iff_eq_take]
  exact eq_comm

theorem not_prefix_of_short (cur s : List Char) (h : cur.length < s.length) : ¬ s <+: cur :=
  fun hp => absurd hp.length_le (by omega)

/-- C15 (amended): era text and half-day text are matched case-sensitively in
two case variants each. `parseEra` accepts exactly the inputs that begin with
`AD`, `ad` (era AD) or `BC`, `bc` (era BC), `parseHalfDayOfDay` exactly those
that begin with `AM`, `am` (before noon) or `PM`, `pm` (after noon), each
consuming 2 characters; every other input, the capitalized `Ad`, `Bc`, `Am`,
`Pm` among them, is rejected with `-1`. -/
theorem parseEra_parseHalfDayOfDay_variants {Z : Type} (date : Date Z) (cur : List Char) :
    (parseEra cur date =
      if "AD".toList <+: cur ∨ "ad".toList <+: cur then (2, { date with isAd := true })
      else if "BC".toList <+: cur ∨ "bc".toList <+: cur then (2, { date with isAd := false })
      else (-1, date)) ∧
    (parseHalfDayOfDay cur date =
      if "AM".toList <+: cur ∨ "am".toList <+: cur then (2, { date with isAm := true })
      else if "PM".toList <+: cur ∨ "pm".toList <+: cur then (2, { date with isAm := false })
      else (-1, date)) := by
  constructor
  · by_cases hlen : 2 ≤ cur.length
    · simp only [parseEra, if_pos hlen, Bool.or_eq_true, startsWith_iff_prefix]
    · have h : ∀ s : List Char, s.length = 2 → ¬ s <+: cur := fun s hs =>
        not_prefix_of_short cur s (by omega)
      simp only [parseEra, if_neg hlen, h "AD".toList rfl, h "ad".toList rfl, h "BC".toList rfl,
        h "bc".toList rfl, or_self, if_false]
  · by_cases hlen : 2 ≤ cur.length
    · simp only [parseHalfDayOfDay, if_pos hlen, Bool.or_eq_true, startsWith_iff_prefix]
    · have h : ∀ s : List Char, s.length = 2 → ¬ s <+: cur := fun s hs =>
        not_prefix_of_short cur s (by omega)
      simp only [parseHalfDayOfDay, if_neg hlen, h "AM".toList rfl, h "am".toList rfl,
        h "PM".toList rfl, h "pm".toList rfl, or_self, if_false]

/-- Witness of C15 (amended): `BC` and `pm` are accepted, `Bc` is rejected. -/
theorem parseEra_parseHalfDayOfDay_variants_witness :
    parseEra "BC 44".toList ({} : Date (List Char)) = (2, { isAd := false }) ∧
    parseHalfDayOfDay "pm".toList ({} : Date (List Char)) = (2, { isAm := false }) ∧
    parseEra "Bc 44".toList ({} : Date (List Char)) = (-1, {}) :=
  ⟨(parseEra_parseHalfDayOfDay_variants {} "BC 44".toList).1,
    (parseEra_parseHalfDayOfDay_variants {} "pm".toList).2,
    (parseEra_parseHalfDayOfDay_variants {} "Bc 44".toList).1⟩

/-! ### C16: the domains of the numeric fields -/

theorem readDigits_rendered (max K n : Nat) (rest : List Char) (hmax : K ≤ max)
    (hn : n < 10 ^ K) (hbig : n < 1000000000000000000)
    (hstop : K = max ∨ ∀ c ∈ rest.head?, characterIsDigit c = false) :
    readDigits max (digitsOfWidth K n ++ rest) 0 0 = ((n : Int), K, rest) := by
  have e : max = K + (max - K) := by omega
  rw [e, readDigits_digitsOfWidth K _ n rest 0 hn hbig]
  rcases hstop with h | h
  · have : max - K = 0 := by omega
    rw [this]
    simp [readDigits]
  · rw [readDigits_stop _ rest _ _ h]
    simp

theorem parseFromPattern_unsigned {Z : Type} (env : Env Z) (p : FormatPattern)
    (st : ParseState Z) (next : Bool) (type : DateTimeFormatterType)
    (hspec : hasFieldDomain p.specifier = true ∨ p.specifier = .FRACTION_OF_SECOND) :
    parseFromPattern env p st next type = parseDigitsFrom env p st next type false st.cur := by
  obtain ⟨spec, w⟩ := p
  obtain ⟨cur, date, buf⟩ := st
  simp only at hspec ⊢
  have hnum : parseFromPattern env ⟨spec, w⟩ ⟨cur, date, buf⟩ next type =
      parseNumeric env ⟨spec, w⟩ ⟨cur, date, buf⟩ next type := by
    rcases hspec with h | h
    · cases spec <;> first | exact absurd h (by decide) | rfl
    · subst h; rfl
  have hneg : specAllowsNegative spec = false := by
    rcases hspec with h | h
    · cases spec <;> first | exact absurd h (by decide) | rfl
    · subst h; rfl
  have hplus : specAllowsPlusSign spec next = false := by
    rcases hspec with h | h
    · cases spec <;> cases next <;> first | exact absurd h (by decide) | rfl
    · subst h; cases next <;> rfl
  rw [hnum]
  cases cur with
  | nil => rfl
  | cons c cs =>
    simp only [parseNumeric, hneg, hplus, Bool.false_eq_true, false_and, if_false]

theorem parseFromPattern_domain_digits {Z : Type} (env : Env Z) (p : FormatPattern)
    (st : ParseState Z) (next : Bool) (type : DateTimeFormatterType) (K n : Nat)
    (rest : List Char) (hspec : hasFieldDomain p.specifier = true)
    (hcur : st.cur = digitsOfWidth K n ++ rest) (hK : 1 ≤ K)
    (hmax : K ≤ getMaxDigitConsume p next type) (hn : n < 10 ^ K)
    (hbig : n < 1000000000000000000)
    (hstop : K = getMaxDigitConsume p next type ∨
      ∀ c ∈ rest.head?, characterIsDigit c = false) :
    parseFromPattern env p st next type =
      ((applyNumber p type n st.date).1,
        { st with cur := rest, date := (applyNumber p type n st.date).2 }) := by
  rw [parseFromPattern_unsigned env p st next type (Or.inl hspec), hcur]
  have hr := readDigits_rendered _ K n rest hmax hn hbig hstop
  have hfrac : p.specifier ≠ .FRACTION_OF_SECOND := by
    intro h; rw [h] at hspec; exact absurd hspec (by decide)
  have hyear : ¬ (isYearSpecifier p.specifier = true ∧ p.minRepresentDigits = 2) := by
    rintro ⟨h, -⟩
    revert hspec h
    cases p.specifier <;> decide
  have hlen : ¬ ((digitsOfWidth K n ++ rest).length ≤ rest.length) := by
    rw [List.length_append, digitsOfWidth_length]
    omega
  simp only [parseDigitsFrom, hr]
  rw [if_neg hfrac, if_neg hyear]
  simp only [finishNumeric]
  rw [if_neg hlen]
  simp

theorem applyNumber_domain {Z : Type} (p : FormatPattern) (type : DateTimeFormatterType)
    (n : Nat) (date : Date Z) (hspec : hasFieldDomain p.specifier = true) :
    (applyNumber p type n date).1 =
      (if inFieldDomain p.specifier type n = true then .ok else .fail) := by
  obtain ⟨spec, w⟩ := p
  simp only at hspec ⊢
  cases spec <;> first
    | exact absurd hspec (by decide)
    | skip
  · -- WEEK_OF_WEEK_YEAR
    simp only [applyNumber, inFieldDomain, fieldDomain, Bool.and_eq_true, decide_eq_true_eq]
    by_cases h : (n : Int) < 1 ∨ (n : Int) > 52
    · have h2 : ¬ ((1 : Int) ≤ n ∧ (n : Int) ≤ 52) := by omega
      rw [if_pos h, if_neg h2]
    · have h2 : (1 : Int) ≤ n ∧ (n : Int) ≤ 52 := by omega
      rw [if_neg h, if_pos h2]
  · -- DAY_OF_WEEK_1_BASED
    by_cases ht : type = .LENIENT_SIMPLE
    · simp [applyNumber, inFieldDomain, fieldDomain, ht]
    · simp only [applyNumber, inFieldDomain, fieldDomain, if_neg ht, Bool.and_eq_true,
        decide_eq_true_eq]
      by_cases h : (n : Int) < 1 ∨ (n : Int) > 7
      · have h1 : type ≠ .LENIENT_SIMPLE ∧ ((n : Int) < 1 ∨ (n : Int) > 7) := ⟨ht, h⟩
        have h2 : ¬ ((1 : Int) ≤ n ∧ (n : Int) ≤ 7) := by omega
        rw [if_pos h1, if_neg h2]
      · have h1 : ¬ (type ≠ .LENIENT_SIMPLE ∧ ((n : Int) < 1 ∨ (n : Int) > 7)) := fun hh => h hh.2
        have h2 : (1 : Int) ≤ n ∧ (n : Int) ≤ 7 := by omega
        rw [if_neg h1, if_pos h2]
  · -- MONTH_OF_YEAR
    by_cases ht : type = .LENIENT_SIMPLE
    · simp [applyNumber, inFieldDomain, fieldDomain, ht]
    · simp only [applyNumber, inFieldDomain, fieldDomain, if_neg ht, Bool.and_eq_true,
        decide_eq_true_eq]
      by_cases h : (n : Int) < 1 ∨ (n : Int) > 12
      · have h1 : type ≠ .LENIENT_SIMPLE ∧ ((n : Int) < 1 ∨ (n : Int) > 12) := ⟨ht, h⟩
        have h2 : ¬ ((1 : Int) ≤ n ∧ (n : Int) ≤ 12) := by omega
        rw [if_pos h1, if_neg h2]
      · have h1 : ¬ (type ≠ .LENIENT_SIMPLE ∧ ((n : Int) < 1 ∨ (n : Int) > 12)) := fun hh => h hh.2
        have h2 : (1 : Int) ≤ n ∧ (n : Int) ≤ 12 := by omega
        rw [if_neg h1, if_pos h2]
  · -- HOUR_OF_HALFDAY
    simp only [applyNumber, inFieldDomain, fieldDomain, Bool.and_eq_true, decide_eq_true_eq]
    by_cases h : (n : Int) > 11 ∨ (n : Int) < 0
    · have h2 : ¬ ((0 : Int) ≤ n ∧ (n : Int) ≤ 11) := by omega
      rw [if_pos h, if_neg h2]
    · have h2 : (0 : Int) ≤ n ∧ (n : Int) ≤ 11 := by omega
      rw [if_neg h, if_pos h2]
  · -- CLOCK_HOUR_OF_HALFDAY
    simp only [applyNumber, inFieldDomain, fieldDomain, Bool.and_eq_true, decide_eq_true_eq]
    by_cases h : (n : Int) > 12 ∨ (n : Int) < 1
    · have h2 : ¬ ((1 : Int) ≤ n ∧ (n : Int) ≤ 12) := by omega
      rw [if_pos h, if_neg h2]
    · have h2 : (1 : Int) ≤ n ∧ (n : Int) ≤ 12 := by omega
      rw [if_neg h, if_pos h2]
  · -- HOUR_OF_DAY
    simp only [applyNumber, inFieldDomain, fieldDomain, Bool.and_eq_true, decide_eq_true_eq]
    by_cases h : (n : Int) > 23 ∨ (n : Int) < 0
    · have h2 : ¬ ((0 : Int) ≤ n ∧ (n : Int) ≤ 23) := by omega
      rw [if_pos h, if_neg h2]
    · have h2 : (0 : Int) ≤ n ∧ (n : Int) ≤ 23 := by omega
      rw [if_neg h, if_pos h2]
  · -- CLOCK_HOUR_OF_DAY
    simp only [applyNumber, inFieldDomain, fieldDomain, Bool.and_eq_true, decide_eq_true_eq]
    by_cases h : (n : Int) > 24 ∨ (n : Int) < 1
    · have h2 : ¬ ((1 : Int) ≤ n ∧ (n : Int) ≤ 24) := by omega
      rw [if_pos h, if_neg h2]
    · have h2 : (1 : Int) ≤ n ∧ (n : Int) ≤ 24 := by omega
      rw [if_neg h, if_pos h2]
  · -- MINUTE_OF_HOUR
    simp only [applyNumber, inFieldDomain, fieldDomain, Bool.and_eq_true, decide_eq_true_eq]
    by_cases h : (n : Int) > 59 ∨ (n : Int) < 0
    · have h2 : ¬ ((0 : Int) ≤ n ∧ (n : Int) ≤ 59) := by omega
      rw [if_pos h, if_neg h2]
    · have h2 : (0 : Int) ≤ n ∧ (n : Int) ≤ 59 := by omega
      rw [if_neg h, if_pos h2]
  · -- SECOND_OF_MINUTE
    simp only [applyNumber, inFieldDomain, fieldDomain, Bool.and_eq_true, decide_eq_true_eq]
    by_cases h : (n : Int) > 59 ∨ (n : Int) < 0
    · have h2 : ¬ ((0 : Int) ≤ n ∧ (n : Int) ≤ 59) := by omega
      rw [if_pos h, if_neg h2]
    · have h2 : (0 : Int) ≤ n ∧ (n : Int) ≤ 59 := by omega
      rw [if_neg h, if_pos h2]

theorem applyNumber_clock_hour {Z : Type} (w : Nat) (type : DateTimeFormatterType) (n : Nat)
    (date : Date Z) :
    (inFieldDomain .CLOCK_HOUR_OF_DAY type n = true →
      (applyNumber ⟨.CLOCK_HOUR_OF_DAY, w⟩ type n date).2.hour = (n : Int) % 24) ∧
    (inFieldDomain .CLOCK_HOUR_OF_HALFDAY type n = true →
      (applyNumber ⟨.CLOCK_HOUR_OF_HALFDAY, w⟩ type n date).2.hour = (n : Int) % 12) := by
  constructor
  · intro h
    simp only [inFieldDomain, fieldDomain, Bool.and_eq_true, decide_eq_true_eq] at h
    have h1 : ¬ ((n : Int) > 24 ∨ (n : Int) < 1) := by omega
    simp only [applyNumber]
    rw [if_neg h1]
  · intro h
    simp only [inFieldDomain, fieldDomain, Bool.and_eq_true, decide_eq_true_eq] at h
    have h1 : ¬ ((n : Int) > 12 ∨ (n : Int) < 1) := by omega
    simp only [applyNumber]
    rw [if_neg h1]

/-- C16: for a numeric token of one of the fields month, day-of-week (1-based),
hour-of-day, clock-hour-of-day, hour-of-halfday, clock-hour-of-halfday, minute,
second and week-of-week-year whose digits read the value `n`, `parseFromPattern`
fails exactly when `n` lies outside the domain of the field (month 1..12 and
day-of-week 1..7, both unchecked under lenient-simple, hour-of-day 0..23,
clock-hour-of-day 1..24, hour-of-halfday 0..11, clock-hour-of-halfday 1..12,
minute and second 0..59, week 1..52) and succeeds otherwise; on success
clock-hour-of-day stores `n mod 24` and clock-hour-of-halfday `n mod 12`. -/
theorem parseFromPattern_field_domain {Z : Type} (env : Env Z) (p : FormatPattern)
    (st : ParseState Z) (next : Bool) (type : DateTimeFormatterType) (K n : Nat)
    (rest : List Char) (hspec : hasFieldDomain p.specifier = true)
    (hcur : st.cur = digitsOfWidth K n ++ rest) (hK : 1 ≤ K)
    (hmax : K ≤ getMaxDigitConsume p next type) (hn : n < 10 ^ K)
    (hbig : n < 1000000000000000000)
    (hstop : K = getMaxDigitConsume p next type ∨
      ∀ c ∈ rest.head?, characterIsDigit c = false) :
    ((parseFromPattern env p st next type).1 = .fail ↔
        inFieldDomain p.specifier type n = false) ∧
      ((parseFromPattern env p st next type).1 = .ok ↔
        inFieldDomain p.specifier type n = true) ∧
      (inFieldDomain p.specifier type n = true → p.specifier = .CLOCK_HOUR_OF_DAY →
        (parseFromPattern env p st next type).2.date.hour = (n : Int) % 24) ∧
      (inFieldDomain p.specifier type n = true → p.specifier = .CLOCK_HOUR_OF_HALFDAY →
        (parseFromPattern env p st next type).2.date.hour = (n : Int) % 12) := by
  rw [parseFromPattern_domain_digits env p st next type K n rest hspec hcur hK hmax hn hbig
    hstop]
  simp only [applyNumber_domain p type n st.date hspec]
  refine ⟨?_, ?_, ?_, ?_⟩
  · cases inFieldDomain p.specifier type n <;> simp
  · cases inFieldDomain p.specifier type n <;> simp
  · intro h hs
    obtain ⟨spec, w⟩ := p
    simp only at hs
    subst hs
    exact (applyNumber_clock_hour w type n st.date).1 h
  · intro h hs
    obtain ⟨spec, w⟩ := p
    simp only at hs
    subst hs
    exact (applyNumber_clock_hour w type n st.date).2 h

/-- Witness of C16: month `13` fails under Joda and is accepted under
lenient-simple; clock-hour-of-day `24` is stored as hour 0, `25` fails. -/
theorem parseFromPattern_field_domain_witness :
    (parseFromPattern sampleEnv ⟨.MONTH_OF_YEAR, 2⟩ ⟨"13".toList, {}, timezoneBufferInit⟩ false
      .JODA).1 = .fail ∧
    (parseFromPattern sampleEnv ⟨.MONTH_OF_YEAR, 2⟩ ⟨"13".toList, {}, timezoneBufferInit⟩ false
      .LENIENT_SIMPLE).1 = .ok ∧
    (parseFromPattern sampleEnv ⟨.CLOCK_HOUR_OF_DAY, 2⟩ ⟨"24".toList, {}, timezoneBufferInit⟩
      false .JODA).2.date.hour = 0 ∧
    (parseFromPattern sampleEnv ⟨.CLOCK_HOUR_OF_DAY, 2⟩ ⟨"25".toList, {}, timezoneBufferInit⟩
      false .JODA).1 = .fail :=
  ⟨(parseFromPattern_field_domain sampleEnv ⟨.MONTH_OF_YEAR, 2⟩
      ⟨"13".toList, {}, timezoneBufferInit⟩ false .JODA 2 13 [] rfl rfl (by decide) (by decide)
      (by decide) (by decide) (Or.inl rfl)).1.2 rfl,
    (parseFromPattern_field_domain sampleEnv ⟨.MONTH_OF_YEAR, 2⟩
      ⟨"13".toList, {}, timezoneBufferInit⟩ false .LENIENT_SIMPLE 2 13 [] rfl rfl (by decide)
      (by decide) (by decide) (by decide) (Or.inl rfl)).2.1.2 rfl,
    (parseFromPattern_field_domain sampleEnv ⟨.CLOCK_HOUR_OF_DAY, 2⟩
      ⟨"24".toList, {}, timezoneBufferInit⟩ false .JODA 2 24 [] rfl rfl (by decide) (by decide)
      (by decide) (by decide) (Or.inl rfl)).2.2.1 rfl rfl,
    (parseFromPattern_field_domain sampleEnv ⟨.CLOCK_HOUR_OF_DAY, 2⟩
      ⟨"25".toList, {}, timezoneBufferInit⟩ false .JODA 2 25 [] rfl rfl (by decide) (by decide)
      (by decide) (by decide) (Or.inl rfl)).1.2 rfl⟩

/-! ### C17: the two-digit year under MySQL -/

theorem applyNumber_year_ok {Z : Type} (w : Nat) (type : DateTimeFormatterType) (v : Int)
    (date : Date Z) (h0 : -292275055 ≤ v) (h1 : v ≤ 292278994) :
    applyNumber ⟨.YEAR, w⟩ type v date =
      (.ok, { date with centuryFormat := false, isYearOfEra := false, hasYear := true,
                        year := v }) := by
  have c1 : ¬ (v > 292278994 ∨ v < -292275055) := by omega
  simp only [applyNumber, decide_False, Bool.false_eq_true, false_and, if_false,
    reduceCtorEq, true_and, if_neg c1]

/-- C17: under the MySQL dialect a width-2 year token that captures `K` digits
(`K` at least 1 and at most the limit of `getMaxDigitConsume`, the digit run
ending there or at the limit) succeeds exactly when `K` is 2. When no pattern
token follows directly the limit is 4, so an input of one, three or four digits
gives the failure code; the year of a two-digit input is 2000 + n for n < 70
and 1900 + n otherwise. -/
theorem parseFromPattern_mysql_two_digit_year {Z : Type} (env : Env Z) (st : ParseState Z)
    (next : Bool) (K n : Nat) (rest : List Char)
    (hcur : st.cur = digitsOfWidth K n ++ rest) (hK : 1 ≤ K)
    (hmax : K ≤ getMaxDigitConsume ⟨.YEAR, 2⟩ next .MYSQL) (hn : n < 10 ^ K)
    (hstop : K = getMaxDigitConsume ⟨.YEAR, 2⟩ next .MYSQL ∨
      ∀ c ∈ rest.head?, characterIsDigit c = false) :
    ((parseFromPattern env ⟨.YEAR, 2⟩ st next .MYSQL).1 = .fail ↔ K ≠ 2) ∧
    ((parseFromPattern env ⟨.YEAR, 2⟩ st next .MYSQL).1 = .ok ↔ K = 2) ∧
    (K = 2 → (parseFromPattern env ⟨.YEAR, 2⟩ st next .MYSQL).2.date.year =
      if n < 70 then 2000 + (n : Int) else 1900 + (n : Int)) ∧
    getMaxDigitConsume ⟨.YEAR, 2⟩ false .MYSQL = 4 := by
  obtain ⟨cur, date, buf⟩ := st
  simp only at hcur
  subst hcur
  have hK4 : K ≤ 4 := by
    have : getMaxDigitConsume ⟨.YEAR, 2⟩ next .MYSQL ≤ 4 := by
      cases next <;> simp [getMaxDigitConsume]
    omega
  have hbig : n < 1000000000000000000 := by
    have : 10 ^ K ≤ 10 ^ 4 := Nat.pow_le_pow_right (by omega) hK4
    omega
  obtain ⟨c, cs, hcs, hcd⟩ := digitsOfWidth_cons K n hK
  have hc1 := digit_ne_minus c hcd
  have hc2 := digit_ne_plus c hcd
  have hr := readDigits_rendered _ K n rest hmax hn hbig hstop
  have hparse : parseFromPattern env ⟨.YEAR, 2⟩ ⟨digitsOfWidth K n ++ rest, date, buf⟩ next
      .MYSQL = parseDigitsFrom env ⟨.YEAR, 2⟩ ⟨digitsOfWidth K n ++ rest, date, buf⟩ next .MYSQL
        false (digitsOfWidth K n ++ rest) := by
    have h0 : parseFromPattern env ⟨.YEAR, 2⟩ ⟨digitsOfWidth K n ++ rest, date, buf⟩ next
        .MYSQL = parseNumeric env ⟨.YEAR, 2⟩ ⟨digitsOfWidth K n ++ rest, date, buf⟩ next
          .MYSQL := rfl
    rw [h0, hcs]
    simp only [List.cons_append, parseNumeric, hc1, hc2, and_false, if_false]
  rw [hparse]
  by_cases h2 : K = 2
  · subst h2
    have hn100 : n < 100 := by simpa using hn
    have hlen : ¬ ((digitsOfWidth 2 n ++ rest).length ≤ rest.length) := by
      rw [List.length_append, digitsOfWidth_length]; omega
    have hres : parseDigitsFrom env ⟨.YEAR, 2⟩ ⟨digitsOfWidth 2 n ++ rest, date, buf⟩ next .MYSQL
        false (digitsOfWidth 2 n ++ rest) =
        (.ok,
          { cur := rest
            date := { date with
              centuryFormat := false
              isYearOfEra := false
              hasYear := true
              year := if n < 70 then 2000 + (n : Int) else 1900 + (n : Int) }
            timezoneBuffer := buf }) := by
      simp only [parseDigitsFrom, hr, isYearSpecifier, decide_True, Bool.true_or, Bool.or_true,
        and_self, if_true, reduceCtorEq, if_false]
      by_cases h70 : (n : Int) ≥ 70
      · have hlt : ¬ n < 70 := by omega
        rw [if_pos h70]
        unfold finishNumeric
        rw [if_neg hlen]
        dsimp only
        rw [if_neg (by decide : ¬ (false = true))]
        rw [applyNumber_year_ok 2 .MYSQL _ date (by omega) (by omega), if_neg hlt,
          Int.add_comm]
      · have h69 : (n : Int) ≥ 0 ∧ (n : Int) < 70 := by omega
        have hlt : n < 70 := by omega
        rw [if_neg h70, if_pos h69]
        unfold finishNumeric
        rw [if_neg hlen]
        dsimp only
        rw [if_neg (by decide : ¬ (false = true))]
        rw [applyNumber_year_ok 2 .MYSQL _ date (by omega) (by omega), if_pos hlt,
          Int.add_comm]
    rw [hres]
    exact ⟨by simp, by simp, fun _ => rfl, rfl⟩
  · have hres : (parseDigitsFrom env ⟨.YEAR, 2⟩ ⟨digitsOfWidth K n ++ rest, date, buf⟩ next
        .MYSQL false (digitsOfWidth K n ++ rest)).1 = .fail := by
      simp only [parseDigitsFrom, hr, isYearSpecifier, decide_True, Bool.true_or, Bool.or_true,
        and_self, if_true, reduceCtorEq, if_false, if_neg h2]
      split <;> rfl
    rw [hres]
    exact ⟨by simp [h2], by simp [h2], fun h => absurd h h2, rfl⟩

/-- Witness of C17: `%y` under MySQL fails on `5`, `123` and `2024`, reads `24`
as 2024, and with a pattern token directly behind reads the first two digits of
`2012` as 2020. -/
theorem parseFromPattern_mysql_two_digit_year_witness :
    (parseFromPattern sampleEnv ⟨.YEAR, 2⟩ ⟨"5".toList, {}, timezoneBufferInit⟩ false
      .MYSQL).1 = .fail ∧
    (parseFromPattern sampleEnv ⟨.YEAR, 2⟩ ⟨"123".toList, {}, timezoneBufferInit⟩ false
      .MYSQL).1 = .fail ∧
    (parseFromPattern sampleEnv ⟨.YEAR, 2⟩ ⟨"2024".toList, {}, timezoneBufferInit⟩ false
      .MYSQL).1 = .fail ∧
    (parseFromPattern sampleEnv ⟨.YEAR, 2⟩ ⟨"24".toList, {}, timezoneBufferInit⟩ false
      .MYSQL).2.date.year = 2024 ∧
    (parseFromPattern sampleEnv ⟨.YEAR, 2⟩ ⟨"2012".toList, {}, timezoneBufferInit⟩ true
      .MYSQL).2.date.year = 2020 :=
  ⟨(parseFromPattern_mysql_two_digit_year sampleEnv ⟨"5".toList, {}, timezoneBufferInit⟩ false
      1 5 [] rfl (by decide) (by decide) (by decide) (Or.inr (by simp))).1.2 (by decide),
    (parseFromPattern_mysql_two_digit_year sampleEnv ⟨"123".toList, {}, timezoneBufferInit⟩
      false 3 123 [] rfl (by decide) (by decide) (by decide) (Or.inr (by simp))).1.2
      (by decide),
    (parseFromPattern_mysql_two_digit_year sampleEnv ⟨"2024".toList, {}, timezoneBufferInit⟩
      false 4 2024 [] rfl (by decide) (by decide) (by decide) (Or.inl rfl)).1.2 (by decide),
    (parseFromPattern_mysql_two_digit_year sampleEnv ⟨"24".toList, {}, timezoneBufferInit⟩
      false 2 24 [] rfl (by decide) (by decide) (by decide) (Or.inr (by simp))).2.2.1 rfl,
    (parseFromPattern_mysql_two_digit_year sampleEnv ⟨"2012".toList, {}, timezoneBufferInit⟩
      true 2 20 "12".toList rfl (by decide) (by decide) (by decide) (Or.inl rfl)).2.2.1 rfl⟩

/-! ### C18: the adjustments after the token loop -/

theorem adjustDate_eq_postProcessed {Z : Type} (date : Date Z) :
    adjustDate date = postProcessed date := by
  obtain ⟨year, month, day, isAd, week, dayOfWeek, weekDateFormat, dayOfYear, dayOfYearFormat,
    weekOfMonth, weekOfMonthDateFormat, centuryFormat, isYearOfEra, hasYear, hasDayOfWeek,
    hasWeek, hour, minute, second, microsecond, isAm, timezone, isClockHour, isHourOfHalfDay,
    dayOfMonthValues, dayOfYearValues⟩ := date
  cases isAd <;> cases isYearOfEra <;> cases isAm <;> cases isHourOfHalfDay <;>
    simp [adjustDate, postProcessed]

theorem finishParse_eq_resolveDate {Z : Type} (env : Env Z) (type : DateTimeFormatterType)
    (input cur : List Char) (date : Date Z)
    (hcur : type = .LENIENT_SIMPLE ∨ type = .STRICT_SIMPLE ∨ cur = []) :
    finishParse env type input cur date = resolveDate env type (postProcessed date) := by
  have hc : ¬ (type ≠ .LENIENT_SIMPLE ∧ type ≠ .STRICT_SIMPLE ∧ 0 < cur.length) := by
    rintro ⟨h1, h2, h3⟩
    rcases hcur with h | h | h
    · exact h1 h
    · exact h2 h
    · rw [h] at h3; exact absurd h3 (by simp)
  unfold finishParse
  rw [if_neg hc]
  simp only [adjustDate_eq_postProcessed]
  unfold resolveDate
  rfl

theorem applyNumber_hour_flags {Z : Type} (w : Nat) (type : DateTimeFormatterType) (v : Int)
    (date : Date Z) :
    ((applyNumber ⟨.HOUR_OF_HALFDAY, w⟩ type v date).1 = .ok →
      (applyNumber ⟨.HOUR_OF_HALFDAY, w⟩ type v date).2.isHourOfHalfDay = true ∧
        (applyNumber ⟨.HOUR_OF_HALFDAY, w⟩ type v date).2.hour = v) ∧
    ((applyNumber ⟨.CLOCK_HOUR_OF_HALFDAY, w⟩ type v date).1 = .ok →
      (applyNumber ⟨.CLOCK_HOUR_OF_HALFDAY, w⟩ type v date).2.isHourOfHalfDay = true ∧
        (applyNumber ⟨.CLOCK_HOUR_OF_HALFDAY, w⟩ type v date).2.hour = v % 12) ∧
    ((applyNumber ⟨.HOUR_OF_DAY, w⟩ type v date).1 = .ok →
      (applyNumber ⟨.HOUR_OF_DAY, w⟩ type v date).2.isHourOfHalfDay = false) ∧
    ((applyNumber ⟨.CLOCK_HOUR_OF_DAY, w⟩ type v date).1 = .ok →
      (applyNumber ⟨.CLOCK_HOUR_OF_DAY, w⟩ type v date).2.isHourOfHalfDay = false) := by
  refine ⟨?_, ?_, ?_, ?_⟩
  · simp only [applyNumber]
    split
    · intro h; cases h
    · intro _; exact ⟨rfl, rfl⟩
  · simp only [applyNumber]
    split
    · intro h; cases h
    · intro _; exact ⟨rfl, rfl⟩
  · simp only [applyNumber]
    split
    · intro h; cases h
    · intro _; rfl
  · simp only [applyNumber]
    split
    · intro h; cases h
    · intro _; rfl

theorem applyNumber_year_flags {Z : Type} (w : Nat) (type : DateTimeFormatterType) (v : Int)
    (date : Date Z) :
    ((applyNumber ⟨.YEAR_OF_ERA, w⟩ type v date).1 = .ok →
      (applyNumber ⟨.YEAR_OF_ERA, w⟩ type v date).2.isYearOfEra = true ∧
        (applyNumber ⟨.YEAR_OF_ERA, w⟩ type v date).2.year = v) ∧
    ((applyNumber ⟨.YEAR, w⟩ type v date).1 = .ok →
      (applyNumber ⟨.YEAR, w⟩ type v date).2.isYearOfEra = false) := by
  constructor
  · simp only [applyNumber, decide_True, true_and, Bool.true_eq_false, false_and, if_false]
    split
    · intro h; cases h
    · intro _; exact ⟨rfl, rfl⟩
  · simp only [applyNumber, decide_False, Bool.false_eq_true, false_and, if_false,
      reduceCtorEq, true_and]
    split
    · intro h; cases h
    · intro _; rfl

/-- C18: once all tokens are consumed (or under a Simple dialect), `parse`
returns what the validation and the calendar give for the record after the
post-processing of the spec: the year is `-(year - 1)` when the year came from
a year-of-era field (the flag a YEAR_OF_ERA token sets and a YEAR token clears)
and the era is BC, and the hour is the parsed hour plus 12 when the last hour
field was a 12-hour field (the flag HOUR_OF_HALFDAY and CLOCK_HOUR_OF_HALFDAY
set and HOUR_OF_DAY and CLOCK_HOUR_OF_DAY clear) and the half-day is PM. -/
theorem parse_post_processing {Z : Type} (env : Env Z) (formatter : DateTimeFormatter)
    (input buf : List Char) (st : ParseState Z)
    (htokens : parseTokens env formatter.type formatter.tokens ⟨input, {}, buf⟩ = (.ok, st))
    (hcur : formatter.type = .LENIENT_SIMPLE ∨ formatter.type = .STRICT_SIMPLE ∨ st.cur = []) :
    parse env formatter input buf = resolveDate env formatter.type (postProcessed st.date) ∧
    (st.date.isYearOfEra = true → st.date.isAd = false →
      (postProcessed st.date).year = -(st.date.year - 1)) ∧
    (st.date.isHourOfHalfDay = true → st.date.isAm = false →
      (postProcessed st.date).hour = st.date.hour + 12) ∧
    (∀ (w : Nat) (type : DateTimeFormatterType) (v : Int) (date : Date Z),
      ((applyNumber ⟨.YEAR_OF_ERA, w⟩ type v date).1 = .ok →
        (applyNumber ⟨.YEAR_OF_ERA, w⟩ type v date).2.isYearOfEra = true ∧
          (applyNumber ⟨.YEAR_OF_ERA, w⟩ type v date).2.year = v) ∧
      ((applyNumber ⟨.YEAR, w⟩ type v date).1 = .ok →
        (applyNumber ⟨.YEAR, w⟩ type v date).2.isYearOfEra = false) ∧
      ((applyNumber ⟨.HOUR_OF_HALFDAY, w⟩ type v date).1 = .ok →
        (applyNumber ⟨.HOUR_OF_HALFDAY, w⟩ type v date).2.isHourOfHalfDay = true ∧
          (applyNumber ⟨.HOUR_OF_HALFDAY, w⟩ type v date).2.hour = v) ∧
      ((applyNumber ⟨.CLOCK_HOUR_OF_HALFDAY, w⟩ type v date).1 = .ok →
        (applyNumber ⟨.CLOCK_HOUR_OF_HALFDAY, w⟩ type v date).2.isHourOfHalfDay = true ∧
          (applyNumber ⟨.CLOCK_HOUR_OF_HALFDAY, w⟩ type v date).2.hour = v % 12) ∧
      ((applyNumber ⟨.HOUR_OF_DAY, w⟩ type v date).1 = .ok →
        (applyNumber ⟨.HOUR_OF_DAY, w⟩ type v date).2.isHourOfHalfDay = false) ∧
      ((applyNumber ⟨.CLOCK_HOUR_OF_DAY, w⟩ type v date).1 = .ok →
        (applyNumber ⟨.CLOCK_HOUR_OF_DAY, w⟩ type v date).2.isHourOfHalfDay = false)) := by
  refine ⟨?_, ?_, ?_, ?_⟩
  · unfold parse parseWithBuffer
    rw [htokens]
    exact finishParse_eq_resolveDate env formatter.type input st.cur st.date hcur
  · intro h1 h2
    simp only [postProcessed, h1, h2, and_self, if_true]
  · intro h1 h2
    simp only [postProcessed, h1, h2, and_self, if_true]
  · intro w type v date
    obtain ⟨y1, y2⟩ := applyNumber_year_flags w type v date
    obtain ⟨h1, h2, h3, h4⟩ := applyNumber_hour_flags w type v date
    exact ⟨y1, y2, h1, h2, h3, h4⟩

/-- Witness of C18: `0044 BC` against `YYYY G` gives the first day of the year
-43, `07 PM` against `hh a` gives 19:00. -/
theorem parse_post_processing_witness :
    parse sampleEnv yearOfEraProgram "0044 BC".toList timezoneBufferInit =
      .value ⟨⟨-735233 * 86400, 0⟩, none⟩ ∧
    parse sampleEnv halfDayHourProgram "07 PM".toList timezoneBufferInit =
      .value ⟨⟨19 * 3600, 0⟩, none⟩ :=
  ⟨(parse_post_processing sampleEnv yearOfEraProgram "0044 BC".toList timezoneBufferInit
      (parseTokens sampleEnv .JODA yearOfEraProgram.tokens
        ⟨"0044 BC".toList, {}, timezoneBufferInit⟩).2 rfl (Or.inr (Or.inr rfl))).1,
    (parse_post_processing sampleEnv halfDayHourProgram "07 PM".toList timezoneBufferInit
      (parseTokens sampleEnv .JODA halfDayHourProgram.tokens
        ⟨"07 PM".toList, {}, timezoneBufferInit⟩).2 rfl (Or.inr (Or.inr rfl))).1⟩

/-! ### C19: the fraction of a second -/

/-- C19: a fraction-of-second token that captures `c` digits, `1 ≤ c ≤ 3`, of
value `v` succeeds and stores `v * 10^(3-c) * 1000` microseconds under the Joda
and MySQL dialects (the value as if padded with zeros to 3 digits) and
`v * 1000` under both Simple dialects (the captured integer as milliseconds). -/
theorem parseFromPattern_fraction {Z : Type} (env : Env Z) (w : Nat) (st : ParseState Z)
    (next : Bool) (type : DateTimeFormatterType) (c v : Nat) (rest : List Char)
    (hcur : st.cur = digitsOfWidth c v ++ rest) (hc : 1 ≤ c) (hc3 : c ≤ 3) (hw : c ≤ w)
    (hv : v < 10 ^ c)
    (hstop : c = w ∨ ∀ d ∈ rest.head?, characterIsDigit d = false) :
    (parseFromPattern env ⟨.FRACTION_OF_SECOND, w⟩ st next type).1 = .ok ∧
    (parseFromPattern env ⟨.FRACTION_OF_SECOND, w⟩ st next type).2.cur = rest ∧
    (parseFromPattern env ⟨.FRACTION_OF_SECOND, w⟩ st next type).2.date.microsecond =
      if type = .JODA ∨ type = .MYSQL then (v : Int) * 10 ^ (3 - c) * 1000
      else (v : Int) * 1000 := by
  have hmax : getMaxDigitConsume ⟨.FRACTION_OF_SECOND, w⟩ next type = w := rfl
  have hv1000 : v < 1000 := by
    have : 10 ^ c ≤ 10 ^ 3 := Nat.pow_le_pow_right (by omega) hc3
    omega
  have hr := readDigits_rendered (getMaxDigitConsume ⟨.FRACTION_OF_SECOND, w⟩ next type) c v rest
    (by rw [hmax]; exact hw) hv (by omega) (by rw [hmax]; exact hstop)
  have hlen : ¬ ((digitsOfWidth c v ++ rest).length ≤ rest.length) := by
    rw [List.length_append, digitsOfWidth_length]; omega
  have hscaled : (v : Int) * 10 ^ (3 - c) < 1000 ∧ 0 ≤ (v : Int) * 10 ^ (3 - c) := by
    have h3 : c = 1 ∨ c = 2 ∨ c = 3 := by omega
    rcases h3 with rfl | rfl | rfl
    · have : v < 10 := by simpa using hv
      norm_num
      omega
    · have : v < 100 := by simpa using hv
      norm_num
      omega
    · norm_num
      omega
  rw [parseFromPattern_unsigned env _ st next type (Or.inr rfl), hcur]
  simp only [parseDigitsFrom, hr, if_true, if_pos hc3]
  by_cases hsimple : type ≠ .STRICT_SIMPLE ∧ type ≠ .LENIENT_SIMPLE
  · have htype : type = .JODA ∨ type = .MYSQL := by
      cases type
      · exact Or.inl rfl
      · exact Or.inr rfl
      · exact absurd rfl hsimple.1
      · exact absurd rfl hsimple.2
    rw [if_pos hsimple, if_pos htype]
    unfold finishNumeric
    rw [if_neg hlen]
    dsimp only
    rw [if_neg (by decide : ¬ (false = true))]
    simp only [applyNumber]
    refine ⟨trivial, trivial, ?_⟩
    exact wrapInt32_eq_self _ (by omega) (by omega)
  · have htype : ¬ (type = .JODA ∨ type = .MYSQL) := by
      rintro (h | h) <;> subst h <;> exact hsimple ⟨by decide, by decide⟩
    rw [if_neg hsimple, if_neg htype]
    unfold finishNumeric
    rw [if_neg hlen]
    dsimp only
    rw [if_neg (by decide : ¬ (false = true))]
    simp only [applyNumber]
    refine ⟨trivial, trivial, ?_⟩
    exact wrapInt32_eq_self _ (by omega) (by omega)

/-- Witness of C19: the fraction `5` is 500000 microseconds under Joda and 5000
under a Simple dialect; `12` under MySQL (`%f`, width 6) is 120000. -/
theorem parseFromPattern_fraction_witness :
    (parseFromPattern sampleEnv ⟨.FRACTION_OF_SECOND, 3⟩ ⟨"5".toList, {}, timezoneBufferInit⟩
      false .JODA).2.date.microsecond = 500000 ∧
    (parseFromPattern sampleEnv ⟨.FRACTION_OF_SECOND, 3⟩ ⟨"5".toList, {}, timezoneBufferInit⟩
      false .STRICT_SIMPLE).2.date.microsecond = 5000 ∧
    (parseFromPattern sampleEnv ⟨.FRACTION_OF_SECOND, 6⟩ ⟨"12".toList, {}, timezoneBufferInit⟩
      false .MYSQL).2.date.microsecond = 120000 :=
  ⟨(parseFromPattern_fraction sampleEnv 3 ⟨"5".toList, {}, timezoneBufferInit⟩ false .JODA 1 5
      [] rfl (by decide) (by decide) (by decide) (by decide) (Or.inr (by simp))).2.2,
    (parseFromPattern_fraction sampleEnv 3 ⟨"5".toList, {}, timezoneBufferInit⟩ false
      .STRICT_SIMPLE 1 5 [] rfl (by decide) (by decide) (by decide) (by decide)
      (Or.inr (by simp))).2.2,
    (parseFromPattern_fraction sampleEnv 6 ⟨"12".toList, {}, timezoneBufferInit⟩ false .MYSQL 2
      12 [] rfl (by decide) (by decide) (by decide) (by decide) (Or.inr (by simp))).2.2⟩

/-! ### C20: the bound on the rendered size -/

theorem padContent_length (v : Int) (w : Nat) :
    (padContent v '0' w true).length =
      (if v < 0 then 1 else 0) + max w (countDigits v.natAbs) := by
  rw [padContent_eq, List.length_append, digitsOfWidth_length]
  split <;> rfl

theorem maxWidth_eq (w : Nat) (k : Int) (hw : w < 2147483648) :
    maxWidth w k = max (w : Int) k := by
  unfold maxWidth
  rw [wrapInt32_eq_self _ (by omega) (by omega)]

theorem padContent_length_nonneg (v : Int) (w : Nat) (kk : Int) (k : Nat) (hk : kk = k)
    (h0 : 0 ≤ v) (hv : v.natAbs < 10 ^ k) (hw : w < 2147483648) :
    ((padContent v '0' w true).length : Int) ≤ maxWidth w kk := by
  have hc := countDigits_le v.natAbs k hv
  have hn : ¬ v < 0 := by omega
  rw [padContent_length, if_neg hn, maxWidth_eq w kk hw]
  omega

theorem padContent_length_signed (v : Int) (w : Nat) (hv : v.natAbs < 10 ^ 9)
    (hw : w < 2147483648) (hcase : w ≤ 9 ∨ 0 ≤ v) :
    ((padContent v '0' w true).length : Int) ≤ maxWidth w 10 := by
  have hc := countDigits_le v.natAbs 9 hv
  rw [padContent_length, maxWidth_eq w 10 hw]
  split <;> omega

theorem getD_length_le (names : List (List Char)) (k : Nat)
    (h : ∀ name ∈ names, name.length ≤ k) : ∀ i : Nat, (names.getD i []).length ≤ k := by
  induction names with
  | nil => intro i; simp
  | cons name rest ih =>
    intro i
    cases i with
    | zero => exact h name (List.mem_cons_self _ _)
    | succ i =>
      rw [List.getD_cons_succ]
      exact ih (fun x hx => h x (List.mem_cons_of_mem _ hx)) i

theorem formatFractionOfSecond_length (subseconds w : Nat) :
    (formatFractionOfSecond subseconds w).length = w := by
  unfold formatFractionOfSecond
  simp only
  split
  · simp only [List.length_take, List.length_set, List.length_replicate]
    split <;> omega
  · split
    · simp only [List.length_take, List.length_set, List.length_replicate]
      split <;> omega
    · simp only [List.length_take, List.length_set, List.length_replicate]
      split <;> omega

theorem tdiv_hundred_bounds (a : Int) (ha : 0 ≤ a) (hb : a < 1000000000) :
    0 ≤ Int.tdiv a 100 ∧ (Int.tdiv a 100).natAbs < 10 ^ 8 := by
  rw [Int.tdiv_eq_ediv ha (by omega)]
  constructor
  · omega
  · have : (10 : Nat) ^ 8 = 100000000 := by norm_num
    omega

theorem tmod_bounds (a b : Int) (ha : 0 ≤ a) (hb : 0 < b) :
    0 ≤ Int.tmod a b ∧ Int.tmod a b < b := by
  rw [Int.tmod_eq_emod ha (by omega)]
  exact ⟨Int.emod_nonneg _ (by omega), Int.emod_lt_of_pos _ hb⟩

theorem formatToken_numeric_bound {Z : Type} (civil : CivilTime Z) (z : Option (List Char))
    (token : DateTimeToken) (v : Int) (w : Nat) (kk : Int) (k : Nat)
    (hf : formatToken civil z token = .ok (padContent v '0' w true))
    (hb : tokenMaxSize token = some (maxWidth w kk)) (hk : kk = k) (h0 : 0 ≤ v)
    (hv : v.natAbs < 10 ^ k) (hw : w < 2147483648) :
    ∃ piece added, formatToken civil z token = .ok piece ∧ tokenMaxSize token = some added ∧
      (piece.length : Int) ≤ added :=
  ⟨_, _, hf, hb, padContent_length_nonneg v w kk k hk h0 hv hw⟩

theorem formatToken_within_bound {Z : Type} (civil : CivilTime Z) (z : Option (List Char))
    (token : DateTimeToken) (hciv : civilWellFormed civil)
    (hcov : boundCovers civil token = true) :
    ∃ piece added, formatToken civil z token = .ok piece ∧ tokenMaxSize token = some added ∧
      (piece.length : Int) ≤ added := by
  obtain ⟨hy0, hy1, hiso, hmo0, hmo1, hd0, hd1, hwd, hh0, hh1, hm0, hm1, hs0, hs1, hwk,
    hdy0, hdy1⟩ := hciv
  have p1 : (10 : Nat) ^ 1 = 10 := by norm_num
  have p2 : (10 : Nat) ^ 2 = 100 := by norm_num
  have p3 : (10 : Nat) ^ 3 = 1000 := by norm_num
  have p9 : (10 : Nat) ^ 9 = 1000000000 := by norm_num
  cases token with
  | kLiteral literal => exact ⟨literal, literal.length, rfl, rfl, le_refl _⟩
  | kPattern p =>
    obtain ⟨spec, w⟩ := p
    simp only [boundCovers, Bool.and_eq_true, decide_eq_true_eq] at hcov
    obtain ⟨hw, hspec⟩ := hcov
    cases spec
    · -- ERA
      refine ⟨_, _, rfl, rfl, ?_⟩
      split <;> decide
    · -- CENTURY_OF_ERA
      have hb := tdiv_hundred_bounds (if civil.year < 0 then -civil.year else civil.year)
        (by split <;> omega) (by split <;> omega)
      exact formatToken_numeric_bound civil z _ _ w 8 8 rfl rfl rfl hb.1 hb.2 hw
    · -- YEAR_OF_ERA
      by_cases h2 : w = 2
      · subst h2
        have hb := tmod_bounds (Int.natAbs civil.year) 100 (by omega) (by omega)
        refine ⟨padContent (Int.tmod (Int.natAbs civil.year) 100) '0' 2 true, _, ?_, rfl, ?_⟩
        · simp only [formatToken, if_true]
        · exact padContent_length_nonneg _ 2 9 9 rfl hb.1 (by omega) hw
      · refine ⟨padContent (if civil.year ≤ 0 then (Int.natAbs (civil.year - 1) : Int)
          else civil.year) '0' w true, _, ?_, rfl, ?_⟩
        · simp only [formatToken, if_neg h2]
        · exact padContent_length_nonneg _ w 9 9 rfl (by split <;> omega)
            (by split <;> omega) hw
    · -- WEEK_YEAR
      have hwy : -292275055 ≤ weekYearValue civil ∧ weekYearValue civil ≤ 292278994 := by
        unfold weekYearValue
        cases hi : civil.isoWeekYear with
        | none => simp only; omega
        | some y => exact hiso y (by rw [hi]; rfl)
      have hval : (match civil.isoWeekYear with
          | some isoYear => isoYear
          | none => civil.year) = weekYearValue civil := rfl
      by_cases h2 : w = 2
      · subst h2
        have hb := tmod_bounds (Int.natAbs (weekYearValue civil)) 100 (by omega) (by omega)
        refine ⟨padContent (Int.tmod (Int.natAbs (weekYearValue civil)) 100) '0' 2 true, _, ?_,
          rfl, ?_⟩
        · simp only [formatToken, if_true]
          rfl
        · simp only [if_true]
          rw [padContent_length]
          have hc := countDigits_le (Int.tmod (Int.natAbs (weekYearValue civil)) 100).natAbs 2
            (by omega)
          have hn : ¬ Int.tmod (Int.natAbs (weekYearValue civil)) 100 < 0 := by omega
          rw [if_neg hn]
          omega
      · refine ⟨padContent (weekYearValue civil) '0' w true, _, ?_, rfl, ?_⟩
        · simp only [formatToken, if_neg h2]
          rfl
        · simp only [if_neg h2]
          refine padContent_length_signed _ w (by omega) hw ?_
          simpa [decide_eq_true_eq] using hspec
    · -- WEEK_OF_WEEK_YEAR
      exact formatToken_numeric_bound civil z _ _ w 2 2 rfl rfl rfl (by omega) (by omega) hw
    · -- DAY_OF_WEEK_0_BASED
      exact formatToken_numeric_bound civil z _ _ w 1 1 rfl rfl rfl (by omega) (by omega) hw
    · -- DAY_OF_WEEK_1_BASED
      exact formatToken_numeric_bound civil z _ _ w 1 1 rfl rfl rfl (by split <;> omega)
        (by split <;> omega) hw
    · -- DAY_OF_WEEK_TEXT
      refine ⟨_, _, rfl, rfl, ?_⟩
      have h3 := getD_length_le weekdaysShort 3 (by decide) civil.weekday
      have h9 := getD_length_le weekdaysFull 9 (by decide) civil.weekday
      split <;> omega
    · -- YEAR
      by_cases h2 : w = 2
      · subst h2
        have hb := tmod_bounds (Int.natAbs civil.year) 100 (by omega) (by omega)
        refine ⟨padContent (Int.tmod (Int.natAbs civil.year) 100) '0' 2 true, _, ?_, rfl, ?_⟩
        · simp only [formatToken, if_true]
        · simp only [if_true]
          rw [padContent_length]
          have hc := countDigits_le (Int.tmod (Int.natAbs civil.year) 100).natAbs 2 (by omega)
          have hn : ¬ Int.tmod (Int.natAbs civil.year) 100 < 0 := by omega
          rw [if_neg hn]
          omega
      · refine ⟨padContent civil.year '0' w true, _, ?_, rfl, ?_⟩
        · simp only [formatToken, if_neg h2]
        · simp only [if_neg h2]
          refine padContent_length_signed _ w (by omega) hw ?_
          simpa [decide_eq_true_eq] using hspec
    · -- DAY_OF_YEAR
      exact formatToken_numeric_bound civil z _ _ w 3 3 rfl rfl rfl (by omega) (by omega) hw
    · -- MONTH_OF_YEAR
      exact formatToken_numeric_bound civil z _ _ w 2 2 rfl rfl rfl (by omega) (by omega) hw
    · -- MONTH_OF_YEAR_TEXT
      refine ⟨_, _, rfl, rfl, ?_⟩
      have h3 := getD_length_le monthsShort 3 (by decide) (civil.month - 1)
      have h9 := getD_length_le monthsFull 9 (by decide) (civil.month - 1)
      split <;> omega
    · -- DAY_OF_MONTH
      exact formatToken_numeric_bound civil z _ _ w 2 2 rfl rfl rfl (by omega) (by omega) hw
    · -- HALFDAY_OF_DAY
      refine ⟨_, _, rfl, rfl, ?_⟩
      split <;> decide
    · -- HOUR_OF_HALFDAY
      have hb := tmod_bounds civil.hours 12 hh0 (by omega)
      exact formatToken_numeric_bound civil z _ _ w 2 2 rfl rfl rfl hb.1 (by omega) hw
    · -- CLOCK_HOUR_OF_HALFDAY
      have hb := tmod_bounds (civil.hours + 11) 12 (by omega) (by omega)
      exact formatToken_numeric_bound civil z _ _ w 2 2 rfl rfl rfl (by omega) (by omega) hw
    · -- HOUR_OF_DAY
      exact formatToken_numeric_bound civil z _ _ w 2 2 rfl rfl rfl (by omega) (by omega) hw
    · -- CLOCK_HOUR_OF_DAY
      have hb := tmod_bounds (civil.hours + 23) 24 (by omega) (by omega)
      exact formatToken_numeric_bound civil z _ _ w 2 2 rfl rfl rfl (by omega) (by omega) hw
    · -- MINUTE_OF_HOUR
      have hb := tmod_bounds civil.minutes 60 hm0 (by omega)
      exact formatToken_numeric_bound civil z _ _ w 2 2 rfl rfl rfl hb.1 (by omega) hw
    · -- SECOND_OF_MINUTE
      have hb := tmod_bounds civil.seconds 60 hs0 (by omega)
      exact formatToken_numeric_bound civil z _ _ w 2 2 rfl rfl rfl hb.1 (by omega) hw
    · -- FRACTION_OF_SECOND
      refine ⟨_, _, rfl, rfl, ?_⟩
      show ((formatFractionOfSecond civil.subseconds w).length : Int) ≤ maxWidth w 9
      rw [formatFractionOfSecond_length, maxWidth_eq w 9 hw]
      omega
    · -- TIMEZONE
      exact absurd hspec (by simp)
    · -- TIMEZONE_OFFSET_ID
      exact absurd hspec (by simp)
    · -- LITERAL_PERCENT
      exact absurd hspec (by simp)
    · -- WEEK_OF_MONTH
      refine formatToken_numeric_bound civil z _ _ w 1 1 rfl rfl rfl (by omega) ?_ hw
      have : (7 + civil.day - civil.weekday - 1 + 6) / 7 < 10 := by omega
      omega

theorem formatTokens_within_bound {Z : Type} (civil : CivilTime Z) (z : Option (List Char))
    (hciv : civilWellFormed civil) :
    ∀ (tokens : List DateTimeToken), (∀ token ∈ tokens, boundCovers civil token = true) →
      ∃ text, formatTokens civil z tokens = .ok text ∧
        (text.length : Int) ≤ sizeSum tokens ∧
        ∀ size : Nat, size < 4294967296 → maxResultSizeFrom tokens size =
          some (((size : Int) + sizeSum tokens) % 4294967296).toNat := by
  intro tokens
  induction tokens with
  | nil =>
    intro _
    refine ⟨[], rfl, by simp [sizeSum], fun size hsz => ?_⟩
    simp only [maxResultSizeFrom, sizeSum, Int.add_zero]
    congr 1
    omega
  | cons token rest ih =>
    intro hcov
    obtain ⟨piece, added, hp, hb, hle⟩ := formatToken_within_bound civil z token hciv
      (hcov token (List.mem_cons_self _ _))
    obtain ⟨text, ht, hlen, hsize⟩ := ih (fun t ht => hcov t (List.mem_cons_of_mem _ ht))
    refine ⟨piece ++ text, ?_, ?_, fun size hsz => ?_⟩
    · simp only [formatTokens, hp, ht]
    · simp only [sizeSum, hb, List.length_append]
      push_cast
      omega
    · have hnn : 0 ≤ ((size : Int) + added) % 4294967296 := Int.emod_nonneg _ (by omega)
      have hlt : ((size : Int) + added) % 4294967296 < 4294967296 :=
        Int.emod_lt_of_pos _ (by omega)
      simp only [maxResultSizeFrom, hb, sizeSum]
      rw [hsize _ (by omega), Int.toNat_of_nonneg hnn]
      congr 1
      omega

/-- The bound of `maxResultSize` holds for every program the predicate
`boundCovers` admits: no timezone token, and no YEAR or WEEK_YEAR token of width
10 or more rendering a negative year. -/
theorem format_within_maxResultSize {Z : Type} (formatter : DateTimeFormatter)
    (civil : CivilTime Z) (z : Option (List Char)) (hciv : civilWellFormed civil)
    (hcov : ∀ token ∈ formatter.tokens, boundCovers civil token = true)
    (hsum : sizeSum formatter.tokens < 4294967296) :
    ∃ text bound, maxResultSize formatter = some bound ∧ text.length ≤ bound ∧
      format formatter civil bound z = .value text := by
  obtain ⟨text, ht, hlen, hsize⟩ := formatTokens_within_bound civil z hciv formatter.tokens hcov
  have h0 : 0 ≤ sizeSum formatter.tokens := by omega
  have hmod : sizeSum formatter.tokens % 4294967296 = sizeSum formatter.tokens :=
    Int.emod_eq_of_lt h0 hsum
  have hbound : maxResultSize formatter = some (sizeSum formatter.tokens).toNat := by
    unfold maxResultSize
    rw [hsize 0 (by omega)]
    simp only [Nat.cast_zero, Int.zero_add, hmod]
  have hle : text.length ≤ (sizeSum formatter.tokens).toNat := by omega
  refine ⟨text, _, hbound, hle, ?_⟩
  simp only [format, ht, if_pos hle]

/-- C20 (the code at the failing input): for the Joda pattern `yyyyyyyyyy-`
`maxResultSize` gives 11 bytes, 10 for the year token and 1 for the literal,
but for an instant of the year -5 `format` writes the 12 bytes `-0000000005-`:
`padContent` puts the sign in front of a value padded to the full width. The
check at the end of `format` then raises `Bad allocation size for result`. -/
theorem format_exceeds_maxResultSize :
    buildJodaDateTimeFormatter false "yyyyyyyyyy-".toList = .value wideYearProgram ∧
    maxResultSize wideYearProgram = some 11 ∧
    formatTokens yearMinus5Civil none wideYearProgram.tokens = .ok "-0000000005-".toList ∧
    "-0000000005-".toList.length = 12 ∧
    format wideYearProgram yearMinus5Civil 11 none = .thrown .badAllocationSize :=
  ⟨rfl, rfl, rfl, rfl, rfl⟩

/-! ### C21: padding of numeric fields -/

theorem digitsOfWidth_three (s : Nat) :
    digitsOfWidth 3 s =
      [digitChar ((s / 100) % 10), digitChar ((s / 10) % 10), digitChar (s % 10)] := by
  have h : s / 10 / 10 = s / 100 := by omega
  simp [digitsOfWidth, h]

theorem formatFractionOfSecond_eq (s w : Nat) (hs : s < 1000) :
    formatFractionOfSecond s w =
      (digitsOfWidth 3 s ++ List.replicate (w - 3) '0').take w := by
  have hrep : List.replicate (if w > 3 then w else 3) '0' =
      '0' :: '0' :: '0' :: List.replicate (w - 3) '0' := by
    have : (if w > 3 then w else 3) = (w - 3) + 3 := by split <;> omega
    rw [this]
    rfl
  have hz : digitChar 0 = '0' := rfl
  unfold formatFractionOfSecond
  rw [hrep, digitsOfWidth_three]
  dsimp only
  by_cases h10 : s < 10
  · have e1 : s / 100 % 10 = 0 := by omega
    have e2 : s / 10 % 10 = 0 := by omega
    have e3 : s % 10 = s := by omega
    rw [if_pos h10, e1, e2, e3, hz]
    rfl
  · rw [if_neg h10]
    by_cases h100 : s < 100
    · have e1 : s / 100 % 10 = 0 := by omega
      rw [if_pos h100, e1, hz]
      rfl
    · rw [if_neg h100]
      rfl

/-- Claim C22: for a millisecond value `s` below 1000 and a width `w` of at
least one, `formatFractionOfSecond` returns exactly `w` characters: the first
`min w 3` characters of the three-digit zero-padded decimal of `s` (the bytes
`padContent` writes for `s` at width three), followed by `w - 3` characters
`0` when `w` exceeds three. -/
theorem formatFractionOfSecond_digits (s w : Nat) (hs : s < 1000) (hw : 1 ≤ w) :
    formatFractionOfSecond s w =
      (digitsOfWidth 3 s).take (min w 3) ++ List.replicate (w - 3) '0' ∧
    (formatFractionOfSecond s w).length = w ∧
    digitsOfWidth 3 s = padContent s '0' 3 true := by
  refine ⟨?_, ?_, ?_⟩
  · rw [formatFractionOfSecond_eq s w hs, List.take_append_eq_append_take,
      digitsOfWidth_length]
    by_cases h3 : w ≤ 3
    · have e1 : min w 3 = w := by omega
      have e2 : w - 3 = 0 := by omega
      rw [e1, e2]
      simp
    · have e1 : min w 3 = 3 := by omega
      rw [e1]
      have e3 : (digitsOfWidth 3 s).length = 3 := digitsOfWidth_length 3 s
      rw [List.take_of_length_le (by omega), List.take_of_length_le (by simp),
        List.take_of_length_le (by omega)]
  · rw [formatFractionOfSecond_eq s w hs, List.length_take, List.length_append,
      digitsOfWidth_length, List.length_replicate]
    omega
  · rw [padContent_eq]
    have hc : countDigits (s : Int).natAbs ≤ 3 := countDigits_le _ 3 (by simpa using hs)
    have hn : ¬ ((s : Int) < 0) := by omega
    rw [if_neg hn, Nat.max_eq_left hc]
    simp

theorem formatFractionOfSecond_digits_witness :
    formatFractionOfSecond 45 2 = "04".toList ∧ formatFractionOfSecond 45 5 = "04500".toList := by
  have h2 := (formatFractionOfSecond_digits 45 2 (by decide) (by decide)).1
  have h5 := (formatFractionOfSecond_digits 45 5 (by decide) (by decide)).1
  exact ⟨h2.trans (by decide), h5.trans (by decide)⟩

/-! ### C23: the rendered zone offset -/

theorem offsetChar_natCast (d : Nat) (h : d < 10) : offsetChar (d : Int) = digitChar d := by
  have h10 : d = 0 ∨ d = 1 ∨ d = 2 ∨ d = 3 ∨ d = 4 ∨ d = 5 ∨ d = 6 ∨ d = 7 ∨ d = 8 ∨ d = 9 := by
    omega
  rcases h10 with rfl | rfl | rfl | rfl | rfl | rfl | rfl | rfl | rfl | rfl <;> rfl

theorem digitsOfWidth_two (n : Nat) :
    digitsOfWidth 2 n = [digitChar ((n / 10) % 10), digitChar (n % 10)] := by
  simp [digitsOfWidth]

theorem natCast_tdiv (n k : Nat) : Int.tdiv (n : Int) (k : Int) = ((n / k : Nat) : Int) := by
  rw [Int.tdiv_eq_ediv (by omega) (by omega)]
  exact (Int.ofNat_ediv n k).symm

theorem natCast_tmod (n k : Nat) : Int.tmod (n : Int) (k : Int) = ((n % k : Nat) : Int) := by
  rw [Int.tmod_eq_emod (by omega) (by omega)]
  exact (Int.ofNat_emod n k).symm

theorem twoOffsetChars (n : Nat) (h : n < 100) :
    (if (n : Int) < 10 then ['0', offsetChar (n : Int)]
      else [offsetChar (Int.tdiv (n : Int) 10), offsetChar (Int.tmod (n : Int) 10)]) =
      digitsOfWidth 2 n := by
  have e1 : Int.tdiv (n : Int) 10 = ((n / 10 : Nat) : Int) := natCast_tdiv n 10
  have e2 : Int.tmod (n : Int) 10 = ((n % 10 : Nat) : Int) := natCast_tmod n 10
  have h1 : n / 10 < 10 := by omega
  have h2 : n % 10 < 10 := by omega
  rw [digitsOfWidth_two, e1, e2, offsetChar_natCast _ h1, offsetChar_natCast _ h2]
  by_cases h10 : n < 10
  · have hi : (n : Int) < 10 := by omega
    have e3 : n / 10 % 10 = 0 := by omega
    have e4 : n % 10 = n := by omega
    rw [if_pos hi, e3, e4, offsetChar_natCast n h10]
    rfl
  · have hi : ¬ ((n : Int) < 10) := by omega
    have e3 : n / 10 % 10 = n / 10 := by omega
    rw [if_neg hi, e3]

theorem appendTimezoneOffset_natAbs (a : Nat) (ha : a < 360000) (sign : Char) (colon : Bool) :
    sign :: ((if Int.tdiv (Int.tdiv (a : Int) 60) 60 < 10
          then ['0', offsetChar (Int.tdiv (Int.tdiv (a : Int) 60) 60)]
        else [offsetChar (Int.tdiv (Int.tdiv (Int.tdiv (a : Int) 60) 60) 10),
          offsetChar (Int.tmod (Int.tdiv (Int.tdiv (a : Int) 60) 60) 10)]) ++
      (if colon then [':'] else []) ++
      (if Int.tmod (Int.tdiv (a : Int) 60) 60 = 0 then ['0', '0']
        else if Int.tmod (Int.tdiv (a : Int) 60) 60 < 10
          then ['0', offsetChar (Int.tmod (Int.tdiv (a : Int) 60) 60)]
        else [offsetChar (Int.tdiv (Int.tmod (Int.tdiv (a : Int) 60) 60) 10),
          offsetChar (Int.tmod (Int.tmod (Int.tdiv (a : Int) 60) 60) 10)]) ++
      (if Int.tmod (a : Int) 60 > 0 then
        ':' :: (if Int.tmod (a : Int) 60 < 10 then ['0', offsetChar (Int.tmod (a : Int) 60)]
          else [offsetChar (Int.tdiv (Int.tmod (a : Int) 60) 10),
            offsetChar (Int.tmod (Int.tmod (a : Int) 60) 10)])
      else [])) =
    sign :: (digitsOfWidth 2 (a / 3600) ++ (if colon then [':'] else []) ++
      digitsOfWidth 2 (a / 60 % 60) ++
      (if a % 60 > 0 then ':' :: digitsOfWidth 2 (a % 60) else [])) := by
  have eh : Int.tdiv (Int.tdiv (a : Int) 60) 60 = ((a / 3600 : Nat) : Int) := by
    have e := natCast_tdiv a 60
    have e2 := natCast_tdiv (a / 60) 60
    have : a / 60 / 60 = a / 3600 := by omega
    rw [this] at e2
    exact (congrArg (fun x => Int.tdiv x 60) e).trans e2
  have em : Int.tmod (Int.tdiv (a : Int) 60) 60 = ((a / 60 % 60 : Nat) : Int) := by
    have e := natCast_tdiv a 60
    exact (congrArg (fun x => Int.tmod x 60) e).trans (natCast_tmod (a / 60) 60)
  have es : Int.tmod (a : Int) 60 = ((a % 60 : Nat) : Int) := by
    exact natCast_tmod a 60
  rw [eh, em, es, twoOffsetChars (a / 3600) (by omega), twoOffsetChars (a % 60) (by omega)]
  have hmin : (if ((a / 60 % 60 : Nat) : Int) = 0 then ['0', '0']
      else if ((a / 60 % 60 : Nat) : Int) < 10 then ['0', offsetChar ((a / 60 % 60 : Nat) : Int)]
      else [offsetChar (Int.tdiv ((a / 60 % 60 : Nat) : Int) 10),
        offsetChar (Int.tmod ((a / 60 % 60 : Nat) : Int) 10)]) =
      digitsOfWidth 2 (a / 60 % 60) := by
    by_cases h0 : a / 60 % 60 = 0
    · rw [h0]
      rfl
    · have hi : ¬ (((a / 60 % 60 : Nat) : Int) = 0) := by omega
      rw [if_neg hi]
      exact twoOffsetChars (a / 60 % 60) (by omega)
  rw [hmin]
  have hsec : (((a % 60 : Nat) : Int) > 0) ↔ (a % 60 > 0) := by omega
  simp only [hsec]

/-- Claim C23: for an offset of fewer than 100 hours in absolute value,
`appendTimezoneOffset` writes the sign, the two-digit hours `|offset| / 3600`,
a colon only when `includeColon` is set, the two-digit minutes
`(|offset| / 60) mod 60`, and, only when `|offset| mod 60` is positive, a colon
and the two-digit seconds; the number of characters written is 5 without and
6 with the colon when the seconds are zero, and three more otherwise. -/
theorem appendTimezoneOffset_fields (offset : Int) (includeColon : Bool)
    (h : offset.natAbs < 360000) :
    appendTimezoneOffset offset includeColon =
      (if offset ≥ 0 then '+' else '-') ::
        (digitsOfWidth 2 (offset.natAbs / 3600) ++ (if includeColon then [':'] else []) ++
          digitsOfWidth 2 (offset.natAbs / 60 % 60) ++
          (if offset.natAbs % 60 > 0 then ':' :: digitsOfWidth 2 (offset.natAbs % 60)
            else [])) ∧
    (appendTimezoneOffset offset includeColon).length =
      (if includeColon then 6 else 5) + (if offset.natAbs % 60 > 0 then 3 else 0) := by
  have heq : appendTimezoneOffset offset includeColon =
      (if offset ≥ 0 then '+' else '-') ::
        (digitsOfWidth 2 (offset.natAbs / 3600) ++ (if includeColon then [':'] else []) ++
          digitsOfWidth 2 (offset.natAbs / 60 % 60) ++
          (if offset.natAbs % 60 > 0 then ':' :: digitsOfWidth 2 (offset.natAbs % 60)
            else [])) := by
    have habs : (if offset ≥ 0 then offset else -offset) = ((offset.natAbs : Nat) : Int) := by
      split <;> omega
    unfold appendTimezoneOffset
    dsimp only
    rw [habs]
    exact appendTimezoneOffset_natAbs offset.natAbs h _ includeColon
  refine ⟨heq, ?_⟩
  rw [heq]
  simp only [List.length_cons, List.length_append, digitsOfWidth_length]
  cases includeColon <;> by_cases hs : offset.natAbs % 60 > 0 <;>
    simp [hs, digitsOfWidth_length]

theorem appendTimezoneOffset_fields_witness :
    appendTimezoneOffset (-19800) true = "-05:30".toList ∧
    appendTimezoneOffset 3661 false = "+0101:01".toList := by
  have h1 := (appendTimezoneOffset_fields (-19800) true (by decide)).1
  have h2 := (appendTimezoneOffset_fields 3661 false (by decide)).1
  exact ⟨h1.trans (by decide), h2.trans (by decide)⟩

/-! ### C30: the index of zone names -/

theorem span_no_separator (name : List Char) (h : '/' ∉ name) :
    name.span (fun c => c != '/') = (name, []) := by
  have hall : ∀ c ∈ name, (c != '/') = true := by
    intro c hc
    simp only [bne_iff_ne, ne_eq]
    intro hx
    exact h (hx ▸ hc)
  rw [List.span_eq_take_drop, List.takeWhile_eq_self_iff.2 hall,
    List.dropWhile_eq_nil_iff.2 hall]

theorem span_separator (pfx sfx : List Char) (h : '/' ∉ pfx) :
    (pfx ++ '/' :: sfx).span (fun c => c != '/') = (pfx, '/' :: sfx) := by
  have hall : ∀ c ∈ pfx, (c != '/') = true := by
    intro c hc
    simp only [bne_iff_ne, ne_eq]
    intro hx
    exact h (hx ▸ hc)
  rw [List.span_eq_take_drop, List.takeWhile_append_of_pos hall,
    List.dropWhile_append_of_pos hall]
  simp

theorem separator_split (name : List Char) (h : '/' ∈ name) :
    ∃ pfx sfx, name = pfx ++ '/' :: sfx ∧ '/' ∉ pfx := by
  induction name with
  | nil => simp at h
  | cons c cs ih =>
    by_cases hc : c = '/'
    · exact ⟨[], cs, by rw [hc]; rfl, by simp⟩
    · have hcs : '/' ∈ cs := by
        rcases List.mem_cons.1 h with h1 | h1
        · exact absurd h1.symm hc
        · exact h1
      obtain ⟨pfx, sfx, he, hp⟩ := ih hcs
      refine ⟨c :: pfx, sfx, by rw [he]; rfl, ?_⟩
      intro hm
      rcases List.mem_cons.1 hm with h1 | h1
      · exact hc h1.symm
      · exact hp h1

theorem splitTimeZoneNames_cons_plain (name : List Char) (rest : List (List Char))
    (result : TimeZoneNameMappings) (h : '/' ∉ name) :
    splitTimeZoneNames (name :: rest) result =
      splitTimeZoneNames rest
        ⟨result.timeZoneNamesWithoutPrefix ++ [name], result.timeZoneNamePrefixMap⟩ := by
  rw [splitTimeZoneNames, span_no_separator name h]

theorem splitTimeZoneNames_cons_prefixed (pfx sfx : List Char) (rest : List (List Char))
    (result : TimeZoneNameMappings) (h : '/' ∉ pfx) :
    splitTimeZoneNames ((pfx ++ '/' :: sfx) :: rest) result =
      splitTimeZoneNames rest
        ⟨result.timeZoneNamesWithoutPrefix, pushSuffix result.timeZoneNamePrefixMap pfx sfx⟩ := by
  rw [splitTimeZoneNames, span_separator pfx sfx h]

theorem prefixedNames_pushSuffix (m : List (List Char × List (List Char)))
    (pfx sfx : List Char) :
    (prefixedNames (pushSuffix m pfx sfx)).Perm (prefixedNames m ++ [pfx ++ '/' :: sfx]) := by
  induction m with
  | nil => simp [pushSuffix, prefixedNames]
  | cons kv rest ih =>
    obtain ⟨k, v⟩ := kv
    unfold pushSuffix
    by_cases hk : k = pfx
    · rw [if_pos hk]
      subst hk
      simp only [prefixedNames, List.flatMap_cons, List.map_append, List.map_cons, List.map_nil,
        List.append_assoc]
      exact List.Perm.append_left _ List.perm_append_comm
    · rw [if_neg hk]
      simp only [prefixedNames, List.flatMap_cons, List.append_assoc]
      exact List.Perm.append_left _ ih

theorem keys_pushSuffix (m : List (List Char × List (List Char))) (pfx sfx : List Char) :
    (pushSuffix m pfx sfx).map Prod.fst =
      if pfx ∈ m.map Prod.fst then m.map Prod.fst else m.map Prod.fst ++ [pfx] := by
  induction m with
  | nil => simp [pushSuffix]
  | cons kv rest ih =>
    obtain ⟨k, v⟩ := kv
    unfold pushSuffix
    by_cases hk : k = pfx
    · rw [if_pos hk]
      subst hk
      simp
    · rw [if_neg hk]
      have hk2 : ¬ pfx = k := fun h => hk h.symm
      simp only [List.map_cons, List.mem_cons, hk2, false_or, ih]
      split <;> simp

theorem splitTimeZoneNames_plain (names : List (List Char)) :
    ∀ result : TimeZoneNameMappings,
      (splitTimeZoneNames names result).timeZoneNamesWithoutPrefix =
        result.timeZoneNamesWithoutPrefix ++ names.filter (fun name => !decide ('/' ∈ name)) := by
  induction names with
  | nil => intro result; simp [splitTimeZoneNames]
  | cons name rest ih =>
    intro result
    by_cases h : '/' ∈ name
    · obtain ⟨pfx, sfx, he, hp⟩ := separator_split name h
      rw [he, splitTimeZoneNames_cons_prefixed pfx sfx rest result hp, ih, ← he]
      simp [h]
    · rw [splitTimeZoneNames_cons_plain name rest result h, ih]
      simp [h]

theorem splitTimeZoneNames_prefixed (names : List (List Char)) :
    ∀ result : TimeZoneNameMappings,
      (prefixedNames (splitTimeZoneNames names result).timeZoneNamePrefixMap).Perm
        (prefixedNames result.timeZoneNamePrefixMap ++
          names.filter (fun name => decide ('/' ∈ name))) := by
  induction names with
  | nil => intro result; simp [splitTimeZoneNames]
  | cons name rest ih =>
    intro result
    by_cases h : '/' ∈ name
    · obtain ⟨pfx, sfx, he, hp⟩ := separator_split name h
      rw [he, splitTimeZoneNames_cons_prefixed pfx sfx rest result hp]
      refine (ih _).trans ?_
      rw [← he]
      simp only [h, decide_True, List.filter_cons_of_pos]
      have := prefixedNames_pushSuffix result.timeZoneNamePrefixMap pfx sfx
      rw [← he] at this
      refine (List.Perm.append_right _ this).trans ?_
      simp
    · rw [splitTimeZoneNames_cons_plain name rest result h]
      refine (ih _).trans ?_
      simp [h]

theorem splitTimeZoneNames_keys (names : List (List Char)) :
    ∀ result : TimeZoneNameMappings,
      (result.timeZoneNamePrefixMap.map Prod.fst).Nodup →
      (∀ k ∈ result.timeZoneNamePrefixMap.map Prod.fst, '/' ∉ k) →
      ((splitTimeZoneNames names result).timeZoneNamePrefixMap.map Prod.fst).Nodup ∧
      (∀ k ∈ (splitTimeZoneNames names result).timeZoneNamePrefixMap.map Prod.fst, '/' ∉ k) := by
  induction names with
  | nil => intro result h1 h2; exact ⟨h1, h2⟩
  | cons name rest ih =>
    intro result h1 h2
    by_cases h : '/' ∈ name
    · obtain ⟨pfx, sfx, he, hp⟩ := separator_split name h
      rw [he, splitTimeZoneNames_cons_prefixed pfx sfx rest result hp]
      apply ih
      · show ((pushSuffix result.timeZoneNamePrefixMap pfx sfx).map Prod.fst).Nodup
        rw [keys_pushSuffix]
        split
        · exact h1
        · rename_i hnot
          exact List.Nodup.append h1 (List.nodup_singleton _)
            (by
              intro x hx1 hx2
              rw [List.mem_singleton] at hx2
              exact hnot (hx2 ▸ hx1))
      · intro k hk
        change k ∈ (pushSuffix result.timeZoneNamePrefixMap pfx sfx).map Prod.fst at hk
        rw [keys_pushSuffix] at hk
        split at hk
        · exact h2 k hk
        · rcases List.mem_append.1 hk with hk1 | hk1
          · exact h2 k hk1
          · rw [List.mem_singleton] at hk1
            rw [hk1]
            exact hp
    · rw [splitTimeZoneNames_cons_plain name rest result h]
      exact ih _ h1 h2

theorem prefixedNames_sorted (m : List (List Char × List (List Char))) :
    (prefixedNames (m.map (fun kv => (kv.1, kv.2.insertionSort longerFirst)))).Perm
      (prefixedNames m) := by
  induction m with
  | nil => exact List.Perm.refl _
  | cons kv rest ih =>
    simp only [prefixedNames, List.map_cons, List.flatMap_cons]
    exact List.Perm.append ((List.perm_insertionSort _ _).map _) ih

theorem getTimeZoneNameMappings_spec (timeZoneNames : List (List Char)) :
    (getTimeZoneNameMappings timeZoneNames).timeZoneNamesWithoutPrefix.Perm
      (timeZoneNames.filter (fun name => !decide ('/' ∈ name))) ∧
    (prefixedNames (getTimeZoneNameMappings timeZoneNames).timeZoneNamePrefixMap).Perm
      (timeZoneNames.filter (fun name => decide ('/' ∈ name))) ∧
    ((getTimeZoneNameMappings timeZoneNames).timeZoneNamePrefixMap.map Prod.fst).Nodup ∧
    (∀ kv ∈ (getTimeZoneNameMappings timeZoneNames).timeZoneNamePrefixMap, '/' ∉ kv.1) ∧
    (getTimeZoneNameMappings timeZoneNames).timeZoneNamesWithoutPrefix.Pairwise
      (fun a b => b.length ≤ a.length) ∧
    (∀ kv ∈ (getTimeZoneNameMappings timeZoneNames).timeZoneNamePrefixMap,
      kv.2.Pairwise (fun a b => b.length ≤ a.length)) := by
  have hplain := splitTimeZoneNames_plain timeZoneNames ⟨[], []⟩
  have hpre := splitTimeZoneNames_prefixed timeZoneNames ⟨[], []⟩
  have hkeys := splitTimeZoneNames_keys timeZoneNames ⟨[], []⟩ List.nodup_nil
    (by intro k hk; simp at hk)
  unfold getTimeZoneNameMappings
  dsimp only
  refine ⟨?_, ?_, ?_, ?_, ?_, ?_⟩
  · refine (List.perm_insertionSort _ _).trans ?_
    rw [hplain]
    simp
  · refine (prefixedNames_sorted _).trans ?_
    refine hpre.trans ?_
    simp [prefixedNames]
  · rw [List.map_map]
    exact hkeys.1
  · intro kv hkv
    obtain ⟨kv0, hkv0, rfl⟩ := List.mem_map.1 hkv
    exact hkeys.2 kv0.1 (List.mem_map_of_mem Prod.fst hkv0)
  · exact List.sorted_insertionSort longerFirst _
  · intro kv hkv
    obtain ⟨kv0, hkv0, rfl⟩ := List.mem_map.1 hkv
    exact List.sorted_insertionSort longerFirst _

/-- Claim C30: `getTimeZoneNameMappings` partitions the list of names: the
names without `/` are, up to order, the entries of
`timeZoneNamesWithoutPrefix`; the names with `/` are, up to order, the
suffixes of the prefix map, each behind its prefix and a `/`, where a prefix
has no `/` (it is the text before the first one) and occurs in one entry only;
the flat list and every suffix list are ordered by non-increasing length. -/
theorem getTimeZoneNameMappings_partition (timeZoneNames : List (List Char)) :
    (getTimeZoneNameMappings timeZoneNames).timeZoneNamesWithoutPrefix.Perm
      (timeZoneNames.filter (fun name => !decide ('/' ∈ name))) ∧
    (prefixedNames (getTimeZoneNameMappings timeZoneNames).timeZoneNamePrefixMap).Perm
      (timeZoneNames.filter (fun name => decide ('/' ∈ name))) ∧
    ((getTimeZoneNameMappings timeZoneNames).timeZoneNamePrefixMap.map Prod.fst).Nodup ∧
    (∀ kv ∈ (getTimeZoneNameMappings timeZoneNames).timeZoneNamePrefixMap, '/' ∉ kv.1) ∧
    (getTimeZoneNameMappings timeZoneNames).timeZoneNamesWithoutPrefix.Pairwise
      (fun a b => b.length ≤ a.length) ∧
    (∀ kv ∈ (getTimeZoneNameMappings timeZoneNames).timeZoneNamePrefixMap,
      kv.2.Pairwise (fun a b => b.length ≤ a.length)) :=
  getTimeZoneNameMappings_spec timeZoneNames

theorem getTimeZoneNameMappings_partition_witness :
    getTimeZoneNameMappings zoneNamesEnv.timeZoneNames =
      ⟨["UTC".toList, "UT".toList],
        [("America".toList, ["Argentina/Salta".toList, "Argentina".toList]),
          ("Asia".toList, ["Tokyo".toList])]⟩ ∧
    '/' ∉ "America".toList :=
  ⟨by decide,
    (getTimeZoneNameMappings_partition zoneNamesEnv.timeZoneNames).2.2.2.1
      ("America".toList, ["Argentina/Salta".toList, "Argentina".toList]) (by decide)⟩

/-! ### C24: the longest zone name -/

theorem lookup_of_mem_nodup (m : List (List Char × List (List Char))) (k : List Char)
    (v : List (List Char)) (hnd : (m.map Prod.fst).Nodup) (hmem : (k, v) ∈ m) :
    m.lookup k = some v := by
  induction m with
  | nil => simp at hmem
  | cons kv rest ih =>
    obtain ⟨k0, v0⟩ := kv
    rw [List.map_cons, List.nodup_cons] at hnd
    rcases List.mem_cons.1 hmem with h | h
    · injection h with h1 h2
      subst h1 h2
      simp [List.lookup]
    · have hne : ¬ (k = k0) := by
        intro he
        have hk : k ∈ rest.map Prod.fst := List.mem_map_of_mem Prod.fst h
        rw [he] at hk
        exact hnd.1 hk
      have hb : (k == k0) = false := by simpa using hne
      rw [List.lookup, hb]
      exact ih hnd.2 h

theorem mem_of_lookup (m : List (List Char × List (List Char))) (k : List Char)
    (v : List (List Char)) (h : m.lookup k = some v) : (k, v) ∈ m := by
  induction m with
  | nil => simp [List.lookup] at h
  | cons kv rest ih =>
    obtain ⟨k0, v0⟩ := kv
    by_cases he : k = k0
    · subst he
      simp [List.lookup] at h
      subst h
      exact List.mem_cons_self _ _
    · have hb : (k == k0) = false := by simpa using he
      rw [List.lookup, hb] at h
      exact List.mem_cons_of_mem _ (ih h)

theorem separator_unique (p1 s1 p2 s2 : List Char) (h1 : '/' ∉ p1) (h2 : '/' ∉ p2)
    (h : p1 ++ '/' :: s1 = p2 ++ '/' :: s2) : p1 = p2 ∧ s1 = s2 := by
  have e1 := span_separator p1 s1 h1
  have e2 := span_separator p2 s2 h2
  rw [h, e2] at e1
  injection e1 with ha hb
  injection hb with _ hc
  exact ⟨ha.symm, hc.symm⟩

theorem find_longest (l : List (List Char)) (p : List Char → Bool)
    (hs : l.Pairwise (fun a b => b.length ≤ a.length)) (x : List Char)
    (h : l.find? p = some x) : ∀ y ∈ l, p y = true → y.length ≤ x.length := by
  induction l with
  | nil => simp at h
  | cons a rest ih =>
    rw [List.pairwise_cons] at hs
    intro y hy hpy
    by_cases hpa : p a = true
    · rw [List.find?_cons_of_pos _ hpa] at h
      injection h with h
      subst h
      rcases List.mem_cons.1 hy with h1 | h1
      · rw [h1]
      · exact hs.1 y h1
    · rw [List.find?_cons_of_neg _ hpa] at h
      rcases List.mem_cons.1 hy with h1 | h1
      · rw [h1] at hpy
        exact absurd hpy hpa
      · exact ih hs.2 h y h1 hpy

theorem prefix_eq_of_length (a b cur : List Char) (ha : a <+: cur) (hb : b <+: cur)
    (h : a.length = b.length) : a = b := by
  rw [List.prefix_iff_eq_take] at ha hb
  rw [ha, hb, h]

theorem prefix_iff_fits (cur s : List Char) :
    (decide (s.length ≤ cur.length) && startsWith cur s) = true ↔ s <+: cur := by
  rw [Bool.and_eq_true, startsWith_iff_prefix]
  constructor
  · exact fun h => h.2
  · intro h
    exact ⟨by simpa using h.length_le, h⟩

theorem mem_prefixedNames (m : List (List Char × List (List Char))) (name : List Char) :
    name ∈ prefixedNames m ↔ ∃ k v s, (k, v) ∈ m ∧ s ∈ v ∧ name = k ++ '/' :: s := by
  unfold prefixedNames
  simp only [List.mem_flatMap, List.mem_map, Prod.exists]
  constructor
  · rintro ⟨k, v, hkv, s, hs, rfl⟩
    exact ⟨k, v, s, hkv, hs, rfl⟩
  · rintro ⟨k, v, s, hkv, hs, rfl⟩
    exact ⟨k, v, hkv, s, hs, rfl⟩

theorem takeWhile_prefix_of (name cur : List Char) (h : name <+: cur) (hn : '/' ∉ name) :
    name <+: cur.takeWhile (fun c => c != '/') := by
  obtain ⟨t, rfl⟩ := h
  have hall : ∀ c ∈ name, (c != '/') = true := by
    intro c hc
    simp only [bne_iff_ne, ne_eq]
    intro hx
    exact hn (hx ▸ hc)
  rw [List.takeWhile_append_of_pos hall]
  exact List.prefix_append _ _

theorem mem_withoutPrefix (names : List (List Char)) (name : List Char) :
    name ∈ (getTimeZoneNameMappings names).timeZoneNamesWithoutPrefix ↔
      name ∈ names ∧ '/' ∉ name := by
  rw [(getTimeZoneNameMappings_spec names).1.mem_iff]
  simp [List.mem_filter]

theorem mem_prefixMap (names : List (List Char)) (name : List Char) :
    name ∈ prefixedNames (getTimeZoneNameMappings names).timeZoneNamePrefixMap ↔
      name ∈ names ∧ '/' ∈ name := by
  rw [(getTimeZoneNameMappings_spec names).2.1.mem_iff]
  simp [List.mem_filter]

theorem withoutPrefixMatch_some (names : List (List Char)) (p x : List Char)
    (h : withoutPrefixMatch (getTimeZoneNameMappings names) p = some x) :
    x ∈ names ∧ '/' ∉ x ∧ x <+: p ∧
      ∀ y ∈ names, '/' ∉ y → y <+: p → y.length ≤ x.length := by
  unfold withoutPrefixMatch at h
  have hx := List.mem_of_find?_eq_some h
  have hpx := List.find?_some h
  rw [mem_withoutPrefix] at hx
  refine ⟨hx.1, hx.2, (prefix_iff_fits p x).1 hpx, ?_⟩
  intro y hy hys hyp
  exact find_longest _ _ (getTimeZoneNameMappings_spec names).2.2.2.2.1 x h y
    ((mem_withoutPrefix names y).2 ⟨hy, hys⟩) ((prefix_iff_fits p y).2 hyp)

theorem withoutPrefixMatch_none (names : List (List Char)) (p : List Char)
    (h : withoutPrefixMatch (getTimeZoneNameMappings names) p = none) :
    ∀ y ∈ names, '/' ∉ y → ¬ y <+: p := by
  unfold withoutPrefixMatch at h
  intro y hy hys hyp
  have := List.find?_eq_none.1 h y ((mem_withoutPrefix names y).2 ⟨hy, hys⟩)
  exact this ((prefix_iff_fits p y).2 hyp)

theorem lookup_prefixMap (names : List (List Char)) (p s : List Char) (hp : '/' ∉ p)
    (h : p ++ '/' :: s ∈ names) :
    ∃ v, (getTimeZoneNameMappings names).timeZoneNamePrefixMap.lookup p = some v ∧ s ∈ v := by
  have hmem : p ++ '/' :: s ∈
      prefixedNames (getTimeZoneNameMappings names).timeZoneNamePrefixMap :=
    (mem_prefixMap names _).2 ⟨h, by simp⟩
  obtain ⟨k, v, s1, hkv, hs1, he⟩ := (mem_prefixedNames _ _).1 hmem
  have hk : '/' ∉ k := (getTimeZoneNameMappings_spec names).2.2.2.1 (k, v) hkv
  obtain ⟨e1, e2⟩ := separator_unique p s k s1 hp hk he
  subst e1 e2
  exact ⟨v, lookup_of_mem_nodup _ _ _ (getTimeZoneNameMappings_spec names).2.2.1 hkv, hs1⟩

theorem withPrefixMatch_some (names : List (List Char)) (p after x : List Char)
    (hp : '/' ∉ p)
    (h : withPrefixMatch (getTimeZoneNameMappings names) p ('/' :: after) = some x) :
    p ++ '/' :: x ∈ names ∧ x <+: after ∧
      ∀ s, p ++ '/' :: s ∈ names → s <+: after → s.length ≤ x.length := by
  unfold withPrefixMatch at h
  dsimp only at h
  cases hl : (getTimeZoneNameMappings names).timeZoneNamePrefixMap.lookup p with
  | none => rw [hl] at h; cases h
  | some v =>
    rw [hl] at h
    dsimp only at h
    have hx := List.mem_of_find?_eq_some h
    have hpx := List.find?_some h
    have hkv := mem_of_lookup _ _ _ hl
    have hmem : p ++ '/' :: x ∈
        prefixedNames (getTimeZoneNameMappings names).timeZoneNamePrefixMap :=
      (mem_prefixedNames _ _).2 ⟨p, v, x, hkv, hx, rfl⟩
    refine ⟨((mem_prefixMap names _).1 hmem).1, (prefix_iff_fits after x).1 hpx, ?_⟩
    intro s hs hsp
    obtain ⟨v1, hv1, hsv⟩ := lookup_prefixMap names p s hp hs
    rw [hl] at hv1
    injection hv1 with hv1
    subst hv1
    exact find_longest _ _ ((getTimeZoneNameMappings_spec names).2.2.2.2.2 (p, v) hkv) x h s hsv
      ((prefix_iff_fits after s).2 hsp)

theorem withPrefixMatch_none (names : List (List Char)) (p after : List Char)
    (hp : '/' ∉ p)
    (h : withPrefixMatch (getTimeZoneNameMappings names) p ('/' :: after) = none) :
    ∀ s, p ++ '/' :: s ∈ names → ¬ s <+: after := by
  intro s hs hsp
  obtain ⟨v, hv, hsv⟩ := lookup_prefixMap names p s hp hs
  unfold withPrefixMatch at h
  dsimp only at h
  rw [hv] at h
  dsimp only at h
  exact List.find?_eq_none.1 h s hsv ((prefix_iff_fits after s).2 hsp)

theorem parseTimezoneName_plain {Z : Type} (env : Env Z) (cur : List Char) (date : Date Z)
    (hcur : cur ≠ []) (hs : '/' ∉ cur) :
    parseTimezoneName env cur date =
      match withoutPrefixMatch (getTimeZoneNameMappings env.timeZoneNames) cur with
      | some timeZoneName => locateMatched env date timeZoneName timeZoneName.length
      | none => (-1, date) := by
  have hlen : 0 < cur.length := List.length_pos.2 hcur
  have hsp := span_no_separator cur hs
  rw [List.span_eq_take_drop] at hsp
  injection hsp with h1 h2
  rw [parseTimezoneName_eq, if_pos hlen, h1, h2]
  rfl

theorem parseTimezoneName_separator {Z : Type} (env : Env Z) (p after : List Char)
    (date : Date Z) (hp : '/' ∉ p) :
    parseTimezoneName env (p ++ '/' :: after) date =
      match withPrefixMatch (getTimeZoneNameMappings env.timeZoneNames) p ('/' :: after) with
      | some suffixName =>
        locateMatched env date (p ++ '/' :: suffixName) (p ++ '/' :: suffixName).length
      | none =>
        match withoutPrefixMatch (getTimeZoneNameMappings env.timeZoneNames) p with
        | some timeZoneName => locateMatched env date timeZoneName timeZoneName.length
        | none => (-1, date) := by
  have hlen : 0 < (p ++ '/' :: after).length := by simp
  have hsp := span_separator p after hp
  rw [List.span_eq_take_drop] at hsp
  injection hsp with h1 h2
  rw [parseTimezoneName_eq, if_pos hlen, h1, h2]
  cases hw : withPrefixMatch (getTimeZoneNameMappings env.timeZoneNames) p ('/' :: after) with
  | none => rfl
  | some x =>
    dsimp only
    have hx := (withPrefixMatch_some env.timeZoneNames p after x hp hw).2.1
    obtain ⟨t, rfl⟩ := hx
    have e1 : p.length + 1 + x.length = (p ++ '/' :: x).length := by
      simp only [List.length_append, List.length_cons]
      omega
    have e2 : p ++ '/' :: (x ++ t) = (p ++ '/' :: x) ++ t := by simp
    rw [e1, e2, List.take_left]

theorem parseTimezoneName_best {Z : Type} (env : Env Z) (cur : List Char) (date : Date Z)
    (hcur : cur ≠ []) (name : List Char) (hname : name ∈ env.timeZoneNames)
    (hpre : name <+: cur)
    (hmax : ∀ other ∈ env.timeZoneNames, other <+: cur → other.length ≤ name.length) :
    parseTimezoneName env cur date = locateMatched env date name name.length := by
  by_cases hs : '/' ∈ cur
  · obtain ⟨p, after, rfl, hp⟩ := separator_split cur hs
    rw [parseTimezoneName_separator env p after date hp]
    cases hw : withPrefixMatch (getTimeZoneNameMappings env.timeZoneNames) p ('/' :: after) with
    | some x =>
      dsimp only
      obtain ⟨hxn, hxp, hxm⟩ := withPrefixMatch_some env.timeZoneNames p after x hp hw
      have hxpre : p ++ '/' :: x <+: p ++ '/' :: after := by
        obtain ⟨t, rfl⟩ := hxp
        exact ⟨t, by simp⟩
      have hle := hmax _ hxn hxpre
      have hns : '/' ∈ name := by
        by_contra hno
        have h1 := takeWhile_prefix_of name _ hpre hno
        have hsp := span_separator p after hp
        rw [List.span_eq_take_drop] at hsp
        injection hsp with h2 _
        rw [h2] at h1
        have := h1.length_le
        simp at hle
        omega
      obtain ⟨p1, s1, rfl, hp1⟩ := separator_split name hns
      obtain ⟨t, ht⟩ := hpre
      have ht2 : p1 ++ '/' :: (s1 ++ t) = p ++ '/' :: after := by simpa using ht
      obtain ⟨e1, e2⟩ := separator_unique p1 (s1 ++ t) p after hp1 hp ht2
      subst e1
      have hle2 := hxm s1 hname ⟨t, e2⟩
      have hlen : (p1 ++ '/' :: x).length = (p1 ++ '/' :: s1).length := by
        simp at hle ⊢
        omega
      rw [prefix_eq_of_length _ _ _ hxpre ⟨t, ht⟩ hlen]
    | none =>
      dsimp only
      have hnone := withPrefixMatch_none env.timeZoneNames p after hp hw
      have hns : '/' ∉ name := by
        intro hno
        obtain ⟨p1, s1, rfl, hp1⟩ := separator_split name hno
        obtain ⟨t, ht⟩ := hpre
        have ht2 : p1 ++ '/' :: (s1 ++ t) = p ++ '/' :: after := by simpa using ht
        obtain ⟨e1, e2⟩ := separator_unique p1 (s1 ++ t) p after hp1 hp ht2
        subst e1
        exact hnone s1 hname ⟨t, e2⟩
      have hnp : name <+: p := by
        have h1 := takeWhile_prefix_of name _ hpre hns
        have hsp := span_separator p after hp
        rw [List.span_eq_take_drop] at hsp
        injection hsp with h2 _
        rw [h2] at h1
        exact h1
      cases hwo : withoutPrefixMatch (getTimeZoneNameMappings env.timeZoneNames) p with
      | some x =>
        dsimp only
        obtain ⟨hxn, hxs, hxp, hxm⟩ := withoutPrefixMatch_some env.timeZoneNames p x hwo
        have hxcur : x <+: p ++ '/' :: after := hxp.trans (List.prefix_append _ _)
        have h1 := hmax x hxn hxcur
        have h2 := hxm name hname hns hnp
        rw [prefix_eq_of_length x name _ hxcur hpre (by omega)]
      | none =>
        exact absurd hnp (withoutPrefixMatch_none env.timeZoneNames p hwo name hname hns)
  · rw [parseTimezoneName_plain env cur date hcur hs]
    have hns : '/' ∉ name := fun hno => hs (hpre.subset hno)
    cases hwo : withoutPrefixMatch (getTimeZoneNameMappings env.timeZoneNames) cur with
    | some x =>
      dsimp only
      obtain ⟨hxn, hxs, hxp, hxm⟩ := withoutPrefixMatch_some env.timeZoneNames cur x hwo
      have h1 := hmax x hxn hxp
      have h2 := hxm name hname hns hpre
      rw [prefix_eq_of_length x name _ hxp hpre (by omega)]
    | none =>
      exact absurd hpre (withoutPrefixMatch_none env.timeZoneNames cur hwo name hname hns)

theorem parseTimezoneName_no_name {Z : Type} (env : Env Z) (cur : List Char) (date : Date Z)
    (hcur : cur ≠ []) (hno : ∀ name ∈ env.timeZoneNames, ¬ name <+: cur) :
    parseTimezoneName env cur date = (-1, date) := by
  by_cases hs : '/' ∈ cur
  · obtain ⟨p, after, rfl, hp⟩ := separator_split cur hs
    rw [parseTimezoneName_separator env p after date hp]
    cases hw : withPrefixMatch (getTimeZoneNameMappings env.timeZoneNames) p ('/' :: after) with
    | some x =>
      obtain ⟨hxn, hxp, -⟩ := withPrefixMatch_some env.timeZoneNames p after x hp hw
      obtain ⟨t, rfl⟩ := hxp
      exact absurd ⟨t, by simp⟩ (hno _ hxn)
    | none =>
      dsimp only
      cases hwo : withoutPrefixMatch (getTimeZoneNameMappings env.timeZoneNames) p with
      | some x =>
        obtain ⟨hxn, -, hxp, -⟩ := withoutPrefixMatch_some env.timeZoneNames p x hwo
        exact absurd (hxp.trans (List.prefix_append _ _)) (hno _ hxn)
      | none => rfl
  · rw [parseTimezoneName_plain env cur date hcur hs]
    cases hwo : withoutPrefixMatch (getTimeZoneNameMappings env.timeZoneNames) cur with
    | some x =>
      obtain ⟨hxn, -, hxp, -⟩ := withoutPrefixMatch_some env.timeZoneNames cur x hwo
      exact absurd hxp (hno _ hxn)
    | none => rfl

/-- Claim C24: for every non-empty remaining input and every list of zone
names indexed by `getTimeZoneNameMappings`, `parseTimezoneName` matches the
longest name of the list that is a prefix of the input: it looks that name up
and returns its length when the zone table accepts it (and `-1` when the table
rejects it); it returns `-1` and leaves the date alone when no name of the
list is a prefix of the input. -/
theorem parseTimezoneName_longest {Z : Type} (env : Env Z) (cur : List Char) (date : Date Z)
    (hcur : cur ≠ []) :
    (∀ name ∈ env.timeZoneNames, name <+: cur →
      (∀ other ∈ env.timeZoneNames, other <+: cur → other.length ≤ name.length) →
      parseTimezoneName env cur date =
        (if (env.locateZone name).isNone then (-1, { date with timezone := env.locateZone name })
          else ((name.length : Int), { date with timezone := env.locateZone name }))) ∧
    ((∀ name ∈ env.timeZoneNames, ¬ name <+: cur) →
      parseTimezoneName env cur date = (-1, date)) :=
  ⟨fun name hname hpre hmax => parseTimezoneName_best env cur date hcur name hname hpre hmax,
    parseTimezoneName_no_name env cur date hcur⟩

theorem parseTimezoneName_longest_witness :
    parseTimezoneName zoneNamesEnv "America/Argentina/Salta 12".toList ({} : Date (List Char)) =
      (23, { ({} : Date (List Char)) with timezone := some "America/Argentina/Salta".toList }) ∧
    parseTimezoneName zoneNamesEnv "Europe/Paris".toList ({} : Date (List Char)) =
      (-1, {}) :=
  ⟨((parseTimezoneName_longest zoneNamesEnv "America/Argentina/Salta 12".toList {}
      (by decide)).1 "America/Argentina/Salta".toList (by decide) (by decide)
      (by decide)).trans (by decide),
    (parseTimezoneName_longest zoneNamesEnv "Europe/Paris".toList {} (by decide)).2
      (by decide)⟩

/-! ### C28, C29: the forms of a zone offset and the scratch buffer -/

theorem parseTimezoneOffset_long {Z : Type} (env : Env Z) (cur : List Char) (date : Date Z)
    (buf : List Char) (hsign : cur.getD 0 ' ' = '-' ∨ cur.getD 0 ' ' = '+')
    (h6 : 6 ≤ cur.length) (hc : cur.getD 3 ' ' = ':') :
    parseTimezoneOffset env cur date buf = offsetOutcome env date (cur.take 6) 6 buf := by
  have hpos : 0 < cur.length := by omega
  unfold parseTimezoneOffset offsetOutcome
  rw [if_pos hpos, if_pos hsign, if_pos ⟨h6, hc⟩]

theorem parseTimezoneOffset_medium {Z : Type} (env : Env Z) (cur : List Char) (date : Date Z)
    (buf : List Char) (hsign : cur.getD 0 ' ' = '-' ∨ cur.getD 0 ' ' = '+')
    (h5 : 5 ≤ cur.length) (hc : cur.getD 3 ' ' ≠ ':') (hbuf : bufferShape buf) :
    parseTimezoneOffset env cur date buf =
      offsetOutcome env date (cur.take 3 ++ ':' :: (cur.drop 3).take 2) 5
        (cur.take 3 ++ ':' :: (cur.drop 3).take 2) := by
  have hpos : 0 < cur.length := by omega
  have hn6 : ¬ (6 ≤ cur.length ∧ cur.getD 3 ' ' = ':') := fun h => hc h.2
  obtain ⟨a, b, c, d, e, f, rfl⟩ := list_length_six buf hbuf.1
  have hd : d = ':' := hbuf.2
  subst hd
  unfold parseTimezoneOffset offsetOutcome
  rw [if_pos hpos, if_pos hsign, if_neg hn6, if_pos ⟨h5, hc⟩]
  match cur, h5 with
  | c0 :: c1 :: c2 :: c3 :: c4 :: rest, _ =>
    simp only [memcpy, List.set, List.drop, List.take, List.cons_append, List.nil_append]

theorem parseTimezoneOffset_short {Z : Type} (env : Env Z) (cur : List Char) (date : Date Z)
    (buf : List Char) (hsign : cur.getD 0 ' ' = '-' ∨ cur.getD 0 ' ' = '+')
    (h3 : 3 ≤ cur.length) (hn6 : ¬ (6 ≤ cur.length ∧ cur.getD 3 ' ' = ':'))
    (hn5 : ¬ (5 ≤ cur.length ∧ cur.getD 3 ' ' ≠ ':')) (hbuf : bufferShape buf) :
    parseTimezoneOffset env cur date buf =
      offsetOutcome env date (cur.take 3 ++ [':', '0', '0']) 3
        (cur.take 3 ++ [':', '0', '0']) := by
  have hpos : 0 < cur.length := by omega
  obtain ⟨a, b, c, d, e, f, rfl⟩ := list_length_six buf hbuf.1
  have hd : d = ':' := hbuf.2
  subst hd
  unfold parseTimezoneOffset offsetOutcome
  rw [if_pos hpos, if_pos hsign, if_neg hn6, if_neg hn5, if_pos h3]
  match cur, h3 with
  | c0 :: c1 :: c2 :: rest, _ =>
    simp only [memcpy, defaultTrailingOffset, List.set, List.take, List.cons_append,
      List.nil_append]

theorem parseTimezoneOffset_too_short {Z : Type} (env : Env Z) (cur : List Char)
    (date : Date Z) (buf : List Char)
    (hsign : cur.getD 0 ' ' = '-' ∨ cur.getD 0 ' ' = '+') (h3 : cur.length < 3) :
    parseTimezoneOffset env cur date buf = (-1, date, buf) := by
  unfold parseTimezoneOffset
  by_cases hpos : 0 < cur.length
  · rw [if_pos hpos, if_pos hsign, if_neg (by omega), if_neg (by omega), if_neg (by omega)]
  · rw [if_neg hpos]

theorem parseTimezoneOffset_unsigned {Z : Type} (env : Env Z) (cur : List Char)
    (date : Date Z) (hsign : ¬ (cur.getD 0 ' ' = '-' ∨ cur.getD 0 ' ' = '+')) :
    ∃ r : Int × Date Z, ∀ buf, parseTimezoneOffset env cur date buf = (r.1, r.2, buf) := by
  unfold parseTimezoneOffset
  by_cases hpos : 0 < cur.length
  · simp only [if_pos hpos, if_neg hsign]
    by_cases hz : cur.getD 0 ' ' = 'Z'
    · simp only [if_pos hz]
      exact ⟨(_, _), fun _ => rfl⟩
    · simp only [if_neg hz]
      by_cases h3 : 3 ≤ cur.length
      · simp only [if_pos h3]
        by_cases hu : (startsWith cur "UTC".toList || startsWith cur "UCT".toList) = true
        · simp only [if_pos hu]
          exact ⟨(_, _), fun _ => rfl⟩
        · simp only [if_neg hu]
          by_cases hg : startsWith cur "GMT".toList = true
          · simp only [if_pos hg]
            by_cases h4 : 4 ≤ cur.length ∧ cur.getD 3 ' ' = '0'
            · simp only [if_pos h4]
              exact ⟨(_, _), fun _ => rfl⟩
            · simp only [if_neg h4]
              exact ⟨(_, _), fun _ => rfl⟩
          · simp only [if_neg hg]
            exact ⟨(_, _), fun _ => rfl⟩
      · simp only [if_neg h3]
        exact ⟨(_, _), fun _ => rfl⟩
  · simp only [if_neg hpos]
    exact ⟨(_, _), fun _ => rfl⟩

theorem offsetOutcome_fst_snd {Z : Type} (env : Env Z) (date : Date Z) (id : List Char)
    (size : Int) (buf1 buf2 : List Char) :
    (offsetOutcome env date id size buf1).1 = (offsetOutcome env date id size buf2).1 ∧
    (offsetOutcome env date id size buf1).2.1 = (offsetOutcome env date id size buf2).2.1 ∧
    (offsetOutcome env date id size buf1).2.2 = buf1 ∧
    (offsetOutcome env date id size buf1).2.1.timezone = env.locateZone id := by
  unfold offsetOutcome
  dsimp only
  by_cases h : (env.locateZone id).isNone = true
  · rw [if_pos h, if_pos h]
    exact ⟨rfl, rfl, rfl, rfl⟩
  · rw [if_neg h, if_neg h]
    exact ⟨rfl, rfl, rfl, rfl⟩

theorem bufferShape_medium (cur : List Char) (h5 : 5 ≤ cur.length) :
    bufferShape (cur.take 3 ++ ':' :: (cur.drop 3).take 2) := by
  match cur, h5 with
  | c0 :: c1 :: c2 :: c3 :: c4 :: rest, _ => exact ⟨rfl, rfl⟩

theorem bufferShape_short (cur : List Char) (h3 : 3 ≤ cur.length) :
    bufferShape (cur.take 3 ++ [':', '0', '0']) := by
  match cur, h3 with
  | c0 :: c1 :: c2 :: rest, _ => exact ⟨rfl, rfl⟩

theorem parseTimezoneOffset_by_length {Z : Type} (env : Env Z) (cur : List Char)
    (date : Date Z) (buf : List Char)
    (hsign : cur.getD 0 ' ' = '-' ∨ cur.getD 0 ' ' = '+') (hbuf : bufferShape buf) :
    parseTimezoneOffset env cur date buf =
      (if 6 ≤ cur.length ∧ cur.getD 3 ' ' = ':' then
        offsetOutcome env date (cur.take 6) 6 buf
      else if 5 ≤ cur.length ∧ cur.getD 3 ' ' ≠ ':' then
        offsetOutcome env date (cur.take 3 ++ ':' :: (cur.drop 3).take 2) 5
          (cur.take 3 ++ ':' :: (cur.drop 3).take 2)
      else if 3 ≤ cur.length then
        offsetOutcome env date (cur.take 3 ++ [':', '0', '0']) 3 (cur.take 3 ++ [':', '0', '0'])
      else (-1, date, buf)) := by
  by_cases h6 : 6 ≤ cur.length ∧ cur.getD 3 ' ' = ':'
  · rw [if_pos h6]
    exact parseTimezoneOffset_long env cur date buf hsign h6.1 h6.2
  · rw [if_neg h6]
    by_cases h5 : 5 ≤ cur.length ∧ cur.getD 3 ' ' ≠ ':'
    · rw [if_pos h5]
      exact parseTimezoneOffset_medium env cur date buf hsign h5.1 h5.2 hbuf
    · rw [if_neg h5]
      by_cases h3 : 3 ≤ cur.length
      · rw [if_pos h3]
        exact parseTimezoneOffset_short env cur date buf hsign h3 h6 h5 hbuf
      · rw [if_neg h3]
        exact parseTimezoneOffset_too_short env cur date buf hsign (by omega)

/-- Claim C28: for an input that starts with `+` or `-`, the form is chosen
from the remaining length and the fourth byte alone. With at least 6 bytes and
a `:` as fourth byte the 6 bytes are looked up unchanged and 6 are consumed;
otherwise with at least 5 bytes and a fourth byte other than `:` the first
three bytes, a `:` and the next two bytes are looked up and 5 are consumed;
otherwise with at least 3 bytes the first three bytes followed by `:00` are
looked up and 3 are consumed; with fewer than 3 bytes, or when the lookup
rejects the id, the result is `-1`. Each id handed to the lookup has six
bytes with a `:` at index 3. The scratch buffer is taken in its shape. -/
theorem parseTimezoneOffset_signed_forms {Z : Type} (env : Env Z) (cur : List Char)
    (date : Date Z) (buf : List Char)
    (hsign : cur.getD 0 ' ' = '-' ∨ cur.getD 0 ' ' = '+') (hbuf : bufferShape buf) :
    parseTimezoneOffset env cur date buf =
      (if 6 ≤ cur.length ∧ cur.getD 3 ' ' = ':' then
        offsetOutcome env date (cur.take 6) 6 buf
      else if 5 ≤ cur.length ∧ cur.getD 3 ' ' ≠ ':' then
        offsetOutcome env date (cur.take 3 ++ ':' :: (cur.drop 3).take 2) 5
          (cur.take 3 ++ ':' :: (cur.drop 3).take 2)
      else if 3 ≤ cur.length then
        offsetOutcome env date (cur.take 3 ++ [':', '0', '0']) 3 (cur.take 3 ++ [':', '0', '0'])
      else (-1, date, buf)) ∧
    (6 ≤ cur.length → cur.getD 3 ' ' = ':' → bufferShape (cur.take 6)) ∧
    (5 ≤ cur.length → bufferShape (cur.take 3 ++ ':' :: (cur.drop 3).take 2)) ∧
    (3 ≤ cur.length → bufferShape (cur.take 3 ++ [':', '0', '0'])) := by
  refine ⟨parseTimezoneOffset_by_length env cur date buf hsign hbuf, ?_,
    bufferShape_medium cur, bufferShape_short cur⟩
  intro h6 hc
  match cur, h6, hc with
  | c0 :: c1 :: c2 :: c3 :: c4 :: c5 :: rest, _, hc => exact ⟨rfl, hc⟩

theorem parseTimezoneOffset_signed_forms_witness :
    parseTimezoneOffset sampleEnv "-08:00 ".toList {} timezoneBufferInit =
      (6, { timezone := some "-08:00".toList }, timezoneBufferInit) ∧
    parseTimezoneOffset sampleEnv "-0830x".toList {} timezoneBufferInit =
      (5, { timezone := some "-08:30".toList }, "-08:30".toList) ∧
    parseTimezoneOffset sampleEnv "-08:3".toList {} timezoneBufferInit =
      (3, { timezone := some "-08:00".toList }, "-08:00".toList) ∧
    parseTimezoneOffset sampleEnv "-0".toList {} timezoneBufferInit =
      (-1, {}, timezoneBufferInit) :=
  ⟨((parseTimezoneOffset_signed_forms sampleEnv "-08:00 ".toList {} timezoneBufferInit
      (by decide) (by decide)).1).trans (by decide),
    ((parseTimezoneOffset_signed_forms sampleEnv "-0830x".toList {} timezoneBufferInit
      (by decide) (by decide)).1).trans (by decide),
    ((parseTimezoneOffset_signed_forms sampleEnv "-08:3".toList {} timezoneBufferInit
      (by decide) (by decide)).1).trans (by decide),
    ((parseTimezoneOffset_signed_forms sampleEnv "-0".toList {} timezoneBufferInit
      (by decide) (by decide)).1).trans (by decide)⟩

/-- Claim C29: the scratch buffer starts with length 6 and a `:` at index 3,
every call of `parseTimezoneOffset` leaves it in that shape when it finds it
so, and for every two prior contents of that shape the call returns the same
size and the same date; in the forms without a colon (`+HHMM`, `+HH`) the
string handed to the lookup is the buffer the call leaves, and it is the same
for both prior contents. -/
theorem timezoneBuffer_shape_kept {Z : Type} (env : Env Z) (cur : List Char) (date : Date Z) :
    bufferShape timezoneBufferInit ∧
    (∀ buf, bufferShape buf → bufferShape (parseTimezoneOffset env cur date buf).2.2) ∧
    (∀ buf1 buf2, bufferShape buf1 → bufferShape buf2 →
      (parseTimezoneOffset env cur date buf1).1 = (parseTimezoneOffset env cur date buf2).1 ∧
      (parseTimezoneOffset env cur date buf1).2.1 =
        (parseTimezoneOffset env cur date buf2).2.1) ∧
    (∀ buf1 buf2, bufferShape buf1 → bufferShape buf2 →
      (cur.getD 0 ' ' = '-' ∨ cur.getD 0 ' ' = '+') → 3 ≤ cur.length →
      ¬ (6 ≤ cur.length ∧ cur.getD 3 ' ' = ':') →
      (parseTimezoneOffset env cur date buf1).2.2 =
        (parseTimezoneOffset env cur date buf2).2.2 ∧
      (parseTimezoneOffset env cur date buf1).2.1.timezone =
        env.locateZone (parseTimezoneOffset env cur date buf1).2.2) := by
  refine ⟨⟨rfl, rfl⟩, ?_, ?_, ?_⟩
  · intro buf hbuf
    by_cases hsign : cur.getD 0 ' ' = '-' ∨ cur.getD 0 ' ' = '+'
    · rw [(parseTimezoneOffset_by_length env cur date buf hsign hbuf)]
      by_cases h6 : 6 ≤ cur.length ∧ cur.getD 3 ' ' = ':'
      · rw [if_pos h6, (offsetOutcome_fst_snd env date _ _ buf buf).2.2.1]
        exact hbuf
      · rw [if_neg h6]
        by_cases h5 : 5 ≤ cur.length ∧ cur.getD 3 ' ' ≠ ':'
        · rw [if_pos h5, (offsetOutcome_fst_snd env date _ _ _ buf).2.2.1]
          exact bufferShape_medium cur h5.1
        · rw [if_neg h5]
          by_cases h3 : 3 ≤ cur.length
          · rw [if_pos h3, (offsetOutcome_fst_snd env date _ _ _ buf).2.2.1]
            exact bufferShape_short cur h3
          · rw [if_neg h3]
            exact hbuf
    · obtain ⟨r, hr⟩ := parseTimezoneOffset_unsigned env cur date hsign
      rw [hr buf]
      exact hbuf
  · intro buf1 buf2 h1 h2
    by_cases hsign : cur.getD 0 ' ' = '-' ∨ cur.getD 0 ' ' = '+'
    · rw [parseTimezoneOffset_by_length env cur date buf1 hsign h1,
        parseTimezoneOffset_by_length env cur date buf2 hsign h2]
      by_cases h6 : 6 ≤ cur.length ∧ cur.getD 3 ' ' = ':'
      · rw [if_pos h6, if_pos h6]
        exact ⟨(offsetOutcome_fst_snd env date _ _ buf1 buf2).1,
          (offsetOutcome_fst_snd env date _ _ buf1 buf2).2.1⟩
      · rw [if_neg h6, if_neg h6]
        by_cases h5 : 5 ≤ cur.length ∧ cur.getD 3 ' ' ≠ ':'
        · rw [if_pos h5, if_pos h5]
          exact ⟨rfl, rfl⟩
        · rw [if_neg h5, if_neg h5]
          by_cases h3 : 3 ≤ cur.length
          · rw [if_pos h3, if_pos h3]
            exact ⟨rfl, rfl⟩
          · rw [if_neg h3, if_neg h3]
            exact ⟨rfl, rfl⟩
    · obtain ⟨r, hr⟩ := parseTimezoneOffset_unsigned env cur date hsign
      rw [hr buf1, hr buf2]
      exact ⟨rfl, rfl⟩
  · intro buf1 buf2 h1 h2 hsign h3 h6
    rw [parseTimezoneOffset_by_length env cur date buf1 hsign h1,
      parseTimezoneOffset_by_length env cur date buf2 hsign h2, if_neg h6, if_neg h6]
    by_cases h5 : 5 ≤ cur.length ∧ cur.getD 3 ' ' ≠ ':'
    · rw [if_pos h5, if_pos h5, (offsetOutcome_fst_snd env date _ _ _ buf1).2.2.1,
        (offsetOutcome_fst_snd env date _ _ _ buf1).2.2.2]
      exact ⟨rfl, rfl⟩
    · rw [if_neg h5, if_neg h5, if_pos h3, if_pos h3,
        (offsetOutcome_fst_snd env date _ _ _ buf1).2.2.1,
        (offsetOutcome_fst_snd env date _ _ _ buf1).2.2.2]
      exact ⟨rfl, rfl⟩

theorem timezoneBuffer_shape_kept_witness :
    bufferShape (parseTimezoneOffset sampleEnv "+0530".toList {} "-11:45".toList).2.2 ∧
    (parseTimezoneOffset sampleEnv "+0530".toList {} "-11:45".toList).2.1 =
      (parseTimezoneOffset sampleEnv "+0530".toList {} timezoneBufferInit).2.1 :=
  ⟨(timezoneBuffer_shape_kept sampleEnv "+0530".toList {}).2.1 "-11:45".toList (by decide),
    ((timezoneBuffer_shape_kept sampleEnv "+0530".toList {}).2.2.1 "-11:45".toList
      timezoneBufferInit (by decide) (by decide)).2⟩

/-! ### C26, C27: signs and the digit run of a numeric token -/

theorem parseFromPattern_numeric {Z : Type} (env : Env Z) (p : FormatPattern)
    (st : ParseState Z) (next : Bool) (type : DateTimeFormatterType)
    (hspec : isNumericSpecifier p.specifier = true) :
    parseFromPattern env p st next type = parseNumeric env p st next type := by
  obtain ⟨spec, w⟩ := p
  simp only at hspec
  cases spec <;> first | exact absurd hspec (by decide) | rfl

theorem finishNumeric_snd_cur {Z : Type} (p : FormatPattern) (type : DateTimeFormatterType)
    (st : ParseState Z) (negative : Bool) (startPos cur : List Char) (number : Int) :
    (finishNumeric p type st negative startPos cur number).2.cur = cur := by
  unfold finishNumeric
  split <;> rfl

theorem finishNumeric_no_digit {Z : Type} (p : FormatPattern) (type : DateTimeFormatterType)
    (st : ParseState Z) (negative : Bool) (startPos : List Char) (number : Int) :
    (finishNumeric p type st negative startPos startPos number).1 = .fail := by
  unfold finishNumeric
  rw [if_pos (Nat.le_refl _)]

theorem readDigits_run (max : Nat) : ∀ (cur : List Char) (number : Int) (count : Nat),
    (readDigits max cur number count).2 =
      (count + min max (cur.takeWhile characterIsDigit).length,
        cur.drop (min max (cur.takeWhile characterIsDigit).length)) := by
  induction max with
  | zero => intro cur number count; simp [readDigits]
  | succ max ih =>
    intro cur number count
    cases cur with
    | nil => simp [readDigits]
    | cons c cs =>
      by_cases hd : characterIsDigit c = true
      · simp only [readDigits, hd, if_true, List.takeWhile_cons_of_pos, List.length_cons, ih]
        have e : min (max + 1) ((cs.takeWhile characterIsDigit).length + 1) =
            min max (cs.takeWhile characterIsDigit).length + 1 := by omega
        rw [e]
        simp only [List.drop_succ_cons, Prod.mk.injEq, and_true]
        omega
      · have hd2 : characterIsDigit c = false := by simpa using hd
        simp [readDigits, hd2]

theorem parseDigitsFrom_cur {Z : Type} (env : Env Z) (p : FormatPattern) (st : ParseState Z)
    (next : Bool) (type : DateTimeFormatterType) (negative : Bool) (startPos : List Char)
    (hok : (parseDigitsFrom env p st next type negative startPos).1 = .ok) :
    (parseDigitsFrom env p st next type negative startPos).2.cur =
      (readDigits (getMaxDigitConsume p next type) startPos 0 0).2.2 := by
  revert hok
  unfold parseDigitsFrom
  dsimp only
  repeat' split
  all_goals first
    | exact fun _ => finishNumeric_snd_cur _ _ _ _ _ _ _
    | exact fun h => ParseCode.noConfusion h

theorem parseDigitsFrom_no_digit {Z : Type} (env : Env Z) (p : FormatPattern)
    (st : ParseState Z) (next : Bool) (type : DateTimeFormatterType) (negative : Bool)
    (startPos : List Char)
    (h : (readDigits (getMaxDigitConsume p next type) startPos 0 0).2 = (0, startPos)) :
    (parseDigitsFrom env p st next type negative startPos).1 = .fail := by
  have h1 : (readDigits (getMaxDigitConsume p next type) startPos 0 0).2.1 = 0 := by rw [h]
  have h2 : (readDigits (getMaxDigitConsume p next type) startPos 0 0).2.2 = startPos := by
    rw [h]
  unfold parseDigitsFrom
  dsimp only
  rw [h1, h2]
  repeat' split
  all_goals first
    | exact finishNumeric_no_digit _ _ _ _ _ _
    | rfl

theorem parseDigitsFrom_stop {Z : Type} (env : Env Z) (p : FormatPattern)
    (st : ParseState Z) (next : Bool) (type : DateTimeFormatterType) (negative : Bool)
    (startPos : List Char) (hstop : ∀ d ∈ startPos.head?, characterIsDigit d = false) :
    (parseDigitsFrom env p st next type negative startPos).1 = .fail := by
  apply parseDigitsFrom_no_digit
  rw [readDigits_stop _ startPos 0 0 hstop]

theorem specAllowsNegative_iff (s : DateTimeFormatSpecifier) :
    specAllowsNegative s = true ↔ s = .YEAR ∨ s = .WEEK_YEAR := by
  cases s <;> simp [specAllowsNegative]

theorem specAllowsPlusSign_iff (s : DateTimeFormatSpecifier) (next : Bool) :
    specAllowsPlusSign s next = true ↔ (s = .YEAR ∨ s = .WEEK_YEAR) ∧ next = false := by
  cases s <;> cases next <;> simp [specAllowsPlusSign]

theorem parseNumeric_minus {Z : Type} (env : Env Z) (p : FormatPattern) (st : ParseState Z)
    (next : Bool) (type : DateTimeFormatterType) (cs : List Char)
    (hcur : st.cur = '-' :: cs) :
    parseNumeric env p st next type =
      if specAllowsNegative p.specifier = true then
        parseDigitsFrom env p st next type true cs
      else parseDigitsFrom env p st next type false ('-' :: cs) := by
  unfold parseNumeric
  rw [hcur]
  dsimp only
  by_cases h : specAllowsNegative p.specifier = true
  · rw [if_pos ⟨h, rfl⟩, if_pos h]
  · have h2 : ¬ (specAllowsPlusSign p.specifier next = true ∧ '-' = '+') :=
      fun hh => absurd hh.2 (by decide)
    rw [if_neg (fun hh => h hh.1), if_neg h2, if_neg h]

theorem parseNumeric_plus {Z : Type} (env : Env Z) (p : FormatPattern) (st : ParseState Z)
    (next : Bool) (type : DateTimeFormatterType) (cs : List Char)
    (hcur : st.cur = '+' :: cs) :
    parseNumeric env p st next type =
      if specAllowsPlusSign p.specifier next = true then
        parseDigitsFrom env p st next type false cs
      else parseDigitsFrom env p st next type false ('+' :: cs) := by
  unfold parseNumeric
  rw [hcur]
  dsimp only
  have h1 : ¬ (specAllowsNegative p.specifier = true ∧ '+' = '-') :=
    fun hh => absurd hh.2 (by decide)
  rw [if_neg h1]
  by_cases h : specAllowsPlusSign p.specifier next = true
  · rw [if_pos ⟨h, rfl⟩, if_pos h]
  · rw [if_neg (fun hh => h hh.1), if_neg h]

/-- Claim C26: in the numeric case of `parseFromPattern`, a leading `-` is
consumed exactly for `YEAR` and `WEEK_YEAR`, and a leading `+` exactly for
`YEAR` and `WEEK_YEAR` that no pattern token follows immediately: the digits
are then read behind the sign, with the negative flag set for `-`. For every
other numeric token, `YEAR_OF_ERA` among them, and for `+` before an adjacent
specifier, an input that starts with the sign makes the token fail; a sign
that is not followed by a digit makes it fail as well. -/
theorem parseFromPattern_sign {Z : Type} (env : Env Z) (p : FormatPattern)
    (st : ParseState Z) (next : Bool) (type : DateTimeFormatterType) (cs : List Char)
    (hspec : isNumericSpecifier p.specifier = true) :
    (specAllowsNegative p.specifier = true ↔ p.specifier = .YEAR ∨ p.specifier = .WEEK_YEAR) ∧
    (specAllowsPlusSign p.specifier next = true ↔
      (p.specifier = .YEAR ∨ p.specifier = .WEEK_YEAR) ∧ next = false) ∧
    (st.cur = '-' :: cs → (p.specifier = .YEAR ∨ p.specifier = .WEEK_YEAR) →
      parseFromPattern env p st next type = parseDigitsFrom env p st next type true cs) ∧
    (st.cur = '+' :: cs → (p.specifier = .YEAR ∨ p.specifier = .WEEK_YEAR) → next = false →
      parseFromPattern env p st next type = parseDigitsFrom env p st next type false cs) ∧
    (st.cur = '-' :: cs → ¬ (p.specifier = .YEAR ∨ p.specifier = .WEEK_YEAR) →
      (parseFromPattern env p st next type).1 = .fail) ∧
    (st.cur = '+' :: cs → ¬ ((p.specifier = .YEAR ∨ p.specifier = .WEEK_YEAR) ∧ next = false) →
      (parseFromPattern env p st next type).1 = .fail) ∧
    ((st.cur = '-' :: cs ∨ st.cur = '+' :: cs) →
      (∀ d ∈ cs.head?, characterIsDigit d = false) →
      (parseFromPattern env p st next type).1 = .fail) := by
  have hneg := specAllowsNegative_iff p.specifier
  have hplus := specAllowsPlusSign_iff p.specifier next
  have hnum := parseFromPattern_numeric env p st next type hspec
  have hm : ∀ d ∈ ('-' :: cs).head?, characterIsDigit d = false := by
    intro d hd
    simp only [List.head?_cons, Option.mem_def, Option.some.injEq] at hd
    rw [← hd]
    decide
  have hp : ∀ d ∈ ('+' :: cs).head?, characterIsDigit d = false := by
    intro d hd
    simp only [List.head?_cons, Option.mem_def, Option.some.injEq] at hd
    rw [← hd]
    decide
  refine ⟨hneg, hplus, ?_, ?_, ?_, ?_, ?_⟩
  · intro hcur hy
    rw [hnum, parseNumeric_minus env p st next type cs hcur, if_pos (hneg.2 hy)]
  · intro hcur hy hn
    rw [hnum, parseNumeric_plus env p st next type cs hcur, if_pos (hplus.2 ⟨hy, hn⟩)]
  · intro hcur hy
    rw [hnum, parseNumeric_minus env p st next type cs hcur, if_neg (fun h => hy (hneg.1 h))]
    exact parseDigitsFrom_stop env p st next type false _ hm
  · intro hcur hy
    rw [hnum, parseNumeric_plus env p st next type cs hcur, if_neg (fun h => hy (hplus.1 h))]
    exact parseDigitsFrom_stop env p st next type false _ hp
  · intro hcur hstop
    rcases hcur with hcur | hcur
    · rw [hnum, parseNumeric_minus env p st next type cs hcur]
      split
      · exact parseDigitsFrom_stop env p st next type true cs hstop
      · exact parseDigitsFrom_stop env p st next type false _ hm
    · rw [hnum, parseNumeric_plus env p st next type cs hcur]
      split
      · exact parseDigitsFrom_stop env p st next type false cs hstop
      · exact parseDigitsFrom_stop env p st next type false _ hp

theorem parseFromPattern_sign_witness :
    (parseFromPattern sampleEnv ⟨.YEAR, 4⟩ ⟨"-2024".toList, {}, timezoneBufferInit⟩ false
      .JODA).2.date.year = -2024 ∧
    (parseFromPattern sampleEnv ⟨.YEAR_OF_ERA, 4⟩ ⟨"-2024".toList, {}, timezoneBufferInit⟩ false
      .JODA).1 = .fail ∧
    (parseFromPattern sampleEnv ⟨.YEAR, 4⟩ ⟨"+2024".toList, {}, timezoneBufferInit⟩ true
      .JODA).1 = .fail :=
  ⟨(congrArg (fun r => r.2.date.year)
      ((parseFromPattern_sign sampleEnv ⟨.YEAR, 4⟩ ⟨"-2024".toList, {}, timezoneBufferInit⟩
        false .JODA "2024".toList (by decide)).2.2.1 rfl (Or.inl rfl))).trans (by decide),
    (parseFromPattern_sign sampleEnv ⟨.YEAR_OF_ERA, 4⟩ ⟨"-2024".toList, {}, timezoneBufferInit⟩
      false .JODA "2024".toList (by decide)).2.2.2.2.1 rfl (by decide),
    (parseFromPattern_sign sampleEnv ⟨.YEAR, 4⟩ ⟨"+2024".toList, {}, timezoneBufferInit⟩
      true .JODA "2024".toList (by decide)).2.2.2.2.2.1 rfl (by decide)⟩

/-- Claim C27: the digit loop of a numeric token reads the longest run of
leading digits that is no longer than `getMaxDigitConsume`; the token fails
when that run is empty, and when it succeeds the cursor stands right behind
the run. The limit is the width for century, day-of-week, fraction and
week-of-month; for year, year-of-era and week-year it is the width when
another pattern token follows, else 4 under MySQL and the larger of the width
and 9 otherwise; it is the larger of the width and 2 for day-of-month, the
four hour fields, minute, second and week-of-week-year, and the larger of the
width and 3 for day-of-year. -/
theorem parseDigitsFrom_digit_run {Z : Type} (env : Env Z) (p : FormatPattern)
    (st : ParseState Z) (next : Bool) (type : DateTimeFormatterType) (negative : Bool)
    (startPos : List Char) :
    (readDigits (getMaxDigitConsume p next type) startPos 0 0).2 =
      (min (getMaxDigitConsume p next type) (startPos.takeWhile characterIsDigit).length,
        startPos.drop
          (min (getMaxDigitConsume p next type) (startPos.takeWhile characterIsDigit).length)) ∧
    (min (getMaxDigitConsume p next type) (startPos.takeWhile characterIsDigit).length = 0 →
      (parseDigitsFrom env p st next type negative startPos).1 = .fail) ∧
    ((parseDigitsFrom env p st next type negative startPos).1 = .ok →
      (parseDigitsFrom env p st next type negative startPos).2.cur =
        startPos.drop
          (min (getMaxDigitConsume p next type)
            (startPos.takeWhile characterIsDigit).length)) ∧
    (p.specifier ∈ [DateTimeFormatSpecifier.CENTURY_OF_ERA, .DAY_OF_WEEK_1_BASED,
        .FRACTION_OF_SECOND, .WEEK_OF_MONTH] →
      getMaxDigitConsume p next type = p.minRepresentDigits) ∧
    (p.specifier ∈ [DateTimeFormatSpecifier.YEAR, .YEAR_OF_ERA, .WEEK_YEAR] →
      getMaxDigitConsume p next type =
        if next then p.minRepresentDigits
        else if type = .MYSQL then 4 else max p.minRepresentDigits 9) ∧
    (p.specifier ∈ [DateTimeFormatSpecifier.DAY_OF_MONTH, .HOUR_OF_DAY, .CLOCK_HOUR_OF_DAY,
        .HOUR_OF_HALFDAY, .CLOCK_HOUR_OF_HALFDAY, .MINUTE_OF_HOUR, .SECOND_OF_MINUTE,
        .WEEK_OF_WEEK_YEAR] →
      getMaxDigitConsume p next type = max p.minRepresentDigits 2) ∧
    (p.specifier = .DAY_OF_YEAR →
      getMaxDigitConsume p next type = max p.minRepresentDigits 3) := by
  have hrun := readDigits_run (getMaxDigitConsume p next type) startPos 0 0
  rw [Nat.zero_add] at hrun
  obtain ⟨spec, w⟩ := p
  refine ⟨hrun, ?_, ?_, ?_, ?_, ?_, ?_⟩
  · intro hk
    apply parseDigitsFrom_no_digit
    rw [hrun, hk]
    rfl
  · intro hok
    rw [parseDigitsFrom_cur env _ st next type negative startPos hok, hrun]
  · intro hs
    simp only [List.mem_cons, List.mem_singleton, List.not_mem_nil, or_false] at hs
    rcases hs with h | h | h | h <;> subst h <;> rfl
  · intro hs
    simp only [List.mem_cons, List.mem_singleton, List.not_mem_nil, or_false] at hs
    have hmax : (if w > 9 then w else 9) = max w 9 := by split <;> omega
    rcases hs with h | h | h <;> subst h <;>
      simp only [getMaxDigitConsume, hmax, Bool.if_true_right, Bool.if_false_right]
  · intro hs
    simp only [List.mem_cons, List.mem_singleton, List.not_mem_nil, or_false] at hs
    have hmax : (if w > 2 then w else 2) = max w 2 := by split <;> omega
    rcases hs with h | h | h | h | h | h | h | h <;> subst h <;>
      simp only [getMaxDigitConsume, hmax]
  · intro hs
    simp only at hs
    subst hs
    have hmax : (if w > 3 then w else 3) = max w 3 := by split <;> omega
    simp only [getMaxDigitConsume, hmax]

theorem parseDigitsFrom_digit_run_witness :
    (parseDigitsFrom sampleEnv ⟨.DAY_OF_MONTH, 1⟩ ⟨"123x".toList, {}, timezoneBufferInit⟩ false
      .JODA false "123x".toList).2.cur = "3x".toList ∧
    (parseDigitsFrom sampleEnv ⟨.DAY_OF_MONTH, 1⟩ ⟨"x".toList, {}, timezoneBufferInit⟩ false
      .JODA false "x".toList).1 = .fail :=
  ⟨((parseDigitsFrom_digit_run sampleEnv ⟨.DAY_OF_MONTH, 1⟩
      ⟨"123x".toList, {}, timezoneBufferInit⟩ false .JODA false "123x".toList).2.2.1
      (by decide)).trans (by decide),
    (parseDigitsFrom_digit_run sampleEnv ⟨.DAY_OF_MONTH, 1⟩
      ⟨"x".toList, {}, timezoneBufferInit⟩ false .JODA false "x".toList).2.1 (by decide)⟩

/-! ### C25: the resolution mode -/

theorem weekSeen_of_flags {Z : Type} (b : Bool) (date date1 : Date Z)
    (h : weekSeen b date) (hw : date1.hasWeek = date.hasWeek)
    (hy : date.hasYear = true → date1.hasYear = true) : weekSeen (b || false) date1 := by
  rw [Bool.or_false]
  exact ⟨hw.trans h.1, fun hb => hy (h.2 hb)⟩

theorem parseTimezoneOffset_flags {Z : Type} (env : Env Z) (cur : List Char) (date : Date Z)
    (buf : List Char) :
    (parseTimezoneOffset env cur date buf).2.1.hasWeek = date.hasWeek ∧
    (parseTimezoneOffset env cur date buf).2.1.hasYear = date.hasYear := by
  unfold parseTimezoneOffset
  dsimp only
  repeat' split
  all_goals exact ⟨rfl, rfl⟩

theorem locateMatched_flags {Z : Type} (env : Env Z) (date : Date Z) (name : List Char)
    (size : Nat) :
    (locateMatched env date name size).2.hasWeek = date.hasWeek ∧
    (locateMatched env date name size).2.hasYear = date.hasYear := by
  unfold locateMatched
  split <;> exact ⟨rfl, rfl⟩

theorem parseTimezoneName_flags {Z : Type} (env : Env Z) (cur : List Char) (date : Date Z) :
    (parseTimezoneName env cur date).2.hasWeek = date.hasWeek ∧
    (parseTimezoneName env cur date).2.hasYear = date.hasYear := by
  rw [parseTimezoneName_eq]
  repeat' split
  all_goals first
    | exact locateMatched_flags _ _ _ _
    | exact ⟨rfl, rfl⟩

theorem parseTimezone_flags {Z : Type} (env : Env Z) (cur : List Char) (date : Date Z) :
    (parseTimezone env cur date).2.hasWeek = date.hasWeek ∧
    (parseTimezone env cur date).2.hasYear = date.hasYear := by
  unfold parseTimezone
  repeat' split
  all_goals exact ⟨rfl, rfl⟩

theorem parseEra_flags {Z : Type} (cur : List Char) (date : Date Z) :
    (parseEra cur date).2.hasWeek = date.hasWeek ∧
    (parseEra cur date).2.hasYear = date.hasYear := by
  unfold parseEra
  repeat' split
  all_goals exact ⟨rfl, rfl⟩

theorem parseMonthText_flags {Z : Type} (cur : List Char) (date : Date Z) :
    (parseMonthText cur date).2.hasWeek = date.hasWeek ∧
    (parseMonthText cur date).2.hasYear = date.hasYear := by
  unfold parseMonthText
  dsimp only
  repeat' split
  all_goals exact ⟨rfl, rfl⟩

theorem parseHalfDayOfDay_flags {Z : Type} (cur : List Char) (date : Date Z) :
    (parseHalfDayOfDay cur date).2.hasWeek = date.hasWeek ∧
    (parseHalfDayOfDay cur date).2.hasYear = date.hasYear := by
  unfold parseHalfDayOfDay
  repeat' split
  all_goals exact ⟨rfl, rfl⟩

theorem parseDayOfWeekText_flags {Z : Type} (cur : List Char) (date : Date Z) :
    (parseDayOfWeekText cur date).2.hasWeek = date.hasWeek ∧
    (parseDayOfWeekText cur date).2.hasYear = date.hasYear := by
  unfold parseDayOfWeekText
  dsimp only
  repeat' split
  all_goals exact ⟨rfl, rfl⟩

theorem applyNumber_weekSeen {Z : Type} (p : FormatPattern) (type : DateTimeFormatterType)
    (number : Int) (date : Date Z) (b : Bool) (h : weekSeen b date)
    (hok : (applyNumber p type number date).1 = .ok) :
    weekSeen (b || setsHasWeek p.specifier) (applyNumber p type number date).2 := by
  obtain ⟨spec, w⟩ := p
  obtain ⟨hw, hy⟩ := h
  cases spec
  all_goals simp only [setsHasWeek, Bool.or_false, Bool.or_true]
  all_goals revert hok
  all_goals simp only [applyNumber]
  all_goals repeat' split
  all_goals intro hok
  all_goals first
    | exact ParseCode.noConfusion hok
    | exact ⟨hw, hy⟩
    | exact ⟨hw, fun _ => rfl⟩
    | exact ⟨rfl, fun _ => rfl⟩
    | (refine ⟨rfl, fun _ => ?_⟩; assumption)

theorem finishNumeric_weekSeen {Z : Type} (p : FormatPattern) (type : DateTimeFormatterType)
    (st : ParseState Z) (negative : Bool) (startPos cur : List Char) (number : Int) (b : Bool)
    (h : weekSeen b st.date)
    (hok : (finishNumeric p type st negative startPos cur number).1 = .ok) :
    weekSeen (b || setsHasWeek p.specifier)
      (finishNumeric p type st negative startPos cur number).2.date := by
  revert hok
  unfold finishNumeric
  split
  · exact fun hok => ParseCode.noConfusion hok
  · exact fun hok => applyNumber_weekSeen p type _ st.date b h hok

theorem parseDigitsFrom_weekSeen {Z : Type} (env : Env Z) (p : FormatPattern)
    (st : ParseState Z) (next : Bool) (type : DateTimeFormatterType) (negative : Bool)
    (startPos : List Char) (b : Bool) (h : weekSeen b st.date)
    (hok : (parseDigitsFrom env p st next type negative startPos).1 = .ok) :
    weekSeen (b || setsHasWeek p.specifier)
      (parseDigitsFrom env p st next type negative startPos).2.date := by
  revert hok
  unfold parseDigitsFrom
  dsimp only
  repeat' split
  all_goals first
    | exact fun hok => finishNumeric_weekSeen p type st negative startPos _ _ b h hok
    | exact fun hok => ParseCode.noConfusion hok

theorem parseNumeric_weekSeen {Z : Type} (env : Env Z) (p : FormatPattern)
    (st : ParseState Z) (next : Bool) (type : DateTimeFormatterType) (b : Bool)
    (h : weekSeen b st.date) (hok : (parseNumeric env p st next type).1 = .ok) :
    weekSeen (b || setsHasWeek p.specifier) (parseNumeric env p st next type).2.date := by
  revert hok
  unfold parseNumeric
  repeat' split
  all_goals exact fun hok => parseDigitsFrom_weekSeen env p st next type _ _ b h hok

theorem parseFromPattern_weekSeen {Z : Type} (env : Env Z) (p : FormatPattern)
    (st : ParseState Z) (next : Bool) (type : DateTimeFormatterType) (b : Bool)
    (h : weekSeen b st.date) (hok : (parseFromPattern env p st next type).1 = .ok) :
    weekSeen (b || setsHasWeek p.specifier) (parseFromPattern env p st next type).2.date := by
  by_cases hnum : isNumericSpecifier p.specifier = true
  · rw [parseFromPattern_numeric env p st next type hnum] at hok ⊢
    exact parseNumeric_weekSeen env p st next type b h hok
  · obtain ⟨spec, w⟩ := p
    have ho := parseTimezoneOffset_flags env st.cur st.date st.timezoneBuffer
    have hn := parseTimezoneName_flags env st.cur st.date
    have hz := parseTimezone_flags env st.cur st.date
    have he := parseEra_flags st.cur st.date
    have hm := parseMonthText_flags st.cur st.date
    have hh := parseHalfDayOfDay_flags st.cur st.date
    have hd := parseDayOfWeekText_flags st.cur st.date
    revert hok
    cases spec
    all_goals first
      | exact absurd rfl hnum
      | skip
    all_goals simp only [parseFromPattern, reduceCtorEq, if_false, if_true, setsHasWeek]
    all_goals repeat' split
    all_goals intro hok
    all_goals first
      | exact ParseCode.noConfusion hok
      | exact weekSeen_of_flags b st.date _ h ho.1 (fun hyr => ho.2.trans hyr)
      | exact weekSeen_of_flags b st.date _ h hn.1 (fun hyr => hn.2.trans hyr)
      | exact weekSeen_of_flags b st.date _ h hz.1 (fun hyr => hz.2.trans hyr)
      | exact weekSeen_of_flags b st.date _ h he.1 (fun hyr => he.2.trans hyr)
      | exact weekSeen_of_flags b st.date _ h hm.1 (fun hyr => hm.2.trans hyr)
      | exact weekSeen_of_flags b st.date _ h hh.1 (fun hyr => hh.2.trans hyr)
      | exact weekSeen_of_flags b st.date _ h hd.1 (fun hyr => hd.2.trans hyr)
      | exact weekSeen_of_flags b st.date _ h hm.1 (fun _ => rfl)
      | exact weekSeen_of_flags b st.date _ h hd.1 (fun _ => rfl)

theorem parseTokens_cons_pattern {Z : Type} (env : Env Z) (type : DateTimeFormatterType)
    (pattern : FormatPattern) (rest : List DateTimeToken) (st : ParseState Z) :
    parseTokens env type (.kPattern pattern :: rest) st =
      match parseFromPattern env pattern st (startsWithPattern rest) type with
      | (.ok, st1) => parseTokens env type rest st1
      | failed => failed := by
  cases rest with
  | nil => rfl
  | cons token rest1 => cases token <;> rfl

theorem parseTokens_weekSeen {Z : Type} (env : Env Z) (type : DateTimeFormatterType)
    (tokens : List DateTimeToken) :
    ∀ (st st1 : ParseState Z) (b : Bool), weekSeen b st.date →
      parseTokens env type tokens st = (.ok, st1) →
      weekSeen (b || hasWeekToken tokens) st1.date := by
  induction tokens with
  | nil =>
    intro st st1 b h hp
    simp only [parseTokens, Prod.mk.injEq, true_and] at hp
    subst hp
    simpa [hasWeekToken] using h
  | cons token rest ih =>
    intro st st1 b h hp
    cases token with
    | kLiteral literal =>
      simp only [parseTokens] at hp
      split at hp
      · exact ParseCode.noConfusion (congrArg Prod.fst hp)
      · have := ih { st with cur := st.cur.drop literal.length } st1 b h hp
        simpa [hasWeekToken] using this
    | kPattern pattern =>
      rw [parseTokens_cons_pattern] at hp
      cases hr : parseFromPattern env pattern st (startsWithPattern rest) type with
      | mk code st2 =>
        rw [hr] at hp
        cases code with
        | ok =>
          dsimp only at hp
          have h2 := parseFromPattern_weekSeen env pattern st (startsWithPattern rest) type b h
            (by rw [hr])
          rw [hr] at h2
          have := ih st2 st1 _ h2 hp
          have e : (b || hasWeekToken (.kPattern pattern :: rest)) =
              ((b || setsHasWeek pattern.specifier) || hasWeekToken rest) := by
            simp [hasWeekToken, Bool.or_assoc]
          rw [e]
          exact this
        | fail => exact ParseCode.noConfusion (congrArg Prod.fst hp)
        | thrown e => exact ParseCode.noConfusion (congrArg Prod.fst hp)

theorem adjustDate_flags {Z : Type} (date : Date Z) :
    (adjustDate date).hasWeek = date.hasWeek ∧ (adjustDate date).hasYear = date.hasYear := by
  unfold adjustDate
  dsimp only
  repeat' split
  all_goals exact ⟨rfl, rfl⟩

theorem daysSinceEpochOf_mode {Z : Type} (env : Env Z) (type : DateTimeFormatterType)
    (date : Date Z) (b : Bool) (h : weekSeen b date) :
    daysSinceEpochOf env type date =
      if b then env.daysSinceEpochFromWeekDate date.year date.week date.dayOfWeek
      else if date.dayOfYearFormat then env.daysSinceEpochFromDayOfYear date.year date.dayOfYear
      else if date.weekOfMonthDateFormat then
        env.daysSinceEpochFromWeekOfMonthDate date.year date.month date.weekOfMonth
          date.dayOfWeek (decide (type = .LENIENT_SIMPLE))
      else env.daysSinceEpochFromDate date.year date.month date.day := by
  obtain ⟨hw, hy⟩ := h
  unfold daysSinceEpochOf
  dsimp only
  cases b with
  | true =>
    rw [hw, hy rfl]
    rfl
  | false =>
    rw [hw, Bool.and_false]

/-- The resolution step of `parse` as the code performs it: when the token
loop succeeds, week-date is used exactly when the program holds a week-year or
week-of-week-year token, wherever it stands; otherwise day-of-year when
`dayOfYearFormat` is set, otherwise week-of-month when `weekOfMonthDateFormat`
is set, otherwise the plain calendar date. The flag `weekDateFormat` the
fields write is not read: the result is the same for either value of it. -/
theorem parse_resolution_mode {Z : Type} (env : Env Z) (formatter : DateTimeFormatter)
    (input buf : List Char) (st1 : ParseState Z)
    (h : parseTokens env formatter.type formatter.tokens ⟨input, {}, buf⟩ = (.ok, st1)) :
    daysSinceEpochOf env formatter.type (adjustDate st1.date) =
      (if hasWeekToken formatter.tokens then
        env.daysSinceEpochFromWeekDate (adjustDate st1.date).year (adjustDate st1.date).week
          (adjustDate st1.date).dayOfWeek
      else if (adjustDate st1.date).dayOfYearFormat then
        env.daysSinceEpochFromDayOfYear (adjustDate st1.date).year (adjustDate st1.date).dayOfYear
      else if (adjustDate st1.date).weekOfMonthDateFormat then
        env.daysSinceEpochFromWeekOfMonthDate (adjustDate st1.date).year
          (adjustDate st1.date).month (adjustDate st1.date).weekOfMonth
          (adjustDate st1.date).dayOfWeek (decide (formatter.type = .LENIENT_SIMPLE))
      else
        env.daysSinceEpochFromDate (adjustDate st1.date).year (adjustDate st1.date).month
          (adjustDate st1.date).day) ∧
    (∀ (date : Date Z) (flag : Bool),
      daysSinceEpochOf env formatter.type { date with weekDateFormat := flag } =
        daysSinceEpochOf env formatter.type date) := by
  have h0 : weekSeen false ({} : Date Z) := ⟨rfl, fun hb => Bool.noConfusion hb⟩
  have h1 := parseTokens_weekSeen env formatter.type formatter.tokens _ st1 false h0 h
  rw [Bool.false_or] at h1
  have hf := adjustDate_flags st1.date
  have h2 : weekSeen (hasWeekToken formatter.tokens) (adjustDate st1.date) :=
    ⟨hf.1.trans h1.1, fun hb => hf.2.trans (h1.2 hb)⟩
  exact ⟨daysSinceEpochOf_mode env formatter.type _ _ h2, fun date flag => rfl⟩

theorem parse_resolution_mode_witness :
    daysSinceEpochOf sampleEnv .JODA
        (adjustDate (parseTokens sampleEnv .JODA weekThenDateProgram.tokens
          ⟨"10 03 15".toList, {}, timezoneBufferInit⟩).2.date) =
      sampleEnv.daysSinceEpochFromWeekDate 2000 10 1 :=
  ((parse_resolution_mode sampleEnv weekThenDateProgram "10 03 15".toList timezoneBufferInit
    (parseTokens sampleEnv .JODA weekThenDateProgram.tokens
      ⟨"10 03 15".toList, {}, timezoneBufferInit⟩).2 (by decide)).1).trans rfl

/-- Claim C25 (code defect): the mode used at resolution is not the one of the
last mode-selecting field written. With `ww MM dd` and the input `10 03 15`
the last fields written are month and day-of-month, whose handlers store
`weekDateFormat = false`, and the flag is clear after the loop; yet `parse`
returns the instant of the week date 2000-W10-1 (day 11022) and not of
2000-03-15 (day 11031), because the flag is overwritten with
`hasYear && hasWeek` before it is read. With `DDD W` and `045 2` week-of-month
is written last, but its handler does not clear `dayOfYearFormat` as every
other mode handler does: both flags are set at resolution and the day of year
45 (day 11001) is used, not the week-of-month date (day 10965). -/
theorem parse_mode_last_writer_ignored :
    (parseTokens sampleEnv .JODA weekThenDateProgram.tokens
      ⟨"10 03 15".toList, {}, timezoneBufferInit⟩).2.date.weekDateFormat = false ∧
    parse sampleEnv weekThenDateProgram "10 03 15".toList timezoneBufferInit =
      .value ⟨sampleEnv.fromDatetime 11022 0, none⟩ ∧
    sampleEnv.daysSinceEpochFromWeekDate 2000 10 1 = .ok 11022 ∧
    sampleEnv.daysSinceEpochFromDate 2000 3 15 = .ok 11031 ∧
    (parseTokens sampleEnv .STRICT_SIMPLE dayOfYearThenWeekOfMonthProgram.tokens
      ⟨"045 2".toList, {}, timezoneBufferInit⟩).2.date.dayOfYearFormat = true ∧
    (parseTokens sampleEnv .STRICT_SIMPLE dayOfYearThenWeekOfMonthProgram.tokens
      ⟨"045 2".toList, {}, timezoneBufferInit⟩).2.date.weekOfMonthDateFormat = true ∧
    parse sampleEnv dayOfYearThenWeekOfMonthProgram "045 2".toList timezoneBufferInit =
      .value ⟨sampleEnv.fromDatetime 11001 0, none⟩ ∧
    sampleEnv.daysSinceEpochFromDayOfYear 2000 45 = .ok 11001 ∧
    sampleEnv.daysSinceEpochFromWeekOfMonthDate 2000 1 2 7 false = .ok 10965 := by
  refine ⟨by decide, by decide, rfl, rfl, by decide, by decide, by decide, rfl, rfl⟩

/-- A day-of-week field without a week field does not select the week-date
mode: with `MM e` and `03 5` the day-of-week field is written last and sets
`weekDateFormat`, and the plain date 2000-03-01 is used, as the comment before
the resolution says (week date only with a year and at least a week). -/
theorem parse_day_of_week_without_week :
    (parseTokens sampleEnv .JODA monthThenDayOfWeekProgram.tokens
      ⟨"03 5".toList, {}, timezoneBufferInit⟩).2.date.weekDateFormat = true ∧
    parse sampleEnv monthThenDayOfWeekProgram "03 5".toList timezoneBufferInit =
      .value ⟨sampleEnv.fromDatetime 11017 0, none⟩ ∧
    sampleEnv.daysSinceEpochFromDate 2000 3 1 = .ok 11017 := by
  refine ⟨by decide, by decide, rfl⟩

/-! ## Cursor movement, clock fields and the half-day adjustment -/

/-! ### C31: the cursor -/

theorem parseTimezoneOffset_within {Z : Type} (env : Env Z) (cur : List Char) (date : Date Z)
    (buf : List Char) :
    (parseTimezoneOffset env cur date buf).1 = -1 ∨
      (1 ≤ (parseTimezoneOffset env cur date buf).1 ∧
        (parseTimezoneOffset env cur date buf).1 ≤ (cur.length : Int)) := by
  unfold parseTimezoneOffset
  dsimp only
  repeat' split
  all_goals first
    | exact Or.inl rfl
    | (refine Or.inr ⟨?_, ?_⟩ <;> dsimp only <;> omega)

theorem parseTimezone_within {Z : Type} (env : Env Z) (cur : List Char) (date : Date Z) :
    (parseTimezone env cur date).1 = -1 ∨
      (1 ≤ (parseTimezone env cur date).1 ∧
        (parseTimezone env cur date).1 ≤ (cur.length : Int)) := by
  unfold parseTimezone
  repeat' split
  all_goals first
    | exact Or.inl rfl
    | (refine Or.inr ⟨?_, ?_⟩ <;> dsimp only <;> omega)

theorem parseEra_within {Z : Type} (cur : List Char) (date : Date Z) :
    (parseEra cur date).1 = -1 ∨
      (1 ≤ (parseEra cur date).1 ∧ (parseEra cur date).1 ≤ (cur.length : Int)) := by
  unfold parseEra
  repeat' split
  all_goals first
    | exact Or.inl rfl
    | (refine Or.inr ⟨?_, ?_⟩ <;> dsimp only <;> omega)

theorem parseHalfDayOfDay_within {Z : Type} (cur : List Char) (date : Date Z) :
    (parseHalfDayOfDay cur date).1 = -1 ∨
      (1 ≤ (parseHalfDayOfDay cur date).1 ∧
        (parseHalfDayOfDay cur date).1 ≤ (cur.length : Int)) := by
  unfold parseHalfDayOfDay
  repeat' split
  all_goals first
    | exact Or.inl rfl
    | (refine Or.inr ⟨?_, ?_⟩ <;> dsimp only <;> omega)

theorem parseMonthText_within {Z : Type} (cur : List Char) (date : Date Z) :
    (parseMonthText cur date).1 = -1 ∨
      (1 ≤ (parseMonthText cur date).1 ∧ (parseMonthText cur date).1 ≤ (cur.length : Int)) := by
  unfold parseMonthText
  dsimp only
  repeat' split
  all_goals first
    | exact Or.inl rfl
    | (refine Or.inr ⟨?_, ?_⟩ <;> dsimp only <;> omega)

theorem parseDayOfWeekText_within {Z : Type} (cur : List Char) (date : Date Z) :
    (parseDayOfWeekText cur date).1 = -1 ∨
      (1 ≤ (parseDayOfWeekText cur date).1 ∧
        (parseDayOfWeekText cur date).1 ≤ (cur.length : Int)) := by
  unfold parseDayOfWeekText
  dsimp only
  repeat' split
  all_goals first
    | exact Or.inl rfl
    | (refine Or.inr ⟨?_, ?_⟩ <;> dsimp only <;> omega)

theorem withPrefixMatch_fits (mappings : TimeZoneNameMappings) (pfx tail x : List Char)
    (h : withPrefixMatch mappings pfx tail = some x) : x.length + 1 ≤ tail.length := by
  unfold withPrefixMatch at h
  cases tail with
  | nil => cases h
  | cons c after =>
    dsimp only at h
    cases hl : mappings.timeZoneNamePrefixMap.lookup pfx with
    | none => rw [hl] at h; cases h
    | some v =>
      rw [hl] at h
      dsimp only at h
      have hp := List.find?_some h
      rw [Bool.and_eq_true] at hp
      have := of_decide_eq_true hp.1
      simp only [List.length_cons]
      omega

theorem withoutPrefixMatch_fits (mappings : TimeZoneNameMappings) (pfx x : List Char)
    (h : withoutPrefixMatch mappings pfx = some x) : x.length ≤ pfx.length := by
  unfold withoutPrefixMatch at h
  have hp := List.find?_some h
  rw [Bool.and_eq_true] at hp
  exact of_decide_eq_true hp.1

theorem locateMatched_fst {Z : Type} (env : Env Z) (date : Date Z) (name : List Char)
    (size : Nat) :
    (locateMatched env date name size).1 =
      if (env.locateZone name).isNone then -1 else (size : Int) := by
  unfold locateMatched
  split <;> rfl

theorem parseTimezoneName_within {Z : Type} (env : Env Z) (cur : List Char) (date : Date Z)
    (hzone : env.locateZone [] = none) :
    (parseTimezoneName env cur date).1 = -1 ∨
      (1 ≤ (parseTimezoneName env cur date).1 ∧
        (parseTimezoneName env cur date).1 ≤ (cur.length : Int)) := by
  have hsum := takeWhile_append_dropWhile_length cur (fun c => c != '/')
  rw [parseTimezoneName_eq]
  split
  · cases hw : withPrefixMatch (getTimeZoneNameMappings env.timeZoneNames)
        (cur.takeWhile (fun c => c != '/')) (cur.dropWhile (fun c => c != '/')) with
    | some x =>
      dsimp only
      have hfit := withPrefixMatch_fits _ _ _ _ hw
      rw [locateMatched_fst]
      split
      · exact Or.inl rfl
      · refine Or.inr ⟨?_, ?_⟩ <;> omega
    | none =>
      dsimp only
      cases hwo : withoutPrefixMatch (getTimeZoneNameMappings env.timeZoneNames)
          (cur.takeWhile (fun c => c != '/')) with
      | some x =>
        dsimp only
        have hfit := withoutPrefixMatch_fits _ _ _ hwo
        rw [locateMatched_fst]
        split
        · exact Or.inl rfl
        · rename_i hsome
          have hne : x ≠ [] := by
            intro hx
            apply hsome
            rw [hx, hzone]
            rfl
          have hpos : 0 < x.length := List.length_pos.2 hne
          refine Or.inr ⟨?_, ?_⟩ <;> omega
      | none => exact Or.inl rfl
  · exact Or.inl rfl

theorem drop_toNat_advance (cur : List Char) (size : Int)
    (h : size = -1 ∨ (1 ≤ size ∧ size ≤ (cur.length : Int))) (hne : ¬ size = -1) :
    1 ≤ size.toNat ∧ size.toNat ≤ cur.length := by
  rcases h with h | h
  · exact absurd h hne
  · omega

theorem parseFromPattern_advance_ERA {Z : Type} (env : Env Z) (w : Nat)
    (st : ParseState Z) (next : Bool) (type : DateTimeFormatterType)
    (hok : (parseFromPattern env ⟨.ERA, w⟩ st next type).1 = .ok) :
    ∃ k, 1 ≤ k ∧ k ≤ st.cur.length ∧
      (parseFromPattern env ⟨.ERA, w⟩ st next type).2.cur = st.cur.drop k := by
  have hw := parseEra_within st.cur st.date
  revert hok
  rcases h : parseEra st.cur st.date with ⟨size, date1⟩
  rw [h] at hw
  simp only [parseFromPattern, h, reduceCtorEq, if_false, if_true]
  by_cases hs : size = -1
  · rw [if_pos hs]
    exact fun hok => ParseCode.noConfusion hok
  · rw [if_neg hs]
    intro _
    have := drop_toNat_advance st.cur size hw hs
    exact ⟨size.toNat, this.1, this.2, rfl⟩

theorem parseFromPattern_advance_MONTH_OF_YEAR_TEXT {Z : Type} (env : Env Z) (w : Nat)
    (st : ParseState Z) (next : Bool) (type : DateTimeFormatterType)
    (hok : (parseFromPattern env ⟨.MONTH_OF_YEAR_TEXT, w⟩ st next type).1 = .ok) :
    ∃ k, 1 ≤ k ∧ k ≤ st.cur.length ∧
      (parseFromPattern env ⟨.MONTH_OF_YEAR_TEXT, w⟩ st next type).2.cur = st.cur.drop k := by
  have hw := parseMonthText_within st.cur st.date
  revert hok
  rcases h : parseMonthText st.cur st.date with ⟨size, date1⟩
  rw [h] at hw
  simp only [parseFromPattern, h, reduceCtorEq, if_false, if_true]
  by_cases hs : size = -1
  · rw [if_pos hs]
    exact fun hok => ParseCode.noConfusion hok
  · rw [if_neg hs]
    intro _
    have := drop_toNat_advance st.cur size hw hs
    exact ⟨size.toNat, this.1, this.2, rfl⟩

theorem parseFromPattern_advance_HALFDAY_OF_DAY {Z : Type} (env : Env Z) (w : Nat)
    (st : ParseState Z) (next : Bool) (type : DateTimeFormatterType)
    (hok : (parseFromPattern env ⟨.HALFDAY_OF_DAY, w⟩ st next type).1 = .ok) :
    ∃ k, 1 ≤ k ∧ k ≤ st.cur.length ∧
      (parseFromPattern env ⟨.HALFDAY_OF_DAY, w⟩ st next type).2.cur = st.cur.drop k := by
  have hw := parseHalfDayOfDay_within st.cur st.date
  revert hok
  rcases h : parseHalfDayOfDay st.cur st.date with ⟨size, date1⟩
  rw [h] at hw
  simp only [parseFromPattern, h, reduceCtorEq, if_false, if_true]
  by_cases hs : size = -1
  · rw [if_pos hs]
    exact fun hok => ParseCode.noConfusion hok
  · rw [if_neg hs]
    intro _
    have := drop_toNat_advance st.cur size hw hs
    exact ⟨size.toNat, this.1, this.2, rfl⟩

theorem parseFromPattern_advance_DAY_OF_WEEK_TEXT {Z : Type} (env : Env Z) (w : Nat)
    (st : ParseState Z) (next : Bool) (type : DateTimeFormatterType)
    (hok : (parseFromPattern env ⟨.DAY_OF_WEEK_TEXT, w⟩ st next type).1 = .ok) :
    ∃ k, 1 ≤ k ∧ k ≤ st.cur.length ∧
      (parseFromPattern env ⟨.DAY_OF_WEEK_TEXT, w⟩ st next type).2.cur = st.cur.drop k := by
  have hw := parseDayOfWeekText_within st.cur st.date
  revert hok
  rcases h : parseDayOfWeekText st.cur st.date with ⟨size, date1⟩
  rw [h] at hw
  simp only [parseFromPattern, h, reduceCtorEq, if_false, if_true]
  by_cases hs : size = -1
  · rw [if_pos hs]
    exact fun hok => ParseCode.noConfusion hok
  · rw [if_neg hs]
    intro _
    have := drop_toNat_advance st.cur size hw hs
    exact ⟨size.toNat, this.1, this.2, rfl⟩

theorem parseFromPattern_advance_TIMEZONE {Z : Type} (env : Env Z) (w : Nat)
    (st : ParseState Z) (next : Bool) (type : DateTimeFormatterType)
    (hok : (parseFromPattern env ⟨.TIMEZONE, w⟩ st next type).1 = .ok) :
    ∃ k, 1 ≤ k ∧ k ≤ st.cur.length ∧
      (parseFromPattern env ⟨.TIMEZONE, w⟩ st next type).2.cur = st.cur.drop k := by
  have hw := parseTimezone_within env st.cur st.date
  revert hok
  rcases h : parseTimezone env st.cur st.date with ⟨size, date1⟩
  rw [h] at hw
  simp only [parseFromPattern, h, reduceCtorEq, if_false, if_true]
  by_cases h4 : w < 4
  · rw [if_neg (not_not.2 h4)]
    by_cases hs : size = -1
    · rw [if_pos hs]
      exact fun hok => ParseCode.noConfusion hok
    · rw [if_neg hs]
      intro _
      have := drop_toNat_advance st.cur size hw hs
      exact ⟨size.toNat, this.1, this.2, rfl⟩
  · rw [if_pos h4]
    exact fun hok => ParseCode.noConfusion hok

theorem parseFromPattern_advance_TIMEZONE_OFFSET_ID {Z : Type} (env : Env Z) (w : Nat)
    (st : ParseState Z) (next : Bool) (type : DateTimeFormatterType)
    (hzone : env.locateZone [] = none)
    (hok : (parseFromPattern env ⟨.TIMEZONE_OFFSET_ID, w⟩ st next type).1 = .ok) :
    ∃ k, 1 ≤ k ∧ k ≤ st.cur.length ∧
      (parseFromPattern env ⟨.TIMEZONE_OFFSET_ID, w⟩ st next type).2.cur = st.cur.drop k := by
  revert hok
  by_cases h3 : w < 3
  · have hw := parseTimezoneOffset_within env st.cur st.date st.timezoneBuffer
    rcases h : parseTimezoneOffset env st.cur st.date st.timezoneBuffer with
      ⟨size, date1, buffer1⟩
    rw [h] at hw
    simp only [parseFromPattern, h, if_true, if_pos h3]
    by_cases hs : size = -1
    · rw [if_pos hs]
      exact fun hok => ParseCode.noConfusion hok
    · rw [if_neg hs]
      intro _
      have := drop_toNat_advance st.cur size hw hs
      exact ⟨size.toNat, this.1, this.2, rfl⟩
  · have hw := parseTimezoneName_within env st.cur st.date hzone
    rcases h : parseTimezoneName env st.cur st.date with ⟨size, date1⟩
    rw [h] at hw
    simp only [parseFromPattern, h, if_true, if_neg h3]
    by_cases hs : size = -1
    · rw [if_pos hs]
      exact fun hok => ParseCode.noConfusion hok
    · rw [if_neg hs]
      intro _
      have := drop_toNat_advance st.cur size hw hs
      exact ⟨size.toNat, this.1, this.2, rfl⟩

theorem parseDigitsFrom_advance {Z : Type} (env : Env Z) (p : FormatPattern)
    (st : ParseState Z) (next : Bool) (type : DateTimeFormatterType) (negative : Bool)
    (startPos : List Char)
    (hok : (parseDigitsFrom env p st next type negative startPos).1 = .ok) :
    ∃ k, 1 ≤ k ∧ k ≤ startPos.length ∧
      (parseDigitsFrom env p st next type negative startPos).2.cur = startPos.drop k := by
  have hrun := readDigits_run (getMaxDigitConsume p next type) startPos 0 0
  rw [Nat.zero_add] at hrun
  have hcur := parseDigitsFrom_cur env p st next type negative startPos hok
  have hk : min (getMaxDigitConsume p next type)
      (startPos.takeWhile characterIsDigit).length ≠ 0 := by
    intro h0
    have hfail := parseDigitsFrom_no_digit env p st next type negative startPos
      (by rw [hrun, h0]; rfl)
    rw [hfail] at hok
    exact ParseCode.noConfusion hok
  have hle : (startPos.takeWhile characterIsDigit).length ≤ startPos.length :=
    (List.takeWhile_sublist _).length_le
  refine ⟨_, Nat.one_le_iff_ne_zero.2 hk, ?_, ?_⟩
  · exact Nat.le_trans (Nat.min_le_right _ _) hle
  · rw [hcur, hrun]

theorem parseNumeric_advance {Z : Type} (env : Env Z) (p : FormatPattern)
    (st : ParseState Z) (next : Bool) (type : DateTimeFormatterType)
    (hok : (parseNumeric env p st next type).1 = .ok) :
    ∃ k, 1 ≤ k ∧ k ≤ st.cur.length ∧
      (parseNumeric env p st next type).2.cur = st.cur.drop k := by
  revert hok
  unfold parseNumeric
  cases hc : st.cur with
  | nil =>
    dsimp only
    intro hok
    exact parseDigitsFrom_advance env p st next type false [] hok
  | cons c cs =>
    dsimp only
    split
    · intro hok
      obtain ⟨k, h1, h2, h3⟩ := parseDigitsFrom_advance env p st next type true cs hok
      exact ⟨k + 1, by omega, by simp only [List.length_cons]; omega, by rw [h3]; rfl⟩
    · split
      · intro hok
        obtain ⟨k, h1, h2, h3⟩ := parseDigitsFrom_advance env p st next type false cs hok
        exact ⟨k + 1, by omega, by simp only [List.length_cons]; omega, by rw [h3]; rfl⟩
      · intro hok
        exact parseDigitsFrom_advance env p st next type false (c :: cs) hok

theorem parseFromPattern_advance {Z : Type} (env : Env Z) (p : FormatPattern)
    (st : ParseState Z) (next : Bool) (type : DateTimeFormatterType)
    (hzone : env.locateZone [] = none)
    (hok : (parseFromPattern env p st next type).1 = .ok) :
    ∃ k, 1 ≤ k ∧ k ≤ st.cur.length ∧
      (parseFromPattern env p st next type).2.cur = st.cur.drop k := by
  by_cases hnum : isNumericSpecifier p.specifier = true
  · rw [parseFromPattern_numeric env p st next type hnum] at hok ⊢
    exact parseNumeric_advance env p st next type hok
  · obtain ⟨spec, w⟩ := p
    cases spec
    all_goals first
      | exact absurd rfl hnum
      | exact parseFromPattern_advance_ERA env w st next type hok
      | exact parseFromPattern_advance_MONTH_OF_YEAR_TEXT env w st next type hok
      | exact parseFromPattern_advance_HALFDAY_OF_DAY env w st next type hok
      | exact parseFromPattern_advance_DAY_OF_WEEK_TEXT env w st next type hok
      | exact parseFromPattern_advance_TIMEZONE env w st next type hok
      | exact parseFromPattern_advance_TIMEZONE_OFFSET_ID env w st next type hzone hok

theorem parseDigitsFrom_suffix {Z : Type} (env : Env Z) (p : FormatPattern)
    (st : ParseState Z) (next : Bool) (type : DateTimeFormatterType) (negative : Bool)
    (startPos : List Char) :
    (parseDigitsFrom env p st next type negative startPos).2.cur <:+ startPos := by
  have hrun := readDigits_run (getMaxDigitConsume p next type) startPos 0 0
  have hsfx : (readDigits (getMaxDigitConsume p next type) startPos 0 0).2.2 <:+ startPos := by
    rw [hrun]
    exact List.drop_suffix _ _
  unfold parseDigitsFrom
  dsimp only
  repeat' split
  all_goals first
    | (rw [finishNumeric_snd_cur]; exact hsfx)
    | exact List.drop_suffix _ _
    | exact List.suffix_refl _

theorem parseNumeric_suffix {Z : Type} (env : Env Z) (p : FormatPattern)
    (st : ParseState Z) (next : Bool) (type : DateTimeFormatterType) :
    (parseNumeric env p st next type).2.cur <:+ st.cur := by
  unfold parseNumeric
  cases hc : st.cur with
  | nil => exact parseDigitsFrom_suffix env p st next type false []
  | cons c cs =>
    dsimp only
    repeat' split
    · exact (parseDigitsFrom_suffix env p st next type true cs).trans (List.suffix_cons c cs)
    · exact (parseDigitsFrom_suffix env p st next type false cs).trans (List.suffix_cons c cs)
    · exact parseDigitsFrom_suffix env p st next type false (c :: cs)

theorem parseFromPattern_suffix {Z : Type} (env : Env Z) (p : FormatPattern)
    (st : ParseState Z) (next : Bool) (type : DateTimeFormatterType) :
    (parseFromPattern env p st next type).2.cur <:+ st.cur := by
  by_cases hnum : isNumericSpecifier p.specifier = true
  · rw [parseFromPattern_numeric env p st next type hnum]
    exact parseNumeric_suffix env p st next type
  · obtain ⟨spec, w⟩ := p
    cases spec
    all_goals first
      | exact absurd rfl hnum
      | skip
    all_goals simp only [parseFromPattern, reduceCtorEq, if_false, if_true]
    all_goals repeat' split
    all_goals first
      | exact List.suffix_refl _
      | exact List.drop_suffix _ _

theorem parseTokens_suffix {Z : Type} (env : Env Z) (type : DateTimeFormatterType)
    (tokens : List DateTimeToken) :
    ∀ st : ParseState Z, (parseTokens env type tokens st).2.cur <:+ st.cur := by
  induction tokens with
  | nil => intro st; exact List.suffix_refl _
  | cons token rest ih =>
    intro st
    cases token with
    | kLiteral literal =>
      simp only [parseTokens]
      split
      · exact List.suffix_refl _
      · exact (ih _).trans (List.drop_suffix _ _)
    | kPattern pattern =>
      rw [parseTokens_cons_pattern]
      have h1 := parseFromPattern_suffix env pattern st (startsWithPattern rest) type
      rcases hr : parseFromPattern env pattern st (startsWithPattern rest) type with ⟨code, st2⟩
      rw [hr] at h1
      cases code with
      | ok => exact (ih st2).trans h1
      | fail => exact h1
      | thrown e => exact h1

theorem parseTokens_cons_literal {Z : Type} (env : Env Z) (type : DateTimeFormatterType)
    (literal : List Char) (rest : List DateTimeToken) (st : ParseState Z) :
    (literal <+: st.cur ∧
      parseTokens env type (.kLiteral literal :: rest) st =
        parseTokens env type rest { st with cur := st.cur.drop literal.length }) ∨
    (¬ literal <+: st.cur ∧ parseTokens env type (.kLiteral literal :: rest) st = (.fail, st)) := by
  simp only [parseTokens]
  by_cases h : literal <+: st.cur
  · left
    have h2 := List.prefix_iff_eq_take.1 h
    have hl := h.length_le
    refine ⟨h, ?_⟩
    rw [if_neg]
    rintro (hc | hc)
    · omega
    · exact hc h2.symm
  · right
    refine ⟨h, ?_⟩
    rw [if_pos]
    by_cases hl : literal.length > st.cur.length
    · exact Or.inl hl
    · right
      intro hc
      apply h
      rw [List.prefix_iff_eq_take]
      exact hc.symm

theorem parse_of_failed_tokens {Z : Type} (env : Env Z) (formatter : DateTimeFormatter)
    (input buf : List Char)
    (h : (parseTokens env formatter.type formatter.tokens ⟨input, {}, buf⟩).1 ≠ .ok) :
    ∀ r, parse env formatter input buf ≠ .value r := by
  intro r
  unfold parse parseWithBuffer
  rcases hr : parseTokens env formatter.type formatter.tokens ⟨input, {}, buf⟩ with ⟨code, st⟩
  rw [hr] at h
  cases code with
  | ok => exact absurd rfl h
  | fail => exact fun hc => Expected.noConfusion hc
  | thrown e => exact fun hc => Expected.noConfusion hc

/-- Claim C31: the cursor of the token loop always stays a suffix of the input
(between its start and its end); a literal token that matches continues from
the cursor moved past the literal, a pattern token that succeeds leaves the
cursor at least one byte and at most the remaining input further, and a token
that does not succeed ends the loop with its failure, after which `parse`
returns no value. The zone lookup is assumed to reject the empty name. -/
theorem parse_cursor_advances {Z : Type} (env : Env Z) (hzone : env.locateZone [] = none) :
    (∀ (type : DateTimeFormatterType) (tokens : List DateTimeToken) (st : ParseState Z),
      (parseTokens env type tokens st).2.cur <:+ st.cur) ∧
    (∀ (type : DateTimeFormatterType) (literal : List Char) (rest : List DateTimeToken)
        (st : ParseState Z),
      (literal <+: st.cur ∧
        parseTokens env type (.kLiteral literal :: rest) st =
          parseTokens env type rest { st with cur := st.cur.drop literal.length }) ∨
      (¬ literal <+: st.cur ∧
        parseTokens env type (.kLiteral literal :: rest) st = (.fail, st))) ∧
    (∀ (type : DateTimeFormatterType) (p : FormatPattern) (rest : List DateTimeToken)
        (st : ParseState Z),
      ((parseFromPattern env p st (startsWithPattern rest) type).1 = .ok ∧
        (∃ k, 1 ≤ k ∧ k ≤ st.cur.length ∧
          (parseFromPattern env p st (startsWithPattern rest) type).2.cur = st.cur.drop k) ∧
        parseTokens env type (.kPattern p :: rest) st =
          parseTokens env type rest
            (parseFromPattern env p st (startsWithPattern rest) type).2) ∨
      ((parseFromPattern env p st (startsWithPattern rest) type).1 ≠ .ok ∧
        (parseFromPattern env p st (startsWithPattern rest) type).2.cur <:+ st.cur ∧
        parseTokens env type (.kPattern p :: rest) st =
          parseFromPattern env p st (startsWithPattern rest) type)) ∧
    (∀ (formatter : DateTimeFormatter) (input buf : List Char),
      (parseTokens env formatter.type formatter.tokens ⟨input, {}, buf⟩).1 ≠ .ok →
      ∀ r, parse env formatter input buf ≠ .value r) := by
  refine ⟨fun type tokens st => parseTokens_suffix env type tokens st,
    fun type literal rest st => parseTokens_cons_literal env type literal rest st, ?_,
    fun formatter input buf h => parse_of_failed_tokens env formatter input buf h⟩
  intro type p rest st
  rw [parseTokens_cons_pattern]
  rcases hr : parseFromPattern env p st (startsWithPattern rest) type with ⟨code, st2⟩
  cases code with
  | ok =>
    left
    have := parseFromPattern_advance env p st (startsWithPattern rest) type hzone
      (by rw [hr])
    rw [hr] at this
    exact ⟨rfl, this, rfl⟩
  | fail =>
    right
    have := parseFromPattern_suffix env p st (startsWithPattern rest) type
    rw [hr] at this
    exact ⟨fun h => ParseCode.noConfusion h, this, rfl⟩
  | thrown e =>
    right
    have := parseFromPattern_suffix env p st (startsWithPattern rest) type
    rw [hr] at this
    exact ⟨fun h => ParseCode.noConfusion h, this, rfl⟩

theorem parse_cursor_advances_witness :
    sampleEnv.locateZone [] = none ∧
    (parseTokens sampleEnv .JODA halfDayHourProgram.tokens
      ⟨"11 PM".toList, {}, timezoneBufferInit⟩).2.cur <:+ "11 PM".toList :=
  ⟨rfl, (parse_cursor_advances sampleEnv rfl).1 .JODA halfDayHourProgram.tokens
    ⟨"11 PM".toList, {}, timezoneBufferInit⟩⟩

/-! ### C35, C36: the time fields -/

theorem parseTimezoneOffset_clock {Z : Type} (env : Env Z) (cur : List Char) (date : Date Z)
    (buf : List Char) :
    clockFields (parseTimezoneOffset env cur date buf).2.1 = clockFields date ∧
    (parseTimezoneOffset env cur date buf).2.1.isAm = date.isAm := by
  unfold parseTimezoneOffset
  dsimp only
  repeat' split
  all_goals exact ⟨rfl, rfl⟩

theorem locateMatched_clock {Z : Type} (env : Env Z) (date : Date Z) (name : List Char)
    (size : Nat) :
    clockFields (locateMatched env date name size).2 = clockFields date ∧
    (locateMatched env date name size).2.isAm = date.isAm := by
  unfold locateMatched
  split <;> exact ⟨rfl, rfl⟩

theorem parseTimezoneName_clock {Z : Type} (env : Env Z) (cur : List Char) (date : Date Z) :
    clockFields (parseTimezoneName env cur date).2 = clockFields date ∧
    (parseTimezoneName env cur date).2.isAm = date.isAm := by
  rw [parseTimezoneName_eq]
  repeat' split
  all_goals first
    | exact locateMatched_clock _ _ _ _
    | exact ⟨rfl, rfl⟩

theorem parseTimezone_clock {Z : Type} (env : Env Z) (cur : List Char) (date : Date Z) :
    clockFields (parseTimezone env cur date).2 = clockFields date ∧
    (parseTimezone env cur date).2.isAm = date.isAm := by
  unfold parseTimezone
  repeat' split
  all_goals exact ⟨rfl, rfl⟩

theorem parseEra_clock {Z : Type} (cur : List Char) (date : Date Z) :
    clockFields (parseEra cur date).2 = clockFields date ∧
    (parseEra cur date).2.isAm = date.isAm := by
  unfold parseEra
  repeat' split
  all_goals exact ⟨rfl, rfl⟩

theorem parseMonthText_clock {Z : Type} (cur : List Char) (date : Date Z) :
    clockFields (parseMonthText cur date).2 = clockFields date ∧
    (parseMonthText cur date).2.isAm = date.isAm := by
  unfold parseMonthText
  dsimp only
  repeat' split
  all_goals exact ⟨rfl, rfl⟩

theorem parseHalfDayOfDay_clock {Z : Type} (cur : List Char) (date : Date Z) :
    clockFields (parseHalfDayOfDay cur date).2 = clockFields date := by
  unfold parseHalfDayOfDay
  repeat' split
  all_goals rfl

theorem parseDayOfWeekText_clock {Z : Type} (cur : List Char) (date : Date Z) :
    clockFields (parseDayOfWeekText cur date).2 = clockFields date ∧
    (parseDayOfWeekText cur date).2.isAm = date.isAm := by
  unfold parseDayOfWeekText
  dsimp only
  repeat' split
  all_goals exact ⟨rfl, rfl⟩

theorem clockOk_of_fields {Z : Type} (date date1 : Date Z) (h : clockOk date)
    (hf : clockFields date1 = clockFields date) : clockOk date1 := by
  unfold clockFields at hf
  simp only [Prod.mk.injEq] at hf
  obtain ⟨h1, h2, h3, h4⟩ := hf
  unfold clockOk at h ⊢
  rw [h1, h2, h3, h4]
  exact h

theorem applyNumber_clockOk {Z : Type} (p : FormatPattern) (type : DateTimeFormatterType)
    (number : Int) (date : Date Z) (h : clockOk date)
    (hok : (applyNumber p type number date).1 = .ok) :
    clockOk (applyNumber p type number date).2 := by
  obtain ⟨spec, w⟩ := p
  obtain ⟨h1, h2, h3, h4, h5, h6, h7⟩ := h
  cases spec
  all_goals revert hok
  all_goals simp only [applyNumber]
  all_goals repeat' split
  all_goals intro hok
  all_goals first
    | exact ParseCode.noConfusion hok
    | exact ⟨h1, h2, h3, h4, h5, h6, h7⟩
    | (refine ⟨?_, ?_, ?_, ?_, ?_, ?_, ?_⟩ <;> dsimp only <;>
        first
          | assumption
          | omega
          | (intro _; omega)
          | (intro hc; exact absurd hc (by decide)))

theorem applyNumber_frame {Z : Type} (p : FormatPattern) (type : DateTimeFormatterType)
    (number : Int) (date : Date Z) :
    (applyNumber p type number date).2.isAm = date.isAm ∧
    (isHourSpecifier p.specifier = false →
      (applyNumber p type number date).2.hour = date.hour ∧
      (applyNumber p type number date).2.isHourOfHalfDay = date.isHourOfHalfDay) := by
  obtain ⟨spec, w⟩ := p
  cases spec
  all_goals simp only [applyNumber]
  all_goals repeat' split
  all_goals first
    | exact ⟨rfl, fun _ => ⟨rfl, rfl⟩⟩
    | exact ⟨rfl, fun hc => absurd hc (by decide)⟩
    | simp [isHourSpecifier]

theorem finishNumeric_clockOk {Z : Type} (p : FormatPattern) (type : DateTimeFormatterType)
    (st : ParseState Z) (negative : Bool) (startPos cur : List Char) (number : Int)
    (h : clockOk st.date)
    (hok : (finishNumeric p type st negative startPos cur number).1 = .ok) :
    clockOk (finishNumeric p type st negative startPos cur number).2.date := by
  revert hok
  unfold finishNumeric
  split
  · exact fun hok => ParseCode.noConfusion hok
  · exact fun hok => applyNumber_clockOk p type _ st.date h hok

theorem parseDigitsFrom_clockOk {Z : Type} (env : Env Z) (p : FormatPattern)
    (st : ParseState Z) (next : Bool) (type : DateTimeFormatterType) (negative : Bool)
    (startPos : List Char) (h : clockOk st.date)
    (hok : (parseDigitsFrom env p st next type negative startPos).1 = .ok) :
    clockOk (parseDigitsFrom env p st next type negative startPos).2.date := by
  revert hok
  unfold parseDigitsFrom
  dsimp only
  repeat' split
  all_goals first
    | exact fun hok => finishNumeric_clockOk p type st negative startPos _ _ h hok
    | exact fun hok => ParseCode.noConfusion hok

theorem parseNumeric_clockOk {Z : Type} (env : Env Z) (p : FormatPattern)
    (st : ParseState Z) (next : Bool) (type : DateTimeFormatterType)
    (h : clockOk st.date) (hok : (parseNumeric env p st next type).1 = .ok) :
    clockOk (parseNumeric env p st next type).2.date := by
  revert hok
  unfold parseNumeric
  repeat' split
  all_goals exact fun hok => parseDigitsFrom_clockOk env p st next type _ _ h hok

theorem parseFromPattern_clockOk {Z : Type} (env : Env Z) (p : FormatPattern)
    (st : ParseState Z) (next : Bool) (type : DateTimeFormatterType)
    (h : clockOk st.date) (hok : (parseFromPattern env p st next type).1 = .ok) :
    clockOk (parseFromPattern env p st next type).2.date := by
  by_cases hnum : isNumericSpecifier p.specifier = true
  · rw [parseFromPattern_numeric env p st next type hnum] at hok ⊢
    exact parseNumeric_clockOk env p st next type h hok
  · obtain ⟨spec, w⟩ := p
    have ho := (parseTimezoneOffset_clock env st.cur st.date st.timezoneBuffer).1
    have hn := (parseTimezoneName_clock env st.cur st.date).1
    have hz := (parseTimezone_clock env st.cur st.date).1
    have he := (parseEra_clock st.cur st.date).1
    have hm := (parseMonthText_clock st.cur st.date).1
    have hh := parseHalfDayOfDay_clock st.cur st.date
    have hd := (parseDayOfWeekText_clock st.cur st.date).1
    revert hok
    cases spec
    all_goals first
      | exact absurd rfl hnum
      | skip
    all_goals simp only [parseFromPattern, reduceCtorEq, if_false, if_true]
    all_goals repeat' split
    all_goals intro hok
    all_goals first
      | exact ParseCode.noConfusion hok
      | exact clockOk_of_fields st.date _ h ho
      | exact clockOk_of_fields st.date _ h hn
      | exact clockOk_of_fields st.date _ h hz
      | exact clockOk_of_fields st.date _ h he
      | exact clockOk_of_fields st.date _ h hm
      | exact clockOk_of_fields st.date _ h hh
      | exact clockOk_of_fields st.date _ h hd

theorem parseTokens_clockOk {Z : Type} (env : Env Z) (type : DateTimeFormatterType)
    (tokens : List DateTimeToken) :
    ∀ (st st1 : ParseState Z), clockOk st.date →
      parseTokens env type tokens st = (.ok, st1) → clockOk st1.date := by
  induction tokens with
  | nil =>
    intro st st1 h hp
    simp only [parseTokens, Prod.mk.injEq, true_and] at hp
    subst hp
    exact h
  | cons token rest ih =>
    intro st st1 h hp
    cases token with
    | kLiteral literal =>
      simp only [parseTokens] at hp
      split at hp
      · exact ParseCode.noConfusion (congrArg Prod.fst hp)
      · exact ih { st with cur := st.cur.drop literal.length } st1 h hp
    | kPattern pattern =>
      rw [parseTokens_cons_pattern] at hp
      cases hr : parseFromPattern env pattern st (startsWithPattern rest) type with
      | mk code st2 =>
        rw [hr] at hp
        cases code with
        | ok =>
          dsimp only at hp
          have h2 := parseFromPattern_clockOk env pattern st (startsWithPattern rest) type h
            (by rw [hr])
          rw [hr] at h2
          exact ih st2 st1 h2 hp
        | fail => exact ParseCode.noConfusion (congrArg Prod.fst hp)
        | thrown e => exact ParseCode.noConfusion (congrArg Prod.fst hp)

theorem adjustDate_clock {Z : Type} (date : Date Z) (h : clockOk date) :
    0 ≤ (adjustDate date).hour ∧ (adjustDate date).hour ≤ 23 ∧
    (adjustDate date).minute = date.minute ∧ (adjustDate date).second = date.second := by
  obtain ⟨h1, h2, h3, -⟩ := h
  unfold adjustDate
  dsimp only
  repeat' split
  all_goals first
    | exact ⟨h1, h2, rfl, rfl⟩
    | (rename_i hc
       refine ⟨?_, ?_, rfl, rfl⟩ <;> dsimp only <;> have := h3 hc.1 <;> omega)

/-- Claim C35: for every program and input on which every token matches, the
time fields handed to the final conversion `util::fromTime` are in range: the
hour, after the half-day adjustment, within 0..23, the minute and the second
within 0..59. -/
theorem parse_time_fields_in_range {Z : Type} (env : Env Z) (formatter : DateTimeFormatter)
    (input buf : List Char) (st1 : ParseState Z)
    (h : parseTokens env formatter.type formatter.tokens ⟨input, {}, buf⟩ = (.ok, st1)) :
    0 ≤ (adjustDate st1.date).hour ∧ (adjustDate st1.date).hour ≤ 23 ∧
    0 ≤ (adjustDate st1.date).minute ∧ (adjustDate st1.date).minute ≤ 59 ∧
    0 ≤ (adjustDate st1.date).second ∧ (adjustDate st1.date).second ≤ 59 ∧
    (∀ daysSinceEpoch,
      daysSinceEpochOf env formatter.type (adjustDate st1.date) = .ok daysSinceEpoch →
      validateDays env (adjustDate st1.date) = none →
      (formatter.type ≠ .LENIENT_SIMPLE ∧ formatter.type ≠ .STRICT_SIMPLE → st1.cur = []) →
      parse env formatter input buf =
        .value
          { timestamp := env.fromDatetime daysSinceEpoch
              (env.fromTime (adjustDate st1.date).hour (adjustDate st1.date).minute
                (adjustDate st1.date).second (adjustDate st1.date).microsecond)
            timezone := (adjustDate st1.date).timezone }) := by
  have h0 : clockOk ({} : Date Z) := by
    refine ⟨?_, ?_, ?_, ?_, ?_, ?_, ?_⟩ <;> dsimp only <;> omega
  have h1 := parseTokens_clockOk env formatter.type formatter.tokens _ st1 h0 h
  have h2 := adjustDate_clock st1.date h1
  obtain ⟨-, -, -, hm0, hm1, hs0, hs1⟩ := h1
  refine ⟨h2.1, h2.2.1, ?_, ?_, ?_, ?_, ?_⟩
  · rw [h2.2.2.1]; exact hm0
  · rw [h2.2.2.1]; exact hm1
  · rw [h2.2.2.2]; exact hs0
  · rw [h2.2.2.2]; exact hs1
  · intro days hdays hvalid hcur
    unfold parse parseWithBuffer
    rw [h]
    dsimp only
    unfold finishParse
    have hc : ¬ (formatter.type ≠ .LENIENT_SIMPLE ∧ formatter.type ≠ .STRICT_SIMPLE ∧
        0 < st1.cur.length) := by
      rintro ⟨c1, c2, c3⟩
      have := hcur ⟨c1, c2⟩
      rw [this] at c3
      exact absurd c3 (by decide)
    rw [if_neg hc]
    dsimp only
    rw [hvalid]
    dsimp only
    rw [hdays]

theorem parse_time_fields_in_range_witness :
    (adjustDate (parseTokens sampleEnv .JODA halfDayHourProgram.tokens
      ⟨"11 PM".toList, {}, timezoneBufferInit⟩).2.date).hour ≤ 23 :=
  (parse_time_fields_in_range sampleEnv halfDayHourProgram "11 PM".toList timezoneBufferInit
    (parseTokens sampleEnv .JODA halfDayHourProgram.tokens
      ⟨"11 PM".toList, {}, timezoneBufferInit⟩).2 (by decide)).2.1

theorem finishNumeric_frame {Z : Type} (p : FormatPattern) (type : DateTimeFormatterType)
    (st : ParseState Z) (negative : Bool) (startPos cur : List Char) (number : Int) :
    (finishNumeric p type st negative startPos cur number).2.date.isAm = st.date.isAm ∧
    (isHourSpecifier p.specifier = false →
      (finishNumeric p type st negative startPos cur number).2.date.hour = st.date.hour ∧
      (finishNumeric p type st negative startPos cur number).2.date.isHourOfHalfDay =
        st.date.isHourOfHalfDay) := by
  unfold finishNumeric
  split
  · exact ⟨rfl, fun _ => ⟨rfl, rfl⟩⟩
  · exact applyNumber_frame p type _ st.date

theorem parseDigitsFrom_frame {Z : Type} (env : Env Z) (p : FormatPattern)
    (st : ParseState Z) (next : Bool) (type : DateTimeFormatterType) (negative : Bool)
    (startPos : List Char) :
    (parseDigitsFrom env p st next type negative startPos).2.date.isAm = st.date.isAm ∧
    (isHourSpecifier p.specifier = false →
      (parseDigitsFrom env p st next type negative startPos).2.date.hour = st.date.hour ∧
      (parseDigitsFrom env p st next type negative startPos).2.date.isHourOfHalfDay =
        st.date.isHourOfHalfDay) := by
  unfold parseDigitsFrom
  dsimp only
  repeat' split
  all_goals first
    | exact finishNumeric_frame p type st negative startPos _ _
    | exact ⟨rfl, fun _ => ⟨rfl, rfl⟩⟩

theorem parseNumeric_frame {Z : Type} (env : Env Z) (p : FormatPattern)
    (st : ParseState Z) (next : Bool) (type : DateTimeFormatterType) :
    (parseNumeric env p st next type).2.date.isAm = st.date.isAm ∧
    (isHourSpecifier p.specifier = false →
      (parseNumeric env p st next type).2.date.hour = st.date.hour ∧
      (parseNumeric env p st next type).2.date.isHourOfHalfDay = st.date.isHourOfHalfDay) := by
  unfold parseNumeric
  repeat' split
  all_goals exact parseDigitsFrom_frame env p st next type _ _

theorem frame_of_fields {Z : Type} (date date1 : Date Z) (s : DateTimeFormatSpecifier)
    (hf : clockFields date1 = clockFields date) (ha : date1.isAm = date.isAm) :
    (s ≠ .HALFDAY_OF_DAY → date1.isAm = date.isAm) ∧
    (isHourSpecifier s = false →
      date1.hour = date.hour ∧ date1.isHourOfHalfDay = date.isHourOfHalfDay) := by
  unfold clockFields at hf
  simp only [Prod.mk.injEq] at hf
  exact ⟨fun _ => ha, fun _ => ⟨hf.1, hf.2.2.2⟩⟩

theorem frame_of_clockFields {Z : Type} (date date1 : Date Z)
    (hf : clockFields date1 = clockFields date) :
    (DateTimeFormatSpecifier.HALFDAY_OF_DAY ≠ .HALFDAY_OF_DAY → date1.isAm = date.isAm) ∧
    (isHourSpecifier .HALFDAY_OF_DAY = false →
      date1.hour = date.hour ∧ date1.isHourOfHalfDay = date.isHourOfHalfDay) := by
  unfold clockFields at hf
  simp only [Prod.mk.injEq] at hf
  exact ⟨fun hc => absurd rfl hc, fun _ => ⟨hf.1, hf.2.2.2⟩⟩

theorem parseFromPattern_frame {Z : Type} (env : Env Z) (p : FormatPattern)
    (st : ParseState Z) (next : Bool) (type : DateTimeFormatterType) :
    (p.specifier ≠ .HALFDAY_OF_DAY →
      (parseFromPattern env p st next type).2.date.isAm = st.date.isAm) ∧
    (isHourSpecifier p.specifier = false →
      (parseFromPattern env p st next type).2.date.hour = st.date.hour ∧
      (parseFromPattern env p st next type).2.date.isHourOfHalfDay =
        st.date.isHourOfHalfDay) := by
  by_cases hnum : isNumericSpecifier p.specifier = true
  · rw [parseFromPattern_numeric env p st next type hnum]
    have := parseNumeric_frame env p st next type
    exact ⟨fun _ => this.1, this.2⟩
  · obtain ⟨spec, w⟩ := p
    have ho := parseTimezoneOffset_clock env st.cur st.date st.timezoneBuffer
    have hn := parseTimezoneName_clock env st.cur st.date
    have hz := parseTimezone_clock env st.cur st.date
    have he := parseEra_clock st.cur st.date
    have hm := parseMonthText_clock st.cur st.date
    have hh := parseHalfDayOfDay_clock st.cur st.date
    have hd := parseDayOfWeekText_clock st.cur st.date
    cases spec
    all_goals first
      | exact absurd rfl hnum
      | skip
    all_goals simp only [parseFromPattern, reduceCtorEq, if_false, if_true]
    all_goals repeat' split
    all_goals first
      | exact ⟨fun _ => rfl, fun _ => ⟨rfl, rfl⟩⟩
      | exact frame_of_fields st.date _ _ ho.1 ho.2
      | exact frame_of_fields st.date _ _ hn.1 hn.2
      | exact frame_of_fields st.date _ _ hz.1 hz.2
      | exact frame_of_fields st.date _ _ he.1 he.2
      | exact frame_of_fields st.date _ _ hm.1 hm.2
      | exact frame_of_fields st.date _ _ hd.1 hd.2
      | exact frame_of_clockFields st.date _ hh

theorem adjustDate_hour {Z : Type} (date : Date Z) :
    (adjustDate date).hour =
      if date.isHourOfHalfDay = true ∧ date.isAm = false then date.hour + 12 else date.hour := by
  rw [adjustDate_eq_postProcessed]
  rfl

theorem hasHourToken_cons (token : DateTimeToken) (rest : List DateTimeToken)
    (h : hasHourToken (token :: rest) = false) :
    hasHourToken [token] = false ∧ hasHourToken rest = false := by
  simp only [hasHourToken, List.any_cons, List.any_nil, Bool.or_false, Bool.or_eq_false_iff] at h ⊢
  exact h

theorem hasHalfDayToken_cons (token : DateTimeToken) (rest : List DateTimeToken)
    (h : hasHalfDayToken (token :: rest) = false) :
    hasHalfDayToken [token] = false ∧ hasHalfDayToken rest = false := by
  simp only [hasHalfDayToken, List.any_cons, List.any_nil, Bool.or_false,
    Bool.or_eq_false_iff] at h ⊢
  exact h

theorem parseTokens_split {Z : Type} (env : Env Z) (type : DateTimeFormatterType)
    (pre rest : List DateTimeToken) :
    ∀ (st st1 : ParseState Z), parseTokens env type (pre ++ rest) st = (.ok, st1) →
      ∃ stMid : ParseState Z, parseTokens env type rest stMid = (.ok, st1) ∧
        stMid.cur <:+ st.cur ∧
        (hasHourToken pre = false → stMid.date.hour = st.date.hour ∧
          stMid.date.isHourOfHalfDay = st.date.isHourOfHalfDay) ∧
        (hasHalfDayToken pre = false → stMid.date.isAm = st.date.isAm) := by
  induction pre with
  | nil =>
    intro st st1 h
    exact ⟨st, h, List.suffix_refl _, fun _ => ⟨rfl, rfl⟩, fun _ => rfl⟩
  | cons token pre1 ih =>
    intro st st1 h
    rw [List.cons_append] at h
    cases token with
    | kLiteral literal =>
      rcases parseTokens_cons_literal env type literal (pre1 ++ rest) st with ⟨_, he⟩ | ⟨_, he⟩
      · rw [he] at h
        obtain ⟨stMid, h1, h2, h3, h4⟩ := ih _ st1 h
        refine ⟨stMid, h1, h2.trans (List.drop_suffix _ _), fun hh => ?_, fun hh => ?_⟩
        · exact h3 (hasHourToken_cons _ _ hh).2
        · exact h4 (hasHalfDayToken_cons _ _ hh).2
      · rw [he] at h
        exact ParseCode.noConfusion (congrArg Prod.fst h)
    | kPattern pattern =>
      rw [parseTokens_cons_pattern] at h
      have hs := parseFromPattern_suffix env pattern st (startsWithPattern (pre1 ++ rest)) type
      have hf := parseFromPattern_frame env pattern st (startsWithPattern (pre1 ++ rest)) type
      rcases hp : parseFromPattern env pattern st (startsWithPattern (pre1 ++ rest)) type with
        ⟨code, st2⟩
      rw [hp] at h hs hf
      cases code with
      | ok =>
        obtain ⟨stMid, h1, h2, h3, h4⟩ := ih st2 st1 h
        refine ⟨stMid, h1, h2.trans hs, fun hh => ?_, fun hh => ?_⟩
        · have h5 := h3 (hasHourToken_cons _ _ hh).2
          have h6 : isHourSpecifier pattern.specifier = false := by
            have := (hasHourToken_cons _ _ hh).1
            simpa [hasHourToken] using this
          have h7 := hf.2 h6
          exact ⟨h5.1.trans h7.1, h5.2.trans h7.2⟩
        · have h5 := h4 (hasHalfDayToken_cons _ _ hh).2
          have h6 : pattern.specifier ≠ .HALFDAY_OF_DAY := by
            have := (hasHalfDayToken_cons _ _ hh).1
            simpa [hasHalfDayToken] using this
          exact h5.trans (hf.1 h6)
      | fail => exact ParseCode.noConfusion (congrArg Prod.fst h)
      | thrown => exact ParseCode.noConfusion (congrArg Prod.fst h)

theorem parseTokens_frame {Z : Type} (env : Env Z) (type : DateTimeFormatterType)
    (tokens : List DateTimeToken) (st st1 : ParseState Z)
    (h : parseTokens env type tokens st = (.ok, st1)) :
    (hasHourToken tokens = false → st1.date.hour = st.date.hour ∧
      st1.date.isHourOfHalfDay = st.date.isHourOfHalfDay) ∧
    (hasHalfDayToken tokens = false → st1.date.isAm = st.date.isAm) := by
  have h0 : parseTokens env type (tokens ++ []) st = (.ok, st1) := by
    rw [List.append_nil]
    exact h
  obtain ⟨stMid, h1, _, h3, h4⟩ := parseTokens_split env type tokens [] st st1 h0
  have he : stMid = st1 := congrArg Prod.snd h1
  rw [he] at h3 h4
  exact ⟨h3, h4⟩

theorem parseFromPattern_halfday {Z : Type} (env : Env Z) (w : Nat) (st st2 : ParseState Z)
    (next : Bool) (type : DateTimeFormatterType)
    (h : parseFromPattern env ⟨.HALFDAY_OF_DAY, w⟩ st next type = (.ok, st2)) :
    st2.date.hour = st.date.hour ∧ st2.date.isHourOfHalfDay = st.date.isHourOfHalfDay ∧
    (((startsWith st.cur "AM".toList || startsWith st.cur "am".toList) = true ∧
        st2.date.isAm = true) ∨
      ((startsWith st.cur "PM".toList || startsWith st.cur "pm".toList) = true ∧
        (startsWith st.cur "AM".toList || startsWith st.cur "am".toList) = false ∧
        st2.date.isAm = false)) := by
  revert h
  simp only [parseFromPattern, reduceCtorEq, if_false, if_true]
  unfold parseHalfDayOfDay
  repeat' split
  all_goals first
    | exact fun hok => ParseCode.noConfusion (congrArg Prod.fst hok)
    | skip
  all_goals intro hok
  all_goals have he := congrArg Prod.snd hok
  all_goals dsimp only at he
  all_goals subst he
  all_goals simp_all

theorem applyNumber_hour_of_day {Z : Type} (p : FormatPattern) (type : DateTimeFormatterType)
    (number : Int) (date : Date Z)
    (hs : p.specifier = .HOUR_OF_DAY ∨ p.specifier = .CLOCK_HOUR_OF_DAY)
    (hok : (applyNumber p type number date).1 = .ok) :
    (applyNumber p type number date).2.isHourOfHalfDay = false := by
  obtain ⟨spec, w⟩ := p
  revert hok
  rcases hs with hs | hs
  all_goals dsimp only at hs
  all_goals subst hs
  all_goals simp only [applyNumber]
  all_goals repeat' split
  all_goals first
    | exact fun hok => ParseCode.noConfusion hok
    | exact fun _ => rfl

theorem finishNumeric_hour_of_day {Z : Type} (p : FormatPattern) (type : DateTimeFormatterType)
    (st : ParseState Z) (negative : Bool) (startPos cur : List Char) (number : Int)
    (hs : p.specifier = .HOUR_OF_DAY ∨ p.specifier = .CLOCK_HOUR_OF_DAY)
    (hok : (finishNumeric p type st negative startPos cur number).1 = .ok) :
    (finishNumeric p type st negative startPos cur number).2.date.isHourOfHalfDay = false := by
  revert hok
  unfold finishNumeric
  split
  · exact fun hok => ParseCode.noConfusion hok
  · exact fun hok => applyNumber_hour_of_day p type _ st.date hs hok

theorem parseDigitsFrom_hour_of_day {Z : Type} (env : Env Z) (p : FormatPattern)
    (st : ParseState Z) (next : Bool) (type : DateTimeFormatterType) (negative : Bool)
    (startPos : List Char)
    (hs : p.specifier = .HOUR_OF_DAY ∨ p.specifier = .CLOCK_HOUR_OF_DAY)
    (hok : (parseDigitsFrom env p st next type negative startPos).1 = .ok) :
    (parseDigitsFrom env p st next type negative startPos).2.date.isHourOfHalfDay = false := by
  revert hok
  unfold parseDigitsFrom
  dsimp only
  repeat' split
  all_goals first
    | exact fun hok => finishNumeric_hour_of_day p type st negative startPos _ _ hs hok
    | exact fun hok => ParseCode.noConfusion hok

theorem parseFromPattern_hour_of_day {Z : Type} (env : Env Z) (p : FormatPattern)
    (st st2 : ParseState Z) (next : Bool) (type : DateTimeFormatterType)
    (hs : p.specifier = .HOUR_OF_DAY ∨ p.specifier = .CLOCK_HOUR_OF_DAY)
    (h : parseFromPattern env p st next type = (.ok, st2)) :
    st2.date.isHourOfHalfDay = false := by
  have hnum : isNumericSpecifier p.specifier = true := by
    rcases hs with hs | hs <;> rw [hs] <;> rfl
  rw [parseFromPattern_numeric env p st next type hnum] at h
  have hok : (parseNumeric env p st next type).1 = .ok := congrArg Prod.fst h
  have he : (parseNumeric env p st next type).2 = st2 := congrArg Prod.snd h
  rw [← he]
  revert hok
  unfold parseNumeric
  repeat' split
  all_goals exact fun hok => parseDigitsFrom_hour_of_day env p st next type _ _ hs hok

/-- Claim C36: a program with a half-day token and no hour token parses, from
the initial state, to the final hour 0 when the half-day token reads `AM` or
`am` and to 12 when it reads `PM` or `pm` (one of the two holds); and when the
last hour token of a program is hour-of-day or clock-hour-of-day, the
half-day flag is clear after the loop and the adjustment leaves the hour as
parsed, for either value of the AM/PM flag. -/
theorem parse_halfday_without_hour {Z : Type} (env : Env Z) (type : DateTimeFormatterType)
    (pre post : List DateTimeToken) (w : Nat) (st1 : ParseState Z) :
    (∀ input buf : List Char, hasHourToken pre = false → hasHourToken post = false →
      hasHalfDayToken post = false →
      parseTokens env type (pre ++ .kPattern ⟨.HALFDAY_OF_DAY, w⟩ :: post) ⟨input, {}, buf⟩ =
        (.ok, st1) →
      ∃ stMid : ParseState Z, stMid.cur <:+ input ∧
        parseTokens env type (.kPattern ⟨.HALFDAY_OF_DAY, w⟩ :: post) stMid = (.ok, st1) ∧
        (((startsWith stMid.cur "AM".toList || startsWith stMid.cur "am".toList) = true ∧
            (adjustDate st1.date).hour = 0) ∨
          ((startsWith stMid.cur "PM".toList || startsWith stMid.cur "pm".toList) = true ∧
            (adjustDate st1.date).hour = 12))) ∧
    (∀ (s : DateTimeFormatSpecifier) (st : ParseState Z),
      s = .HOUR_OF_DAY ∨ s = .CLOCK_HOUR_OF_DAY → hasHourToken post = false →
      parseTokens env type (pre ++ .kPattern ⟨s, w⟩ :: post) st = (.ok, st1) →
      st1.date.isHourOfHalfDay = false ∧
      ∀ isAm : Bool, (adjustDate { st1.date with isAm := isAm }).hour = st1.date.hour) := by
  constructor
  · intro input buf hpre hpost hhalf h
    obtain ⟨stMid, h1, h2, h3, _⟩ := parseTokens_split env type pre _ _ st1 h
    have h3 := h3 hpre
    refine ⟨stMid, h2, h1, ?_⟩
    rw [parseTokens_cons_pattern] at h1
    rcases hp : parseFromPattern env ⟨.HALFDAY_OF_DAY, w⟩ stMid (startsWithPattern post) type
      with ⟨code, st2⟩
    rw [hp] at h1
    cases code with
    | ok =>
      obtain ⟨h4, h5, h6⟩ := parseFromPattern_halfday env w stMid st2 _ type hp
      obtain ⟨h7, h8⟩ := parseTokens_frame env type post st2 st1 h1
      have h7 := h7 hpost
      have h8 := h8 hhalf
      have hhour : st1.date.hour = 0 := h7.1.trans (h4.trans h3.1)
      have hflag : st1.date.isHourOfHalfDay = true := h7.2.trans (h5.trans h3.2)
      rw [adjustDate_hour, hhour, hflag, h8]
      rcases h6 with ⟨ha, hb⟩ | ⟨ha, _, hb⟩
      · left
        refine ⟨ha, ?_⟩
        rw [hb]
        rfl
      · right
        refine ⟨ha, ?_⟩
        rw [hb]
        rfl
    | fail => exact ParseCode.noConfusion (congrArg Prod.fst h1)
    | thrown => exact ParseCode.noConfusion (congrArg Prod.fst h1)
  · intro s st hs hpost h
    obtain ⟨stMid, h1, _, _, _⟩ := parseTokens_split env type pre _ st st1 h
    rw [parseTokens_cons_pattern] at h1
    rcases hp : parseFromPattern env ⟨s, w⟩ stMid (startsWithPattern post) type with ⟨code, st2⟩
    rw [hp] at h1
    cases code with
    | ok =>
      have h4 := parseFromPattern_hour_of_day env ⟨s, w⟩ stMid st2 _ type hs hp
      have h7 := ((parseTokens_frame env type post st2 st1 h1).1 hpost).2
      have hflag : st1.date.isHourOfHalfDay = false := h7.trans h4
      refine ⟨hflag, fun isAm => ?_⟩
      rw [adjustDate_hour]
      dsimp only
      rw [hflag]
      rfl
    | fail => exact ParseCode.noConfusion (congrArg Prod.fst h1)
    | thrown => exact ParseCode.noConfusion (congrArg Prod.fst h1)

theorem parse_halfday_without_hour_witness :
    (∃ stMid : ParseState (List Char), stMid.cur <:+ "PM".toList ∧
      parseTokens sampleEnv .JODA [.kPattern ⟨.HALFDAY_OF_DAY, 2⟩] stMid =
        (.ok, (parseTokens sampleEnv .JODA [.kPattern ⟨.HALFDAY_OF_DAY, 2⟩]
          ⟨"PM".toList, {}, timezoneBufferInit⟩).2) ∧
      (((startsWith stMid.cur "AM".toList || startsWith stMid.cur "am".toList) = true ∧
          (adjustDate (parseTokens sampleEnv .JODA [.kPattern ⟨.HALFDAY_OF_DAY, 2⟩]
            ⟨"PM".toList, {}, timezoneBufferInit⟩).2.date).hour = 0) ∨
        ((startsWith stMid.cur "PM".toList || startsWith stMid.cur "pm".toList) = true ∧
          (adjustDate (parseTokens sampleEnv .JODA [.kPattern ⟨.HALFDAY_OF_DAY, 2⟩]
            ⟨"PM".toList, {}, timezoneBufferInit⟩).2.date).hour = 12))) ∧
    (parseTokens sampleEnv .JODA
      [.kPattern ⟨.HOUR_OF_DAY, 2⟩, .kLiteral [' '], .kPattern ⟨.HALFDAY_OF_DAY, 2⟩]
      ⟨"13 PM".toList, {}, timezoneBufferInit⟩).2.date.isHourOfHalfDay = false :=
  ⟨(parse_halfday_without_hour sampleEnv .JODA [] [] 2
      (parseTokens sampleEnv .JODA [.kPattern ⟨.HALFDAY_OF_DAY, 2⟩]
        ⟨"PM".toList, {}, timezoneBufferInit⟩).2).1 "PM".toList timezoneBufferInit rfl rfl rfl
      (by decide),
    ((parse_halfday_without_hour sampleEnv .JODA []
      [.kLiteral [' '], .kPattern ⟨.HALFDAY_OF_DAY, 2⟩] 2
      (parseTokens sampleEnv .JODA
        [.kPattern ⟨.HOUR_OF_DAY, 2⟩, .kLiteral [' '], .kPattern ⟨.HALFDAY_OF_DAY, 2⟩]
        ⟨"13 PM".toList, {}, timezoneBufferInit⟩).2).2 .HOUR_OF_DAY
      ⟨"13 PM".toList, {}, timezoneBufferInit⟩ (Or.inl rfl) rfl (by decide)).1⟩

/-! ## The compilers: suppression flag, dialects, programs without tokens, literal bytes -/

theorem buildMysqlLoop_flag (skip1 skip2 : Bool) (fuel : Nat) :
    ∀ (cur : List Char) (builder : DateTimeFormatterBuilder) (f : DateTimeFormatter),
      buildMysqlLoop skip1 fuel cur builder = .value f →
      buildMysqlLoop skip2 fuel cur builder = .value f := by
  induction fuel with
  | zero => exact fun cur builder f h => h
  | succ fuel ih =>
    intro cur builder f
    cases cur with
    | nil => exact fun h => h
    | cons c rest =>
      simp only [buildMysqlLoop]
      split
      · cases rest with
        | nil => exact fun h => h
        | cons t rest2 =>
          dsimp only
          cases mysqlSpecifier builder t with
          | none =>
            dsimp only
            split <;> exact fun h => Expected.noConfusion h
          | some builder1 => exact fun h => ih _ _ f h
      · exact fun h => ih _ _ f h

theorem buildQuotedLoop_flag (skip1 skip2 : Bool)
    (specifier : DateTimeFormatterBuilder → Char → Nat → List Char →
      Option DateTimeFormatterBuilder)
    (type : DateTimeFormatterType) (fuel : Nat) :
    ∀ (cur : List Char) (builder : DateTimeFormatterBuilder) (f : DateTimeFormatter),
      buildQuotedLoop skip1 specifier type fuel cur builder = .value f →
      buildQuotedLoop skip2 specifier type fuel cur builder = .value f := by
  induction fuel with
  | zero => exact fun cur builder f h => h
  | succ fuel ih =>
    intro cur builder f
    cases cur with
    | nil => exact fun h => h
    | cons c rest =>
      simp only [buildQuotedLoop]
      split
      · split
        · exact fun h => ih _ _ f h
        · split
          · split <;> exact fun h => Expected.noConfusion h
          · exact fun h => ih _ _ f h
      · cases specifier builder c (1 + (rest.takeWhile (fun x => x = c)).length)
          ((c :: rest).take (1 + (rest.takeWhile (fun x => x = c)).length)) with
        | none =>
          dsimp only
          split <;> exact fun h => Expected.noConfusion h
        | some builder1 => exact fun h => ih _ _ f h

theorem buildMysql_flag (skip1 skip2 : Bool) (format : List Char) (f : DateTimeFormatter)
    (h : buildMysqlDateTimeFormatter skip1 format = .value f) :
    buildMysqlDateTimeFormatter skip2 format = .value f := by
  revert h
  unfold buildMysqlDateTimeFormatter
  split
  · split <;> exact fun h => Expected.noConfusion h
  · exact fun h => buildMysqlLoop_flag skip1 skip2 _ _ _ f h

theorem buildJoda_flag (skip1 skip2 : Bool) (format : List Char) (f : DateTimeFormatter)
    (h : buildJodaDateTimeFormatter skip1 format = .value f) :
    buildJodaDateTimeFormatter skip2 format = .value f := by
  revert h
  unfold buildJodaDateTimeFormatter
  split
  · split <;> exact fun h => Expected.noConfusion h
  · exact fun h => buildQuotedLoop_flag skip1 skip2 _ _ _ _ _ f h

theorem buildSimple_flag (skip1 skip2 : Bool) (format : List Char) (lenient : Bool)
    (f : DateTimeFormatter) (h : buildSimpleDateTimeFormatter skip1 format lenient = .value f) :
    buildSimpleDateTimeFormatter skip2 format lenient = .value f := by
  revert h
  unfold buildSimpleDateTimeFormatter
  split
  · split <;> exact fun h => Expected.noConfusion h
  · exact fun h => buildQuotedLoop_flag skip1 skip2 _ _ _ _ _ f h

theorem parseFromPattern_flag {Z : Type} (env : Env Z) (flag : Bool) (p : FormatPattern)
    (st : ParseState Z) (next : Bool) (type : DateTimeFormatterType) :
    parseFromPattern (withSkipErrorDetails env flag) p st next type =
      parseFromPattern env p st next type := rfl

theorem parseTokens_flag {Z : Type} (env : Env Z) (flag : Bool) (type : DateTimeFormatterType)
    (tokens : List DateTimeToken) :
    ∀ st : ParseState Z, parseTokens (withSkipErrorDetails env flag) type tokens st =
      parseTokens env type tokens st := by
  induction tokens with
  | nil => exact fun st => rfl
  | cons token rest ih =>
    intro st
    cases token with
    | kLiteral literal =>
      simp only [parseTokens]
      rw [ih]
    | kPattern pattern =>
      rw [parseTokens_cons_pattern, parseTokens_cons_pattern, parseFromPattern_flag]
      rcases parseFromPattern env pattern st (startsWithPattern rest) type with ⟨code, st2⟩
      cases code with
      | ok => exact ih st2
      | fail => rfl
      | thrown e => rfl

theorem validateDays_flag {Z : Type} (env : Env Z) (flag : Bool) (date : Date Z) :
    validateDays (withSkipErrorDetails env flag) date = none ↔ validateDays env date = none := by
  unfold validateDays
  have e1 : (withSkipErrorDetails env flag).isValidDate = env.isValidDate := rfl
  have e2 : (withSkipErrorDetails env flag).isValidDayOfYear = env.isValidDayOfYear := rfl
  rw [e1, e2]
  repeat' split
  all_goals simp

theorem finishParse_flag {Z : Type} (env : Env Z) (flag : Bool) (type : DateTimeFormatterType)
    (input cur : List Char) (date : Date Z) (r : DateTimeResult Z)
    (h : finishParse env type input cur date = .value r) :
    finishParse (withSkipErrorDetails env flag) type input cur date = .value r := by
  revert h
  unfold finishParse
  split
  · exact fun h => Expected.noConfusion h
  · dsimp only
    cases hv : validateDays env (adjustDate date) with
    | some status => exact fun h => Expected.noConfusion h
    | none =>
      rw [(validateDays_flag env flag (adjustDate date)).2 hv]
      exact fun h => h

theorem parse_flag {Z : Type} (env : Env Z) (flag : Bool) (formatter : DateTimeFormatter)
    (input buf : List Char) (r : DateTimeResult Z)
    (h : parse env formatter input buf = .value r) :
    parse (withSkipErrorDetails env flag) formatter input buf = .value r := by
  revert h
  unfold parse parseWithBuffer
  rw [parseTokens_flag]
  rcases parseTokens env formatter.type formatter.tokens ⟨input, {}, buf⟩ with ⟨code, st⟩
  cases code with
  | ok => exact fun h => finishParse_flag env flag _ _ _ _ r h
  | fail => exact fun h => Expected.noConfusion h
  | thrown e => exact fun h => h

/-- Claim C37: the error-detail suppression flag changes only error messages.
Each of the three compilers returns a program with the flag set exactly when
it does with the flag clear, and then the same program; `parse` returns a
result with the flag set exactly when it does with the flag clear, and then
the same instant and zone. -/
theorem skipErrorDetails_only_messages {Z : Type} (env : Env Z) (format : List Char)
    (lenient : Bool) (formatter : DateTimeFormatter) (input buf : List Char) :
    (∀ f, buildMysqlDateTimeFormatter true format = .value f ↔
      buildMysqlDateTimeFormatter false format = .value f) ∧
    (∀ f, buildJodaDateTimeFormatter true format = .value f ↔
      buildJodaDateTimeFormatter false format = .value f) ∧
    (∀ f, buildSimpleDateTimeFormatter true format lenient = .value f ↔
      buildSimpleDateTimeFormatter false format lenient = .value f) ∧
    (∀ r, parse (withSkipErrorDetails env true) formatter input buf = .value r ↔
      parse (withSkipErrorDetails env false) formatter input buf = .value r) :=
  ⟨fun f => ⟨buildMysql_flag true false format f, buildMysql_flag false true format f⟩,
    fun f => ⟨buildJoda_flag true false format f, buildJoda_flag false true format f⟩,
    fun f => ⟨buildSimple_flag true false format lenient f,
      buildSimple_flag false true format lenient f⟩,
    fun r => ⟨parse_flag (withSkipErrorDetails env true) false formatter input buf r,
      parse_flag (withSkipErrorDetails env false) true formatter input buf r⟩⟩

theorem jodaSpecifier_simple (builder : DateTimeFormatterBuilder) (c : Char) (count : Nat)
    (run : List Char) (builder1 : DateTimeFormatterBuilder)
    (h : jodaSpecifier builder c count run = some builder1) :
    simpleSpecifier builder c count run = some builder1 := by
  by_cases hW : c = 'W'
  · subst hW
    exact Option.noConfusion h
  by_cases h1 : c = 'G'
  · subst h1; exact h
  by_cases h2 : c = 'C'
  · subst h2; exact h
  by_cases h3 : c = 'Y'
  · subst h3; exact h
  by_cases h4 : c = 'x'
  · subst h4; exact h
  by_cases h5 : c = 'w'
  · subst h5; exact h
  by_cases h6 : c = 'e'
  · subst h6; exact h
  by_cases h7 : c = 'E'
  · subst h7; exact h
  by_cases h8 : c = 'y'
  · subst h8; exact h
  by_cases h9 : c = 'D'
  · subst h9; exact h
  by_cases h10 : c = 'M'
  · subst h10; exact h
  by_cases h11 : c = 'd'
  · subst h11; exact h
  by_cases h12 : c = 'a'
  · subst h12; exact h
  by_cases h13 : c = 'K'
  · subst h13; exact h
  by_cases h14 : c = 'h'
  · subst h14; exact h
  by_cases h15 : c = 'H'
  · subst h15; exact h
  by_cases h16 : c = 'k'
  · subst h16; exact h
  by_cases h17 : c = 'm'
  · subst h17; exact h
  by_cases h18 : c = 's'
  · subst h18; exact h
  by_cases h19 : c = 'S'
  · subst h19; exact h
  by_cases h20 : c = 'z'
  · subst h20; exact h
  by_cases h21 : c = 'Z'
  · subst h21; exact h
  simp only [jodaSpecifier, if_neg h1, if_neg h2, if_neg h3, if_neg h4, if_neg h5, if_neg h6,
    if_neg h7, if_neg h8, if_neg h9, if_neg h10, if_neg h11, if_neg h12, if_neg h13, if_neg h14,
    if_neg h15, if_neg h16, if_neg h17, if_neg h18, if_neg h19, if_neg h20, if_neg h21] at h
  simp only [simpleSpecifier, if_neg hW, if_neg h1, if_neg h2, if_neg h3, if_neg h4, if_neg h5,
    if_neg h6, if_neg h7, if_neg h8, if_neg h9, if_neg h10, if_neg h11, if_neg h12, if_neg h13,
    if_neg h14, if_neg h15, if_neg h16, if_neg h17, if_neg h18, if_neg h19, if_neg h20,
    if_neg h21]
  exact h

theorem buildQuotedLoop_simple (skip : Bool) (type : DateTimeFormatterType) (fuel : Nat) :
    ∀ (cur : List Char) (builder : DateTimeFormatterBuilder) (f : DateTimeFormatter),
      buildQuotedLoop skip jodaSpecifier .JODA fuel cur builder = .value f →
      f.type = .JODA ∧
      buildQuotedLoop skip simpleSpecifier type fuel cur builder = .value ⟨f.tokens, type⟩ := by
  induction fuel with
  | zero =>
    intro cur builder f h
    simp only [buildQuotedLoop, build, Expected.value.injEq] at h ⊢
    subst h
    exact ⟨rfl, rfl⟩
  | succ fuel ih =>
    intro cur builder f h
    cases cur with
    | nil =>
      simp only [buildQuotedLoop, build, Expected.value.injEq] at h ⊢
      subst h
      exact ⟨rfl, rfl⟩
    | cons c rest =>
      revert h
      simp only [buildQuotedLoop]
      split
      · split
        · exact fun h => ih _ _ f h
        · split
          · split <;> exact fun h => Expected.noConfusion h
          · exact fun h => ih _ _ f h
      · cases hs : jodaSpecifier builder c (1 + (rest.takeWhile (fun x => x = c)).length)
          ((c :: rest).take (1 + (rest.takeWhile (fun x => x = c)).length)) with
        | none =>
          dsimp only
          split <;> exact fun h => Expected.noConfusion h
        | some builder1 =>
          rw [jodaSpecifier_simple _ _ _ _ _ hs]
          exact fun h => ih _ _ f h

/-- Claim C38: on every pattern on which `buildJodaDateTimeFormatter`
succeeds, `buildSimpleDateTimeFormatter` succeeds too, strict or lenient, and
returns the same token sequence; the programs differ only in the dialect tag. -/
theorem buildSimple_of_buildJoda (skip : Bool) (format : List Char) (lenient : Bool)
    (f : DateTimeFormatter) (h : buildJodaDateTimeFormatter skip format = .value f) :
    f.type = .JODA ∧
    buildSimpleDateTimeFormatter skip format lenient =
      .value ⟨f.tokens, if lenient then .LENIENT_SIMPLE else .STRICT_SIMPLE⟩ := by
  revert h
  unfold buildJodaDateTimeFormatter buildSimpleDateTimeFormatter
  split
  · split <;> exact fun h => Expected.noConfusion h
  · exact fun h => buildQuotedLoop_simple skip _ _ _ _ f h

theorem buildSimple_of_buildJoda_witness :
    buildSimpleDateTimeFormatter false "yyyy-MM-dd 'at' HH".toList true =
      .value ⟨[.kPattern ⟨.YEAR, 4⟩, .kLiteral ['-'], .kPattern ⟨.MONTH_OF_YEAR, 2⟩,
        .kLiteral ['-'], .kPattern ⟨.DAY_OF_MONTH, 2⟩, .kLiteral [' '], .kLiteral ['a'],
        .kLiteral ['t'], .kLiteral [' '], .kPattern ⟨.HOUR_OF_DAY, 2⟩], .LENIENT_SIMPLE⟩ :=
  (buildSimple_of_buildJoda false "yyyy-MM-dd 'at' HH".toList true
    ⟨[.kPattern ⟨.YEAR, 4⟩, .kLiteral ['-'], .kPattern ⟨.MONTH_OF_YEAR, 2⟩,
      .kLiteral ['-'], .kPattern ⟨.DAY_OF_MONTH, 2⟩, .kLiteral [' '], .kLiteral ['a'],
      .kLiteral ['t'], .kLiteral [' '], .kPattern ⟨.HOUR_OF_DAY, 2⟩], .JODA⟩ (by decide)).2

theorem literalBytes_append (a b : List DateTimeToken) :
    literalBytes (a ++ b) = literalBytes a + literalBytes b := by
  induction a with
  | nil => simp [literalBytes]
  | cons token rest ih =>
    cases token with
    | kLiteral literal =>
      show literal.length + literalBytes (rest ++ b) =
        (literal.length + literalBytes rest) + literalBytes b
      rw [ih]
      omega
    | kPattern p => exact ih

theorem literalBytes_appendLiteral (builder : DateTimeFormatterBuilder) (literal : List Char) :
    literalBytes (appendLiteral builder literal) = literalBytes builder + literal.length := by
  unfold appendLiteral
  rw [literalBytes_append]
  rfl

theorem literalBytes_appendPattern (builder : DateTimeFormatterBuilder)
    (s : DateTimeFormatSpecifier) (n : Nat) :
    literalBytes (appendPattern builder s n) = literalBytes builder := by
  unfold appendPattern
  rw [literalBytes_append]
  rfl

theorem length_appendLiteral (builder : DateTimeFormatterBuilder) (literal : List Char) :
    (appendLiteral builder literal).length = builder.length + 1 := by
  unfold appendLiteral
  rw [List.length_append]
  rfl

theorem length_appendPattern (builder : DateTimeFormatterBuilder)
    (s : DateTimeFormatSpecifier) (n : Nat) :
    (appendPattern builder s n).length = builder.length + 1 := by
  unfold appendPattern
  rw [List.length_append]
  rfl

theorem mysqlSpecifier_grows (builder builder1 : DateTimeFormatterBuilder) (t : Char)
    (h : mysqlSpecifier builder t = some builder1) :
    builder.length + 1 ≤ builder1.length ∧
    literalBytes builder1 ≤ literalBytes builder + 2 + (if t = 'r' then 1 else 0) := by
  by_cases h0 : t = 'a'
  · subst h0
    have he := Option.some.inj h
    subst he
    refine ⟨?_, ?_⟩ <;> simp [appendDayOfWeekText, appendMonthOfYearText, appendMonthOfYear,
      appendDayOfMonth, appendFractionOfSecond, appendHourOfDay, appendClockHourOfHalfDay,
      appendMinuteOfHour, appendDayOfYear, appendHalfDayOfDay, appendSecondOfMinute,
      appendWeekOfWeekYear, appendWeekYear, appendYear, literalBytes_appendLiteral,
      literalBytes_appendPattern, length_appendLiteral, length_appendPattern]
  by_cases h1 : t = 'b'
  · subst h1
    have he := Option.some.inj h
    subst he
    refine ⟨?_, ?_⟩ <;> simp [appendDayOfWeekText, appendMonthOfYearText, appendMonthOfYear,
      appendDayOfMonth, appendFractionOfSecond, appendHourOfDay, appendClockHourOfHalfDay,
      appendMinuteOfHour, appendDayOfYear, appendHalfDayOfDay, appendSecondOfMinute,
      appendWeekOfWeekYear, appendWeekYear, appendYear, literalBytes_appendLiteral,
      literalBytes_appendPattern, length_appendLiteral, length_appendPattern]
  by_cases h2 : t = 'c'
  · subst h2
    have he := Option.some.inj h
    subst he
    refine ⟨?_, ?_⟩ <;> simp [appendDayOfWeekText, appendMonthOfYearText, appendMonthOfYear,
      appendDayOfMonth, appendFractionOfSecond, appendHourOfDay, appendClockHourOfHalfDay,
      appendMinuteOfHour, appendDayOfYear, appendHalfDayOfDay, appendSecondOfMinute,
      appendWeekOfWeekYear, appendWeekYear, appendYear, literalBytes_appendLiteral,
      literalBytes_appendPattern, length_appendLiteral, length_appendPattern]
  by_cases h3 : t = 'd'
  · subst h3
    have he := Option.some.inj h
    subst he
    refine ⟨?_, ?_⟩ <;> simp [appendDayOfWeekText, appendMonthOfYearText, appendMonthOfYear,
      appendDayOfMonth, appendFractionOfSecond, appendHourOfDay, appendClockHourOfHalfDay,
      appendMinuteOfHour, appendDayOfYear, appendHalfDayOfDay, appendSecondOfMinute,
      appendWeekOfWeekYear, appendWeekYear, appendYear, literalBytes_appendLiteral,
      literalBytes_appendPattern, length_appendLiteral, length_appendPattern]
  by_cases h4 : t = 'e'
  · subst h4
    have he := Option.some.inj h
    subst he
    refine ⟨?_, ?_⟩ <;> simp [appendDayOfWeekText, appendMonthOfYearText, appendMonthOfYear,
      appendDayOfMonth, appendFractionOfSecond, appendHourOfDay, appendClockHourOfHalfDay,
      appendMinuteOfHour, appendDayOfYear, appendHalfDayOfDay, appendSecondOfMinute,
      appendWeekOfWeekYear, appendWeekYear, appendYear, literalBytes_appendLiteral,
      literalBytes_appendPattern, length_appendLiteral, length_appendPattern]
  by_cases h5 : t = 'f'
  · subst h5
    have he := Option.some.inj h
    subst he
    refine ⟨?_, ?_⟩ <;> simp [appendDayOfWeekText, appendMonthOfYearText, appendMonthOfYear,
      appendDayOfMonth, appendFractionOfSecond, appendHourOfDay, appendClockHourOfHalfDay,
      appendMinuteOfHour, appendDayOfYear, appendHalfDayOfDay, appendSecondOfMinute,
      appendWeekOfWeekYear, appendWeekYear, appendYear, literalBytes_appendLiteral,
      literalBytes_appendPattern, length_appendLiteral, length_appendPattern]
  by_cases h6 : t = 'H'
  · subst h6
    have he := Option.some.inj h
    subst he
    refine ⟨?_, ?_⟩ <;> simp [appendDayOfWeekText, appendMonthOfYearText, appendMonthOfYear,
      appendDayOfMonth, appendFractionOfSecond, appendHourOfDay, appendClockHourOfHalfDay,
      appendMinuteOfHour, appendDayOfYear, appendHalfDayOfDay, appendSecondOfMinute,
      appendWeekOfWeekYear, appendWeekYear, appendYear, literalBytes_appendLiteral,
      literalBytes_appendPattern, length_appendLiteral, length_appendPattern]
  by_cases h7 : t = 'h'
  · subst h7
    have he := Option.some.inj h
    subst he
    refine ⟨?_, ?_⟩ <;> simp [appendDayOfWeekText, appendMonthOfYearText, appendMonthOfYear,
      appendDayOfMonth, appendFractionOfSecond, appendHourOfDay, appendClockHourOfHalfDay,
      appendMinuteOfHour, appendDayOfYear, appendHalfDayOfDay, appendSecondOfMinute,
      appendWeekOfWeekYear, appendWeekYear, appendYear, literalBytes_appendLiteral,
      literalBytes_appendPattern, length_appendLiteral, length_appendPattern]
  by_cases h8 : t = 'I'
  · subst h8
    have he := Option.some.inj h
    subst he
    refine ⟨?_, ?_⟩ <;> simp [appendDayOfWeekText, appendMonthOfYearText, appendMonthOfYear,
      appendDayOfMonth, appendFractionOfSecond, appendHourOfDay, appendClockHourOfHalfDay,
      appendMinuteOfHour, appendDayOfYear, appendHalfDayOfDay, appendSecondOfMinute,
      appendWeekOfWeekYear, appendWeekYear, appendYear, literalBytes_appendLiteral,
      literalBytes_appendPattern, length_appendLiteral, length_appendPattern]
  by_cases h9 : t = 'i'
  · subst h9
    have he := Option.some.inj h
    subst he
    refine ⟨?_, ?_⟩ <;> simp [appendDayOfWeekText, appendMonthOfYearText, appendMonthOfYear,
      appendDayOfMonth, appendFractionOfSecond, appendHourOfDay, appendClockHourOfHalfDay,
      appendMinuteOfHour, appendDayOfYear, appendHalfDayOfDay, appendSecondOfMinute,
      appendWeekOfWeekYear, appendWeekYear, appendYear, literalBytes_appendLiteral,
      literalBytes_appendPattern, length_appendLiteral, length_appendPattern]
  by_cases h10 : t = 'j'
  · subst h10
    have he := Option.some.inj h
    subst he
    refine ⟨?_, ?_⟩ <;> simp [appendDayOfWeekText, appendMonthOfYearText, appendMonthOfYear,
      appendDayOfMonth, appendFractionOfSecond, appendHourOfDay, appendClockHourOfHalfDay,
      appendMinuteOfHour, appendDayOfYear, appendHalfDayOfDay, appendSecondOfMinute,
      appendWeekOfWeekYear, appendWeekYear, appendYear, literalBytes_appendLiteral,
      literalBytes_appendPattern, length_appendLiteral, length_appendPattern]
  by_cases h11 : t = 'k'
  · subst h11
    have he := Option.some.inj h
    subst he
    refine ⟨?_, ?_⟩ <;> simp [appendDayOfWeekText, appendMonthOfYearText, appendMonthOfYear,
      appendDayOfMonth, appendFractionOfSecond, appendHourOfDay, appendClockHourOfHalfDay,
      appendMinuteOfHour, appendDayOfYear, appendHalfDayOfDay, appendSecondOfMinute,
      appendWeekOfWeekYear, appendWeekYear, appendYear, literalBytes_appendLiteral,
      literalBytes_appendPattern, length_appendLiteral, length_appendPattern]
  by_cases h12 : t = 'l'
  · subst h12
    have he := Option.some.inj h
    subst he
    refine ⟨?_, ?_⟩ <;> simp [appendDayOfWeekText, appendMonthOfYearText, appendMonthOfYear,
      appendDayOfMonth, appendFractionOfSecond, appendHourOfDay, appendClockHourOfHalfDay,
      appendMinuteOfHour, appendDayOfYear, appendHalfDayOfDay, appendSecondOfMinute,
      appendWeekOfWeekYear, appendWeekYear, appendYear, literalBytes_appendLiteral,
      literalBytes_appendPattern, length_appendLiteral, length_appendPattern]
  by_cases h13 : t = 'M'
  · subst h13
    have he := Option.some.inj h
    subst he
    refine ⟨?_, ?_⟩ <;> simp [appendDayOfWeekText, appendMonthOfYearText, appendMonthOfYear,
      appendDayOfMonth, appendFractionOfSecond, appendHourOfDay, appendClockHourOfHalfDay,
      appendMinuteOfHour, appendDayOfYear, appendHalfDayOfDay, appendSecondOfMinute,
      appendWeekOfWeekYear, appendWeekYear, appendYear, literalBytes_appendLiteral,
      literalBytes_appendPattern, length_appendLiteral, length_appendPattern]
  by_cases h14 : t = 'm'
  · subst h14
    have he := Option.some.inj h
    subst he
    refine ⟨?_, ?_⟩ <;> simp [appendDayOfWeekText, appendMonthOfYearText, appendMonthOfYear,
      appendDayOfMonth, appendFractionOfSecond, appendHourOfDay, appendClockHourOfHalfDay,
      appendMinuteOfHour, appendDayOfYear, appendHalfDayOfDay, appendSecondOfMinute,
      appendWeekOfWeekYear, appendWeekYear, appendYear, literalBytes_appendLiteral,
      literalBytes_appendPattern, length_appendLiteral, length_appendPattern]
  by_cases h15 : t = 'p'
  · subst h15
    have he := Option.some.inj h
    subst he
    refine ⟨?_, ?_⟩ <;> simp [appendDayOfWeekText, appendMonthOfYearText, appendMonthOfYear,
      appendDayOfMonth, appendFractionOfSecond, appendHourOfDay, appendClockHourOfHalfDay,
      appendMinuteOfHour, appendDayOfYear, appendHalfDayOfDay, appendSecondOfMinute,
      appendWeekOfWeekYear, appendWeekYear, appendYear, literalBytes_appendLiteral,
      literalBytes_appendPattern, length_appendLiteral, length_appendPattern]
  by_cases h16 : t = 'r'
  · subst h16
    have he := Option.some.inj h
    subst he
    refine ⟨?_, ?_⟩ <;> simp [appendDayOfWeekText, appendMonthOfYearText, appendMonthOfYear,
      appendDayOfMonth, appendFractionOfSecond, appendHourOfDay, appendClockHourOfHalfDay,
      appendMinuteOfHour, appendDayOfYear, appendHalfDayOfDay, appendSecondOfMinute,
      appendWeekOfWeekYear, appendWeekYear, appendYear, literalBytes_appendLiteral,
      literalBytes_appendPattern, length_appendLiteral, length_appendPattern]
  by_cases h17 : t = 'S'
  · subst h17
    have he := Option.some.inj h
    subst he
    refine ⟨?_, ?_⟩ <;> simp [appendDayOfWeekText, appendMonthOfYearText, appendMonthOfYear,
      appendDayOfMonth, appendFractionOfSecond, appendHourOfDay, appendClockHourOfHalfDay,
      appendMinuteOfHour, appendDayOfYear, appendHalfDayOfDay, appendSecondOfMinute,
      appendWeekOfWeekYear, appendWeekYear, appendYear, literalBytes_appendLiteral,
      literalBytes_appendPattern, length_appendLiteral, length_appendPattern]
  by_cases h18 : t = 's'
  · subst h18
    have he := Option.some.inj h
    subst he
    refine ⟨?_, ?_⟩ <;> simp [appendDayOfWeekText, appendMonthOfYearText, appendMonthOfYear,
      appendDayOfMonth, appendFractionOfSecond, appendHourOfDay, appendClockHourOfHalfDay,
      appendMinuteOfHour, appendDayOfYear, appendHalfDayOfDay, appendSecondOfMinute,
      appendWeekOfWeekYear, appendWeekYear, appendYear, literalBytes_appendLiteral,
      literalBytes_appendPattern, length_appendLiteral, length_appendPattern]
  by_cases h19 : t = 'T'
  · subst h19
    have he := Option.some.inj h
    subst he
    refine ⟨?_, ?_⟩ <;> simp [appendDayOfWeekText, appendMonthOfYearText, appendMonthOfYear,
      appendDayOfMonth, appendFractionOfSecond, appendHourOfDay, appendClockHourOfHalfDay,
      appendMinuteOfHour, appendDayOfYear, appendHalfDayOfDay, appendSecondOfMinute,
      appendWeekOfWeekYear, appendWeekYear, appendYear, literalBytes_appendLiteral,
      literalBytes_appendPattern, length_appendLiteral, length_appendPattern]
  by_cases h20 : t = 'v'
  · subst h20
    have he := Option.some.inj h
    subst he
    refine ⟨?_, ?_⟩ <;> simp [appendDayOfWeekText, appendMonthOfYearText, appendMonthOfYear,
      appendDayOfMonth, appendFractionOfSecond, appendHourOfDay, appendClockHourOfHalfDay,
      appendMinuteOfHour, appendDayOfYear, appendHalfDayOfDay, appendSecondOfMinute,
      appendWeekOfWeekYear, appendWeekYear, appendYear, literalBytes_appendLiteral,
      literalBytes_appendPattern, length_appendLiteral, length_appendPattern]
  by_cases h21 : t = 'W'
  · subst h21
    have he := Option.some.inj h
    subst he
    refine ⟨?_, ?_⟩ <;> simp [appendDayOfWeekText, appendMonthOfYearText, appendMonthOfYear,
      appendDayOfMonth, appendFractionOfSecond, appendHourOfDay, appendClockHourOfHalfDay,
      appendMinuteOfHour, appendDayOfYear, appendHalfDayOfDay, appendSecondOfMinute,
      appendWeekOfWeekYear, appendWeekYear, appendYear, literalBytes_appendLiteral,
      literalBytes_appendPattern, length_appendLiteral, length_appendPattern]
  by_cases h22 : t = 'x'
  · subst h22
    have he := Option.some.inj h
    subst he
    refine ⟨?_, ?_⟩ <;> simp [appendDayOfWeekText, appendMonthOfYearText, appendMonthOfYear,
      appendDayOfMonth, appendFractionOfSecond, appendHourOfDay, appendClockHourOfHalfDay,
      appendMinuteOfHour, appendDayOfYear, appendHalfDayOfDay, appendSecondOfMinute,
      appendWeekOfWeekYear, appendWeekYear, appendYear, literalBytes_appendLiteral,
      literalBytes_appendPattern, length_appendLiteral, length_appendPattern]
  by_cases h23 : t = 'Y'
  · subst h23
    have he := Option.some.inj h
    subst he
    refine ⟨?_, ?_⟩ <;> simp [appendDayOfWeekText, appendMonthOfYearText, appendMonthOfYear,
      appendDayOfMonth, appendFractionOfSecond, appendHourOfDay, appendClockHourOfHalfDay,
      appendMinuteOfHour, appendDayOfYear, appendHalfDayOfDay, appendSecondOfMinute,
      appendWeekOfWeekYear, appendWeekYear, appendYear, literalBytes_appendLiteral,
      literalBytes_appendPattern, length_appendLiteral, length_appendPattern]
  by_cases h24 : t = 'y'
  · subst h24
    have he := Option.some.inj h
    subst he
    refine ⟨?_, ?_⟩ <;> simp [appendDayOfWeekText, appendMonthOfYearText, appendMonthOfYear,
      appendDayOfMonth, appendFractionOfSecond, appendHourOfDay, appendClockHourOfHalfDay,
      appendMinuteOfHour, appendDayOfYear, appendHalfDayOfDay, appendSecondOfMinute,
      appendWeekOfWeekYear, appendWeekYear, appendYear, literalBytes_appendLiteral,
      literalBytes_appendPattern, length_appendLiteral, length_appendPattern]
  have hrec : t ∉ mysqlRecognisedLetters := by
    simp only [mysqlRecognisedLetters, String.toList, String.data, List.mem_cons,
      List.mem_singleton, List.not_mem_nil, or_false, not_or]
    exact ⟨h0, h1, h2, h3, h4, h5, h6, h7, h8, h9, h10, h11, h12, h13, h14, h15, h16, h17, h18, h19, h20, h21, h22, h23, h24⟩
  by_cases hunsup : t ∈ mysqlUnsupportedLetters
  · rw [(mysqlSpecifier_eq_none builder t).2 hunsup] at h
    exact Option.noConfusion h
  · rw [mysqlSpecifier_default builder t hrec hunsup] at h
    have he := Option.some.inj h
    subst he
    rw [literalBytes_appendLiteral, length_appendLiteral, if_neg h16, List.length_singleton]
    exact ⟨Nat.le_refl _, by omega⟩

theorem percentRCount_cons_ge (c : Char) (rest : List Char) :
    percentRCount rest ≤ percentRCount (c :: rest) := by
  show percentRCount rest ≤
    (if startsWith (c :: rest) "%r".toList then 1 else 0) + percentRCount rest
  omega

theorem percentRCount_percent (t : Char) (rest : List Char) :
    (if t = 'r' then 1 else 0) + percentRCount rest ≤ percentRCount ('%' :: t :: rest) := by
  by_cases ht : t = 'r'
  · subst ht
    rw [if_pos rfl]
    have e : percentRCount ('%' :: 'r' :: rest) = 1 + percentRCount ('r' :: rest) := by
      conv => lhs; unfold percentRCount
      rw [if_pos]
      simp [startsWith]
    rw [e]
    have := percentRCount_cons_ge 'r' rest
    omega
  · rw [if_neg ht]
    have h1 := percentRCount_cons_ge t rest
    have h2 := percentRCount_cons_ge '%' (t :: rest)
    omega

theorem percentRCount_dropWhile (p : Char → Bool) (cur : List Char) :
    percentRCount (cur.dropWhile p) ≤ percentRCount cur := by
  induction cur with
  | nil => exact Nat.le_refl _
  | cons c rest ih =>
    rw [List.dropWhile_cons]
    split
    · exact ih.trans (percentRCount_cons_ge c rest)
    · exact Nat.le_refl _

theorem mysqlAppended_bound (fuel : Nat) :
    ∀ (cur : List Char) (builder : DateTimeFormatterBuilder),
      builder.length ≤ (mysqlAppended fuel cur builder).length ∧
      literalBytes (mysqlAppended fuel cur builder) ≤
        literalBytes builder + cur.length + percentRCount cur := by
  induction fuel with
  | zero => exact fun cur builder => ⟨Nat.le_refl _, by unfold mysqlAppended; omega⟩
  | succ fuel ih =>
    intro cur builder
    cases cur with
    | nil => exact ⟨Nat.le_refl _, by simp only [mysqlAppended]; omega⟩
    | cons c rest =>
      simp only [mysqlAppended]
      split
      · rename_i hc
        subst hc
        cases rest with
        | nil => exact ⟨Nat.le_refl _, by dsimp only; omega⟩
        | cons t rest2 =>
          dsimp only
          cases hs : mysqlSpecifier builder t with
          | none => exact ⟨Nat.le_refl _, by dsimp only; omega⟩
          | some builder1 =>
            dsimp only
            have h1 := mysqlSpecifier_grows builder builder1 t hs
            have h2 := ih rest2 builder1
            have h3 := percentRCount_percent t rest2
            simp only [List.length_cons]
            constructor <;> omega
      · have h2 := ih ((c :: rest).dropWhile (fun x => x != '%'))
          (appendLiteral builder ((c :: rest).takeWhile (fun x => x != '%')))
        rw [literalBytes_appendLiteral, length_appendLiteral] at h2
        have h3 := percentRCount_dropWhile (fun x => x != '%') (c :: rest)
        have h4 := takeWhile_append_dropWhile_length (c :: rest) (fun x => x != '%')
        rw [List.span_eq_take_drop]
        dsimp only
        constructor <;> omega

theorem stringFindFrom_percentR (cur : List Char) :
    ∀ pos : Nat,
      (stringFindFrom "%r".toList cur pos = none ∧ percentRCount cur = 0) ∨
      (∃ k, stringFindFrom "%r".toList cur pos = some (pos + k) ∧ k + 2 ≤ cur.length ∧
        percentRCount cur = 1 + percentRCount (cur.drop (k + 2))) := by
  induction cur with
  | nil => exact fun pos => Or.inl ⟨rfl, rfl⟩
  | cons c rest ih =>
    intro pos
    by_cases hs : startsWith (c :: rest) "%r".toList = true
    · right
      refine ⟨0, ?_, ?_, ?_⟩
      · simp only [stringFindFrom, hs, if_true, Nat.add_zero]
      · cases rest with
        | nil => simp [startsWith] at hs
        | cons t rest2 => simp
      · cases rest with
        | nil => simp [startsWith] at hs
        | cons t rest2 =>
          have ht : startsWith (t :: rest2) "%r".toList = false := by
            simp [startsWith] at hs ⊢
            intro h
            rw [hs.2] at h
            exact absurd h (by decide)
          simp only [percentRCount, hs, ht, if_true, Bool.false_eq_true, if_false, Nat.zero_add,
            List.drop_succ_cons, List.drop_zero]
    · have hstep : stringFindFrom "%r".toList (c :: rest) pos =
          stringFindFrom "%r".toList rest (pos + 1) := by
        simp only [stringFindFrom, hs, Bool.false_eq_true, if_false]
      have hcount : percentRCount (c :: rest) = percentRCount rest := by
        simp only [percentRCount, hs, Bool.false_eq_true, if_false, Nat.zero_add]
      rcases ih (pos + 1) with ⟨h1, h2⟩ | ⟨k, h1, h2, h3⟩
      · left
        exact ⟨hstep.trans h1, hcount.trans h2⟩
      · right
        refine ⟨k + 1, ?_, ?_, ?_⟩
        · rw [hstep, h1]
          congr 1
          omega
        · simp only [List.length_cons]
          omega
        · rw [hcount, h3]
          rfl

theorem countOccurenceLoop_percentR (base : List Char) (fuel : Nat) :
    ∀ pos occurrences : Nat, pos ≤ base.length → base.length < pos + fuel →
      countOccurenceLoop base "%r".toList fuel pos occurrences =
        occurrences + percentRCount (base.drop pos) := by
  induction fuel with
  | zero => exact fun pos occurrences h1 h2 => absurd h2 (by omega)
  | succ fuel ih =>
    intro pos occurrences h1 h2
    have hfind : stringFind base "%r".toList pos =
        stringFindFrom "%r".toList (base.drop pos) pos := by
      unfold stringFind
      rw [if_neg (by omega)]
    simp only [countOccurenceLoop, hfind]
    rcases stringFindFrom_percentR (base.drop pos) pos with ⟨h3, h4⟩ | ⟨k, h3, h4, h5⟩
    · rw [h3, h4]
      rfl
    · rw [h3, h5]
      dsimp only
      rw [List.length_drop] at h4
      have e : "%r".toList.length = 2 := rfl
      rw [e, ih (pos + k + 2) (occurrences + 1) (by omega) (by omega), List.drop_drop]
      have e2 : pos + (k + 2) = pos + k + 2 := by omega
      rw [e2]
      omega

theorem countOccurence_percentR (base : List Char) :
    countOccurence base "%r".toList = percentRCount base := by
  unfold countOccurence
  rw [countOccurenceLoop_percentR base _ 0 0 (Nat.zero_le _) (by omega)]
  simp

theorem buildMysqlLoop_tokens (skip : Bool) (fuel : Nat) :
    ∀ (cur : List Char) (builder : DateTimeFormatterBuilder) (f : DateTimeFormatter),
      buildMysqlLoop skip fuel cur builder = .value f →
      f.tokens = mysqlAppended fuel cur builder := by
  induction fuel with
  | zero =>
    intro cur builder f h
    exact (congrArg DateTimeFormatter.tokens (Expected.value.inj h)).symm
  | succ fuel ih =>
    intro cur builder f
    cases cur with
    | nil => exact fun h => (congrArg DateTimeFormatter.tokens (Expected.value.inj h)).symm
    | cons c rest =>
      simp only [buildMysqlLoop, mysqlAppended]
      split
      · cases rest with
        | nil => exact fun h => (congrArg DateTimeFormatter.tokens (Expected.value.inj h)).symm
        | cons t rest2 =>
          dsimp only
          cases mysqlSpecifier builder t with
          | none =>
            dsimp only
            split <;> exact fun h => Expected.noConfusion h
          | some builder1 => exact fun h => ih _ _ f h
      · exact fun h => ih _ _ f h

theorem buildQuotedLoop_tokens (skip : Bool)
    (specifier : DateTimeFormatterBuilder → Char → Nat → List Char →
      Option DateTimeFormatterBuilder)
    (type : DateTimeFormatterType) (fuel : Nat) :
    ∀ (cur : List Char) (builder : DateTimeFormatterBuilder) (f : DateTimeFormatter),
      buildQuotedLoop skip specifier type fuel cur builder = .value f →
      f.tokens = quotedAppended specifier fuel cur builder := by
  induction fuel with
  | zero =>
    intro cur builder f h
    exact (congrArg DateTimeFormatter.tokens (Expected.value.inj h)).symm
  | succ fuel ih =>
    intro cur builder f
    cases cur with
    | nil => exact fun h => (congrArg DateTimeFormatter.tokens (Expected.value.inj h)).symm
    | cons c rest =>
      simp only [buildQuotedLoop, quotedAppended]
      split
      · split
        · exact fun h => ih _ _ f h
        · split
          · split <;> exact fun h => Expected.noConfusion h
          · exact fun h => ih _ _ f h
      · cases specifier builder c (1 + (rest.takeWhile (fun x => x = c)).length)
          ((c :: rest).take (1 + (rest.takeWhile (fun x => x = c)).length)) with
        | none =>
          dsimp only
          split <;> exact fun h => Expected.noConfusion h
        | some builder1 => exact fun h => ih _ _ f h

theorem grows_ite (builder : DateTimeFormatterBuilder) (n : Nat) (c : Prop) [Decidable c]
    (x y : Option DateTimeFormatterBuilder)
    (hx : ∀ builder1, x = some builder1 →
      builder1.length = builder.length + 1 ∧ literalBytes builder1 ≤ literalBytes builder + n)
    (hy : ∀ builder1, y = some builder1 →
      builder1.length = builder.length + 1 ∧ literalBytes builder1 ≤ literalBytes builder + n) :
    ∀ builder1, (if c then x else y) = some builder1 →
      builder1.length = builder.length + 1 ∧
        literalBytes builder1 ≤ literalBytes builder + n := by
  by_cases hc : c
  · rw [if_pos hc]; exact hx
  · rw [if_neg hc]; exact hy

theorem jodaSpecifier_grows (builder : DateTimeFormatterBuilder) (c : Char) (count : Nat)
    (run : List Char) :
    ∀ builder1, jodaSpecifier builder c count run = some builder1 →
      builder1.length = builder.length + 1 ∧
        literalBytes builder1 ≤ literalBytes builder + run.length := by
  unfold jodaSpecifier
  repeat' apply grows_ite
  all_goals intro builder1 h
  all_goals first
    | exact Option.noConfusion h
    | skip
  all_goals have he := Option.some.inj h
  all_goals subst he
  all_goals simp [appendEra, appendCenturyOfEra, appendYearOfEra, appendWeekYear,
    appendWeekOfWeekYear, appendDayOfWeek1Based, appendDayOfWeekText, appendYear,
    appendDayOfYear, appendMonthOfYear, appendMonthOfYearText, appendDayOfMonth,
    appendHalfDayOfDay, appendHourOfHalfDay, appendClockHourOfHalfDay, appendHourOfDay,
    appendClockHourOfDay, appendMinuteOfHour, appendSecondOfMinute, appendFractionOfSecond,
    appendTimeZone, appendTimeZoneOffsetId, literalBytes_appendLiteral,
    literalBytes_appendPattern, length_appendLiteral, length_appendPattern]

theorem simpleSpecifier_grows (builder : DateTimeFormatterBuilder) (c : Char) (count : Nat)
    (run : List Char) :
    ∀ builder1, simpleSpecifier builder c count run = some builder1 →
      builder1.length = builder.length + 1 ∧
        literalBytes builder1 ≤ literalBytes builder + run.length := by
  unfold simpleSpecifier
  repeat' apply grows_ite
  all_goals intro builder1 h
  all_goals first
    | exact Option.noConfusion h
    | skip
  all_goals have he := Option.some.inj h
  all_goals subst he
  all_goals simp [appendEra, appendCenturyOfEra, appendYearOfEra, appendWeekYear,
    appendWeekOfWeekYear, appendDayOfWeek1Based, appendDayOfWeekText, appendYear,
    appendDayOfYear, appendMonthOfYear, appendMonthOfYearText, appendDayOfMonth,
    appendHalfDayOfDay, appendHourOfHalfDay, appendClockHourOfHalfDay, appendHourOfDay,
    appendClockHourOfDay, appendMinuteOfHour, appendSecondOfMinute, appendFractionOfSecond,
    appendTimeZone, appendTimeZoneOffsetId, appendWeekOfMonth, literalBytes_appendLiteral,
    literalBytes_appendPattern, length_appendLiteral, length_appendPattern]

theorem numLiteralCharsFrom_range (n : Nat) :
    ∀ (cur : List Char) (count : Int), cur.length ≤ n → 0 ≤ count →
      numLiteralCharsFrom cur count ≤ count + cur.length ∧
      (numLiteralCharsFrom cur count = -1 ∨ count ≤ numLiteralCharsFrom cur count) := by
  induction n with
  | zero =>
    intro cur count h _
    cases cur with
    | nil => exact ⟨by simp [numLiteralCharsFrom], Or.inr (by simp [numLiteralCharsFrom])⟩
    | cons c rest => exact absurd h (by simp)
  | succ n ih =>
    intro cur count h hc
    cases cur with
    | nil => exact ⟨by simp [numLiteralCharsFrom], Or.inr (by simp [numLiteralCharsFrom])⟩
    | cons c rest =>
      cases rest with
      | nil =>
        simp only [numLiteralCharsFrom]
        split
        · exact ⟨by simp, Or.inr (Int.le_refl _)⟩
        · exact ⟨by simp; omega, Or.inl rfl⟩
      | cons c2 rest2 =>
        simp only [numLiteralCharsFrom]
        simp only [List.length_cons] at h
        split
        · split
          · have := ih rest2 (count + 2) (by omega) (by omega)
            simp only [List.length_cons]
            refine ⟨by push_cast; omega, ?_⟩
            rcases this.2 with h1 | h1
            · exact Or.inl h1
            · exact Or.inr (by omega)
          · exact ⟨by simp only [List.length_cons]; push_cast; omega, Or.inr (Int.le_refl _)⟩
        · have := ih (c2 :: rest2) (count + 1) (by simp only [List.length_cons]; omega)
            (by omega)
          simp only [List.length_cons] at this ⊢
          refine ⟨by push_cast at this ⊢; omega, ?_⟩
          rcases this.2 with h1 | h1
          · exact Or.inl h1
          · exact Or.inr (by omega)

theorem numLiteralChars_le (cur : List Char) : numLiteralChars cur ≤ cur.length := by
  have := (numLiteralCharsFrom_range cur.length cur 0 (Nat.le_refl _) (Int.le_refl _)).1
  unfold numLiteralChars
  omega

theorem numLiteralChars_ge (cur : List Char) :
    numLiteralChars cur = -1 ∨ 0 ≤ numLiteralChars cur :=
  (numLiteralCharsFrom_range cur.length cur 0 (Nat.le_refl _) (Int.le_refl _)).2

theorem appendQuoted_bound (start : List Char) (count fuel : Nat) :
    ∀ (i : Nat) (builder : DateTimeFormatterBuilder),
      builder.length ≤ (appendQuoted start count fuel i builder).length ∧
      (1 ≤ fuel → i ≤ count →
        builder.length + 1 ≤ (appendQuoted start count fuel i builder).length) ∧
      literalBytes (appendQuoted start count fuel i builder) ≤ literalBytes builder + fuel := by
  induction fuel with
  | zero =>
    intro i builder
    exact ⟨Nat.le_refl _, fun h => absurd h (by omega), Nat.le_refl _⟩
  | succ fuel ih =>
    intro i builder
    simp only [appendQuoted]
    split
    · rename_i hi
      have h1 := ih (if start.getD i ' ' = singleQuote then i + 1 + 1 else i + 1)
        (appendLiteral builder [start.getD i ' '])
      rw [length_appendLiteral, literalBytes_appendLiteral, List.length_singleton] at h1
      exact ⟨by omega, fun _ _ => by omega, by omega⟩
    · rename_i hi
      exact ⟨Nat.le_refl _, fun _ h => absurd h hi, by omega⟩

theorem quotedAppended_bound
    (specifier : DateTimeFormatterBuilder → Char → Nat → List Char →
      Option DateTimeFormatterBuilder)
    (hspec : ∀ builder c count run builder1, specifier builder c count run = some builder1 →
      builder1.length = builder.length + 1 ∧
        literalBytes builder1 ≤ literalBytes builder + run.length)
    (fuel : Nat) :
    ∀ (cur : List Char) (builder : DateTimeFormatterBuilder),
      builder.length ≤ (quotedAppended specifier fuel cur builder).length ∧
      literalBytes (quotedAppended specifier fuel cur builder) ≤
        literalBytes builder + cur.length := by
  induction fuel with
  | zero => exact fun cur builder => ⟨Nat.le_refl _, by simp only [quotedAppended]; omega⟩
  | succ fuel ih =>
    intro cur builder
    cases cur with
    | nil => exact ⟨Nat.le_refl _, by simp only [quotedAppended]; omega⟩
    | cons c rest =>
      simp only [quotedAppended]
      split
      · split
        · rename_i hd
          have h1 := ih ((c :: rest).drop 2) (appendLiteral builder [singleQuote])
          rw [length_appendLiteral, literalBytes_appendLiteral, List.length_drop] at h1
          simp only [List.length_cons, List.length_nil] at h1 ⊢
          constructor <;> omega
        · split
          · exact ⟨Nat.le_refl _, by omega⟩
          · have h1 := ih ((c :: rest).drop ((numLiteralChars rest).toNat + 2))
              (appendQuoted (c :: rest) (numLiteralChars rest).toNat
                (numLiteralChars rest).toNat 1 builder)
            have h2 := appendQuoted_bound (c :: rest) (numLiteralChars rest).toNat
              (numLiteralChars rest).toNat 1 builder
            have h3 := numLiteralChars_le rest
            rw [List.length_drop] at h1
            simp only [List.length_cons] at h1 ⊢
            constructor <;> omega
      · cases hs : specifier builder c (1 + (rest.takeWhile (fun x => x = c)).length)
          ((c :: rest).take (1 + (rest.takeWhile (fun x => x = c)).length)) with
        | none => exact ⟨Nat.le_refl _, by dsimp only; omega⟩
        | some builder1 =>
          dsimp only
          have h1 := hspec _ _ _ _ _ hs
          have h2 := ih (rest.dropWhile (fun x => x = c)) builder1
          have h3 := takeWhile_append_dropWhile_length rest (fun x => x = c)
          rw [List.length_take] at h1
          simp only [List.length_cons] at h1 ⊢
          constructor <;> omega

/-- Claim C40: the literal bytes `buildMysqlDateTimeFormatter` has appended
when it leaves its loop never exceed `format.size()` plus
`countOccurence(format, "%r")`, the capacity it reserves, and the literal bytes
the Joda and Simple compilers have appended never exceed `format.size()`;
the program a compiler returns holds exactly these tokens. -/
theorem literal_bytes_within_reserve (skip : Bool) (format : List Char) (lenient : Bool) :
    literalBytes (mysqlAppended format.length format []) ≤
      format.length + countOccurence format "%r".toList ∧
    literalBytes (quotedAppended jodaSpecifier format.length format []) ≤ format.length ∧
    literalBytes (quotedAppended simpleSpecifier format.length format []) ≤ format.length ∧
    (∀ f, buildMysqlDateTimeFormatter skip format = .value f →
      f.tokens = mysqlAppended format.length format []) ∧
    (∀ f, buildJodaDateTimeFormatter skip format = .value f →
      f.tokens = quotedAppended jodaSpecifier format.length format []) ∧
    (∀ f, buildSimpleDateTimeFormatter skip format lenient = .value f →
      f.tokens = quotedAppended simpleSpecifier format.length format []) := by
  refine ⟨?_, ?_, ?_, ?_, ?_, ?_⟩
  · have h := (mysqlAppended_bound format.length format []).2
    rw [countOccurence_percentR]
    have e : literalBytes ([] : DateTimeFormatterBuilder) = 0 := rfl
    omega
  · have h := (quotedAppended_bound jodaSpecifier jodaSpecifier_grows format.length format []).2
    have e : literalBytes ([] : DateTimeFormatterBuilder) = 0 := rfl
    omega
  · have h :=
      (quotedAppended_bound simpleSpecifier simpleSpecifier_grows format.length format []).2
    have e : literalBytes ([] : DateTimeFormatterBuilder) = 0 := rfl
    omega
  · intro f
    unfold buildMysqlDateTimeFormatter
    split
    · split <;> exact fun h => Expected.noConfusion h
    · exact fun h => buildMysqlLoop_tokens skip _ _ _ f h
  · intro f
    unfold buildJodaDateTimeFormatter
    split
    · split <;> exact fun h => Expected.noConfusion h
    · exact fun h => buildQuotedLoop_tokens skip _ _ _ _ _ f h
  · intro f
    unfold buildSimpleDateTimeFormatter
    split
    · split <;> exact fun h => Expected.noConfusion h
    · exact fun h => buildQuotedLoop_tokens skip _ _ _ _ _ f h

theorem literal_bytes_within_reserve_witness :
    literalBytes (mysqlAppended 2 "%r".toList []) = 3 ∧
    countOccurence "%r".toList "%r".toList = 1 ∧
    (⟨[.kPattern ⟨.CLOCK_HOUR_OF_HALFDAY, 2⟩, .kLiteral [':'], .kPattern ⟨.MINUTE_OF_HOUR, 2⟩,
      .kLiteral [':'], .kPattern ⟨.SECOND_OF_MINUTE, 2⟩, .kLiteral [' '],
      .kPattern ⟨.HALFDAY_OF_DAY, 2⟩], .MYSQL⟩ : DateTimeFormatter).tokens =
      mysqlAppended 2 "%r".toList [] :=
  ⟨by decide, by decide,
    (literal_bytes_within_reserve false "%r".toList false).2.2.2.1 _ (by decide)⟩

theorem tokens_ne_nil_of_length (tokens : List DateTimeToken) (format : List Char)
    (h1 : 1 ≤ tokens.length) (h2 : format ≠ [format.headD ' ']) (target : List Char)
    (ht : target = [format.headD ' ']) :
    tokens = [] ↔ format = target := by
  subst ht
  constructor
  · intro he
    rw [he] at h1
    exact absurd h1 (by decide)
  · exact fun hf => absurd hf h2

theorem buildMysql_empty_program (skip : Bool) (format : List Char) (f : DateTimeFormatter)
    (h : buildMysqlDateTimeFormatter skip format = .value f) :
    f.tokens = [] ↔ format = ['%'] := by
  revert h
  unfold buildMysqlDateTimeFormatter
  cases format with
  | nil =>
    simp only [List.isEmpty_nil, if_true]
    split <;> exact fun h => Expected.noConfusion h
  | cons c rest =>
    simp only [List.isEmpty_cons, Bool.false_eq_true, if_false, List.length_cons,
      buildMysqlLoop]
    split
    · rename_i hc
      subst hc
      cases rest with
      | nil =>
        intro h
        rw [← Expected.value.inj h]
        exact ⟨fun _ => rfl, fun _ => rfl⟩
      | cons t rest2 =>
        dsimp only
        cases hs : mysqlSpecifier [] t with
        | none =>
          dsimp only
          split <;> exact fun h => Expected.noConfusion h
        | some builder1 =>
          intro h
          have h1 := buildMysqlLoop_tokens skip _ _ _ f h
          have h2 : builder1.length ≤ f.tokens.length := by
            rw [h1]
            exact (mysqlAppended_bound _ _ _).1
          have h3 := (mysqlSpecifier_grows [] builder1 t hs).1
          simp only [List.length_nil] at h3
          exact tokens_ne_nil_of_length _ _ (by omega) (by simp) _ rfl
    · rename_i hc
      intro h
      have h1 := buildMysqlLoop_tokens skip _ _ _ f h
      have h2 : (appendLiteral [] ((c :: rest).span (fun x => x != '%')).1).length ≤
          f.tokens.length := by
        rw [h1]
        exact (mysqlAppended_bound _ _ _).1
      rw [length_appendLiteral] at h2
      constructor
      · intro he
        rw [he] at h2
        exact absurd h2 (by simp)
      · intro hf
        exact absurd (List.cons.inj hf).1 hc

theorem numLiteralChars_zero (rest : List Char)
    (hd : ¬ (0 < rest.length ∧ rest.getD 0 ' ' = singleQuote))
    (h0 : (numLiteralChars rest).toNat = 0) (h1 : numLiteralChars rest ≠ -1) : rest = [] := by
  cases rest with
  | nil => rfl
  | cons c rest2 =>
    exfalso
    have hc : c ≠ singleQuote := fun hc => hd ⟨by simp, by simpa using hc⟩
    revert h0 h1
    unfold numLiteralChars
    cases rest2 with
    | nil =>
      simp only [numLiteralCharsFrom, if_neg hc]
      exact fun _ h1 => h1 rfl
    | cons c2 rest3 =>
      simp only [numLiteralCharsFrom, if_neg hc]
      have := (numLiteralCharsFrom_range (c2 :: rest3).length (c2 :: rest3) (0 + 1)
        (Nat.le_refl _) (by omega)).2
      intro h0 h1
      rcases this with h2 | h2
      · exact h1 h2
      · omega

theorem buildQuoted_empty_program (skip : Bool)
    (specifier : DateTimeFormatterBuilder → Char → Nat → List Char →
      Option DateTimeFormatterBuilder)
    (hspec : ∀ builder c count run builder1, specifier builder c count run = some builder1 →
      builder1.length = builder.length + 1 ∧
        literalBytes builder1 ≤ literalBytes builder + run.length)
    (type : DateTimeFormatterType) (c : Char) (rest : List Char) (f : DateTimeFormatter)
    (h : buildQuotedLoop skip specifier type (rest.length + 1) (c :: rest) [] = .value f) :
    f.tokens = [] ↔ c :: rest = [singleQuote] := by
  revert h
  simp only [buildQuotedLoop]
  split
  · rename_i hc
    subst hc
    split
    · rename_i hd
      intro h
      have h1 := buildQuotedLoop_tokens skip _ _ _ _ _ f h
      have h2 : (appendLiteral [] [singleQuote]).length ≤ f.tokens.length := by
        rw [h1]
        exact (quotedAppended_bound specifier hspec _ _ _).1
      rw [length_appendLiteral] at h2
      constructor
      · intro he
        rw [he] at h2
        exact absurd h2 (by simp)
      · intro hf
        have : rest = [] := (List.cons.inj hf).2
        rw [this] at hd
        exact absurd hd.1 (by simp)
    · rename_i hd
      split
      · split <;> exact fun h => Expected.noConfusion h
      · rename_i hcount
        intro h
        have h1 := buildQuotedLoop_tokens skip _ _ _ _ _ f h
        have h2 : (appendQuoted (singleQuote :: rest) (numLiteralChars rest).toNat
            (numLiteralChars rest).toNat 1 []).length ≤ f.tokens.length := by
          rw [h1]
          exact (quotedAppended_bound specifier hspec _ _ _).1
        by_cases hz : (numLiteralChars rest).toNat = 0
        · have hr := numLiteralChars_zero rest hd hz hcount
          subst hr
          constructor
          · exact fun _ => rfl
          · intro _
            rw [h1]
            rfl
        · have h3 := (appendQuoted_bound (singleQuote :: rest) (numLiteralChars rest).toNat
            (numLiteralChars rest).toNat 1 []).2.1 (by omega) (by omega)
          constructor
          · intro he
            rw [he] at h2
            simp only [List.length_nil] at h2 h3
            omega
          · intro hf
            have : rest = [] := (List.cons.inj hf).2
            rw [this] at hz
            exact absurd rfl hz
  · rename_i hc
    cases hs : specifier [] c (1 + (rest.takeWhile (fun x => x = c)).length)
      ((c :: rest).take (1 + (rest.takeWhile (fun x => x = c)).length)) with
    | none =>
      dsimp only
      split <;> exact fun h => Expected.noConfusion h
    | some builder1 =>
      intro h
      have h1 := buildQuotedLoop_tokens skip _ _ _ _ _ f h
      have h2 : builder1.length ≤ f.tokens.length := by
        rw [h1]
        exact (quotedAppended_bound specifier hspec _ _ _).1
      have h3 := (hspec _ _ _ _ _ hs).1
      constructor
      · intro he
        rw [he] at h2
        simp only [List.length_nil] at h2 h3
        omega
      · intro hf
        exact absurd (List.cons.inj hf).1 hc

/-- Counterexample to C39 as stated: the MySQL pattern `%` is not empty and is
accepted, and its program holds no token (the loop leaves by
`if (tokenEnd == end) break;` and appends nothing for a `%` that is the last
byte). -/
theorem buildMysql_percent_empty_program :
    "%".toList ≠ [] ∧
    buildMysqlDateTimeFormatter false "%".toList = .value ⟨[], .MYSQL⟩ ∧
    buildMysqlDateTimeFormatter true "%".toList = .value ⟨[], .MYSQL⟩ := by
  refine ⟨by decide, by decide, by decide⟩

/-- Claim C39 (amended): the program of a pattern the MySQL compiler accepts
holds no token exactly when the pattern is the single byte `%`; every other
accepted MySQL pattern, and every pattern other than a lone single quote that
the Joda or the Simple compiler accepts, compiles to a program with at least
one token. The lone single quote is an unterminated quoted literal and is
left out of the statement. -/
theorem build_program_nonempty (skip : Bool) (format : List Char) (lenient : Bool) :
    (∀ f, buildMysqlDateTimeFormatter skip format = .value f →
      (f.tokens = [] ↔ format = ['%'])) ∧
    (∀ f, buildJodaDateTimeFormatter skip format = .value f →
      format ≠ [singleQuote] → 1 ≤ f.tokens.length) ∧
    (∀ f, buildSimpleDateTimeFormatter skip format lenient = .value f →
      format ≠ [singleQuote] → 1 ≤ f.tokens.length) := by
  have hlen : ∀ tokens : List DateTimeToken, tokens ≠ [] → 1 ≤ tokens.length := by
    intro tokens h
    cases tokens with
    | nil => exact absurd rfl h
    | cons token rest => simp
  refine ⟨fun f h => buildMysql_empty_program skip format f h, ?_, ?_⟩
  · intro f
    unfold buildJodaDateTimeFormatter
    cases format with
    | nil =>
      simp only [List.isEmpty_nil, if_true]
      split <;> exact fun h => Expected.noConfusion h
    | cons c rest =>
      simp only [List.isEmpty_cons, Bool.false_eq_true, if_false]
      intro h hne
      exact hlen _ (fun he => hne
        ((buildQuoted_empty_program skip jodaSpecifier jodaSpecifier_grows _ c rest f h).1 he))
  · intro f
    unfold buildSimpleDateTimeFormatter
    cases format with
    | nil =>
      simp only [List.isEmpty_nil, if_true]
      split <;> exact fun h => Expected.noConfusion h
    | cons c rest =>
      simp only [List.isEmpty_cons, Bool.false_eq_true, if_false]
      intro h hne
      exact hlen _ (fun he => hne
        ((buildQuoted_empty_program skip simpleSpecifier simpleSpecifier_grows _ c rest f h).1
          he))

/-- Witness of C39 (amended): the MySQL pattern `%Y` and the Joda pattern `yyyy`
compile to a program of one token. -/
theorem build_program_nonempty_witness :
    ((⟨[.kPattern ⟨.YEAR, 4⟩], .MYSQL⟩ : DateTimeFormatter).tokens = [] ↔
      "%Y".toList = ['%']) ∧
    1 ≤ (⟨[.kPattern ⟨.YEAR, 4⟩], .JODA⟩ : DateTimeFormatter).tokens.length :=
  ⟨(build_program_nonempty false "%Y".toList false).1 _ (by decide),
    (build_program_nonempty false "yyyy".toList false).2.1 _ (by decide) (by decide)⟩

/-! ## Round trips: hour fields, year of era, rendered zone offsets -/

theorem formatToken_hour {Z : Type} (civil : CivilTime Z) (z : Option (List Char))
    (s : DateTimeFormatSpecifier) (w : Nat) (h : Nat) (hh : civil.hours = h)
    (hs : isHourSpecifier s = true) :
    formatToken civil z (.kPattern ⟨s, w⟩) =
      .ok (padContent (hourFieldValue s h : Nat) '0' w true) := by
  have e1 : Int.tmod ((h : Int) + 11) 12 = (((h + 11) % 12 : Nat) : Int) := by
    rw [Int.tmod_eq_emod (by omega) (by omega)]
    omega
  have e2 : Int.tmod (h : Int) 12 = ((h % 12 : Nat) : Int) := by
    rw [Int.tmod_eq_emod (by omega) (by omega)]
    omega
  have e3 : Int.tmod ((h : Int) + 23) 24 = (((h + 23) % 24 : Nat) : Int) := by
    rw [Int.tmod_eq_emod (by omega) (by omega)]
    omega
  cases s
  all_goals first
    | exact absurd hs (by decide)
    | skip
  all_goals simp only [formatToken, hourFieldValue, hh, e1, e2, e3, Nat.cast_add, Nat.cast_one]

theorem parseFromPattern_hour_text {Z : Type} (env : Env Z) (type : DateTimeFormatterType)
    (s : DateTimeFormatSpecifier) (w n : Nat) (rest : List Char) (date : Date Z)
    (buf : List Char) (hs : isHourSpecifier s = true) (hw : 1 ≤ w) (hn : n < 100)
    (hstop : ∀ c ∈ rest.head?, characterIsDigit c = false) :
    parseFromPattern env ⟨s, w⟩ ⟨padContent (n : Nat) '0' w true ++ rest, date, buf⟩ false type =
      ((applyNumber ⟨s, w⟩ type n date).1, ⟨rest, (applyNumber ⟨s, w⟩ type n date).2, buf⟩) := by
  have hd : hasFieldDomain s = true := by
    cases s <;> first | exact absurd hs (by decide) | rfl
  have hmax : getMaxDigitConsume ⟨s, w⟩ false type = if w > 2 then w else 2 := by
    cases s <;> first | exact absurd hs (by decide) | rfl
  have hcount : countDigits n ≤ 2 := countDigits_le n 2 (by omega)
  have hbound := countDigits_bound n
  have hpow : 10 ^ countDigits n ≤ 10 ^ max w (countDigits n) :=
    Nat.pow_le_pow_right (by omega) (by omega)
  have hpad : padContent (n : Nat) '0' w true = digitsOfWidth (max w (countDigits n)) n := by
    rw [padContent_eq, if_neg (by omega), Int.natAbs_ofNat, List.nil_append]
  rw [hpad]
  exact parseFromPattern_domain_digits env ⟨s, w⟩ ⟨_, date, buf⟩ false type
    (max w (countDigits n)) n rest hd rfl (by omega) (by rw [hmax]; split <;> omega)
    (by omega) (by omega) (Or.inr hstop)

theorem parseTokens_halfDay_tail {Z : Type} (env : Env Z) (type : DateTimeFormatterType)
    (date : Date Z) (buf : List Char) (pm : Bool) :
    parseTokens env type [.kLiteral [' '], .kPattern ⟨.HALFDAY_OF_DAY, 2⟩]
        ⟨' ' :: (if pm then "PM".toList else "AM".toList), date, buf⟩ =
      (.ok, ⟨[], { date with isAm := !pm }, buf⟩) := by
  cases pm <;> rfl

theorem applyNumber_hour_field {Z : Type} (type : DateTimeFormatterType)
    (s : DateTimeFormatSpecifier) (w h : Nat) (date : Date Z)
    (hs : isHourSpecifier s = true) (h23 : h ≤ 23) :
    (applyNumber ⟨s, w⟩ type (hourFieldValue s h : Nat) date).1 = .ok ∧
    (applyNumber ⟨s, w⟩ type (hourFieldValue s h : Nat) date).2.hour =
      (if s = .CLOCK_HOUR_OF_HALFDAY ∨ s = .HOUR_OF_HALFDAY then ((h % 12 : Nat) : Int)
        else (h : Int)) ∧
    (applyNumber ⟨s, w⟩ type (hourFieldValue s h : Nat) date).2.isHourOfHalfDay =
      decide (s = .CLOCK_HOUR_OF_HALFDAY ∨ s = .HOUR_OF_HALFDAY) := by
  cases s
  all_goals first
    | exact absurd hs (by decide)
    | skip
  all_goals simp only [applyNumber, hourFieldValue]
  all_goals split
  all_goals first
    | (exfalso; omega)
    | skip
  all_goals refine ⟨rfl, ?_, ?_⟩
  all_goals simp
  all_goals omega

theorem hourFieldValue_lt (s : DateTimeFormatSpecifier) (h : Nat) (h23 : h ≤ 23) :
    hourFieldValue s h < 100 := by
  unfold hourFieldValue
  split <;> omega

/-- Claim C32: for every hour `h` in 0..23 and every width, the program of an
hour token, a space and the half-day token renders the hour value of the spec
(`(h + 11) mod 12 + 1`, `h mod 12`, `(h + 23) mod 24 + 1` or `h`) followed by
`AM` when `h < 12` and `PM` otherwise, and parsing that text with the same
program consumes it and gives the final hour `h`; the clock-hour-of-day token
alone gives `h` as well. -/
theorem hour_fields_round_trip {Z : Type} (env : Env Z) (type : DateTimeFormatterType)
    (civil : CivilTime Z) (zeroOffsetText : Option (List Char)) (s : DateTimeFormatSpecifier)
    (w h : Nat) (buf : List Char) (hs : isHourSpecifier s = true) (hw : 1 ≤ w)
    (hh : civil.hours = h) (h23 : h ≤ 23) :
    formatTokens civil zeroOffsetText (hourHalfDayProgram s w) =
      .ok (padContent (hourFieldValue s h : Nat) '0' w true ++
        ' ' :: (if h < 12 then "AM".toList else "PM".toList)) ∧
    (∃ st1 : ParseState Z,
      parseTokens env type (hourHalfDayProgram s w)
        ⟨padContent (hourFieldValue s h : Nat) '0' w true ++
          ' ' :: (if h < 12 then "AM".toList else "PM".toList), {}, buf⟩ = (.ok, st1) ∧
      st1.cur = [] ∧ (adjustDate st1.date).hour = h) ∧
    formatTokens civil zeroOffsetText [.kPattern ⟨s, w⟩] =
      .ok (padContent (hourFieldValue s h : Nat) '0' w true) ∧
    (s = .CLOCK_HOUR_OF_DAY ∨ s = .HOUR_OF_DAY →
      ∃ st1 : ParseState Z,
        parseTokens env type [.kPattern ⟨s, w⟩]
          ⟨padContent (hourFieldValue s h : Nat) '0' w true, {}, buf⟩ = (.ok, st1) ∧
        st1.cur = [] ∧ (adjustDate st1.date).hour = h) := by
  have hf := formatToken_hour civil zeroOffsetText s w h hh hs
  obtain ⟨a1, a2, a3⟩ := applyNumber_hour_field type s w h ({} : Date Z) hs h23
  have hlt := hourFieldValue_lt s h h23
  refine ⟨?_, ?_, ?_, ?_⟩
  · have e2 : formatToken civil zeroOffsetText (.kPattern ⟨.HALFDAY_OF_DAY, 2⟩) =
        .ok (if h < 12 then "AM".toList else "PM".toList) := by
      simp only [formatToken, hh]
      by_cases h12 : h < 12
      · rw [if_pos h12, if_pos (by omega)]
      · rw [if_neg h12, if_neg (by omega)]
    have e1 : formatToken civil zeroOffsetText (.kLiteral [' ']) = .ok [' '] := rfl
    simp only [hourHalfDayProgram, formatTokens, hf, e1, e2, List.append_nil,
      List.singleton_append]
  · have hp := parseFromPattern_hour_text env type s w (hourFieldValue s h)
      (' ' :: (if h < 12 then "AM".toList else "PM".toList)) ({} : Date Z) buf hs hw hlt
      (by intro c hc; simp at hc; subst hc; rfl)
    have epm : (if h < 12 then "AM".toList else "PM".toList) =
        (if decide (¬ h < 12) then "PM".toList else "AM".toList) := by
      by_cases h12 : h < 12 <;> simp [h12]
    have ht := parseTokens_halfDay_tail env type
      (applyNumber ⟨s, w⟩ type (hourFieldValue s h : Nat) ({} : Date Z)).2 buf
      (decide (¬ h < 12))
    rw [← epm] at ht
    refine ⟨⟨[], { (applyNumber ⟨s, w⟩ type (hourFieldValue s h : Nat) ({} : Date Z)).2 with
      isAm := !decide (¬ h < 12) }, buf⟩, ?_, rfl, ?_⟩
    · unfold hourHalfDayProgram
      rw [parseTokens_cons_pattern]
      have e : startsWithPattern [.kLiteral [' '], .kPattern ⟨.HALFDAY_OF_DAY, 2⟩] = false := rfl
      rw [e, hp, a1]
      exact ht
    · rw [adjustDate_hour]
      dsimp only
      rw [a2, a3]
      by_cases hc : s = .CLOCK_HOUR_OF_HALFDAY ∨ s = .HOUR_OF_HALFDAY
      · by_cases h12 : h < 12
        · simp [hc, h12]
          omega
        · simp [hc, h12]
          omega
      · simp [hc]
  · simp only [formatTokens, hf, List.append_nil]
  · intro hc
    have hp := parseFromPattern_hour_text env type s w (hourFieldValue s h) []
      ({} : Date Z) buf hs hw hlt (by intro c hc; simp at hc)
    rw [List.append_nil] at hp
    refine ⟨⟨[], (applyNumber ⟨s, w⟩ type (hourFieldValue s h : Nat) ({} : Date Z)).2, buf⟩,
      ?_, rfl, ?_⟩
    · rw [parseTokens_cons_pattern]
      have e : startsWithPattern ([] : List DateTimeToken) = false := rfl
      rw [e, hp, a1]
      rfl
    · rw [adjustDate_hour]
      dsimp only
      rw [a2, a3]
      have hn : ¬ (s = .CLOCK_HOUR_OF_HALFDAY ∨ s = .HOUR_OF_HALFDAY) := by
        rcases hc with hc | hc <;> rw [hc] <;> decide
      simp [hn]

theorem hour_fields_round_trip_witness :
    formatTokens (⟨none, 0, 2024, 2, 29, 4, 15, 0, 0, 0, none, 9, 60, [], [], [], none⟩ :
        CivilTime (List Char)) none (hourHalfDayProgram .CLOCK_HOUR_OF_HALFDAY 2) =
      .ok "03 PM".toList ∧
    (∃ st1 : ParseState (List Char),
      parseTokens sampleEnv .JODA (hourHalfDayProgram .CLOCK_HOUR_OF_HALFDAY 2)
        ⟨"03 PM".toList, {}, timezoneBufferInit⟩ = (.ok, st1) ∧
      st1.cur = [] ∧ (adjustDate st1.date).hour = ((15 : Nat) : Int)) :=
  ⟨(hour_fields_round_trip sampleEnv .JODA
      ⟨none, 0, 2024, 2, 29, 4, 15, 0, 0, 0, none, 9, 60, [], [], [], none⟩ none
      .CLOCK_HOUR_OF_HALFDAY 2 15 timezoneBufferInit rfl (by decide) rfl (by decide)).1,
    (hour_fields_round_trip sampleEnv .JODA
      ⟨none, 0, 2024, 2, 29, 4, 15, 0, 0, 0, none, 9, 60, [], [], [], none⟩ none
      .CLOCK_HOUR_OF_HALFDAY 2 15 timezoneBufferInit rfl (by decide) rfl (by decide)).2.1⟩

theorem parseFromPattern_year_of_era {Z : Type} (env : Env Z) (type : DateTimeFormatterType)
    (w n : Nat) (rest : List Char) (date : Date Z) (buf : List Char)
    (hw : 1 ≤ w) (hw2 : w ≠ 2) (htype : type ≠ .MYSQL) (hn : n < 1000000000)
    (hstop : ∀ c ∈ rest.head?, characterIsDigit c = false) :
    parseFromPattern env ⟨.YEAR_OF_ERA, w⟩ ⟨padContent (n : Nat) '0' w true ++ rest, date, buf⟩
        false type =
      ((applyNumber ⟨.YEAR_OF_ERA, w⟩ type n date).1,
        ⟨rest, (applyNumber ⟨.YEAR_OF_ERA, w⟩ type n date).2, buf⟩) := by
  have hmax : getMaxDigitConsume ⟨.YEAR_OF_ERA, w⟩ false type = if w > 9 then w else 9 := by
    simp only [getMaxDigitConsume, Bool.false_eq_true, if_false, if_neg htype]
  have hcount : countDigits n ≤ 9 := countDigits_le n 9 (by omega)
  have hbound := countDigits_bound n
  have hpow : 10 ^ countDigits n ≤ 10 ^ max w (countDigits n) :=
    Nat.pow_le_pow_right (by omega) (by omega)
  have hpad : padContent (n : Nat) '0' w true = digitsOfWidth (max w (countDigits n)) n := by
    rw [padContent_eq, if_neg (by omega), Int.natAbs_ofNat, List.nil_append]
  obtain ⟨c, cs, hcs, hcd⟩ := digitsOfWidth_cons (max w (countDigits n)) n (by omega)
  have hnum : parseFromPattern env ⟨.YEAR_OF_ERA, w⟩
      ⟨padContent (n : Nat) '0' w true ++ rest, date, buf⟩ false type =
      parseDigitsFrom env ⟨.YEAR_OF_ERA, w⟩
        ⟨padContent (n : Nat) '0' w true ++ rest, date, buf⟩ false type false
        (padContent (n : Nat) '0' w true ++ rest) := by
    rw [parseFromPattern_numeric env ⟨.YEAR_OF_ERA, w⟩ _ false type rfl, hpad, hcs]
    simp [parseNumeric, specAllowsNegative, specAllowsPlusSign]
  rw [hnum, hpad]
  have := parseDigitsFrom_rendered env ⟨.YEAR_OF_ERA, w⟩
    ⟨digitsOfWidth (max w (countDigits n)) n ++ rest, date, buf⟩ false type false
    (max w (countDigits n)) n rest (by omega) (by rw [hmax]; split <;> omega) (by omega)
    (by omega) hstop (fun h => DateTimeFormatSpecifier.noConfusion h) (fun h => hw2 h.2)
  rw [this]
  rfl

theorem parseTokens_era_tail {Z : Type} (env : Env Z) (type : DateTimeFormatterType)
    (date : Date Z) (buf : List Char) (ad : Bool) :
    parseTokens env type [.kLiteral [' '], .kPattern ⟨.ERA, 2⟩]
        ⟨' ' :: (if ad then "AD".toList else "BC".toList), date, buf⟩ =
      (.ok, ⟨[], { date with isAd := ad }, buf⟩) := by
  cases ad <;> rfl

/-- Claim C33: for every civil year `y` of the supported range and every width
other than 2, the program of a year-of-era token, a space and the era token
renders the year of era (`|y - 1|` for `y ≤ 0`, `y` from 1 on) followed by `BC`
for `y ≤ 0` and `AD` otherwise; parsing that text with the same program under
a dialect other than MySQL consumes it, reads that year of era and era, and
gives the final year `y`. -/
theorem year_of_era_round_trip {Z : Type} (env : Env Z) (type : DateTimeFormatterType)
    (civil : CivilTime Z) (zeroOffsetText : Option (List Char)) (w : Nat) (buf : List Char)
    (hw : 1 ≤ w) (hw2 : w ≠ 2) (htype : type ≠ .MYSQL)
    (hlo : -292275054 ≤ civil.year) (hhi : civil.year ≤ 292278993) :
    formatTokens civil zeroOffsetText (yearEraProgram w) =
      .ok (padContent (yearOfEraValue civil.year : Nat) '0' w true ++
        ' ' :: (if civil.year > 0 then "AD".toList else "BC".toList)) ∧
    (∃ st1 : ParseState Z,
      parseTokens env type (yearEraProgram w)
        ⟨padContent (yearOfEraValue civil.year : Nat) '0' w true ++
          ' ' :: (if civil.year > 0 then "AD".toList else "BC".toList), {}, buf⟩ = (.ok, st1) ∧
      st1.cur = [] ∧ st1.date.year = (yearOfEraValue civil.year : Nat) ∧
      st1.date.isAd = decide (civil.year > 0) ∧
      (civil.year ≤ 0 → (adjustDate st1.date).year = -(st1.date.year - 1)) ∧
      (adjustDate st1.date).year = civil.year) := by
  have hval : ((yearOfEraValue civil.year : Nat) : Int) =
      if civil.year ≤ 0 then 1 - civil.year else civil.year := by
    unfold yearOfEraValue
    split <;> omega
  have hlt : yearOfEraValue civil.year < 1000000000 := by
    have := hval
    split at this <;> omega
  have happly : applyNumber ⟨.YEAR_OF_ERA, w⟩ type (yearOfEraValue civil.year : Nat)
      ({} : Date Z) =
      (.ok, { ({} : Date Z) with
        centuryFormat := false, isYearOfEra := true, hasYear := true,
        year := (yearOfEraValue civil.year : Nat) }) := by
    have hnat : yearOfEraValue civil.year ≤ 292278993 ∧ ¬ yearOfEraValue civil.year = 0 := by
      omega
    simp [applyNumber, hnat]
  refine ⟨?_, ?_⟩
  · have e0 : formatToken civil zeroOffsetText (.kPattern ⟨.YEAR_OF_ERA, w⟩) =
        .ok (padContent (yearOfEraValue civil.year : Nat) '0' w true) := by
      simp only [formatToken, if_neg hw2]
      congr 2
      unfold yearOfEraValue
      split <;> omega
    have e1 : formatToken civil zeroOffsetText (.kLiteral [' ']) = .ok [' '] := rfl
    have e2 : formatToken civil zeroOffsetText (.kPattern ⟨.ERA, 2⟩) =
        .ok (if civil.year > 0 then "AD".toList else "BC".toList) := rfl
    simp only [yearEraProgram, formatTokens, e0, e1, e2, List.append_nil,
      List.singleton_append]
  · have hp := parseFromPattern_year_of_era env type w (yearOfEraValue civil.year)
      (' ' :: (if civil.year > 0 then "AD".toList else "BC".toList)) ({} : Date Z) buf hw hw2
      htype hlt (by intro c hc; simp at hc; subst hc; rfl)
    have ead : (if civil.year > 0 then "AD".toList else "BC".toList) =
        (if decide (civil.year > 0) then "AD".toList else "BC".toList) := by
      by_cases h0 : civil.year > 0 <;> simp [h0]
    have ht := parseTokens_era_tail env type
      (applyNumber ⟨.YEAR_OF_ERA, w⟩ type (yearOfEraValue civil.year : Nat) ({} : Date Z)).2 buf
      (decide (civil.year > 0))
    rw [← ead] at ht
    refine ⟨⟨[], { (applyNumber ⟨.YEAR_OF_ERA, w⟩ type (yearOfEraValue civil.year : Nat)
      ({} : Date Z)).2 with isAd := decide (civil.year > 0) }, buf⟩, ?_, rfl, ?_, rfl, ?_, ?_⟩
    · unfold yearEraProgram
      rw [parseTokens_cons_pattern]
      have e : startsWithPattern [.kLiteral [' '], .kPattern ⟨.ERA, 2⟩] = false := rfl
      rw [e, hp]
      rw [happly] at ht ⊢
      exact ht
    · rw [happly]
    · intro hy
      rw [adjustDate_eq_postProcessed, happly]
      have hd : decide (civil.year > 0) = false := by simp; omega
      simp [postProcessed, hd]
    · rw [adjustDate_eq_postProcessed, happly]
      by_cases hy : civil.year ≤ 0
      · have hd : decide (civil.year > 0) = false := by simp; omega
        simp [postProcessed, hd, hval, hy]
      · have hd : decide (civil.year > 0) = true := by simp; omega
        simp [postProcessed, hd, hval, hy]

theorem year_of_era_round_trip_witness :
    formatTokens (⟨none, 0, -43, 3, 15, 4, 0, 0, 0, 0, none, 11, 74, [], [], [], none⟩ :
        CivilTime (List Char)) none (yearEraProgram 4) = .ok "0044 BC".toList ∧
    (adjustDate (parseTokens sampleEnv .JODA (yearEraProgram 4)
      ⟨"0044 BC".toList, {}, timezoneBufferInit⟩).2.date).year = -43 := by
  have h := year_of_era_round_trip sampleEnv .JODA
    ⟨none, 0, -43, 3, 15, 4, 0, 0, 0, 0, none, 11, 74, [], [], [], none⟩ none 4
    timezoneBufferInit (by decide) (by decide) (by decide) (by decide) (by decide)
  have et : padContent (yearOfEraValue (-43) : Nat) '0' 4 true ++
      ' ' :: (if (-43 : Int) > 0 then "AD".toList else "BC".toList) = "0044 BC".toList := by
    decide
  obtain ⟨h1, st1, h2, _, _, _, _, h3⟩ := h
  dsimp only at h1 h2 h3
  rw [et] at h1 h2
  rw [h2]
  exact ⟨h1, h3⟩

theorem appendTimezoneOffset_colon_form (offset : Int) (h : offset.natAbs < 86400)
    (hmin : offset % 60 = 0) (colon : Bool) :
    appendTimezoneOffset offset colon =
      (if offset ≥ 0 then '+' else '-') ::
        (digitsOfWidth 2 (offset.natAbs / 3600) ++ (if colon then [':'] else []) ++
          digitsOfWidth 2 (offset.natAbs / 60 % 60)) := by
  have habs : (if offset ≥ 0 then offset else -offset) = ((offset.natAbs : Nat) : Int) := by
    split <;> omega
  have hsec : ¬ offset.natAbs % 60 > 0 := by omega
  unfold appendTimezoneOffset
  dsimp only
  rw [habs, appendTimezoneOffset_natAbs offset.natAbs (by omega) _ colon, if_neg hsec,
    List.append_nil]

/-- Counterexample to C34 as stated: with a zone table that does not hold the
zone `+05:30`, `parseTimezoneOffset` returns `-1` on both renderings of the
offset of 19800 seconds and consumes nothing, though the id handed to the
lookup is the colon form. -/
theorem parseTimezoneOffset_rendered_rejected :
    appendTimezoneOffset 19800 false = "+0530".toList ∧
    appendTimezoneOffset 19800 true = "+05:30".toList ∧
    utcOnlyEnv.locateZone "+05:30".toList = none ∧
    (parseTimezoneOffset utcOnlyEnv (appendTimezoneOffset 19800 false ++ " x".toList) {}
      timezoneBufferInit).1 = -1 ∧
    (parseTimezoneOffset utcOnlyEnv (appendTimezoneOffset 19800 true ++ " x".toList) {}
      timezoneBufferInit).1 = -1 := by
  refine ⟨by decide, by decide, by decide, by decide, by decide⟩

/-- Claim C34 (amended): for an offset of whole minutes below 24 hours in
absolute value and any text after it, `parseTimezoneOffset` hands the colon
form `±HH:MM` of the offset to the zone lookup on both renderings; when the
lookup knows that zone it consumes exactly 5 bytes of the rendering without
colon and exactly 6 of the rendering with colon, and when it does not the
result is `-1`. -/
theorem parseTimezoneOffset_of_rendered {Z : Type} (env : Env Z) (offset : Int)
    (rest : List Char) (date : Date Z) (buf : List Char)
    (hmin : offset % 60 = 0) (hlt : offset.natAbs < 86400) (hbuf : bufferShape buf) :
    appendTimezoneOffset offset true =
      (if offset ≥ 0 then '+' else '-') ::
        (digitsOfWidth 2 (offset.natAbs / 3600) ++ ':' ::
          digitsOfWidth 2 (offset.natAbs / 60 % 60)) ∧
    parseTimezoneOffset env (appendTimezoneOffset offset false ++ rest) date buf =
      offsetOutcome env date (appendTimezoneOffset offset true) 5
        (appendTimezoneOffset offset true) ∧
    parseTimezoneOffset env (appendTimezoneOffset offset true ++ rest) date buf =
      offsetOutcome env date (appendTimezoneOffset offset true) 6 buf ∧
    ((env.locateZone (appendTimezoneOffset offset true)).isNone = false →
      (parseTimezoneOffset env (appendTimezoneOffset offset false ++ rest) date buf).1 = 5 ∧
      (parseTimezoneOffset env (appendTimezoneOffset offset true ++ rest) date buf).1 = 6) ∧
    ((env.locateZone (appendTimezoneOffset offset true)).isNone = true →
      (parseTimezoneOffset env (appendTimezoneOffset offset false ++ rest) date buf).1 = -1 ∧
      (parseTimezoneOffset env (appendTimezoneOffset offset true ++ rest) date buf).1 = -1) := by
  have h1 := parseTimezoneOffset_rendered env offset false rest date buf hbuf.1 hbuf.2 hmin
  have h2 := parseTimezoneOffset_rendered env offset true rest date buf hbuf.1 hbuf.2 hmin
  have h3 := appendTimezoneOffset_colon_form offset hlt hmin true
  rw [if_pos rfl] at h3
  simp only [Bool.false_eq_true, if_false, if_true] at h1 h2
  refine ⟨?_, ?_, ?_, ?_, ?_⟩
  · rw [h3]
    simp
  · rw [h1]
    unfold offsetOutcome
    dsimp only
    split <;> rfl
  · rw [h2]
    unfold offsetOutcome
    dsimp only
    split <;> rfl
  · intro hk
    rw [h1, h2]
    dsimp only
    rw [hk]
    exact ⟨rfl, rfl⟩
  · intro hk
    rw [h1, h2]
    dsimp only
    rw [hk]
    exact ⟨rfl, rfl⟩

theorem parseTimezoneOffset_of_rendered_witness :
    appendTimezoneOffset (-19800) false = "-0530".toList ∧
    appendTimezoneOffset (-19800) true = "-05:30".toList ∧
    (parseTimezoneOffset sampleEnv (appendTimezoneOffset (-19800) false ++ " x".toList) {}
      timezoneBufferInit).1 = 5 ∧
    (parseTimezoneOffset sampleEnv (appendTimezoneOffset (-19800) true ++ " x".toList) {}
      timezoneBufferInit).1 = 6 :=
  ⟨by decide, by decide,
    (parseTimezoneOffset_of_rendered sampleEnv (-19800) " x".toList {} timezoneBufferInit
      (by decide) (by decide) (by decide)).2.2.2.1 (by decide)⟩
/-! ### C1: the round trip through `format` and `parse` -/

/-- What keeps other tokens out of the round trip, on 13:05:09 of 29 February
2024 in the zone `+05:30` (the instant 1709211909 seconds after the epoch),
which `yyyy-MM-dd HH:mm:ss ZZ` gives back: with a week token the week date is
resolved and the Monday of the week is returned; a century token overwrites the
year; with a week-year token the week date of week 1 is resolved; a half-day
hour without the half-day text is read as a morning hour; a year of era of a
year before 1 without the era text is read as a year AD, which here has no 29
February; and under a Simple dialect a fraction of width 6 is read as a number
of milliseconds. -/
theorem formatThenParse_other_tokens :
    formatThenParse sampleEnv
        (buildJodaDateTimeFormatter false "yyyy-MM-dd HH:mm:ss ZZ".toList) leapDayCivil 64
        timezoneBufferInit = .value ⟨⟨1709211909, 0⟩, some "+05:30".toList⟩ ∧
    formatThenParse sampleEnv
        (buildJodaDateTimeFormatter false "yyyy-MM-dd ww HH:mm:ss ZZ".toList) leapDayCivil 64
        timezoneBufferInit = .value ⟨⟨1708952709, 0⟩, some "+05:30".toList⟩ ∧
    formatThenParse sampleEnv
        (buildJodaDateTimeFormatter false "yyyy-MM-dd CC HH:mm:ss ZZ".toList) leapDayCivil 64
        timezoneBufferInit = .value ⟨⟨951829509, 0⟩, some "+05:30".toList⟩ ∧
    formatThenParse sampleEnv
        (buildJodaDateTimeFormatter false "yyyy-MM-dd xxxx HH:mm:ss ZZ".toList) leapDayCivil 64
        timezoneBufferInit = .value ⟨⟨1704114309, 0⟩, some "+05:30".toList⟩ ∧
    formatThenParse sampleEnv
        (buildJodaDateTimeFormatter false "yyyy-MM-dd hh:mm:ss ZZ".toList) leapDayCivil 64
        timezoneBufferInit = .value ⟨⟨1709168709, 0⟩, some "+05:30".toList⟩ ∧
    formatThenParse sampleEnv
        (buildJodaDateTimeFormatter false "YYYY-MM-dd HH:mm:ss ZZ".toList)
        { leapDayCivil with year := -4 } 64 timezoneBufferInit =
      .unexpected ⟨some (.dayOfMonthRange 29 28 5 2)⟩ ∧
    formatThenParse sampleEnv
        (buildSimpleDateTimeFormatter false "yyyy-MM-dd HH:mm:ss.SSSSSS ZZ".toList false)
        leapDayMillisCivil 64 timezoneBufferInit =
      .value ⟨⟨1709212032, 0⟩, some "+05:30".toList⟩ := by
  refine ⟨?_, ?_, ?_, ?_, ?_, ?_, ?_⟩ <;> decide

end Velox
